import Mathlib

/-! abcm2ps engraving geometry: a shallow embedding of `draw.c`

The C functions of `src/draw.c` are translated to Lean functions over an
explicit score state.

* `float` values are exact rationals (`ℚ`); C `int`/`short`/`char` values are
  `Int` or `Nat`; a conversion `(int) y` truncates toward zero (`ctrunc`).
* A `struct SYMBOL *` is an index into the arena `Score.syms`; `NULL` is
  `none`.  Dereferencing `NULL` (or an index outside the arena) makes the
  translated function return `none`.
* A loop over a pointer chain carries a fuel argument; the callers pass the
  size of the arena plus one, which any acyclic chain fits in.
* The constants, flag masks and structure layouts of `abc2ps.h` and
  `abcparse.h` are not part of the sources in hand.  Numeric layout
  constants are fields of `Hdr`; flag words are records of booleans; the
  enumerations are inductive types.
-/

set_option autoImplicit false

namespace Abcm2ps

/-! ## Header constants -/

/-- Numeric constants of `abc2ps.h` used by `draw.c`; the header is not among
the sources, so the values are parameters of the development. -/
structure Hdr where
  BEAM_DEPTH : ℚ
  BEAM_OFFSET : ℚ
  BEAM_SHIFT : ℚ
  BEAM_FLATFAC : ℚ
  BEAM_THRESH : ℚ
  BEAM_SLOPE : ℚ
  BEAM_STUB : ℚ
  SLUR_SLOPE : ℚ
  STEM_XOFF : ℚ
  GSTEM_XOFF : ℚ
  GSTEM : ℚ
  STEM_MIN : ℚ
  STEM_MIN2 : ℚ
  STEM_MIN3 : ℚ
  STEM_MIN4 : ℚ
  STEM_CH_MIN : ℚ
  STEM_CH_MIN2 : ℚ
  STEM_CH_MIN3 : ℚ
  STEM_CH_MIN4 : ℚ
  YSTEP : Nat

/-- One concrete choice of the header constants (those of the abcm2ps 7
distribution), used to evaluate the functions on examples. -/
def stdHdr : Hdr where
  BEAM_DEPTH := 16 / 5
  BEAM_OFFSET := 1 / 4
  BEAM_SHIFT := 5
  BEAM_FLATFAC := 3 / 5
  BEAM_THRESH := 3 / 50
  BEAM_SLOPE := 1 / 2
  BEAM_STUB := 6
  SLUR_SLOPE := 1
  STEM_XOFF := 7 / 2
  GSTEM_XOFF := 8 / 5
  GSTEM := 14
  STEM_MIN := 16
  STEM_MIN2 := 14
  STEM_MIN3 := 12
  STEM_MIN4 := 10
  STEM_CH_MIN := 14
  STEM_CH_MIN2 := 10
  STEM_CH_MIN3 := 9
  STEM_CH_MIN4 := 9
  YSTEP := 128

/-- Slur/tie direction code `SL_ABOVE` of `abcparse.h`.  The masks `0x03`
(direction) and `0x07` (direction and dot) of `draw.c` fix the layout: the
direction is in the low two bits, `0` meaning "no slur/tie". -/
def SL_ABOVE : Nat := 1

/-- Slur/tie direction code `SL_BELOW`. -/
def SL_BELOW : Nat := 2

/-- Slur/tie direction code `SL_AUTO`: direction to be chosen by the program. -/
def SL_AUTO : Nat := 3

/-- Modifier bit `SL_DOTTED` of a slur/tie code. -/
def SL_DOTTED : Nat := 4

/-- Symbol kinds (`s->type`). -/
inductive SymType where
  | NO_TYPE | NOTEREST | SPACE | BAR | CLEF | TIMESIG | KEYSIG | TEMPO
  | STAVES | MREST | PART | GRACE | FMTCHG | TUPLET | STBRK | CUSTOS
  deriving DecidableEq, Repr, Inhabited

/-- Parser-level kinds (`s->as.type`). -/
inductive AbcType where
  | ABC_T_NULL | ABC_T_INFO | ABC_T_PSCOM | ABC_T_CLEF | ABC_T_NOTE
  | ABC_T_REST | ABC_T_BAR | ABC_T_EOLN | ABC_T_MREST | ABC_T_MREP
  | ABC_T_V_OVER | ABC_T_TUPLET
  deriving DecidableEq, Repr, Inhabited

/-- Note head kinds (`s->head`). -/
inductive HeadType where
  | H_FULL | H_EMPTY | H_OVAL | H_SQUARE
  deriving DecidableEq, Repr, Inhabited

/-- Bar kinds tested by `draw.c` (`s->as.u.bar.type`). -/
inductive BarType where
  | B_OTHER | B_THIN_THICK | B_THICK_THIN
  deriving DecidableEq, Repr, Inhabited

/-- Flag word `s->sflags`, one boolean per mask `S_...` that `draw.c` tests
or sets. -/
structure SFlags where
  S_BEAM_ST : Bool := false
  S_BEAM_BR1 : Bool := false
  S_BEAM_BR2 : Bool := false
  S_BEAM_END : Bool := false
  S_IN_TUPLET : Bool := false
  S_TREM2 : Bool := false
  S_RRBAR : Bool := false
  S_SL1 : Bool := false
  S_SL2 : Bool := false
  S_TI1 : Bool := false
  S_SEQST : Bool := false
  S_TEMP : Bool := false
  deriving DecidableEq, Repr, Inhabited

/-- Drawable symbol (`struct SYMBOL`), with the fields `draw.c` reads or
writes in the functions translated here.  `as_*` fields belong to the
embedded `struct abcsym as`; `as_pits`, `accs`, `ti1`, `sl1`, `sl2`,
`slur_st`, `slur_end` are those of `as.u.note`. -/
structure SYMBOL where
  next : Option Nat := none
  prev : Option Nat := none
  ts_next : Option Nat := none
  ts_prev : Option Nat := none
  extra : Option Nat := none
  type : SymType := SymType.NOTEREST
  as_type : AbcType := AbcType.ABC_T_NOTE
  ABC_F_INVIS : Bool := false
  ABC_F_GRACE : Bool := false
  ABC_F_STEMLESS : Bool := false
  as_text : Option (List Char) := none
  bar_type : BarType := BarType.B_OTHER
  repeat_bar : Bool := false
  sflags : SFlags := {}
  voice : Nat := 0
  staff : Nat := 0
  nhd : Nat := 0
  dur : Int := 0
  time : Int := 0
  pits : List Int := []
  as_pits : List Int := []
  accs : List Nat := []
  ti1 : List Nat := []
  sl1 : List Nat := []
  sl2 : List Nat := []
  slur_st : Nat := 0
  slur_end : Nat := 0
  p_plet : Int := 0
  q_plet : Int := 0
  r_plet : Int := 0
  stem : Int := 0
  nflags : Int := 0
  dots : Int := 0
  head : HeadType := HeadType.H_FULL
  multi : Int := 0
  u : Nat := 0
  x : ℚ := 0
  y : Int := 0
  ymn : Int := 0
  ymx : Int := 0
  xmx : ℚ := 0
  xs : ℚ := 0
  ys : ℚ := 0
  wl : ℚ := 0
  wr : ℚ := 0
  shhd : List ℚ := []
  has_gch : Bool := false
  has_ly : Bool := false
  deriving Inhabited

/-- Staff record (`struct STAFF_S`): vertical origin, bar extents, staff scale
of its clef and the two occupancy rows. -/
structure STAFF_S where
  y : ℚ := 0
  topbar : Int := 24
  botbar : Int := 0
  staffscale : ℚ := 1
  top : List ℚ := []
  bot : List ℚ := []
  deriving DecidableEq, Repr, Inhabited

/-- Arguments of one call of `slur_out`, in the order of the C prototype. -/
structure SlurOut where
  x1 : ℚ
  y1 : ℚ
  x2 : ℚ
  y2 : ℚ
  s : Int
  height : ℚ
  dotted : Nat
  staff : Int
  deriving DecidableEq, Repr

/-- Drawing events appended to the output buffer: a `slur_out` call, a tuplet
number on a beam (`bnum`), a tuplet bracket above (`tubr`) or below
(`tubrl`) the staff, a bracket number (`bnumb`), the end marker written
when the value is not displayed, and an error message. -/
inductive Prim where
  | slur (c : SlurOut)
  | bnum (p : Int) (q : Option Int) (x y : ℚ) (staff : Nat)
  | tubr (dx dy x y : ℚ) (staff : Nat)
  | tubrl (dx dy x y : ℚ) (staff : Nat)
  | bnumb (p : Int) (q : Option Int) (x y : ℚ) (staff : Nat)
  | tuplet_end
  | error (sev : Nat) (sym : Nat) (msg : String)
  deriving DecidableEq, Repr

/-- Global state read and written by the drawing functions: the symbol arena,
`staff_tb`, the voice scales `voice_tb[v].scale`, `nstaff`, `realwidth`, the
format options `cfmt.flatbeams` and `cfmt.slurheight`, and the output
buffer. -/
structure Score where
  syms : List SYMBOL := []
  staff_tb : List STAFF_S := []
  voice_scale : List ℚ := []
  nstaff : Nat := 0
  realwidth : ℚ := 0
  flatbeams : Bool := false
  slurheight : ℚ := 1
  out : List Prim := []
  deriving Inhabited

/-- Symbol behind a pointer. -/
def Score.sym (st : Score) (p : Nat) : Option SYMBOL := st.syms[p]?

/-- Store through a pointer: `*p = f(*p)`. -/
def Score.upd (st : Score) (p : Nat) (f : SYMBOL → SYMBOL) : Score :=
  { st with syms := st.syms.modify f p }

/-- Staff behind a staff number; a staff outside the table reads as the
default record. -/
def Score.staffOf (st : Score) (n : Nat) : STAFF_S := st.staff_tb.getD n {}

/-- Conversion `(int) y` of C: truncation toward zero. -/
def ctrunc (q : ℚ) : Int := if 0 ≤ q then ⌊q⌋ else ⌈q⌉

/-- Fuel that lets a loop visit every symbol of the arena. -/
def Score.fuel (st : Score) : Nat := st.syms.length + 1

/-! ## Slur direction (`slur_direction`, `slur_multi`) -/

/-- Loop of `slur_direction` from `s` to `k2`, carrying `some_upstem` and
`low`. -/
def slur_direction_loop (st : Score) (k2 : Nat) :
    Nat → Nat → Bool → Bool → Option Int
  | 0, _, _, _ => none
  | fuel + 1, s, some_upstem, low =>
    match st.sym s with
    | none => none
    | some v =>
      if v.as_type = AbcType.ABC_T_NOTE ∧ ¬ v.ABC_F_STEMLESS ∧ v.stem < 0 then
        some 1
      else
        let some_upstem1 :=
          if v.as_type = AbcType.ABC_T_NOTE ∧ ¬ v.ABC_F_STEMLESS then true
          else some_upstem
        let low1 :=
          if v.as_type = AbcType.ABC_T_NOTE ∧ v.pits.getD 0 0 < 22 then true
          else low
        if s = k2 then
          (if ¬ some_upstem1 ∧ ¬ low1 then some 1 else some (-1))
        else
          match v.next with
          | none => none
          | some n => slur_direction_loop st k2 fuel n some_upstem1 low1

/-- Decide whether a slur goes up (`1`) or down (`-1`). -/
def slur_direction (st : Score) (k1 k2 : Nat) : Option Int :=
  slur_direction_loop st k2 st.fuel k1 false false

/-- Loop of `slur_multi`. -/
def slur_multi_loop (st : Score) (k2 : Nat) : Nat → Nat → Option Int
  | 0, _ => none
  | fuel + 1, k1 =>
    match st.sym k1 with
    | none => none
    | some v =>
      if v.multi ≠ 0 then some v.multi
      else if k1 = k2 then some 0
      else
        match v.next with
        | none => none
        | some n => slur_multi_loop st k2 fuel n

/-- Check if the slur sequence is in a multi-voice staff. -/
def slur_multi (st : Score) (k1 k2 : Nat) : Option Int :=
  slur_multi_loop st k2 st.fuel k1

/-- Direction switch at the head of `draw_slur`: explicit direction, else the
multi-voice hint, else `slur_direction`. -/
def draw_slur_dir (st : Score) (k1 k2 : Nat) (slur_type : Nat) : Option Int :=
  if slur_type &&& 3 = SL_ABOVE then some 1
  else if slur_type &&& 3 = SL_BELOW then some (-1)
  else
    match slur_multi st k1 k2 with
    | none => none
    | some m => if m = 0 then slur_direction st k1 k2 else some m

/-- Symbols met on the voice chain from `s` up to and including `k2`. -/
def chain_to (st : Score) (k2 : Nat) : Nat → Nat → Option (List SYMBOL)
  | 0, _ => none
  | fuel + 1, s =>
    match st.sym s with
    | none => none
    | some v =>
      if s = k2 then some [v]
      else
        match v.next with
        | none => none
        | some n => (chain_to st k2 fuel n).map (fun l => v :: l)

/-- Note with a stem pointing down, as tested by `slur_direction`. -/
def SYMBOL.downstem (v : SYMBOL) : Bool :=
  decide (v.as_type = AbcType.ABC_T_NOTE) && !v.ABC_F_STEMLESS && decide (v.stem < 0)

/-- Note with a stem that does not point down. -/
def SYMBOL.upstem (v : SYMBOL) : Bool :=
  decide (v.as_type = AbcType.ABC_T_NOTE) && !v.ABC_F_STEMLESS && decide (0 ≤ v.stem)

/-- Note whose lowest head is under the middle of the staff. -/
def SYMBOL.low (v : SYMBOL) : Bool :=
  decide (v.as_type = AbcType.ABC_T_NOTE) && decide (v.pits.getD 0 0 < 22)

/-- Direction that the specification text gives to a slur over the notes
`l`: above (`1`) when a note has its stem down or when most of the notes are
under the middle of the staff, below (`-1`) otherwise. -/
def spec_slur_direction (l : List SYMBOL) : Int :=
  if l.any (fun v => decide (v.stem < 0))
      ∨ l.length < 2 * (l.filter (fun v => decide (v.pits.getD 0 0 < 22))).length
  then 1 else -1

/-- A score with one note: stem up, lowest head at pitch 16. -/
def slurDirScore : Score :=
  { syms := [{ stem := 1, pits := [16], as_pits := [16] }] }

/-! ## Occupancy rows in `draw_sym_near` -/

/-- Loop `for (i = 0; i < n; i++)` over a state. -/
def for_range {σ : Type} (n : Nat) (body : Nat → σ → σ) (s : σ) : σ :=
  (List.range n).foldl (fun acc i => body i acc) s

/-- Body of the initialisation loop: `top[i] = 0; bot[i] = 24`. -/
def init_bucket (i : Nat) (p : STAFF_S) : STAFF_S :=
  { p with top := p.top.set i 0, bot := p.bot.set i 24 }

/-- Block "initialize the y offsets" of `draw_sym_near`. -/
def init_y_offsets (H : Hdr) (st : Score) : Score :=
  for_range (st.nstaff + 1)
    (fun staff s =>
      { s with staff_tb := s.staff_tb.modify (for_range H.YSTEP init_bucket) staff })
    st

/-- First statement of the body of the final loop of `draw_sym_near`:
`if (top > staff_tb[staff].top[i]) staff_tb[staff].top[i] = (float) top`. -/
def clamp_top (top : Int) (i : Nat) (p : STAFF_S) : STAFF_S :=
  if (top : ℚ) > p.top.getD i 0 then { p with top := p.top.set i (top : ℚ) } else p

/-- Second statement of the body:
`if (bot < staff_tb[staff].bot[i]) staff_tb[staff].bot[i] = (float) bot`. -/
def clamp_bot (bot : Int) (i : Nat) (p : STAFF_S) : STAFF_S :=
  if (bot : ℚ) < p.bot.getD i 0 then { p with bot := p.bot.set i (bot : ℚ) } else p

/-- Body of the final loop of `draw_sym_near` for bucket `i`, with
`top = topbar + 2` and `bot = botbar - 2`. -/
def clamp_bucket (top bot : Int) (i : Nat) (p : STAFF_S) : STAFF_S :=
  clamp_bot bot i (clamp_top top i p)

/-- Inner part of the final block for one staff. -/
def clamp_staff (H : Hdr) (p : STAFF_S) : STAFF_S :=
  for_range H.YSTEP (clamp_bucket (p.topbar + 2) (p.botbar - 2)) p

/-- Block "set the top and bottom for all symbols to be out of the staves" of
`draw_sym_near`. -/
def clamp_y_offsets (H : Hdr) (st : Score) : Score :=
  for_range (st.nstaff + 1)
    (fun staff s => { s with staff_tb := s.staff_tb.modify (clamp_staff H) staff })
    st

/-- Loop `for (k = p; k; k = k->ts_next) if (k->type == STAVES) break;`:
the symbol found, or `NULL`. -/
def find_staves (st : Score) : Nat → Option Nat → Option (Option Nat)
  | 0, _ => none
  | _ + 1, none => some none
  | fuel + 1, some k =>
    match st.sym k with
    | none => none
    | some v =>
      if v.type = SymType.STAVES then some (some k)
      else find_staves st fuel v.ts_next

/-! ## Occupancy queries (`y_get`, `y_set`) -/

/-- Modelled from the spec: bucket of the occupancy row that holds the
abscissa `x` (`deco.c`, where `y_get` and `y_set` live, is not among the
sources).  The buckets are `YSTEP` columns of equal width spanning
`realwidth`; the index is clamped to the row. -/
def y_bucket (H : Hdr) (st : Score) (x : ℚ) : Nat :=
  min (ctrunc (x / st.realwidth * H.YSTEP)).toNat (H.YSTEP - 1)

/-- Modelled from the spec: `y_set(staff, up, x, w, y)` widens every bucket
met by `[x, x + w]`: the top extent is raised to `y` when `up`, the bottom
extent lowered to `y` otherwise. -/
def y_set (H : Hdr) (st : Score) (staff : Nat) (up : Bool) (x w y : ℚ) : Score :=
  let i := y_bucket H st x
  let j := y_bucket H st (x + w)
  let widen : STAFF_S → STAFF_S := fun p =>
    if up then
      { p with top := p.top.mapIdx (fun b t => if i ≤ b ∧ b ≤ j ∧ t < y then y else t) }
    else
      { p with bot := p.bot.mapIdx (fun b t => if i ≤ b ∧ b ≤ j ∧ t > y then y else t) }
  { st with staff_tb := st.staff_tb.modify widen staff }

/-- Modelled from the spec: `y_get(staff, up, x, w)` is the highest top
extent (when `up`) or the lowest bottom extent of the buckets met by
`[x, x + w]`. -/
def y_get (H : Hdr) (st : Score) (staff : Nat) (up : Bool) (x w : ℚ) : ℚ :=
  let i := y_bucket H st x
  let j := y_bucket H st (x + w)
  let p := st.staffOf staff
  if up then
    ((p.top.drop (i + 1)).take (j - i)).foldl max (p.top.getD i 0)
  else
    ((p.bot.drop (i + 1)).take (j - i)).foldl min (p.bot.getD i 0)

/-! ## Slurs (`draw_slur`) -/

/-- First loop of `draw_slur` (`for (k = k1->next; k; k = k->next)`): state
`(nn, upstaff, two_staves)`. -/
def slur_count (st : Score) (k2 : Nat) :
    Nat → Option Nat → Nat × Nat × Bool → Option (Nat × Nat × Bool)
  | 0, _, _ => none
  | _ + 1, none, c => some c
  | fuel + 1, some k, c =>
    match st.sym k with
    | none => none
    | some v =>
      let c1 : Nat × Nat × Bool :=
        if v.type = SymType.NOTEREST then
          (c.1 + 1,
           (if v.staff ≠ c.2.1 ∧ v.staff < c.2.1 then v.staff else c.2.1),
           (if v.staff ≠ c.2.1 then true else c.2.2))
        else c
      if k = k2 then some c1 else slur_count st k2 fuel v.next c1

/-- Endpoint of the slur on its first symbol when that symbol is a note:
the block `if (k1->as.type == ABC_T_NOTE)`.  Input and output `(x1, y1)`. -/
def slur_start_note (k1 : SYMBOL) (s : Int) (x1 y1 : ℚ) : ℚ × ℚ :=
  if s > 0 then
    if k1.stem > 0 then
      let x1 := x1 + 5
      if k1.sflags.S_BEAM_END ∧ k1.nflags ≥ -1 ∧ ¬ k1.sflags.S_IN_TUPLET then
        if k1.nflags > 0 then (x1 + 2, k1.ys - 3) else (x1, k1.ys - 6)
      else (x1, k1.ys + 3)
    else (x1, (k1.y : ℚ) + 8)
  else
    if k1.stem < 0 then
      let x1 := x1 - 1
      if k1.sflags.S_BEAM_END ∧ k1.nflags ≥ -1
          ∧ (¬ k1.sflags.S_IN_TUPLET ∨ k1.ys < y1 + 3) then
        if k1.nflags > 0 then (x1 + 2, k1.ys + 3) else (x1, k1.ys + 6)
      else (x1, k1.ys - 3)
    else (x1, (k1.y : ℚ) - 8)

/-- Endpoint of the slur on its last symbol when that symbol is a note:
the block `if (k2->as.type == ABC_T_NOTE)`.  Input `x2`, output `(x2, y2)`. -/
def slur_end_note (k2 : SYMBOL) (s : Int) (x2 : ℚ) : ℚ × ℚ :=
  if s > 0 then
    if k2.stem > 0 then
      let x2 := x2 + 1
      if k2.sflags.S_BEAM_ST ∧ k2.nflags ≥ -1 ∧ ¬ k2.sflags.S_IN_TUPLET then
        (x2, k2.ys - 6)
      else (x2, k2.ys + 3)
    else (x2, (k2.y : ℚ) + 8)
  else
    if k2.stem < 0 then
      let x2 := x2 - 5
      if k2.sflags.S_BEAM_ST ∧ k2.nflags ≥ -1 ∧ ¬ k2.sflags.S_IN_TUPLET then
        (x2, k2.ys + 6)
      else (x2, k2.ys - 3)
    else (x2, (k2.y : ℚ) - 8)

/-- Four endpoint coordinates of a slur. -/
structure SlurEnds where
  x1 : ℚ
  y1 : ℚ
  x2 : ℚ
  y2 : ℚ
  deriving DecidableEq, Repr

/-- Block "slur steepness" of `draw_slur`. -/
def slur_slope_clamp (H : Hdr) (s : Int) (e : SlurEnds) : SlurEnds :=
  let a := (e.y2 - e.y1) / (e.x2 - e.x1)
  if a > H.SLUR_SLOPE ∨ a < -H.SLUR_SLOPE then
    let a := if a > H.SLUR_SLOPE then H.SLUR_SLOPE else -H.SLUR_SLOPE
    if a * s > 0 then { e with y1 := e.y2 - a * (e.x2 - e.x1) }
    else { e with y2 := e.y1 + a * (e.x2 - e.x1) }
  else e

/-- Block "for big vertical jump, shift endpoints" of `draw_slur`. -/
def slur_jump (s : Int) (e : SlurEnds) : SlurEnds :=
  let y := e.y2 - e.y1
  let y := if y > 8 then 8 else if y < -8 then -8 else y
  let z := if y < 0 then -y else y
  let dx := 1 / 2 * z
  let dy := 3 / 10 * y
  if y * s > 0 then { e with x2 := e.x2 - dx, y2 := e.y2 - dy }
  else { e with x1 := e.x1 + dx, y1 := e.y1 + dy }

/-- Clearance needed by one note or rest under the slur line `a*x + addy`:
the `NOTEREST` case of the clearance loop (and the body of its `GRACE`
case), updating `h`. -/
def slur_clear_note (k : SYMBOL) (s : Int) (a addy h : ℚ) : ℚ :=
  if s > 0 then
    let y : ℚ := ((3 * (k.pits.getD k.nhd 0 - 18) + 6 : Int) : ℚ)
    let y := if y < (k.ymx : ℚ) then (k.ymx : ℚ) else y
    let y := y - (a * k.x + addy)
    if y > h then y else h
  else
    let y : ℚ := ((3 * (k.pits.getD 0 0 - 18) - 6 : Int) : ℚ)
    let y := if y > (k.ymn : ℚ) then (k.ymn : ℚ) else y
    let y := y - (a * k.x + addy)
    if y < h then y else h

/-- Loop over the grace notes `g = k->extra; g; g = g->next` of the
clearance loop. -/
def slur_clear_grace (st : Score) (s : Int) (a addy : ℚ) : Nat → Option Nat → ℚ → Option ℚ
  | 0, _, _ => none
  | _ + 1, none, h => some h
  | fuel + 1, some g, h =>
    match st.sym g with
    | none => none
    | some v => slur_clear_grace st s a addy fuel v.next (slur_clear_note v s a addy h)

/-- Clearance loop `for (k = k1->next; k != k2; k = k->next)` of
`draw_slur`, computing `h`. -/
def slur_clear (st : Score) (k2 upstaff : Nat) (s : Int) (a addy : ℚ) :
    Nat → Option Nat → ℚ → Option ℚ
  | 0, _, _ => none
  | _ + 1, none, _ => none
  | fuel + 1, some k, h =>
    if k = k2 then some h
    else
      match st.sym k with
      | none => none
      | some v =>
        if v.staff ≠ upstaff then slur_clear st k2 upstaff s a addy fuel v.next h
        else if v.type = SymType.NOTEREST then
          slur_clear st k2 upstaff s a addy fuel v.next (slur_clear_note v s a addy h)
        else if v.type = SymType.GRACE then
          match slur_clear_grace st s a addy st.fuel v.extra h with
          | none => none
          | some h1 => slur_clear st k2 upstaff s a addy fuel v.next h1
        else slur_clear st k2 upstaff s a addy fuel v.next h

/-- Height of the slur from the number `nn` of notes and rests, the final
endpoints, the clearance `h` (already multiplied by .65) and the direction:
the statements from `if (nn > 3)` to `height *= cfmt.slurheight`. -/
def slur_height (st : Score) (nn : Nat) (s : Int) (e : SlurEnds) (h : ℚ) : ℚ :=
  let height : ℚ :=
    if nn > 3 then (8 / 100 * (e.x2 - e.x1) + 12) * s
    else (3 / 100 * (e.x2 - e.x1) + 8) * s
  let height :=
    if s > 0 then
      let height := if height < 3 * h then 3 * h else height
      if height > 40 then 40 else height
    else
      let height := if height > 3 * h then 3 * h else height
      if height < -40 then -40 else height
  let y := e.y2 - e.y1
  let y := if y < 0 then -y else y
  let height :=
    if s > 0 then (if height < 8 / 10 * y then 8 / 10 * y else height)
    else (if height > -(8 / 10) * y then -(8 / 10) * y else height)
  height * st.slurheight

/-- Last loop of `draw_slur` ("have room for other symbols"),
`for (k = k1; k != k2; k = k->next)`, carrying `x1`. -/
def slur_room (H : Hdr) (k1 k2 upstaff : Nat) (s : Int) (a addy x2 : ℚ) :
    Nat → Option Nat → ℚ → Score → Option Score
  | 0, _, _, _ => none
  | _ + 1, none, _, _ => none
  | fuel + 1, some k, x1, st =>
    if k = k2 then some st
    else
      match st.sym k with
      | none => none
      | some v =>
        if v.staff ≠ upstaff then slur_room H k1 k2 upstaff s a addy x2 fuel v.next x1 st
        else
          let y := a * v.x + addy
          let st1 :=
            if (v.ymx : ℚ) < y then st.upd k (fun z => { z with ymx := ctrunc y })
            else if (v.ymn : ℚ) > y then st.upd k (fun z => { z with ymn := ctrunc y })
            else st
          match v.next with
          | none => none
          | some nx =>
            match st1.sym nx, st1.sym k2 with
            | some vn, some v2 =>
              let dx := if nx = k2 then (if v2.sflags.S_SL1 then x2 - 5 else x2) else vn.x
              let x1a := if k ≠ k1 then v.x else x1
              let dx := dx - x1a
              slur_room H k1 k2 upstaff s a addy x2 fuel (some nx) x1a
                (y_set H st1 upstaff (decide (s > 0)) x1a dx y)
            | _, _ => none

/-- Section "fix endpoints" of `draw_slur`, down to the special case for
grace notes: the endpoints before the clearance loop. -/
def slur_ends (H : Hdr) (st : Score) (k1 k2 : Nat) (v1 v2 : SYMBOL) (s : Int) (nn : Nat) :
    Option SlurEnds :=
  let x1 := v1.x + v1.xmx
  let x2o : Option ℚ :=
    if k1 ≠ k2 then some v2.x
    else
      match find_staves st st.fuel v2.ts_next with
      | none => none
      | some none => some st.realwidth
      | some (some k) => (st.sym k).map (fun v => v.x)
  match x2o with
  | none => none
  | some x2 =>
    let y1 : ℚ := ((if s > 0 then v1.ymx + 2 else v1.ymn - 2 : Int) : ℚ)
    let y2 : ℚ := ((if s > 0 then v2.ymx + 2 else v2.ymn - 2 : Int) : ℚ)
    let p1 := if v1.as_type = AbcType.ABC_T_NOTE then slur_start_note v1 s x1 y1
              else (x1, y1)
    let p2 := if v2.as_type = AbcType.ABC_T_NOTE then slur_end_note v2 s x2
              else (x2, y2)
    let p1 :=
      if v1.as_type ≠ AbcType.ABC_T_NOTE then
        let x1 := v1.x + v1.wr * (1 / 2)
        ((if x1 > p2.1 - 12 then p2.1 - 12 else x1), p2.2 + 12 / 10 * s)
      else p1
    let p2 :=
      if v2.as_type ≠ AbcType.ABC_T_NOTE then
        ((if k1 ≠ k2 then v2.x - v2.wl * (3 / 10) else p2.1),
         (if v1.as_type = AbcType.ABC_T_NOTE then p1.2 + 12 / 10 * s else p1.2))
      else p2
    -- pull the endpoints toward the neighbours when nn >= 3
    let e3 : Option SlurEnds :=
      if nn ≥ 3 then
        match v1.next.bind st.sym, v2.prev.bind st.sym with
        | some n1, some q2 =>
          let y1 :=
            if n1.type ≠ SymType.BAR ∧ n1.x < p1.1 + 48 then
              (if s > 0 then
                (if p1.2 < ((n1.ymx - 2 : Int) : ℚ) then ((n1.ymx - 2 : Int) : ℚ) else p1.2)
               else
                (if p1.2 > ((n1.ymn + 2 : Int) : ℚ) then ((n1.ymn + 2 : Int) : ℚ) else p1.2))
            else p1.2
          let y2 :=
            if q2.type ≠ SymType.BAR ∧ q2.x > p2.1 - 48 then
              (if s > 0 then
                (if p2.2 < ((q2.ymx - 2 : Int) : ℚ) then ((q2.ymx - 2 : Int) : ℚ) else p2.2)
               else
                (if p2.2 > ((q2.ymn + 2 : Int) : ℚ) then ((q2.ymn + 2 : Int) : ℚ) else p2.2))
            else p2.2
          some { x1 := p1.1, y1 := y1, x2 := p2.1, y2 := y2 }
        | _, _ => none
      else some { x1 := p1.1, y1 := p1.2, x2 := p2.1, y2 := p2.2 }
    match e3 with
    | none => none
    | some e3 =>
      let e4 := slur_jump s (slur_slope_clamp H s e3)
      -- special case for grace notes
      some { e4 with
             x1 := if v1.ABC_F_GRACE then v1.x - H.GSTEM_XOFF * (1 / 2) else e4.x1,
             x2 := if v2.ABC_F_GRACE then v2.x + H.GSTEM_XOFF * (3 / 2) else e4.x2 }

/-- Endpoints after the clearance loop: `y1 += .45 * h; y2 += .45 * h`,
done only when `k1 != k2`. -/
def slur_raise (k1 k2 : Nat) (e5 : SlurEnds) (h0 : ℚ) : SlurEnds :=
  if k1 ≠ k2 then { e5 with y1 := e5.y1 + 45 / 100 * h0, y2 := e5.y2 + 45 / 100 * h0 }
  else e5

/-- Arguments of the `slur_out` call of `draw_slur`, from the endpoints `e5`
and the clearance `h0` left by the loop: the statements from `y1 += .45 * h`
to the call. -/
def slur_call (st : Score) (k1 k2 : Nat) (v1 v2 : SYMBOL) (m1 m2 : Int) (slur_type : Nat)
    (nn : Nat) (s : Int) (upstaff : Nat) (e5 : SlurEnds) (h0 : ℚ) : SlurOut :=
  let e6 := slur_raise k1 k2 e5 h0
  let h := if k1 ≠ k2 then h0 * (65 / 100) else h0
  let height := slur_height st nn s e6 h
  let y1 : ℚ :=
    if m1 ≥ 0 then ((3 * (v1.pits.getD m1.toNat 0 - 18) + 5 * s : Int) : ℚ) else e6.y1
  let y2 : ℚ :=
    if m2 ≥ 0 then ((3 * (v2.pits.getD m2.toNat 0 - 18) + 5 * s : Int) : ℚ) else e6.y2
  { x1 := e6.x1, y1 := y1, x2 := e6.x2, y2 := y2, s := s, height := height,
    dotted := slur_type &&& SL_DOTTED, staff := (upstaff : Int) }

/-- End of `draw_slur`: the `slur_out` call with the arguments `c`, the loop
"have room for other symbols" and the return value `ret`. -/
def slur_finish (H : Hdr) (st : Score) (k1 k2 upstaff : Nat) (c : SlurOut) (ret : Nat) :
    Option (Score × Nat) :=
  let st1 : Score := { st with out := st.out ++ [Prim.slur c] }
  let a := (c.y2 - c.y1) / (c.x2 - c.x1)
  let addy := c.y1 - a * c.x1 + 4 / 10 * c.height
  match slur_room H k1 k2 upstaff c.s a addy c.x2 st1.fuel (some k1) c.x1 st1 with
  | none => none
  | some st2 => some (st2, ret)

/-- Draw a phrasing slur between two symbols.  `m1`, `m2` are head numbers
or `-1`.  Returns the new state and the slur type of the C function. -/
def draw_slur (H : Hdr) (st : Score) (k1 k2 : Nat) (m1 m2 : Int) (slur_type : Nat) :
    Option (Score × Nat) :=
  match st.sym k1, st.sym k2, draw_slur_dir st k1 k2 slur_type with
  | some v1, some v2, some s =>
    match (if k1 ≠ k2 then slur_count st k2 st.fuel v1.next (1, v1.staff, false)
           else some (1, v1.staff, false)) with
    | none => none
    | some (nn, upstaff, two_staves) =>
      let st :=
        if two_staves then
          { st with out := st.out ++ [Prim.error 0 k1 "*** multi-staves slurs not treated yet"] }
        else st
      match slur_ends H st k1 k2 v1 v2 s nn with
      | none => none
      | some e5 =>
        let a := (e5.y2 - e5.y1) / (e5.x2 - e5.x1)
        match (if k1 ≠ k2 then
                 slur_clear st k2 upstaff s a (e5.y1 - a * e5.x1) st.fuel v1.next 0
               else some 0) with
        | none => none
        | some h0 =>
          slur_finish H st k1 k2 upstaff
            (slur_call st k1 k2 v1 v2 m1 m2 slur_type nn s upstaff e5 h0)
            ((if s > 0 then SL_ABOVE else SL_BELOW) ||| (slur_type &&& SL_DOTTED))
  | _, _, _ => none

/-! ## Ties (`draw_note_ties`, `draw_ties`, `set_tie_dir`) -/

/-- Test `p & 1` of C on a pitch. -/
def odd_pit (p : Int) : Bool := decide (p % 2 = 1)

/-- Body of the loop of `draw_note_ties` for one tie from head `m1` of `k1`
to head `m2` of `k2`: the arguments handed to `slur_out`. -/
def note_tie (st : Score) (k1p k2p : Nat) (k1 k2 : SYMBOL) (m1 m2 : Nat) (job : Nat) :
    Option SlurOut :=
  let p1 := k1.pits.getD m1 0
  let p2 := k2.pits.getD m2 0
  let s0 : Int := if k1.ti1.getD m1 0 &&& 3 = SL_ABOVE then 1 else -1
  let x1a := k1.x
  let sh1 := k1.shhd.getD m1 0
  let sh1 :=
    if s0 > 0 then
      (if m1 < k1.nhd ∧ k1.pits.getD m1 0 + 1 = k1.pits.getD (m1 + 1) 0
          ∧ k1.shhd.getD (m1 + 1) 0 > sh1 then k1.shhd.getD (m1 + 1) 0 else sh1)
    else
      (if m1 > 0 ∧ k1.pits.getD m1 0 = k1.pits.getD (m1 - 1) 0 + 1
          ∧ k1.shhd.getD (m1 - 1) 0 > sh1 then k1.shhd.getD (m1 - 1) 0 else sh1)
  let x1a := x1a + sh1
  let x2a := k2.x
  let sh2 := k2.shhd.getD m2 0
  let sh2 :=
    if s0 > 0 then
      (if m2 < k2.nhd ∧ k2.pits.getD m2 0 + 1 = k2.pits.getD (m2 + 1) 0
          ∧ k2.shhd.getD (m2 + 1) 0 < sh2 then k2.shhd.getD (m2 + 1) 0 else sh2)
    else
      (if m2 > 0 ∧ k2.pits.getD m2 0 = k2.pits.getD (m2 - 1) 0 + 1
          ∧ k2.shhd.getD (m2 - 1) 0 < sh2 then k2.shhd.getD (m2 - 1) 0 else sh2)
  let x2a := x2a + sh2
  -- switch (job)
  let sw : Option (ℚ × ℚ × Int × Nat × Int) :=
    if job = 0 then
      some (x1a, x2a, (if p1 = p2 ∨ odd_pit p1 then p1 else p2), k1.staff, s0)
    else if job = 1 ∨ job = 3 then
      let x1b := k1.x
      let x1b := if x1b > x2a - 20 then x2a - 20 else x1b
      some (x1b, x2a, p2, k2.staff, (if job = 3 then -s0 else s0))
    else
      let x2b : Option ℚ :=
        if k1p ≠ k2p then some (x2a - k2.wl)
        else
          match find_staves st st.fuel k2.ts_next with
          | none => none
          | some none => some st.realwidth
          | some (some k) => (st.sym k).map (fun v => v.x)
      x2b.map (fun x2b =>
        ((x1a, (if x2b < x1a + 16 then x1a + 16 else x2b), p1, k1.staff, s0) :
          ℚ × ℚ × Int × Nat × Int))
  match sw with
  | none => none
  | some (x1c, x2c, p, staff, s) =>
    let x1d := if x2c - x1c > 20 then x1c + 2 else x1c
    let x2d := if x2c - x1c > 20 then x2c - 2 else x2c
    let y0 : Int := 3 * (p - 18)
    let r : ℚ × ℚ × Int :=
      if job ≠ 1 ∧ job ≠ 3 then
        let x1e := if k1.nhd ≠ 0 then x1d + 9 / 2 else x1d
        let y1 : Int :=
          if k1.nhd ≠ 0 then y0 + (if odd_pit p then 2 else 0) * s
          else y0 + (if odd_pit p then 6 else 4) * s
        let x1f :=
          if s > 0 ∧ k1.nflags > -2 ∧ k1.stem > 0 ∧ k1.nhd = 0 then x1e + 9 / 2 else x1e
        let y2 : Int :=
          if s > 0 ∧ ¬ odd_pit p ∧ k1.dots > 0 then 3 * (p - 18) + 6 else y1
        (x1f, x2d, y2)
      else
        let x2e := if k2.nhd ≠ 0 then x2d - 9 / 2 else x2d
        let y1 : Int :=
          if k2.nhd ≠ 0 then y0 + (if odd_pit p then 2 else 0) * s
          else y0 + (if odd_pit p2 then 7 else 4) * s
        let x2f :=
          if s < 0 ∧ k2.nflags > -2 ∧ k2.stem < 0 ∧ k2.nhd = 0 then x2e - 9 / 2 else x2e
        (x1d, x2f, y1)
    let h : ℚ := (4 / 100 * (r.2.1 - r.1) + 10) * s
    some { x1 := r.1, y1 := (st.staffOf staff).y + r.2.2,
           x2 := r.2.1, y2 := (st.staffOf staff).y + r.2.2,
           s := s, height := h, dotted := k1.ti1.getD m1 0 &&& SL_DOTTED, staff := -1 }

/-- Loop of `draw_note_ties` over the pairs `(mhead1[i], mhead2[i])`,
`i < ntie`; the arrays are the lists of their first `ntie` entries. -/
def draw_note_ties_loop (st : Score) (k1p k2p : Nat) (k1 k2 : SYMBOL) (job : Nat) :
    List Nat → List Nat → Score → Option Score
  | m1 :: r1, m2 :: r2, acc =>
    match note_tie st k1p k2p k1 k2 m1 m2 job with
    | none => none
    | some c =>
      draw_note_ties_loop st k1p k2p k1 k2 job r1 r2
        { acc with out := acc.out ++ [Prim.slur c] }
  | _, _, acc => some acc

/-- Draw the ties between two notes/chords. -/
def draw_note_ties (st : Score) (k1p k2p : Nat) (mhead1 mhead2 : List Nat) (job : Nat) :
    Option Score :=
  match st.sym k1p, st.sym k2p with
  | some k1, some k2 => draw_note_ties_loop st k1p k2p k1 k2 job mhead1 mhead2 st
  | _, _ => none

/-- Grace-note prelude of `draw_ties` for `k1`: the last grace note of the
chain starting at `k3`, or `cur` when there is none. -/
def last_grace (st : Score) : Nat → Option Nat → Nat → Option Nat
  | 0, _, _ => none
  | _ + 1, none, cur => some cur
  | fuel + 1, some k3, cur =>
    match st.sym k3 with
    | none => none
    | some v =>
      last_grace st fuel v.next (if v.type = SymType.NOTEREST then k3 else cur)

/-- Grace-note prelude of `draw_ties` for `k2`: the first grace note. -/
def first_grace (st : Score) : Nat → Option Nat → Nat → Option Nat
  | 0, _, _ => none
  | _ + 1, none, cur => some cur
  | fuel + 1, some k3, cur =>
    match st.sym k3 with
    | none => none
    | some v =>
      if v.type = SymType.NOTEREST then some k3 else first_grace st fuel v.next cur

/-- Inner loop `for (m1 = k2->nhd; m1 >= 0; m1--)` of the tie list set-up,
entered with `cnt = m1 + 1`: `(some m, _)` when an equal pitch is found at
head `m` (the `goto found`), else `(none, tie2)` with the second choice. -/
def tie_search (k1 k2 : SYMBOL) (i : Nat) (pit : Int) : Nat → Int → Option Nat × Int
  | 0, tie2 => (none, tie2)
  | m1 + 1, tie2 =>
    let d := k2.as_pits.getD m1 0 - pit
    if d = 0 then (some m1, tie2)
    else if (d = 1 ∨ d = -1) ∧ k1.accs.getD i 0 ≠ k2.accs.getD m1 0 then
      tie_search k1 k2 i pit m1 (m1 : Int)
    else tie_search k1 k2 i pit m1 tie2

/-- The three lists `mhead1`, `mhead2`, `mhead3` of `draw_ties`, each holding
its first `ntie` (or `ntie3`) entries. -/
structure TieLists where
  mhead1 : List Nat := []
  mhead2 : List Nat := []
  mhead3 : List Nat := []
  deriving DecidableEq, Repr

/-- Body of the loop "set up list of ties to draw" for head `i`. -/
def tie_setup_step (k1 k2 : SYMBOL) (i : Nat) (t : TieLists) : TieLists :=
  if k1.ti1.getD i 0 = 0 then t
  else
    match tie_search k1 k2 i (k1.as_pits.getD i 0) (k2.nhd + 1) (-1) with
    | (some m1, _) => { t with mhead1 := t.mhead1 ++ [i], mhead2 := t.mhead2 ++ [m1] }
    | (none, tie2) =>
      if tie2 ≥ 0 then
        { t with mhead1 := t.mhead1 ++ [i], mhead2 := t.mhead2 ++ [tie2.toNat] }
      else { t with mhead3 := t.mhead3 ++ [i] }

/-- Loop "set up list of ties to draw" of `draw_ties`. -/
def tie_setup (k1 k2 : SYMBOL) : TieLists :=
  for_range (k1.nhd + 1) (tie_setup_step k1 k2) {}

/-- Loop `for (m1 = k3->nhd; m1 >= 0; m1--) if (pits[m1] == pit) break`,
entered with `cnt = m1 + 1`. -/
def find_pit (k3 : SYMBOL) (pit : Int) : Nat → Option Nat
  | 0 => none
  | m1 + 1 => if k3.as_pits.getD m1 0 = pit then some m1 else find_pit k3 pit m1

/-- Loop `for (i = ntie3; --i >= 0; )` of the search in another voice,
entered with `cnt = i + 1`. -/
def other_voice_loop (k1 k3 : SYMBOL) : Nat → TieLists → TieLists
  | 0, t => t
  | i + 1, t =>
    match find_pit k3 (k1.as_pits.getD (t.mhead3.getD i 0) 0) (k3.nhd + 1) with
    | some m1 =>
      other_voice_loop k1 k3 i
        { mhead1 := t.mhead1 ++ [t.mhead3.getD i 0],
          mhead2 := t.mhead2 ++ [m1],
          mhead3 := (t.mhead3.set i (t.mhead3.getD (t.mhead3.length - 1) 0)).take
                      (t.mhead3.length - 1) }
    | none => other_voice_loop k1 k3 i t

/-- Loop `while (k3 && k3->time < time) k3 = k3->ts_next`. -/
def skip_earlier (st : Score) (time : Int) : Nat → Option Nat → Option (Option Nat)
  | 0, _ => none
  | _ + 1, none => some none
  | fuel + 1, some k3 =>
    match st.sym k3 with
    | none => none
    | some v => if v.time < time then skip_earlier st time fuel v.ts_next else some (some k3)

/-- Loop `while (k3 && k3->time == time)` of `draw_ties` with the final
error report. -/
def other_voices (st0 : Score) (k1p : Nat) (k1 : SYMBOL) (time : Int) (job : Nat) :
    Nat → Option Nat → List Nat → Score → Option Score
  | 0, _, _, _ => none
  | _ + 1, none, mhead3, acc =>
    some (if mhead3.length ≠ 0 then
            { acc with out := acc.out ++ [Prim.error 1 k1p "Bad tie"] } else acc)
  | fuel + 1, some k3p, mhead3, acc =>
    match st0.sym k3p with
    | none => none
    | some k3 =>
      if k3.time ≠ time then
        some (if mhead3.length ≠ 0 then
                { acc with out := acc.out ++ [Prim.error 1 k1p "Bad tie"] } else acc)
      else if k3.as_type ≠ AbcType.ABC_T_NOTE ∨ k3.staff ≠ k1.staff then
        other_voices st0 k1p k1 time job fuel k3.ts_next mhead3 acc
      else
        let t := other_voice_loop k1 k3 mhead3.length { mhead3 := mhead3 }
        if t.mhead1.length > 0 then
          match draw_note_ties_loop st0 k1p k3p k1 k3 (if job = 1 then 1 else 0)
                  t.mhead1 t.mhead2 acc with
          | none => none
          | some acc1 =>
            if t.mhead3.length = 0 then some acc1
            else other_voices st0 k1p k1 time job fuel k3.ts_next t.mhead3 acc1
        else other_voices st0 k1p k1 time job fuel k3.ts_next t.mhead3 acc

/-- Draw ties between neighboring notes/chords.  `job`: 0 normal, 1 no
starting note, 2 no ending note, 3 no start for clef or staff change. -/
def draw_ties (st : Score) (k1p k2p : Nat) (job : Nat) : Option Score :=
  match st.sym k1p, st.sym k2p with
  | some k1a, some k2a =>
    match (if k1a.type = SymType.GRACE then last_grace st st.fuel k1a.extra k1p
           else some k1p),
          (if k2a.type = SymType.GRACE then first_grace st st.fuel k2a.extra k2p
           else some k2p) with
    | some k1q, some k2q =>
      match st.sym k1q, st.sym k2q with
      | some k1, some k2 =>
        let time := k1.time + k1.dur
        if job = 2 then
          let mhead3 := (List.range (k1.nhd + 1)).filter (fun i => k1.ti1.getD i 0 ≠ 0)
          draw_note_ties st k1q k2q mhead3 mhead3 job
        else
          let t := tie_setup k1 k2
          match draw_note_ties st k1q k2q t.mhead1 t.mhead2 job with
          | none => none
          | some st1 =>
            if t.mhead3.length = 0 then some st1
            else
              match skip_earlier st time st.fuel k1.ts_next with
              | none => none
              | some k3 => other_voices st k1q k1 time job st.fuel k3 t.mhead3 st1
      | _, _ => none
    | _, _ => none
  | _, _ => none

/-- Statement `s->as.u.note.ti1[i] = (ti & SL_DOTTED) | dir` guarded by
`(ti & 0x03) == SL_AUTO`. -/
def set_auto (ti1 : List Nat) (i dir : Nat) : List Nat :=
  if ti1.getD i 0 &&& 3 = SL_AUTO then ti1.set i ((ti1.getD i 0 &&& SL_DOTTED) ||| dir)
  else ti1

/-- Counting loop of `set_tie_dir`: state `(ntie, sec, pit)`. -/
def tie_count_step (s : SYMBOL) (i : Nat) (c : Int × Int × Int) : Int × Int × Int :=
  if s.ti1.getD i 0 ≠ 0 then
    (c.1 + 1,
     (if c.2.2 < 128 ∧ s.as_pits.getD i 0 ≤ c.2.2 + 1 then c.2.1 + 1 else c.2.1),
     s.as_pits.getD i 0)
  else c

/-- Loop of the case `ntie <= 1`: state `(ti1, done)`, `done` after the
`break`. -/
def tie_one_step (dir : Nat) (i : Nat) (c : List Nat × Bool) : List Nat × Bool :=
  if c.2 then c
  else if c.1.getD i 0 ≠ 0 then (set_auto c.1 i dir, true)
  else c

/-- Loop of the odd case: state `(ti1, ntie, dir)`. -/
def tie_odd_step (s : SYMBOL) (i : Nat) (c : List Nat × Int × Nat) : List Nat × Int × Nat :=
  if c.1.getD i 0 = 0 then c
  else
    let ntie := c.2.1 - 1
    let dir := if ntie = 0 ∧ s.as_pits.getD i 0 ≥ 22 then SL_ABOVE else c.2.2
    let ti1 := set_auto c.1 i dir
    (ti1, ntie, if ntie = 0 then SL_ABOVE else dir)

/-- Loop of the even case: state `(ti1, ntie, dir)`. -/
def tie_even_step (i : Nat) (c : List Nat × Int × Nat) : List Nat × Int × Nat :=
  if c.1.getD i 0 = 0 then c
  else
    let ti1 := set_auto c.1 i c.2.2
    let ntie := c.2.1 - 1
    (ti1, ntie, if ntie = 0 then SL_ABOVE else c.2.2)

/-- First loop of the case with a second: state `(ntie, pit, done)`. -/
def tie_sec_find_step (s : SYMBOL) (i : Nat) (c : Int × Int × Bool) : Int × Int × Bool :=
  if c.2.2 then c
  else if s.ti1.getD i 0 ≠ 0 then
    (if c.2.1 < 128 ∧ s.as_pits.getD i 0 ≤ c.2.1 + 1 then ((i : Int), c.2.1, true)
     else (c.1, s.as_pits.getD i 0, false))
  else c

/-- Second loop of the case with a second: state `(ti1, dir)`. -/
def tie_sec_set_step (ntie : Int) (i : Nat) (c : List Nat × Nat) : List Nat × Nat :=
  if c.1.getD i 0 = 0 then c
  else
    let dir := if ntie = (i : Int) then SL_ABOVE else c.2
    (set_auto c.1 i dir, dir)

/-- Body of the loop of `set_tie_dir` for one symbol: the array
`s->as.u.note.ti1` it leaves (the only field the body writes). -/
def set_tie_dir_ti1 (s : SYMBOL) : List Nat :=
  if ¬ s.sflags.S_TI1 then s.ti1
  else if s.multi ≠ 0 then
    let dir := if s.multi > 0 then SL_ABOVE else SL_BELOW
    for_range (s.nhd + 1) (fun i ti1 => set_auto ti1 i dir) s.ti1
  else
    let c := for_range (s.nhd + 1) (tie_count_step s) ((0 : Int), (0 : Int), (128 : Int))
    let ntie := c.1
    let sec := c.2.1
    if ntie ≤ 1 then
      let dir := if s.stem < 0 then SL_ABOVE else SL_BELOW
      (for_range (s.nhd + 1) (tie_one_step dir) (s.ti1, false)).1
    else if sec = 0 then
      if ntie % 2 = 1 then
        (for_range (s.nhd + 1) (tie_odd_step s) (s.ti1, Int.tdiv ntie 2 + 1, SL_BELOW)).1
      else
        (for_range (s.nhd + 1) tie_even_step (s.ti1, Int.tdiv ntie 2, SL_BELOW)).1
    else
      let f := for_range (s.nhd + 1) (tie_sec_find_step s) (ntie, (128 : Int), false)
      (for_range (s.nhd + 1) (tie_sec_set_step f.1) (s.ti1, SL_BELOW)).1

/-- Body of the loop of `set_tie_dir` for one symbol. -/
def set_tie_dir_sym (s : SYMBOL) : SYMBOL := { s with ti1 := set_tie_dir_ti1 s }

/-- Loop `for (s = sym; s; s = s->next)` of `set_tie_dir`. -/
def set_tie_dir_loop : Nat → Option Nat → Score → Option Score
  | 0, _, _ => none
  | _ + 1, none, st => some st
  | fuel + 1, some s, st =>
    match st.sym s with
    | none => none
    | some v => set_tie_dir_loop fuel v.next (st.upd s set_tie_dir_sym)

/-- Set the tie directions for one voice. -/
def set_tie_dir (st : Score) (sym : Nat) : Option Score :=
  set_tie_dir_loop st.fuel (some sym) st

/-- Tied heads of a chord, in increasing order of head number. -/
def tied_heads (k1 : SYMBOL) : List Nat :=
  (List.range (k1.nhd + 1)).filter (fun i => decide (k1.ti1.getD i 0 ≠ 0))

/-- Chord `c e g` (pitches 16, 18, 20) whose lowest and highest heads are
tied. -/
def tieChord1 : SYMBOL :=
  { next := some 1, nhd := 2, pits := [16, 18, 20], as_pits := [16, 18, 20],
    accs := [0, 0, 0], ti1 := [SL_ABOVE, 0, SL_BELOW], shhd := [0, 0, 0],
    x := 100, stem := 1, dur := 384, sflags := { S_TI1 := true } }

/-- The same chord one beat later, without ties. -/
def tieChord2 : SYMBOL :=
  { prev := some 0, nhd := 2, pits := [16, 18, 20], as_pits := [16, 18, 20],
    accs := [0, 0, 0], ti1 := [0, 0, 0], shhd := [0, 0, 0],
    x := 150, stem := 1, dur := 384, time := 384 }

/-- One voice holding `tieChord1` then `tieChord2`. -/
def tieScore : Score := { syms := [tieChord1, tieChord2], staff_tb := [{}] }

/-- Pointers met on the voice chain from `p` to its end (`NULL`). -/
def voice_chain (st : Score) : Nat → Option Nat → Option (List Nat)
  | 0, _ => none
  | _ + 1, none => some []
  | fuel + 1, some p =>
    match st.sym p with
    | none => none
    | some v => (voice_chain st fuel v.next).map (fun l => p :: l)

/-- Single note at pitch 20 with its stem down, tied with automatic
direction to the next note. -/
def tieNote1 : SYMBOL :=
  { next := some 1, nhd := 0, pits := [20], as_pits := [20], accs := [0],
    ti1 := [SL_AUTO], shhd := [0], x := 100, stem := -1, dur := 384,
    sflags := { S_TI1 := true } }

/-- The note that ends the tie, also at pitch 20. -/
def tieNote2 : SYMBOL :=
  { prev := some 0, nhd := 0, pits := [20], as_pits := [20], accs := [0],
    ti1 := [0], shhd := [0], x := 150, stem := -1, dur := 384, time := 384 }

/-- One voice holding `tieNote1` then `tieNote2`. -/
def tieNoteScore : Score := { syms := [tieNote1, tieNote2], staff_tb := [{}] }

/-- Two notes with their stems down, 100 units apart, the second 60 units
(20 staff steps) higher than the first. -/
def slurNote1 : SYMBOL :=
  { next := some 1, pits := [18], as_pits := [18], stem := -1, x := 100, y := 0,
    ymn := -20, ymx := 3, dur := 384 }

/-- Second note of the slur. -/
def slurNote2 : SYMBOL :=
  { prev := some 0, pits := [38], as_pits := [38], stem := -1, x := 200, y := 60,
    ymn := 40, ymx := 63, dur := 384, time := 384 }

/-- One voice holding `slurNote1` then `slurNote2` on a staff 500 units wide. -/
def slurScore : Score :=
  { syms := [slurNote1, slurNote2], realwidth := 500,
    staff_tb := [{ top := List.replicate 128 0, bot := List.replicate 128 24 }] }

/-- Two notes with their stems down at the same height, 100 units apart. -/
def flatSlurScore : Score :=
  { syms := [slurNote1, { slurNote2 with y := 0, ymn := -20, ymx := 3, pits := [18] }],
    realwidth := 500,
    staff_tb := [{ top := List.replicate 128 0, bot := List.replicate 128 24 }] }

/-- A one-staff system whose occupancy rows are in their initial state
(top 0, bottom 24), with bar extents 24 and 0. -/
def occStaff : STAFF_S :=
  { topbar := 24, botbar := 0, top := List.replicate 128 0, bot := List.replicate 128 24 }

/-- Score holding `occStaff` as its only staff. -/
def occScore : Score := { nstaff := 0, staff_tb := [occStaff] }

/-! ## Beams (`rnd6`, `b_pos`, `sym_dup`, `calculate_beam`) -/

/-- Beam value object (`struct BEAM`). -/
structure BEAM where
  s1 : Nat := 0
  s2 : Nat := 0
  a : ℚ := 0
  b : ℚ := 0
  nflags : Int := 0
  deriving DecidableEq, Repr, Inhabited

/-- Up/down shift needed to get `k*6`. -/
def rnd6 (y : ℚ) : ℚ :=
  let iy : Int := Int.tdiv (ctrunc (y + 2999 / 1000) + 12) 6 * 6 - 12
  (iy : ℚ) - y

/-- Compute the best vertical offset for the beams. -/
def b_pos (H : Hdr) (grace : Bool) (stem : Int) (flags : Int) (b : ℚ) : ℚ :=
  let shift : ℚ := if ¬ grace then H.BEAM_SHIFT else 3
  let depth : ℚ := if ¬ grace then H.BEAM_DEPTH else 17 / 10
  if stem > 0 then
    let bot := b - (flags - 1) * shift - depth
    if bot > 26 then 0
    else
      let d1 := rnd6 (b - H.BEAM_OFFSET)
      let d2 := rnd6 (bot + H.BEAM_OFFSET)
      if d1 * d1 > d2 * d2 then d2 else d1
  else
    let top := b + (flags - 1) * shift + depth
    if top < -2 then 0
    else
      let d1 := rnd6 (top - H.BEAM_OFFSET)
      let d2 := rnd6 (b + H.BEAM_OFFSET)
      if d1 * d1 > d2 * d2 then d2 else d1

/-- Duplicate a note for beaming continuation: the copy is invisible, has no
text, no head slurs, no guitar chord and no lyrics. -/
def sym_dup (s_orig : SYMBOL) : SYMBOL :=
  { s_orig with
    ABC_F_INVIS := true, as_text := none, sl1 := s_orig.sl1.map (fun _ => 0),
    has_gch := false, has_ly := false }

/-- Block "beam from previous music line" of `calculate_beam`: the duplicate
of `s1` is linked before `s1` in both chains; returns the new state and the
duplicate, which becomes `s1`. -/
def beam_dup_prev (st : Score) (s1 : Nat) : Option (Score × Nat) :=
  match st.sym s1 with
  | none => none
  | some v1 =>
    let s := st.syms.length
    let st := { st with syms := st.syms ++ [sym_dup v1] }
    -- s1->prev->next = s
    match v1.prev with
    | none => none
    | some p =>
      match st.sym p with
      | none => none
      | some _ =>
        let st := st.upd p (fun z => { z with next := some s })
        let st := st.upd s (fun z => { z with prev := some p })
        let st := st.upd s1 (fun z => { z with prev := some s })
        let st := st.upd s (fun z => { z with next := some s1 })
        -- s1->ts_prev->ts_next = s
        match v1.ts_prev with
        | none => none
        | some tp =>
          match st.sym tp with
          | none => none
          | some _ =>
            let st := st.upd tp (fun z => { z with ts_next := some s })
            let st := st.upd s (fun z => { z with ts_prev := some tp })
            let st := st.upd s1 (fun z => { z with ts_prev := some s })
            let st := st.upd s (fun z => { z with ts_next := some s1 })
            let st := st.upd s (fun z => { z with x := z.x - 12 })
            -- if (s->x > s1->prev->x + 12) s->x = s1->prev->x + 12
            match st.sym s, (st.sym s1).bind (fun z => z.prev) with
            | some vs, some q =>
              match st.sym q with
              | none => none
              | some vq =>
                let st :=
                  if vs.x > vq.x + 12 then st.upd s (fun z => { z with x := vq.x + 12 })
                  else st
                let st := st.upd s (fun z =>
                  { z with
                    sflags := { S_SEQST := z.sflags.S_SEQST, S_BEAM_ST := true, S_TEMP := true },
                    slur_st := 0, slur_end := 0 })
                some (st, s)
            | _, _ => none

/-- Counters of the loop "search last note in beam". -/
structure BeamScan where
  notes : Int := 0
  nflags : Int := 0
  two_staves : Bool := false
  two_dir : Bool := false
  deriving DecidableEq, Repr, Inhabited

/-- Loop `for (; ; s2 = s2->prev) if (s2->as.type == ABC_T_NOTE) break;`. -/
def back_to_note (st : Score) : Nat → Nat → Option Nat
  | 0, _ => none
  | fuel + 1, s2 =>
    match st.sym s2 with
    | none => none
    | some v =>
      if v.as_type = AbcType.ABC_T_NOTE then some s2
      else
        match v.prev with
        | none => none
        | some p => back_to_note st fuel p

/-- Block "beam towards next music line": the duplicate of the last note `s2`
is linked after it in both chains; returns the new state and the duplicate. -/
def beam_dup_next (st : Score) (s2 : Nat) : Option (Score × Nat) :=
  match st.sym s2 with
  | none => none
  | some v2 =>
    let s := st.syms.length
    let st := { st with syms := st.syms ++ [sym_dup v2] }
    -- s->next = s2->next; if (s->next) s->next->prev = s
    let st := st.upd s (fun z => { z with next := v2.next })
    let st :=
      match v2.next with
      | none => st
      | some n => st.upd n (fun z => { z with prev := some s })
    let st := st.upd s2 (fun z => { z with next := some s })
    let st := st.upd s (fun z => { z with prev := some s2 })
    -- s->ts_next = s2->ts_next; if (s->ts_next) s->ts_next->ts_prev = s
    let st := st.upd s (fun z => { z with ts_next := v2.ts_next })
    let st :=
      match v2.ts_next with
      | none => st
      | some n => st.upd n (fun z => { z with ts_prev := some s })
    let st := st.upd s2 (fun z => { z with ts_next := some s })
    let st := st.upd s (fun z => { z with ts_prev := some s2 })
    let st := st.upd s (fun z =>
      { z with
        sflags := { S_SEQST := z.sflags.S_SEQST, S_BEAM_END := true, S_TEMP := true },
        slur_st := 0, slur_end := 0 })
    let st := st.upd s (fun z => { z with x := z.x + 12 })
    let st := st.upd s (fun z =>
      { z with x := if z.x < st.realwidth - 12 then st.realwidth - 12 else z.x })
    some (st, s)

/-- Counting of one symbol by the loop "search last note in beam". -/
def beam_scan_sym (staff : Nat) (stem1 : Int) (v : SYMBOL) (c : BeamScan) : BeamScan :=
  if v.as_type = AbcType.ABC_T_NOTE then
    { notes := c.notes + 1,
      nflags := if v.nflags > c.nflags then v.nflags else c.nflags,
      two_staves := if v.staff ≠ staff then true else c.two_staves,
      two_dir := if v.stem ≠ stem1 then true else c.two_dir }
  else c

/-- Loop "search last note in beam" of `calculate_beam`, from `s2` on:
returns the state (changed when a duplicate is made), the last note `s2` and
the counters. -/
def beam_search (st : Score) (staff : Nat) (stem1 : Int) :
    Nat → Nat → BeamScan → Option (Score × Nat × BeamScan)
  | 0, _, _ => none
  | fuel + 1, s2, c =>
    match st.sym s2 with
    | none => none
    | some v =>
      let c1 := beam_scan_sym staff stem1 v c
      if v.as_type = AbcType.ABC_T_NOTE ∧ v.sflags.S_BEAM_END then some (st, s2, c1)
      else
        match v.next with
        | none =>
          match back_to_note st st.fuel s2 with
          | none => none
          | some l =>
            match beam_dup_next st l with
            | none => none
            | some (st1, s) => some (st1, s, { c1 with notes := c1.notes + 1 })
        | some n => beam_search st staff stem1 fuel n c1

/-- The five sums of the linear fit. -/
structure BeamSums where
  sx : ℚ := 0
  sy : ℚ := 0
  sxx : ℚ := 0
  sxy : ℚ := 0
  syy : ℚ := 0
  deriving DecidableEq, Repr, Inhabited

/-- Abscissa of the stem end of a note, as computed by the fit loop. -/
def stem_x (st : Score) (stem_xoff : ℚ) (v : SYMBOL) : ℚ :=
  let scale := st.voice_scale.getD v.voice 1
  let scale := if scale = 1 then (st.staffOf v.staff).staffscale else scale
  let x := if v.stem ≥ 0 then stem_xoff + v.shhd.getD 0 0
           else -stem_xoff + v.shhd.getD v.nhd 0
  x * scale + v.x

/-- One more point `(x, y)` in the sums. -/
def BeamSums.add (m : BeamSums) (x y : ℚ) : BeamSums :=
  { sx := m.sx + x, sy := m.sy + y, sxx := m.sxx + x * x, sxy := m.sxy + x * y,
    syy := m.syy + y * y }

/-- Loop "linear fit through stem ends" of `calculate_beam`: sets `xs` of
every note from `s` to `s2` and accumulates the sums. -/
def beam_sums (stem_xoff : ℚ) (s2 : Nat) :
    Nat → Nat → Score → BeamSums → Option (Score × BeamSums)
  | 0, _, _, _ => none
  | fuel + 1, s, st, m =>
    match st.sym s with
    | none => none
    | some v =>
      if v.as_type ≠ AbcType.ABC_T_NOTE then
        match v.next with
        | none => none
        | some n => beam_sums stem_xoff s2 fuel n st m
      else
        let x := stem_x st stem_xoff v
        let st1 := st.upd s (fun z => { z with xs := x })
        let y := v.ys + (st.staffOf v.staff).y
        let m1 := m.add x y
        if s = s2 then some (st1, m1)
        else
          match v.next with
          | none => none
          | some n => beam_sums stem_xoff s2 fuel n st1 m1

/-- Least-squares line "beam fct: y=ax+b": the first values of `a` and `b`. -/
def beam_fit (m : BeamSums) (notes : Int) : ℚ × ℚ :=
  let a := (m.sxy * notes - m.sx * m.sy) / (m.sxx * notes - m.sx * m.sx)
  let b := (m.sy - a * m.sx) / notes
  (a, b)

/-- The lines of `calculate_beam` that "modify the slope of the beam", for
normal notes: flattening, then the limit of steepness.  The arithmetic is
exact; `beam_slope_normal32` is the same statement in the arithmetic of the C
types, where the test is made on the rounded `hh`. -/
def beam_slope_normal (H : Hdr) (m : BeamSums) (notes : Int) (a b : ℚ) : ℚ :=
  let hh := m.syy - a * m.sxy - b * m.sy
  let a := if notes ≥ 3 ∧ hh > 0 ∧ hh / ((notes - 2 : Int) : ℚ) > 1 / 2
           then a * H.BEAM_FLATFAC else a
  if a ≥ 0 then H.BEAM_SLOPE * a / (H.BEAM_SLOPE + a)
  else H.BEAM_SLOPE * a / (H.BEAM_SLOPE - a)

/-- The same for grace notes: the slope is clamped to `[-BEAM_SLOPE,
BEAM_SLOPE]`. -/
def beam_slope_grace (H : Hdr) (a : ℚ) : ℚ :=
  if a > H.BEAM_SLOPE then H.BEAM_SLOPE
  else if a < -H.BEAM_SLOPE then -H.BEAM_SLOPE
  else a

/-- Flat below threshold: the slope is set to 0 when the normalized slope
`a0` is under `BEAM_THRESH`. -/
def beam_snap (H : Hdr) (notes : Int) (dx a : ℚ) : ℚ :=
  let a0 := a * dx / (20 * ((notes - 1 : Int) : ℚ))
  if a0 * a0 < H.BEAM_THRESH * H.BEAM_THRESH then 0 else a

/-- Slope and intercept after the correction passes of `calculate_beam`
(from "beam fct: y=ax+b" to "have flat beams when asked"): `dx` is
`s2->xs - s1->xs` and `y0` is `staff_tb[staff].y`. -/
def beam_line (H : Hdr) (grace flatbeams : Bool) (m : BeamSums) (notes : Int)
    (dx y0 : ℚ) : ℚ × ℚ :=
  let ab := beam_fit m notes
  let a := if ¬ grace then beam_slope_normal H m notes ab.1 ab.2
           else beam_slope_grace H ab.1
  let a := beam_snap H notes dx a
  let b := (m.sy - a * m.sx) / notes
  if flatbeams then (0, (if ¬ grace then -11 + y0 else 35 + y0))
  else (a, b)


/-- Table `min_tb` of `calculate_beam`: minimal stem lengths under a beam, by
head count (row 0: one head, row 1: chord) and flag count.  An index outside
`0..5` reads 0 (the C code reads outside the table). -/
def min_tb (H : Hdr) (row : Nat) (nflags : Int) : ℚ :=
  if nflags < 0 then 0
  else
    (if row = 0 then
      [H.STEM_MIN, H.STEM_MIN, H.STEM_MIN2, H.STEM_MIN3, H.STEM_MIN4, H.STEM_MIN4]
     else
      [H.STEM_CH_MIN, H.STEM_CH_MIN, H.STEM_CH_MIN2, H.STEM_CH_MIN3, H.STEM_CH_MIN4,
       H.STEM_CH_MIN4]).getD nflags.toNat 0

/-- Shift of the beam with two stem directions (the branch `if (two_dir)`). -/
def beam_two_dir_shift (H : Hdr) (grace : Bool) (nflags : Int) (v1 v2 : SYMBOL) : ℚ :=
  let ys : ℚ := if ¬ grace then H.BEAM_SHIFT else 3
  let ys := ys * ((nflags - 1 : Int) : ℚ)
  let ys := ys + H.BEAM_DEPTH
  let ys := ys * (1 / 2)
  if v1.stem ≠ v2.stem ∧ v1.nflags < v2.nflags then ys * v2.stem else ys * v1.stem

/-- Stem shortfall of one symbol `s` met by the loop over the time chain
(normal notes): `none` for a symbol the loop skips. -/
def stem_err_normal (H : Hdr) (st : Score) (staff voice : Nat) (v1 : SYMBOL) (a b beam_h : ℚ)
    (s : SYMBOL) : Option ℚ :=
  if s.as_type ≠ AbcType.ABC_T_NOTE ∨ s.ABC_F_INVIS
      ∨ (s.staff ≠ staff ∧ s.voice ≠ voice) then none
  else
    let x := if s.voice = voice then s.xs else s.x
    let ys := a * x + b - (st.staffOf s.staff).y
    if s.voice = voice then
      let e := if s.nhd = 0 then min_tb H 0 s.nflags else min_tb H 1 s.nflags
      let e :=
        if s.stem > 0 then
          let e := if s.pits.getD s.nhd 0 > 26 then
                     (if s.pits.getD s.nhd 0 > 28 then e - 2 - 2 else e - 2)
                   else e
          e - (ys - ((3 * (s.pits.getD s.nhd 0 - 18) : Int) : ℚ))
        else
          let e := if s.pits.getD 0 0 < 18 then
                     (if s.pits.getD 0 0 < 16 then e - 2 - 2 else e - 2)
                   else e
          e - (((3 * (s.pits.getD 0 0 - 18) : Int) : ℚ) - ys)
      some (e + (H.BEAM_DEPTH + H.BEAM_SHIFT * ((s.nflags - 1 : Int) : ℚ)))
    else
      let e : Option ℚ :=
        if v1.stem > 0 then
          if s.stem > 0 then
            if (s.ymn : ℚ) > ys + 4 ∨ (s.ymx : ℚ) < ys - beam_h - 2 then none
            else if s.voice > voice then some ((s.ymx : ℚ) - ys)
            else some ((s.ymn : ℚ) + 8 - ys)
          else some ((s.ymx : ℚ) - ys)
        else
          if s.stem < 0 then
            if (s.ymx : ℚ) < ys - 4 ∨ (s.ymn : ℚ) > ys - beam_h - 2 then none
            else if s.voice < voice then some (ys - (s.ymn : ℚ))
            else some (ys - (s.ymx : ℚ) + 8)
          else some (ys - (s.ymn : ℚ))
      e.map (fun e => e + (2 + beam_h))

/-- Loop `while (s->ts_prev->as.type == ABC_T_NOTE && s->ts_prev->time ==
s->time && s->ts_prev->x > s1->xs) s = s->ts_prev`. -/
def stem_first (st : Score) (xs1 : ℚ) : Nat → Nat → Option Nat
  | 0, _ => none
  | fuel + 1, s =>
    match st.sym s with
    | none => none
    | some v =>
      match v.ts_prev with
      | none => none
      | some p =>
        match st.sym p with
        | none => none
        | some w =>
          if w.as_type = AbcType.ABC_T_NOTE ∧ w.time = v.time ∧ w.x > xs1 then
            stem_first st xs1 fuel p
          else some s

/-- Loop `for (; s && s->time <= s2->time; s = s->ts_next)` of the stem
length check, carrying `max_stem_err`. -/
def stem_loop_normal (H : Hdr) (st : Score) (staff voice : Nat) (v1 : SYMBOL) (time2 : Int)
    (a b beam_h : ℚ) : Nat → Option Nat → ℚ → Option ℚ
  | 0, _, _ => none
  | _ + 1, none, mx => some mx
  | fuel + 1, some s, mx =>
    match st.sym s with
    | none => none
    | some v =>
      if ¬ v.time ≤ time2 then some mx
      else
        let mx1 :=
          match stem_err_normal H st staff voice v1 a b beam_h v with
          | none => mx
          | some e => if e > mx then e else mx
        stem_loop_normal H st staff voice v1 time2 a b beam_h fuel v.ts_next mx1

/-- Stem shortfall of one grace note. -/
def stem_err_grace (H : Hdr) (st : Score) (a b : ℚ) (s : SYMBOL) : ℚ :=
  let ys := a * s.xs + b - (st.staffOf s.staff).y
  let e := H.GSTEM - 2
  let e := if s.stem > 0 then e - (ys - ((3 * (s.pits.getD s.nhd 0 - 18) : Int) : ℚ))
           else e + (ys - ((3 * (s.pits.getD 0 0 - 18) : Int) : ℚ))
  e + 3 * ((s.nflags - 1 : Int) : ℚ)

/-- Loop `for ( ; ; s = s->next)` of the stem length check for grace notes. -/
def stem_loop_grace (H : Hdr) (st : Score) (s2 : Nat) (a b : ℚ) : Nat → Nat → ℚ → Option ℚ
  | 0, _, _ => none
  | fuel + 1, s, mx =>
    match st.sym s with
    | none => none
    | some v =>
      let e := stem_err_grace H st a b v
      let mx1 := if e > mx then e else mx
      if s = s2 then some mx1
      else
        match v.next with
        | none => none
        | some n => stem_loop_grace H st s2 a b fuel n mx1

/-- Section "have room for the symbols in the staff" of `calculate_beam`:
the intercept after the shift for the stem lengths. -/
def beam_stems (H : Hdr) (st : Score) (s1 s2 : Nat) (v1 v2 : SYMBOL) (c : BeamScan)
    (a b : ℚ) : Option ℚ :=
  if c.two_dir then
    some (b + beam_two_dir_shift H v1.ABC_F_GRACE c.nflags v1 v2)
  else
    let mo : Option ℚ :=
      if ¬ v1.ABC_F_GRACE then
        let beam_h := H.BEAM_DEPTH + H.BEAM_SHIFT * ((c.nflags - 1 : Int) : ℚ)
        match stem_first st v1.xs st.fuel s1 with
        | none => none
        | some s =>
          stem_loop_normal H st v1.staff v1.voice v1 v2.time a b beam_h st.fuel (some s) 0
      else stem_loop_grace H st s2 a b st.fuel s1 0
    mo.map (fun mx => if mx > 0 then b + v1.stem * mx else b)

/-- Statements of the case `CLEF` of the clearance loop for a symbol with
extents `ymx`, `ymn` at abscissa `x`: the new intercept. -/
def beam_clear_one (H : Hdr) (stem1 nflags : Int) (a : ℚ) (x : ℚ) (ymx ymn : Int) (b : ℚ) : ℚ :=
  let y := a * x + b
  if stem1 > 0 then
    let y := (ymx : ℚ) - y + H.BEAM_DEPTH + H.BEAM_SHIFT * ((nflags - 1 : Int) : ℚ) + 2
    if y > 0 then b + y else b
  else
    let y := (ymn : ℚ) - y - H.BEAM_DEPTH - H.BEAM_SHIFT * ((nflags - 1 : Int) : ℚ) - 2
    if y < 0 then b + y else b

/-- Loop over the grace notes of the case `GRACE` of the clearance loop. -/
def beam_clear_grace (H : Hdr) (st : Score) (stem1 nflags : Int) (a : ℚ) :
    Nat → Option Nat → ℚ → Option ℚ
  | 0, _, _ => none
  | _ + 1, none, b => some b
  | fuel + 1, some g, b =>
    match st.sym g with
    | none => none
    | some v =>
      beam_clear_grace H st stem1 nflags a fuel v.next
        (if v.type ≠ SymType.NOTEREST then b
         else beam_clear_one H stem1 nflags a v.x v.ymx v.ymn b)

/-- Loop "have room for the gracenotes, bars and clefs", from `s` to `s2`. -/
def beam_clear (H : Hdr) (st : Score) (staff : Nat) (stem1 nflags : Int) (s2 : Nat) (a : ℚ) :
    Nat → Option Nat → ℚ → Option ℚ
  | 0, _, _ => none
  | _ + 1, none, _ => none
  | fuel + 1, some s, b =>
    match st.sym s with
    | none => none
    | some v =>
      let b1 : Option ℚ :=
        if v.type = SymType.NOTEREST then
          if v.as_type ≠ AbcType.ABC_T_REST then some b
          else
            match v.ts_next.bind st.sym with
            | none => none
            | some g =>
              if g.staff ≠ staff ∨ g.type ≠ SymType.NOTEREST then some b
              else if v.ABC_F_INVIS then some b
              else some (beam_clear_one H stem1 nflags a v.x v.ymx v.ymn b)
        else if v.type = SymType.BAR then
          if v.ABC_F_INVIS then some b
          else some (beam_clear_one H stem1 nflags a v.x v.ymx v.ymn b)
        else if v.type = SymType.CLEF then
          some (beam_clear_one H stem1 nflags a v.x v.ymx v.ymn b)
        else if v.type = SymType.GRACE then
          beam_clear_grace H st stem1 nflags a st.fuel v.extra b
        else some b
      match b1 with
      | none => none
      | some b1 =>
        if s = s2 then some b1
        else beam_clear H st staff stem1 nflags s2 a fuel v.next b1

/-- Case `ABC_T_NOTE` of the final loop of `calculate_beam` for the note at
`s`.  The arithmetic is exact; `beam_adjust_note32` is the same statement in
the arithmetic of the C types, where the stored `ys` is rounded. -/
def beam_adjust_note (st : Score) (a b : ℚ) (s : Nat) (v : SYMBOL) : Score :=
  let ys := a * v.xs + b - (st.staffOf v.staff).y
  let st := st.upd s (fun z => { z with ys := ys })
  if v.stem > 0 then
    let ymx := ctrunc (ys + 5 / 2)
    let st := st.upd s (fun z => { z with ymx := ymx })
    match v.ts_prev with
    | none => st
    | some p =>
      match st.sym p with
      | none => st
      | some w =>
        if w.stem > 0 ∧ w.staff = v.staff ∧ w.ymn < ymx ∧ w.x = v.x ∧ v.shhd.getD 0 0 = 0 then
          st.upd p (fun z => { z with x := z.x - 5, xs := z.xs - 5 })
        else st
  else st.upd s (fun z => { z with ymn := ctrunc (ys - 5 / 2) })

/-- Case `ABC_T_REST` of the final loop of `calculate_beam` for the rest at
`s`. -/
def beam_adjust_rest (H : Hdr) (st : Score) (v1 : SYMBOL) (nflags : Int) (a b : ℚ)
    (s : Nat) (v : SYMBOL) : Score :=
  let y := a * v.x + b - (st.staffOf v.staff).y
  let dy := H.BEAM_DEPTH + H.BEAM_SHIFT * ((nflags - 1 : Int) : ℚ)
              + (if v.head ≠ HeadType.H_FULL then 4 else 9)
  let y :=
    if v1.stem > 0 then
      (if v1.multi = 0 ∧ y - dy > 12 then 12 else y - dy)
    else
      (if v1.multi = 0 ∧ y + dy < 12 then 12 else y + dy)
  if (v1.stem > 0 ∧ (v.y : ℚ) ≤ y) ∨ (¬ v1.stem > 0 ∧ (v.y : ℚ) ≥ y) then st
  else
    let y : ℚ :=
      if v.head ≠ HeadType.H_FULL then
        ((Int.tdiv (ctrunc y + 3 + 12) 6 * 6 - 12 : Int) : ℚ)
      else y
    st.upd s (fun z => { z with y := ctrunc y })

/-- Loop "adjust final stems and rests under beam" of `calculate_beam`. -/
def beam_adjust (H : Hdr) (s1 s2 : Nat) (nflags : Int) (a b : ℚ) :
    Nat → Nat → Score → Option Score
  | 0, _, _ => none
  | fuel + 1, s, st =>
    match st.sym s, st.sym s1 with
    | some v, some v1 =>
      let st1 :=
        if v.as_type = AbcType.ABC_T_NOTE then beam_adjust_note st a b s v
        else if v.as_type = AbcType.ABC_T_REST then beam_adjust_rest H st v1 nflags a b s v
        else st
      if s = s2 then some st1
      else
        match (st1.sym s).bind (fun z => z.next) with
        | none => none
        | some n => beam_adjust H s1 s2 nflags a b fuel n st1
    | _, _ => none

/-- Part of `calculate_beam` after the search of the last note, when the
line is fitted anew (from "linear fit through stem ends" to the end):
returns the state, the slope, the intercept. -/
def beam_refit (H : Hdr) (st : Score) (s1 s2 : Nat) (c : BeamScan) :
    Option (Score × ℚ × ℚ) :=
  match st.sym s1 with
  | none => none
  | some v1a =>
    let stem_xoff := if v1a.ABC_F_GRACE then H.GSTEM_XOFF else H.STEM_XOFF
    match beam_sums stem_xoff s2 st.fuel s1 st {} with
    | none => none
    | some (st, m) =>
      match st.sym s1, st.sym s2 with
      | some v1, some v2 =>
        let y0 := (st.staffOf v1a.staff).y
        let ab := beam_line H v1.ABC_F_GRACE st.flatbeams m c.notes (v2.xs - v1.xs) y0
        let a := ab.1
        match beam_stems H st s1 s2 v1 v2 c a ab.2 with
        | none => none
        | some b =>
          let bo : Option ℚ :=
            if ¬ c.two_staves ∧ ¬ c.two_dir then
              beam_clear H st v1a.staff v1.stem c.nflags s2 a st.fuel v1.next b
            else some b
          match bo with
          | none => none
          | some b =>
            let b := if a = 0 then b + b_pos H v1.ABC_F_GRACE v1.stem c.nflags (b - y0) else b
            match beam_adjust H s1 s2 c.nflags a b st.fuel s1 st with
            | none => none
            | some st => some (st, a, b)
      | _, _ => none

/-- First part of `calculate_beam`, after the test of the printed head: the
duplicate for a beam from the previous line and the search of the last note.
Returns the state, the first symbol `s1` (the duplicate when one is made),
the last note `s2` and the counters. -/
def beam_ends (st : Score) (s1 : Nat) : Option (Score × Nat × Nat × BeamScan) :=
  match st.sym s1 with
  | none => none
  | some v0 =>
    match (if ¬ v0.sflags.S_BEAM_ST then beam_dup_prev st s1 else some (st, s1)) with
    | none => none
    | some (st, s1) =>
      match st.sym s1 with
      | none => none
      | some v1 =>
        match beam_search st v1.staff v1.stem st.fuel s1 {} with
        | none => none
        | some (st, s2, c) => some (st, s1, s2, c)

/-- Test "beam already calculated" of `calculate_beam`: the staves are
defined and the group is on one staff and is not a grace-note group. -/
def beam_stored (st : Score) (v1 : SYMBOL) (c : BeamScan) : Prop :=
  (st.staffOf v1.staff).y ≠ 0 ∧ c.two_staves = false ∧ v1.ABC_F_GRACE = false

instance (st : Score) (v1 : SYMBOL) (c : BeamScan) : Decidable (beam_stored st v1 c) :=
  inferInstanceAs
    (Decidable ((st.staffOf v1.staff).y ≠ 0 ∧ c.two_staves = false ∧ v1.ABC_F_GRACE = false))

/-- Calculate a beam.  Returns the new state, the beam object and the value
returned by the C function (1: beam to draw, 0: no beam). -/
def calculate_beam (H : Hdr) (st : Score) (bm : BEAM) (s1 : Nat) :
    Option (Score × BEAM × Int) :=
  match st.sym s1 with
  | none => none
  | some v0 =>
    -- must have one printed note head
    if v0.ABC_F_INVIS
        ∧ (v0.next = none ∨ ((v0.next.bind st.sym).map (fun z => z.ABC_F_INVIS) = some true))
    then some (st, bm, 0)
    else if v0.ABC_F_INVIS ∧ (v0.next.bind st.sym).isNone then none
    else
      match beam_ends st s1 with
      | none => none
      | some (st, s1, s2, c) =>
        match st.sym s1, st.sym s2 with
        | some v1, some v2 =>
          let bm := { bm with s2 := s2 }
          let y0 := (st.staffOf v1.staff).y
          if y0 = 0 ∧ c.two_staves then some (st, bm, 0)
          else if beam_stored st v1 c then
            -- beam already calculated
            let a := (v1.ys - v2.ys) / (v1.xs - v2.xs)
            some (st, { bm with s1 := s1, a := a, b := v1.ys - v1.xs * a + y0,
                                nflags := c.nflags }, 1)
          else
            match beam_refit H st s1 s2 c with
            | none => none
            | some (st, a, b) =>
              if y0 = 0 then some (st, bm, 0)
              else some (st, { bm with s1 := s1, a := a, b := b, nflags := c.nflags }, 1)
        | _, _ => none

/-- A beam across two staves: two eighth notes with stems up, the first on
staff 1 (origin 100), the second on staff 0 (origin 200), after a clef. -/
def crossNote1 : SYMBOL :=
  { next := some 1, prev := some 2, ts_prev := some 2, ts_next := some 1,
    staff := 1, pits := [22], as_pits := [22], shhd := [0], stem := 1,
    nflags := 1, x := 100, xs := 207 / 2, y := 12, ys := 32, ymn := 9, ymx := 34, dur := 192,
    sflags := { S_BEAM_ST := true } }

/-- Second note of the beam across two staves. -/
def crossNote2 : SYMBOL :=
  { prev := some 0, ts_prev := some 0, staff := 0, pits := [22], as_pits := [22],
    shhd := [0], stem := 1,
    nflags := 1, x := 140, xs := 287 / 2, y := 12, ys := 32, ymn := 9, ymx := 34, dur := 192,
    time := 192, sflags := { S_BEAM_END := true } }

/-- Clef that starts the voice of the beam across two staves. -/
def crossClef : SYMBOL :=
  { next := some 0, ts_next := some 0, type := SymType.CLEF, as_type := AbcType.ABC_T_CLEF,
    staff := 1, x := 20, ymn := 0, ymx := 24 }

/-- Score with the beam `crossNote1`-`crossNote2`; the staves are defined. -/
def crossScore : Score :=
  { syms := [crossNote1, crossNote2, crossClef], realwidth := 500, nstaff := 1,
    staff_tb := [{ y := 200 }, { y := 100 }], voice_scale := [1] }

/-- Clef that starts the voice of `lineScore`. -/
def lineClef : SYMBOL :=
  { next := some 1, ts_next := some 1, type := SymType.CLEF, as_type := AbcType.ABC_T_CLEF,
    x := 20, ymn := 0, ymx := 24 }

/-- Eighth note number `i` (1..4) of `lineScore`: stem up, one flag, at
abscissa `80 + 20*i`, its stem tip at height `4*i + 30`. -/
def lineNote (i : Nat) : SYMBOL :=
  { next := if i < 4 then some (i + 1) else none, prev := some (i - 1),
    ts_next := if i < 4 then some (i + 1) else none, ts_prev := some (i - 1),
    pits := [(20 : Int) + i], as_pits := [(20 : Int) + i], shhd := [0], stem := 1, nflags := 1,
    x := 80 + 20 * i, xs := 80 + 20 * i + 7 / 2, y := 3 * ((2 : Int) + i),
    ys := 4 * (i : ℚ) + 30, ymn := 3 * ((2 : Int) + i) - 3, ymx := 4 * (i : Int) + 32,
    dur := 192, time := 192 * ((i : Int) - 1),
    sflags := { S_BEAM_ST := decide (i = 1), S_BEAM_END := decide (i = 4) } }

/-- Four beamed eighth notes on one staff with the same stem direction, whose
stem tips lie exactly on the line of slope 1/5; the staves are not yet
defined (`staff_tb[0].y = 0`), as in the first pass of `draw_sym_near`. -/
def lineScore : Score :=
  { syms := [lineClef, lineNote 1, lineNote 2, lineNote 3, lineNote 4],
    realwidth := 500, staff_tb := [{ y := 0 }], voice_scale := [1] }

/-! ## Tuplets (`draw_tuplet`) -/

/-- Result of a call of `draw_tuplet`: the state and the returned symbol
(`next`). -/
abbrev TupletCall := Score → Nat → Nat → Option (Score × Nat)

/-- Statement `if (sy->time > next->time) next = sy`. -/
def later_sym (st : Score) (sy next : Nat) : Option Nat :=
  match st.sym sy, st.sym next with
  | some a, some b => some (if a.time > b.time then sy else next)
  | _, _ => none

/-- Loop `for (g = ...; g; g = g->next) if (g->type == TUPLET) { sy =
draw_tuplet(g, s); if (sy->time > next->time) next = sy; }`, the recursive
call being `call`. -/
def tuplet_chain (call : TupletCall) (s : Nat) :
    Nat → Option Nat → Score → Nat → Option (Score × Nat)
  | 0, _, _, _ => none
  | _ + 1, none, st, next => some (st, next)
  | fuel + 1, some g, st, next =>
    match st.sym g with
    | none => none
    | some gv =>
      if gv.type = SymType.TUPLET then
        match call st g s with
        | none => none
        | some (st1, sy) =>
          match later_sym st1 sy next, (st1.sym g).map (fun z => z.next) with
          | some next1, some gn => tuplet_chain call s fuel gn st1 next1
          | _, _ => none
      else tuplet_chain call s fuel gv.next st next

/-- State of the loop that searches the first and last notes/rests of the
tuplet. -/
structure TupletScan where
  r : Int
  s1 : Option Nat := none
  some_slur : Bool := false
  upstaff : Nat
  next : Nat
  deriving DecidableEq, Repr

/-- Test of the grace notes of a `GRACE` symbol for a slur start. -/
def grace_has_slur (st : Score) : Nat → Option Nat → Bool → Option Bool
  | 0, _, _ => none
  | _ + 1, none, b => some b
  | fuel + 1, some g, b =>
    match st.sym g with
    | none => none
    | some gv =>
      grace_has_slur st fuel gv.next
        (if gv.type = SymType.NOTEREST ∧ (gv.slur_st ≠ 0 ∨ gv.sflags.S_SL1) then true else b)

/-- Loop "search the first and last notes/rests of the tuplet",
`for (s2 = s; s2; s2 = s2->next)`: returns the state, the last member `s2`
(or `NULL`) and the loop state. -/
def tuplet_members (call : TupletCall) (s : Nat) :
    Nat → Option Nat → Score → TupletScan → Option (Score × Option Nat × TupletScan)
  | 0, _, _, _ => none
  | _ + 1, none, st, c => some (st, none, c)
  | fuel + 1, some s2, st, c =>
    match st.sym s2 with
    | none => none
    | some v0 =>
      match (if s2 ≠ s then tuplet_chain call s2 st.fuel v0.extra st c.next
             else some (st, c.next)) with
      | none => none
      | some (st, next) =>
        match st.sym s2 with
        | none => none
        | some v =>
          let c := { c with next := next }
          if v.type ≠ SymType.NOTEREST then
            if v.type = SymType.GRACE then
              match grace_has_slur st st.fuel v.extra c.some_slur with
              | none => none
              | some b => tuplet_members call s fuel v.next st { c with some_slur := b }
            else tuplet_members call s fuel v.next st c
          else
            let c :=
              { c with
                some_slur :=
                  if v.slur_st ≠ 0 ∨ v.slur_end ≠ 0 ∨ v.sflags.S_SL1 ∨ v.sflags.S_SL2 then true
                  else c.some_slur,
                upstaff := if v.staff < c.upstaff then v.staff else c.upstaff,
                s1 := if c.s1 = none then some s2 else c.s1,
                r := c.r - 1 }
            if c.r ≤ 0 then some (st, some s2, c)
            else tuplet_members call s fuel v.next st c

/-- First loop of the search "if a bracket is needed", from `sy` to `s2`:
`true` when the members are beamed together. -/
def tuplet_beamed (st : Score) (s2 : Nat) : Nat → Option Nat → Option Bool
  | 0, _ => none
  | _ + 1, none => none
  | fuel + 1, some sy =>
    match st.sym sy with
    | none => none
    | some v =>
      if v.type ≠ SymType.NOTEREST then
        if v.type = SymType.GRACE ∨ v.type = SymType.SPACE then tuplet_beamed st s2 fuel v.next
        else some false
      else if sy = s2 then some true
      else if v.sflags.S_BEAM_END then some false
      else tuplet_beamed st s2 fuel v.next

/-- Loop `for (sy = s1->prev; sy; sy = sy->prev)`: `false` when the note or
rest before the tuplet has at least as many flags as `s1`. -/
def tuplet_before (st : Score) (nflags1 : Int) : Nat → Option Nat → Option Bool
  | 0, _ => none
  | _ + 1, none => some true
  | fuel + 1, some sy =>
    match st.sym sy with
    | none => none
    | some v =>
      if v.type = SymType.NOTEREST then some (decide (¬ v.nflags ≥ nflags1))
      else tuplet_before st nflags1 fuel v.prev

/-- Loop `for (sy = s2->next; sy; sy = sy->next)`: `false` when the note or
rest after the tuplet competes with `s2`. -/
def tuplet_after (st : Score) (nflags2 : Int) : Nat → Option Nat → Option Bool
  | 0, _ => none
  | _ + 1, none => some true
  | fuel + 1, some sy =>
    match st.sym sy with
    | none => none
    | some v =>
      if v.type = SymType.NOTEREST then
        some (decide (¬ (¬ (v.sflags.S_BEAM_BR1 ∨ v.sflags.S_BEAM_BR2) ∧ v.nflags ≥ nflags2)))
      else tuplet_after st nflags2 fuel v.next

/-- Search "if a bracket is needed" of `draw_tuplet` (the last `else` of the
choice of the rendering): the value of `nb_only`. -/
def tuplet_nb_only (st : Score) (tv v1 v2 : SYMBOL) (s1 s2 : Nat) : Option Bool :=
  if tv.u &&& 0x0f00 = 0x200 ∨ v1.as_type ≠ AbcType.ABC_T_NOTE
      ∨ v2.as_type ≠ AbcType.ABC_T_NOTE then some false
  else
    match tuplet_beamed st s2 st.fuel (some s1) with
    | none => none
    | some nb1 =>
      match (if nb1 ∧ ¬ (v1.sflags.S_BEAM_ST ∨ v1.sflags.S_BEAM_BR1 ∨ v1.sflags.S_BEAM_BR2)
             then tuplet_before st v1.nflags st.fuel v1.prev else some nb1) with
      | none => none
      | some nb2 =>
        if nb2 ∧ ¬ v2.sflags.S_BEAM_END then tuplet_after st v2.nflags st.fuel v2.next
        else some nb2

/-- Loop `for (sy = s1; ; sy = sy->next) if (sy->x >= xm) break;`. -/
def tuplet_find_x (st : Score) (xm : ℚ) : Nat → Option Nat → Option Nat
  | 0, _ => none
  | _ + 1, none => none
  | fuel + 1, some sy =>
    match st.sym sy with
    | none => none
    | some v => if v.x ≥ xm then some sy else tuplet_find_x st xm fuel v.next

/-- Block "if number only, draw it" of `draw_tuplet` (after the test of the
value display). -/
def tuplet_number (H : Hdr) (st : Score) (tv : SYMBOL) (s s1 s2 : Nat) (v1 v2 : SYMBOL) :
    Option Score :=
  let xm := (v2.x + v1.x) * (1 / 2)
  let a : ℚ := if s1 = s2 then 0 else (v2.ys - v1.ys) / (v2.x - v1.x)
  let b := v1.ys - a * v1.x
  let yy := a * xm + b
  let b :=
    if v1.stem > 0 then
      let ym := y_get H st v1.staff true (xm - 3) 6
      (if ym > yy then b + (ym - yy) else b) + 4
    else
      let ym := y_get H st v1.staff false (xm - 3) 6
      (if ym < yy then b + (ym - yy) else b) - 12
  match tuplet_find_x st xm st.fuel (some s1) with
  | none => none
  | some sy =>
    let xm :=
      if v1.stem * v2.stem > 0 then (if v1.stem > 0 then xm + H.GSTEM_XOFF else xm - H.GSTEM_XOFF)
      else xm
    let ym := a * xm + b
    let st : Score :=
      { st with out := st.out ++
          [Prim.bnum tv.p_plet (if tv.u &&& 0x0f = 0 then none else some tv.q_plet) xm ym
            v1.staff] }
    match st.sym sy with
    | none => none
    | some vy =>
      let st :=
        if v1.stem > 0 then
          let ym := ym + 8
          let st := if (vy.ymx : ℚ) < ym then st.upd sy (fun z => { z with ymx := ctrunc ym })
                    else st
          y_set H st v1.staff true (xm - 3) 6 ym
        else
          let st := if (vy.ymn : ℚ) > ym then st.upd sy (fun z => { z with ymn := ctrunc ym })
                    else st
          y_set H st v1.staff false (xm - 3) 6 ym
      some (st.upd s (fun z => { z with sflags := { z.sflags with S_IN_TUPLET := false } }))


/-- Test `sy->as.u.note.slur_st || sy->as.u.note.slur_end || (sy->sflags &
(S_SL1 | S_SL2))`. -/
def has_slur_mark (v : SYMBOL) : Bool :=
  decide (v.slur_st ≠ 0) || decide (v.slur_end ≠ 0) || v.sflags.S_SL1 || v.sflags.S_SL2

/-- Loop `for (sy = s1->next; sy != s2; sy = sy->next)` of the block "draw
the slurs when inside the tuplet": `true` when a symbol still carries a slur. -/
def tuplet_slur_left (st : Score) (s2 : Nat) : Nat → Option Nat → Option Bool
  | 0, _ => none
  | _ + 1, none => none
  | fuel + 1, some sy =>
    if sy = s2 then some false
    else
      match st.sym sy with
      | none => none
      | some v => if has_slur_mark v then some true else tuplet_slur_left st s2 fuel v.next

/-- Search of a note from `sy` toward `stop` by `step` (`next` or `prev`):
the loops `for (sy = sy->next; sy != s2; sy = sy->next) if (sy->as.type ==
ABC_T_NOTE) break;` of the bracket placement. -/
def tuplet_note_toward (st : Score) (step : SYMBOL → Option Nat) (stop : Nat) :
    Nat → Option Nat → Option Nat
  | 0, _ => none
  | _ + 1, none => none
  | fuel + 1, some sy =>
    if sy = stop then some sy
    else
      match st.sym sy with
      | none => none
      | some v =>
        if v.as_type = AbcType.ABC_T_NOTE then some sy
        else tuplet_note_toward st step stop fuel (step v)

/-- Symbol whose abscissa is used to read the occupancy at an end of the
bracket: the end symbol `p` itself when it is a note, else the nearest note
toward the other end. -/
def tuplet_end_sym (st : Score) (step : SYMBOL → Option Nat) (p stop : Nat) : Option SYMBOL :=
  match st.sym p with
  | none => none
  | some v =>
    if v.as_type ≠ AbcType.ABC_T_NOTE then
      (tuplet_note_toward st step stop st.fuel (step v)).bind st.sym
    else some v

/-- Right end `x2` of the bracket ("end the backet according to the last note
duration"); `upper` tells the placement. -/
def tuplet_x2 (st : Score) (upper : Bool) (upstaff : Nat) (v2 : SYMBOL) : Option ℚ :=
  match v2.prev.bind st.sym with
  | none => none
  | some pv =>
    if v2.dur > pv.dur then
      match v2.next with
      | none => some (st.realwidth - 6)
      | some n => (st.sym n).map (fun nv => nv.x - nv.wl - (if upper then 5 else 8))
    else if upper then
      let x2 := v2.x + 4
      let r := if v2.stem ≥ 0 then 0 else v2.nhd
      let x2 := if v2.shhd.getD r 0 > 0 then x2 + v2.shhd.getD r 0 else x2
      some (if v2.staff = upstaff ∧ v2.stem > 0 then x2 + 7 / 2 else x2)
    else
      let x2 := v2.x + 2
      some (if v2.shhd.getD v2.nhd 0 > 0 then x2 + v2.shhd.getD v2.nhd 0 else x2)

/-- Slope of the bracket: `a` limited by the slope `s0` of the pitches of the
boundary heads, and zeroed when below 0.1. -/
def tuplet_slope (a s0 : ℚ) : ℚ :=
  let a :=
    if s0 > 0 then (if a < 0 then 0 else if a > s0 then s0 else a)
    else (if a > 0 then 0 else if a < s0 then s0 else a)
  if a * a < 1 / 10 * (1 / 10) then 0 else a

/-- Loop "shift up bracket if needed" (or down, for the lower placement):
the value of `dy`. -/
def tuplet_shift (H : Hdr) (st : Score) (upper : Bool) (upstaff : Nat) (s2 : Nat)
    (xm ym a : ℚ) : Nat → Option Nat → ℚ → Option ℚ
  | 0, _, _ => none
  | _ + 1, none, _ => none
  | fuel + 1, some sy, dy =>
    match st.sym sy with
    | none => none
    | some v =>
      let dy1 :=
        if v.dur = 0 ∨ v.staff ≠ upstaff then dy
        else
          let yy := ym + (v.x - xm) * a
          let yx := y_get H st upstaff upper v.x 0
          if upper then (if yx - yy > dy then yx - yy else dy)
          else (if yx - yy < dy then yx - yy else dy)
      if sy = s2 then some dy1
      else tuplet_shift H st upper upstaff s2 xm ym a fuel v.next dy1

/-- Loop "shift the slurs / decorations" of the upper placement. -/
def tuplet_room_up (H : Hdr) (upstaff s2 : Nat) (xm ym a : ℚ) :
    Nat → Option Nat → Score → Option Score
  | 0, _, _ => none
  | _ + 1, none, _ => none
  | fuel + 1, some sy, st =>
    match st.sym sy with
    | none => none
    | some v =>
      if v.staff = upstaff then
        let yy := ym + (v.x - xm) * a
        let st := if (v.ymx : ℚ) < yy then st.upd sy (fun z => { z with ymx := ctrunc yy })
                  else st
        if sy = s2 then some st
        else
          match v.next.bind st.sym with
          | none => none
          | some nv =>
            tuplet_room_up H upstaff s2 xm ym a fuel v.next
              (y_set H st upstaff true v.x (nv.x - v.x) yy)
      else if sy = s2 then some st
      else tuplet_room_up H upstaff s2 xm ym a fuel v.next st

/-- Loop "shift the slurs / decorations" of the lower placement. -/
def tuplet_room_down (H : Hdr) (upstaff s2 : Nat) (xm ym a : ℚ) :
    Nat → Option Nat → Score → Option Score
  | 0, _, _ => none
  | _ + 1, none, _ => none
  | fuel + 1, some sy, st =>
    match st.sym sy with
    | none => none
    | some v =>
      if v.staff = upstaff then
        if sy = s2 then some st
        else
          let yy := ym + (v.x - xm) * a
          let st := if (v.ymn : ℚ) > yy then st.upd sy (fun z => { z with ymn := ctrunc yy })
                    else st
          match v.next.bind st.sym with
          | none => none
          | some nv =>
            tuplet_room_down H upstaff s2 xm ym a fuel v.next
              (y_set H st upstaff false v.x (nv.x - v.x) yy)
      else if sy = s2 then some st
      else tuplet_room_down H upstaff s2 xm ym a fuel v.next st

/-- Bracket placement of `draw_tuplet`, above the staff (`s1->multi >= 0`) or
below it, followed by the number in the bracket. -/
def tuplet_bracket (H : Hdr) (st : Score) (tv : SYMBOL) (s s1 s2 upstaff : Nat)
    (v1 v2 : SYMBOL) : Option Score :=
  let upper : Bool := decide (v1.multi ≥ 0)
  let x1 : ℚ :=
    if upper then (if v1.staff = upstaff ∧ v1.stem > 0 then v1.x - 4 + 3 else v1.x - 4)
    else v1.x - 7
  let y1o : Option ℚ :=
    if v1.staff = upstaff then
      (tuplet_end_sym st (fun z => z.next) s1 s2).map (fun sy =>
        let ym := y_get H st upstaff upper sy.x 0
        if upper then (if ym > 24 then ym else 24) else ym)
    else some (if upper then 24 else 0)
  let y2o : Option ℚ :=
    if v2.staff = upstaff then
      (tuplet_end_sym st (fun z => z.prev) s2 s1).map (fun sy =>
        let ym := y_get H st upstaff upper sy.x 0
        if upper then (if ym > 24 then ym else 24) else ym)
    else some (if upper then 24 else 0)
  match y1o, y2o, tuplet_x2 st upper upstaff v2 with
  | some y1, some y2, some x2 =>
    let xm := 1 / 2 * (x1 + x2)
    let ym := 1 / 2 * (y1 + y2)
    let a := (y2 - y1) / (x2 - x1)
    let s0 : ℚ :=
      if upper then
        ((3 * (v2.pits.getD v2.nhd 0 - v1.pits.getD v1.nhd 0) : Int) : ℚ) / (x2 - x1)
      else ((3 * (v2.pits.getD 0 0 - v1.pits.getD 0 0) : Int) : ℚ) / (x2 - x1)
    let a := tuplet_slope a s0
    match tuplet_shift H st upper upstaff s2 xm ym a st.fuel (some s1) 0 with
    | none => none
    | some dy =>
      let ym := if upper then ym + (dy + 4) else ym + (dy - 12)
      let y1 := ym + a * (x1 - xm)
      let y2 := ym + a * (x2 - xm)
      let st : Score :=
        { st with out := st.out ++
            [if upper then Prim.tubr (x2 - x1) (y2 - y1) x1 (y1 + 4) upstaff
             else Prim.tubrl (x2 - x1) (y2 - y1) x1 (y1 + 4) upstaff] }
      match (if upper then tuplet_room_up H upstaff s2 xm (ym + 8) a st.fuel (some s1) st
             else tuplet_room_down H upstaff s2 xm (ym - 8) a st.fuel (some s1) st) with
      | none => none
      | some st =>
        if tv.u &&& 0x0f = 1 then
          some ({ st with out := st.out ++ [Prim.tuplet_end] }.upd s
            (fun z => { z with sflags := { z.sflags with S_IN_TUPLET := false } }))
        else
          let yy := 1 / 2 * (y1 + y2)
          some ({ st with out := st.out ++
                    [Prim.bnumb tv.p_plet (if tv.u &&& 0x0f = 0 then none else some tv.q_plet)
                      xm yy upstaff] }.upd s
            (fun z => { z with sflags := { z.sflags with S_IN_TUPLET := false } }))
  | _, _, _ => none

/-- Body of `draw_tuplet(t, s)`; `call` stands for the recursive calls on the
nested tuplets and `slurs` for `draw_slurs`, which is reached only on the
bracket path. -/
def draw_tuplet_body (H : Hdr) (slurs : Score → Nat → Nat → Option Score) (call : TupletCall)
    (st : Score) (t s : Nat) : Option (Score × Nat) :=
  match st.sym t, st.sym s with
  | some tv, some sv =>
    if tv.u &&& 0x0f00 = 0x100 then some (st, s)
    else
      -- treat the nested tuplets starting on this symbol
      match tuplet_chain call s st.fuel tv.next st s with
      | none => none
      | some (st, next) =>
        -- search the first and last notes/rests of the tuplet
        match tuplet_members call s st.fuel (some s) st
                { r := tv.r_plet, upstaff := sv.staff, next := next } with
        | none => none
        | some (st, none, c) => some (st, c.next)
        | some (st, some s2, c) =>
          match later_sym st s2 c.next, c.s1 with
          | some next, some s1 =>
            match st.sym s1, st.sym s2 with
            | some v1, some v2 =>
              -- choice of the rendering
              let r : Option (Score × Bool) :=
                if s1 = s2 then some (st, true)
                else if tv.u &&& 0x0f0 = 0x10 then
                  (draw_slur H st s1 s2 (-1) (-1)
                    (if v1.stem > 0 then SL_ABOVE else SL_BELOW)).map (fun r => (r.1, true))
                else (tuplet_nb_only st tv v1 v2 s1 s2).map (fun b => (st, b))
              match r with
              | none => none
              | some (st, nb_only) =>
                if nb_only then
                  if tv.u &&& 0x0f = 1 then some (st, next)
                  else
                    match st.sym s1, st.sym s2 with
                    | some v1, some v2 =>
                      (tuplet_number H st tv s s1 s2 v1 v2).map (fun st => (st, next))
                    | _, _ => none
                else
                  -- draw the slurs when inside the tuplet
                  let so : Option (Score × Bool) :=
                    if c.some_slur then
                      match slurs st s1 s2 with
                      | none => none
                      | some st =>
                        match st.sym s1, st.sym s2 with
                        | some w1, some w2 =>
                          if w1.slur_st ≠ 0 ∨ w1.sflags.S_SL1 then some (st, true)
                          else
                            match tuplet_slur_left st s2 st.fuel w1.next with
                            | none => none
                            | some true => some (st, true)
                            | some false =>
                              some (st, decide (w2.slur_end ≠ 0 ∨ w2.sflags.S_SL2))
                        | _, _ => none
                    else some (st, false)
                  match so with
                  | none => none
                  | some (st, true) => some (st, next)
                  | some (st, false) =>
                    let st :=
                      if tv.u &&& 0x0f0 ≠ 0 then
                        { st with out := st.out ++
                            [Prim.error 0 t "'what' value of %%tuplets not yet coded"] }
                      else st
                    match st.sym s1, st.sym s2 with
                    | some v1, some v2 =>
                      (tuplet_bracket H st tv s s1 s2 c.upstaff v1 v2).map (fun st => (st, next))
                    | _, _ => none
            | _, _ => none
          | _, _ => none
  | _, _ => none

/-- Recursion of `draw_tuplet` on the nesting depth of the tuplets. -/
def draw_tuplet_depth (H : Hdr) (slurs : Score → Nat → Nat → Option Score) :
    Nat → TupletCall
  | 0 => fun _ _ _ => none
  | d + 1 => draw_tuplet_body H slurs (draw_tuplet_depth H slurs d)

/-- Draw a tuplet: `t` is the tuplet marker in the extra chain of the main
note `s`. -/
def draw_tuplet (H : Hdr) (slurs : Score → Nat → Nat → Option Score) (st : Score)
    (t s : Nat) : Option (Score × Nat) :=
  draw_tuplet_depth H slurs st.fuel st t s


/-- Test that the chain of `next` links starting at `g` ends within the fuel
and holds no `TUPLET` symbol. -/
def no_tuplet (st : Score) : Nat → Option Nat → Bool
  | 0, _ => false
  | _ + 1, none => true
  | fuel + 1, some g =>
    match st.sym g with
    | none => false
    | some gv => decide (gv.type ≠ SymType.TUPLET) && no_tuplet st fuel gv.next

/-- Pointers and symbols on a chain of `next` links: every pair but the last
points to the following one. -/
def linked : List (Nat × SYMBOL) → Prop
  | [] => True
  | [_] => True
  | a :: b :: r => a.2.next = some b.1 ∧ linked (b :: r)

/-- Eighth note number `i` (0..2) of `tupScore`: stem up, one flag, at
abscissa `50 + 20*i`; the first one starts the beam and carries the tuplet
marker in its extra chain, the last one ends the beam. -/
def tupNote (i : Nat) : SYMBOL :=
  { next := if i < 2 then some (i + 1) else none,
    prev := if i = 0 then none else some (i - 1),
    extra := if i = 0 then some 3 else none,
    pits := [(20 : Int) + i], as_pits := [(20 : Int) + i], shhd := [0], stem := 1, nflags := 1,
    x := 50 + 20 * i, xs := 50 + 20 * i + 7 / 2, y := 3 * ((2 : Int) + i),
    ys := 4 * (i : ℚ) + 30, ymn := 3 * ((2 : Int) + i) - 3, ymx := 4 * (i : Int) + 32,
    dur := 128, time := 128 * (i : Int),
    sflags := { S_BEAM_ST := decide (i = 0), S_BEAM_END := decide (i = 2), S_IN_TUPLET := true } }

/-- Tuplet marker `(3:2:3` with the default display mode (`u = 0`). -/
def tupMark : SYMBOL :=
  { type := SymType.TUPLET, as_type := AbcType.ABC_T_TUPLET, p_plet := 3, q_plet := 2,
    r_plet := 3, u := 0 }

/-- Triplet of three beamed eighth notes on one staff. -/
def tupScore : Score :=
  { syms := [tupNote 0, tupNote 1, tupNote 2, tupMark], realwidth := 500,
    staff_tb := [occStaff], voice_scale := [1] }

/-! ## Least-squares fit of a beam -/

/-- Stem tip of a note as summed by the loop "linear fit through stem ends":
abscissa of the stem end and height of the stem end above the page origin. -/
def beam_tip (st : Score) (stem_xoff : ℚ) (v : SYMBOL) : ℚ × ℚ :=
  (stem_x st stem_xoff v, v.ys + (st.staffOf v.staff).y)

/-- The five sums of a list of points `(x, y)`. -/
def tip_sums (l : List (ℚ × ℚ)) : BeamSums :=
  l.foldl (fun m t => m.add t.1 t.2) {}

/-- Sum over the points of the squared vertical distance to the line
`y = a*x + b`. -/
def sq_dist (l : List (ℚ × ℚ)) (a b : ℚ) : ℚ :=
  (l.map (fun t => (t.2 - a * t.1 - b) ^ 2)).sum



/-- Stem tips of the notes (`as.type == ABC_T_NOTE`) of a chain of symbols,
in the order of the chain. -/
def note_tips (st : Score) (stem_xoff : ℚ) (l : List (Nat × SYMBOL)) : List (ℚ × ℚ) :=
  (l.filter (fun pv => decide (pv.2.as_type = AbcType.ABC_T_NOTE))).map
    (fun pv => beam_tip st stem_xoff pv.2)


/-- Two values of a symbol that agree on every field read by the loop "linear
fit through stem ends" and on the `next` link. -/
def beam_same (v w : SYMBOL) : Prop :=
  w.next = v.next ∧ w.as_type = v.as_type ∧ w.ABC_F_GRACE = v.ABC_F_GRACE ∧ w.voice = v.voice
    ∧ w.staff = v.staff ∧ w.stem = v.stem ∧ w.shhd = v.shhd ∧ w.nhd = v.nhd ∧ w.x = v.x
    ∧ w.ys = v.ys


/-- Value of the duplicate that `calculate_beam` links after the last note
`v` of a beam that goes on in the next music line, as far as the fit reads
it: the copy of `v`, moved 12 to the right and no further left than
`realwidth - 12`. -/
def dup_next_sym (st : Score) (v : SYMBOL) : SYMBOL :=
  { sym_dup v with
    x := if v.x + 12 < st.realwidth - 12 then st.realwidth - 12 else v.x + 12 }


/-- Chain of `prev` links: every symbol of the list but the first points back
to the one before it. -/
def linked_prev (l : List (Nat × SYMBOL)) : Prop :=
  List.Chain' (fun a b => b.2.prev = some a.1) l

/-- Stem tips summed for the beam group made of the chain `l`, the state
being the one in which the search of the last note starts: the tips of the
notes of `l`, followed by the tip of the duplicate of the last note when that
note does not end the beam (the beam goes on in the next music line). -/
def group_tips (st : Score) (stem_xoff : ℚ) (l : List (Nat × SYMBOL)) : List (ℚ × ℚ) :=
  note_tips st stem_xoff l ++
    match (l.filter (fun pv => decide (pv.2.as_type = AbcType.ABC_T_NOTE))).getLast? with
    | none => []
    | some pv =>
      if pv.2.sflags.S_BEAM_END then []
      else [beam_tip st stem_xoff (dup_next_sym st pv.2)]


/-- Clef before the two notes of `openScore`. -/
def openClef : SYMBOL :=
  { next := some 1, ts_next := some 1, type := SymType.CLEF, as_type := AbcType.ABC_T_CLEF,
    x := 20, ymn := 0, ymx := 24 }

/-- Eighth note number `i` (1..2) of `openScore`: stem up, one flag, at
abscissa `400 + 30*i`, its stem tip at height `2*i + 30`; the first one starts
the beam and none ends it. -/
def openNote (i : Nat) : SYMBOL :=
  { next := if i < 2 then some (i + 1) else none, prev := some (i - 1),
    ts_next := if i < 2 then some (i + 1) else none, ts_prev := some (i - 1),
    pits := [(20 : Int) + i], as_pits := [(20 : Int) + i], shhd := [0], stem := 1, nflags := 1,
    x := 400 + 30 * i, y := 3 * ((2 : Int) + i), ys := 2 * (i : ℚ) + 30,
    ymn := 3 * ((2 : Int) + i) - 3, ymx := 2 * (i : Int) + 32,
    dur := 192, time := 192 * ((i : Int) - 1),
    sflags := { S_BEAM_ST := decide (i = 1) } }

/-- Two beamed eighth notes at the end of a music line, the beam going on in
the next line: the chain ends after the second note, which carries no beam
end. -/
def openScore : Score :=
  { syms := [openClef, openNote 1, openNote 2], realwidth := 500, staff_tb := [{ y := 0 }],
    voice_scale := [1] }

/-- Grace note number `i` (1..4) of `graceScore`: the note `lineNote i` as a
grace note, the second one with its stem down. -/
def graceNote (i : Nat) : SYMBOL :=
  { lineNote i with ABC_F_GRACE := true, stem := if i = 2 then -1 else 1 }

/-- Four beamed grace notes with stems in both directions, the staff origin
being defined (300). -/
def graceScore : Score :=
  { syms := [lineClef, graceNote 1, graceNote 2, graceNote 3, graceNote 4],
    realwidth := 500, staff_tb := [{ y := 300 }], voice_scale := [1] }

/-- Head of `k2` chosen by the loop "set up list of ties to draw" for the tie
of head `i` of `k1`: the head found by the inner loop, else the second choice
`tie2` when it is set. -/
def tie_pick (k1 k2 : SYMBOL) (i : Nat) : Option Nat :=
  match tie_search k1 k2 i (k1.as_pits.getD i 0) (k2.nhd + 1) (-1) with
  | (some m1, _) => some m1
  | (none, tie2) => if tie2 ≥ 0 then some tie2.toNat else none

/-- Second-choice test of the inner loop of the tie set-up: head `m` of `k2`
is one step away from the pitch of head `i` of `k1` and their accidentals
differ. -/
def tie_second (k1 k2 : SYMBOL) (i m : Nat) : Prop :=
  (k2.as_pits.getD m 0 - k1.as_pits.getD i 0 = 1
    ∨ k2.as_pits.getD m 0 - k1.as_pits.getD i 0 = -1)
  ∧ k1.accs.getD i 0 ≠ k2.accs.getD m 0

/-- Single note `c` (pitch 16) with a sharp, tied with automatic direction. -/
def pickNote1 : SYMBOL :=
  { nhd := 0, pits := [16], as_pits := [16], accs := [1], ti1 := [SL_AUTO], shhd := [0],
    x := 100, stem := 1, dur := 384, sflags := { S_TI1 := true } }

/-- Chord `c d` (pitches 16, 17), the `d` with a flat: it holds the pitch of
`pickNote1` and a head one step away with another accidental. -/
def pickChord2 : SYMBOL :=
  { nhd := 1, pits := [16, 17], as_pits := [16, 17], accs := [1, 3], ti1 := [0, 0],
    shhd := [0, 0], x := 150, stem := 1, dur := 384, time := 384 }

/-- Test that no head of `k3` has the pitch of head `i` of `k1`
(`as.u.note.pits`, the field compared by `draw_ties`). -/
def tie_unmatched (k1 : SYMBOL) (k3 : SYMBOL) (i : Nat) : Bool :=
  (List.range (k3.nhd + 1)).all (fun m => decide (k3.as_pits.getD m 0 ≠ k1.as_pits.getD i 0))

/-- Symbols tested by the loop `while (k3 && k3->time == time)` of `draw_ties`
for a tie of `k1`: the notes of the staff of `k1` at the time `time`. -/
def tie_candidate (k1 : SYMBOL) (time : Int) (v : SYMBOL) : Bool :=
  decide (v.time = time) && decide (v.as_type = AbcType.ABC_T_NOTE)
    && decide (v.staff = k1.staff)

/-- Chain of `ts_next` links that runs to the end of the time-ordered list:
every symbol points to the following one and the last one to `NULL`. -/
def linked_ts : List (Nat × SYMBOL) → Prop
  | [] => True
  | [a] => a.2.ts_next = none
  | a :: b :: r => a.2.ts_next = some b.1 ∧ linked_ts (b :: r)

/-- Tied heads among `M` that find no head of their pitch in the symbols
tested by the loop `while (k3 && k3->time == time)` of `draw_ties` started at
the head of the chain `R`: the notes of the staff of `k1` met while the time
is `time`. -/
def tie_bad (k1 : SYMBOL) (time : Int) (R : List (Nat × SYMBOL)) (M : List Nat) : List Nat :=
  M.filter (fun i =>
    ((R.takeWhile (fun pv => decide (pv.2.time = time))).filter
      (fun pv => decide (pv.2.as_type = AbcType.ABC_T_NOTE) && decide (pv.2.staff = k1.staff))).all
      (fun pv => tie_unmatched k1 pv.2 i))

/-- Single note `c` (pitch 16) tied with automatic direction, followed in the
voice and in the time-ordered list by symbol 1. -/
def badNote1 : SYMBOL :=
  { next := some 1, ts_next := some 1, nhd := 0, pits := [16], as_pits := [16], accs := [0],
    ti1 := [SL_AUTO], shhd := [0], x := 100, stem := 1, dur := 384,
    sflags := { S_TI1 := true } }

/-- Single note `g` (pitch 20) one beat later: it has no head for the tie of
`badNote1`. -/
def badNote2 : SYMBOL :=
  { prev := some 0, ts_prev := some 0, nhd := 0, pits := [20], as_pits := [20], accs := [0],
    ti1 := [0], shhd := [0], x := 150, stem := 1, dur := 384, time := 384 }

/-- One voice holding `badNote1` then `badNote2`. -/
def badScore : Score := { syms := [badNote1, badNote2], staff_tb := [{}] }

/-- Auxiliary state of a direction loop of `set_tie_dir` before head `n`: the
loop leaves it alone at an untied head of the array `l0` and applies `g` at a
tied one. -/
def tie_aux {α : Type} (l0 : List Nat) (g : Nat → α → α) (a0 : α) : Nat → α
  | 0 => a0
  | n + 1 => if l0.getD n 0 = 0 then tie_aux l0 g a0 n else g n (tie_aux l0 g a0 n)

/-- Number of tied heads of a chord below head number `n`. -/
def tied_below (s : SYMBOL) (n : Nat) : Nat :=
  ((List.range n).filter (fun i => decide (s.ti1.getD i 0 ≠ 0))).length

/-- Chord of three tied heads of automatic direction in a voice alone on its
staff, with the pitches `p0`, `p1`, `p2` from the lowest head up. -/
def splitChord (p0 p1 p2 : Int) : SYMBOL :=
  { nhd := 2, pits := [p0, p1, p2], as_pits := [p0, p1, p2],
    ti1 := [SL_AUTO, SL_AUTO, SL_AUTO], sflags := { S_TI1 := true } }

/-- One-symbol voice holding `splitChord p0 p1 p2`. -/
def splitScore (p0 p1 p2 : Int) : Score := { syms := [splitChord p0 p1 p2] }

/-- Two values of a symbol that differ at most in the fields written by the
fit of `calculate_beam`: `xs`, `ys`, `ymx`, `ymn`, `y` and `x`. -/
def refit_same (v w : SYMBOL) : Prop :=
  w = { v with xs := w.xs, ys := w.ys, ymx := w.ymx, ymn := w.ymn, y := w.y, x := w.x }

/-- State `st1` reached from `st` by stores of the fit of `calculate_beam`:
only symbols are written, only in the fields of `refit_same`; a symbol
behind a pointer of `S` keeps its `x` and `xs`, and is left as it is when its
pointer is not in `T`. -/
def adj_frame (S T : Nat → Prop) (st st1 : Score) : Prop :=
  st1 = { st with syms := st1.syms } ∧ st1.syms.length = st.syms.length
  ∧ ∀ q u, st.sym q = some u →
      ∃ w, st1.sym q = some w ∧ refit_same u w
        ∧ (S q → w.x = u.x ∧ w.xs = u.xs) ∧ (S q → ¬ T q → w = u)

/-- Abscissae `x` of the symbols met on the time-ordered list from `p` to its
end, in the order of the `ts_next` links. -/
def ts_xs (st : Score) : Nat → Option Nat → Option (List ℚ)
  | 0, _ => none
  | _ + 1, none => some []
  | fuel + 1, some p =>
    match st.sym p with
    | none => none
    | some v => (ts_xs st fuel v.ts_next).map (fun l => v.x :: l)

/-- Two notes of a beam that comes from the previous music line, 5 units
after a clef: the first note (at 65) carries no beam start, the second one (at
90) ends the beam.  The staff is defined (origin 100). -/
def prevScore : Score :=
  { syms :=
      [{ next := some 1, ts_next := some 1, type := SymType.CLEF,
         as_type := AbcType.ABC_T_CLEF, x := 60, ymn := 0, ymx := 24 },
       { next := some 2, prev := some 0, ts_next := some 2, ts_prev := some 0,
         pits := [21], as_pits := [21], shhd := [0], stem := 1, nflags := 1,
         x := 65, xs := 137 / 2, y := 9, ys := 32, ymn := 6, ymx := 34, dur := 192 },
       { prev := some 1, ts_prev := some 1,
         pits := [22], as_pits := [22], shhd := [0], stem := 1, nflags := 1,
         x := 90, xs := 187 / 2, y := 12, ys := 34, ymn := 9, ymx := 36, dur := 192,
         time := 192, sflags := { S_BEAM_END := true } }],
    realwidth := 500, staff_tb := [{ y := 100 }], voice_scale := [1, 1] }

/-- Two beamed notes at the end of a music line, the beam going on in the next
line (the second note, at 460, carries no beam end), and a note of a second
voice at the abscissa of the last one, after it in the time-ordered list.  The
staff is defined (origin 100). -/
def nextScore : Score :=
  { syms :=
      [{ next := some 1, ts_next := some 1, type := SymType.CLEF,
         as_type := AbcType.ABC_T_CLEF, x := 20, ymn := 0, ymx := 24 },
       { next := some 2, prev := some 0, ts_next := some 2, ts_prev := some 0,
         pits := [21], as_pits := [21], shhd := [0], stem := 1, nflags := 1,
         x := 430, xs := 867 / 2, y := 9, ys := 32, ymn := 6, ymx := 34, dur := 192,
         sflags := { S_BEAM_ST := true } },
       { prev := some 1, ts_next := some 3, ts_prev := some 1,
         pits := [22], as_pits := [22], shhd := [0], stem := 1, nflags := 1,
         x := 460, xs := 927 / 2, y := 12, ys := 34, ymn := 9, ymx := 36, dur := 192,
         time := 192 },
       { ts_prev := some 2, voice := 1,
         pits := [14], as_pits := [14], shhd := [0], stem := -1, nflags := 0,
         x := 460, xs := 913 / 2, y := -12, ys := -30, ymn := -32, ymx := -9, dur := 384,
         time := 192 }],
    realwidth := 500, staff_tb := [{ y := 100 }], voice_scale := [1, 1] }

/-- The recorded vertical extents only widen from `st` to `st1`: every symbol
of `st` is still there, with `ymx` not lower and `ymn` not higher. -/
def ext_widen (st st1 : Score) : Prop :=
  st1.syms.length = st.syms.length
  ∧ ∀ q v, st.sym q = some v → ∃ w, st1.sym q = some w ∧ v.ymx ≤ w.ymx ∧ w.ymn ≤ v.ymn

/-- Pointers met on the time-ordered list from `p` to its end (`NULL`). -/
def ts_chain (st : Score) : Nat → Option Nat → Option (List Nat)
  | 0, _ => none
  | _ + 1, none => some []
  | fuel + 1, some p =>
    match st.sym p with
    | none => none
    | some v => (ts_chain st fuel v.ts_next).map (fun l => p :: l)

/-- Modelled from the spec: `unlksym(s)` takes the symbol `s` out of the
voice chain and out of the time-ordered list: its neighbours are linked to
each other. -/
def unlksym (st : Score) (s : Nat) : Score :=
  match st.sym s with
  | none => st
  | some v =>
    let st := match v.next with
      | none => st
      | some n => st.upd n (fun z => { z with prev := v.prev })
    let st := match v.prev with
      | none => st
      | some p => st.upd p (fun z => { z with next := v.next })
    let st := match v.ts_next with
      | none => st
      | some n => st.upd n (fun z => { z with ts_prev := v.ts_prev })
    match v.ts_prev with
    | none => st
    | some p => st.upd p (fun z => { z with ts_next := v.ts_next })

/-- Last statement of `draw_beams`: `if (s1->sflags & S_TEMP) unlksym(s1);
else if (s2->sflags & S_TEMP) unlksym(s2);`, `unlk` standing for `unlksym`.
The statements of `draw_beams` before it write the output, the beam `bm` and
the field `ys` of notes, and no link. -/
def draw_beams_unlink (unlk : Score → Nat → Score) (st : Score) (bm : BEAM) : Option Score :=
  match st.sym bm.s1, st.sym bm.s2 with
  | some v1, some v2 =>
    some (if v1.sflags.S_TEMP then unlk st bm.s1
          else if v2.sflags.S_TEMP then unlk st bm.s2
          else st)
  | _, _ => none

/-- Two beamed notes that fill a music line, the beam coming from the
previous line and going on in the next one: the first note carries no beam
start, the second one no beam end and is the last symbol of the voice.  The
staff is defined (origin 100). -/
def bothScore : Score :=
  { syms :=
      [{ next := some 1, ts_next := some 1, type := SymType.CLEF,
         as_type := AbcType.ABC_T_CLEF, x := 20, ymn := 0, ymx := 24 },
       { next := some 2, prev := some 0, ts_next := some 2, ts_prev := some 0,
         pits := [21], as_pits := [21], shhd := [0], stem := 1, nflags := 1,
         x := 100, xs := 207 / 2, y := 9, ys := 32, ymn := 6, ymx := 34, dur := 192 },
       { prev := some 1, ts_prev := some 1,
         pits := [22], as_pits := [22], shhd := [0], stem := 1, nflags := 1,
         x := 460, xs := 927 / 2, y := 12, ys := 34, ymn := 9, ymx := 36, dur := 192,
         time := 192 }],
    realwidth := 500, staff_tb := [{ y := 100 }], voice_scale := [1] }

/-- Table `cw_tb` of subs.c: widths of the characters (Times-Roman), one entry
per code `0..255`. -/
def cw_tb : List Int := [
  500,500,500,500,500,500,500,500,
  500,500,500,500,500,500,500,500,
  500,500,500,500,500,500,500,500,
  500,500,500,500,500,500,500,500,
  250,333,408,500,500,833,778,333,
  333,333,500,564,250,564,250,278,
  500,500,500,500,500,500,500,500,
  500,500,278,278,564,564,564,444,
  921,722,667,667,722,611,556,722,
  722,333,389,722,611,889,722,722,
  556,722,667,556,611,722,722,944,
  722,722,611,333,278,333,469,500,
  333,444,500,444,500,444,333,500,
  500,278,278,500,278,778,500,500,
  500,500,333,389,278,500,500,722,
  500,500,444,480,200,480,541,500,
  500,500,500,500,500,500,500,500,
  500,500,500,500,500,500,500,500,
  500,500,500,500,500,500,500,500,
  500,500,500,500,500,500,500,500,
  250,333,500,500,500,500,200,500,
  333,760,276,500,564,333,760,333,
  400,564,300,300,333,500,453,350,
  333,278,310,500,750,750,750,444,
  722,722,722,722,722,722,889,667,
  611,611,611,611,333,333,333,333,
  722,722,722,722,722,722,722,564,
  722,722,722,722,722,722,556,500,
  444,444,444,444,444,444,667,444,
  444,444,444,444,278,278,278,278,
  500,500,500,500,500,500,500,564,
  500,500,500,500,500,500,500,500]

/-- Index with which `cwid` reads `cw_tb` for the character code `c` (an
`unsigned short`): the test is `c > sizeof cw_tb / sizeof cw_tb[0]` and the
replacement is the code of the letter a. -/
def cwid_index (c : Nat) : Nat :=
  if c > cw_tb.length then 97 else c

/-- Function `cwid` of subs.c, "return the character width": `none` when the
read falls outside the table. -/
def cwid (c : Nat) : Option ℚ :=
  (cw_tb[cwid_index c]?).map (fun w => (w : ℚ) / 1000)

/-- Code that `tex_str` passes to `cwid` on a UTF-8 continuation byte `c1`
that follows the byte `dprev` (the last one copied, `d[-1]`):
`((d[-1] & 0x0f) << 6) | (c1 & 0x3f)`. -/
def tex_unicode (dprev c1 : Nat) : Nat :=
  ((dprev &&& 0x0f) <<< 6) ||| (c1 &&& 0x3f)

/-- Endpoints of a slur rising by 30 over a width of 10 (raw slope 3). -/
def steepEnds : SlurEnds := { x1 := 0, y1 := 0, x2 := 10, y2 := 30 }

/-- Lines "max steepness for beam" of `calculate_beam`, for normal notes. -/
def beam_steepness (H : Hdr) (a : ℚ) : ℚ :=
  if a ≥ 0 then H.BEAM_SLOPE * a / (H.BEAM_SLOPE + a)
  else H.BEAM_SLOPE * a / (H.BEAM_SLOPE - a)

/-- Chord of four heads starting ties: the lowest of automatic direction, the
next one dotted with the direction above, the third head without tie, the
highest dotted of automatic direction. -/
def mixChord : SYMBOL :=
  { next := some 1, nhd := 3, pits := [16, 18, 20, 23], as_pits := [16, 18, 20, 23],
    ti1 := [SL_AUTO, SL_DOTTED ||| SL_ABOVE, 0, SL_DOTTED ||| SL_AUTO],
    sflags := { S_TI1 := true } }

/-- Note without the tie-start flag whose tie field holds the automatic
direction. -/
def mixNote : SYMBOL :=
  { prev := some 0, pits := [20], as_pits := [20], ti1 := [SL_AUTO] }

/-- One voice holding `mixChord` then `mixNote`. -/
def mixScore : Score := { syms := [mixChord, mixNote] }

/-- Conversion of an `int` to `signed char` (8 bits, two's complement). -/
def schar (x : Int) : Int := (x + 128) % 256 - 128

/-- Body of the loop "set the normal offsets" of `setdoty`; `doty` stands for
`s->doty`. -/
def setdoty_normal (s : SYMBOL) (doty : Int) (m : Nat) (y_tb : List Int) : List Int :=
  let y := 3 * (s.pits.getD m 0 - 18)
  let y := if Int.tmod y 6 = 0 then (if doty ≠ 0 then y - 3 else y + 3) else y
  y_tb.set m (schar y)

/-- Loop `while (m1 > 0)` of `setdoty`, started with `m1 = m`: the value of
`m1` at its end. -/
def setdoty_start (y_tb : List Int) : Nat → Nat
  | 0 => 0
  | m1 + 1 =>
    if y_tb.getD (m1 + 1) 0 > y_tb.getD m1 0 + 6 then m1 + 1
    else setdoty_start y_tb m1

/-- Loop `while (m1 <= m) y_tb[m1++] -= 6` of `setdoty`. -/
def setdoty_lower (m1 m : Nat) (y_tb : List Int) : List Int :=
  for_range (m + 1)
    (fun i y_tb => if m1 ≤ i then y_tb.set i (schar (y_tb.getD i 0 - 6)) else y_tb) y_tb

/-- Body of the loop "dispatch and recenter the dots in the staff spaces" of
`setdoty`. -/
def setdoty_recenter (s : SYMBOL) (m : Nat) (y_tb : List Int) : List Int :=
  if y_tb.getD (m + 1) 0 > y_tb.getD m 0 then y_tb
  else
    let m1 := setdoty_start y_tb m
    if 3 * (s.pits.getD m1 0 - 18) - y_tb.getD m1 0
        < y_tb.getD (m + 1) 0 - 3 * (s.pits.getD (m + 1) 0 - 18) then
      setdoty_lower m1 m y_tb
    else y_tb.set (m + 1) (schar (y_tb.getD m 0 + 6))

/-- Function `setdoty`, "set the y offset of the dots": the array `y_tb`
(of `signed char`) it leaves; `doty` stands for `s->doty`. -/
def setdoty (s : SYMBOL) (doty : Int) (y_tb : List Int) : List Int :=
  for_range s.nhd (setdoty_recenter s)
    (for_range (s.nhd + 1) (setdoty_normal s doty) y_tb)

/-- Chord of the heads of pitches `pits`, lowest first. -/
def dotChord (pits : List Int) : SYMBOL :=
  { nhd := pits.length - 1, pits := pits, as_pits := pits, dots := 1 }

/-- Height `3 * (s->pits[m] - 18)` of head `j` on the staff. -/
def dot_height (s : SYMBOL) (j : Nat) : Int := 3 * (s.pits.getD j 0 - 18)

/-- Value that the loop "set the normal offsets" of `setdoty` computes for
head `j`, before its conversion to `signed char`. -/
def dot_normal (s : SYMBOL) (doty : Int) (j : Nat) : Int :=
  if Int.tmod (dot_height s j) 6 = 0 then
    (if doty ≠ 0 then dot_height s j - 3 else dot_height s j + 3)
  else dot_height s j

/-- State of the array `y_tb` of `setdoty` when `m` rounds of the loop
"dispatch and recenter" are done, for a chord of heads `0..n`: every offset is
an odd multiple of 3, the offsets of the heads `0..m` increase by steps of 6
at least, those of the heads above `m` are the normal ones, an offset above
the normal one is 6 above the offset of the head below, and (dots going up)
the group of heads at steps of 6 that ends at `m` is not higher above its top
head than 6 more than it is below its lowest head, as long as that one is not
below its height. -/
def dot_inv (s : SYMBOL) (doty : Int) (n m : Nat) (y : List Int) : Prop :=
  n < y.length
  ∧ (∀ j, j ≤ n → y.getD j 0 % 6 = 3)
  ∧ (∀ j, j < m → y.getD j 0 + 6 ≤ y.getD (j + 1) 0)
  ∧ (∀ j, m < j → j ≤ n → y.getD j 0 = dot_normal s doty j)
  ∧ (∀ j, j ≤ m → dot_normal s doty j < y.getD j 0 →
      1 ≤ j ∧ y.getD j 0 = y.getD (j - 1) 0 + 6)
  ∧ (doty = 0 →
      dot_height s (setdoty_start y m) - y.getD (setdoty_start y m) 0 ≤ 0 →
      y.getD m 0 - dot_height s m
        ≤ dot_height s (setdoty_start y m) - y.getD (setdoty_start y m) 0 + 6)
  ∧ (∀ j, j ≤ n → dot_height s 0 - 3 - 6 * (m : Int) ≤ y.getD j 0
      ∧ y.getD j 0 ≤ dot_height s n + 3 + 6 * (m : Int))

/-- Loop `for ( ; g; g = g->next) if (g->type == TUPLET)` of `draw_sym_near`:
the first tuplet marker of the chain `extra`, or `NULL`. -/
def tuplet_in_extra (st : Score) : Nat → Option Nat → Option (Option Nat)
  | 0, _ => none
  | _ + 1, none => some none
  | fuel + 1, some g =>
    match st.sym g with
    | none => none
    | some gv =>
      if gv.type = SymType.TUPLET then some (some g) else tuplet_in_extra st fuel gv.next

/-- Loop "draw the tuplets near the notes" of `draw_sym_near`, which is also
the loop "draw the tuplets over the slurs":
`for (s = s->next; s; s = s->next)`, entered at `s`. -/
def near_tuplets (H : Hdr) (slurs : Score → Nat → Nat → Option Score) :
    Nat → Option Nat → Score → Option Score
  | 0, _, _ => none
  | _ + 1, none, st => some st
  | fuel + 1, some s, st =>
    match st.sym s with
    | none => none
    | some v =>
      if v.sflags.S_IN_TUPLET ∧ v.extra ≠ none then
        match tuplet_in_extra st st.fuel v.extra with
        | none => none
        | some none => near_tuplets H slurs fuel v.next st
        | some (some g) =>
          match draw_tuplet H slurs st g s with
          | none => none
          | some (st1, s1) =>
            match st1.sym s1 with
            | none => none
            | some w => near_tuplets H slurs fuel w.next st1
      else near_tuplets H slurs fuel v.next st

/-- The two loops of tuplets of `draw_sym_near` for the voice whose first
symbol is `sym`, with the call of `draw_all_slurs` between them;
`all_slurs` stands for `draw_all_slurs(p_voice)`. -/
def near_voice_tuplets (H : Hdr) (slurs : Score → Nat → Nat → Option Score)
    (all_slurs : Score → Option Score) (st : Score) (sym : Nat) : Option Score :=
  match st.sym sym with
  | none => none
  | some v0 =>
    match near_tuplets H slurs st.fuel v0.next st with
    | none => none
    | some st1 =>
      match all_slurs st1 with
      | none => none
      | some st2 =>
        match st2.sym sym with
        | none => none
        | some w0 => near_tuplets H slurs st2.fuel w0.next st2

/-- Clef that starts the voice of `markScore`. -/
def markClef : SYMBOL :=
  { next := some 1, ts_next := some 1, type := SymType.CLEF, as_type := AbcType.ABC_T_CLEF,
    x := 20, ymn := 0, ymx := 24 }

/-- Eighth note number `i` (1..3) of `markScore`: stem up, one flag, at
abscissa `30 + 20*i`; the first one starts the beam and carries the tuplet
marker in its extra chain, the last one ends the beam; no note carries a
slur. -/
def markNote (i : Nat) : SYMBOL :=
  { next := if i < 3 then some (i + 1) else none,
    prev := some (i - 1),
    extra := if i = 1 then some 4 else none,
    pits := [(19 : Int) + i], as_pits := [(19 : Int) + i], shhd := [0], stem := 1, nflags := 1,
    x := 30 + 20 * i, xs := 30 + 20 * i + 7 / 2, y := 3 * ((1 : Int) + i),
    ys := 4 * (i : ℚ) + 26, ymn := 3 * ((1 : Int) + i) - 3, ymx := 4 * (i : Int) + 28,
    dur := 128, time := 128 * ((i : Int) - 1),
    sflags := { S_BEAM_ST := decide (i = 1), S_BEAM_END := decide (i = 3),
                S_IN_TUPLET := true } }

/-- Tuplet marker `(3:2:3` whose display mode is `u`. -/
def markTuplet (u : Nat) : SYMBOL :=
  { type := SymType.TUPLET, as_type := AbcType.ABC_T_TUPLET, p_plet := 3, q_plet := 2,
    r_plet := 3, u := u }

/-- Voice of a clef and a triplet of three beamed eighth notes, the tuplet
being displayed in the mode `u` (`%%tuplets`: `when` in bits 8-11, `what` in
bits 4-7, `value` in bits 0-3). -/
def markScore (u : Nat) : Score :=
  { syms := [markClef, markNote 1, markNote 2, markNote 3, markTuplet u], realwidth := 500,
    staff_tb := [occStaff], voice_scale := [1] }

/-- Left end `x1` of the bracket of `draw_tuplet`; `upper` tells the
placement. -/
def tuplet_x1 (upper : Bool) (upstaff : Nat) (v1 : SYMBOL) : ℚ :=
  if upper then (if v1.staff = upstaff ∧ v1.stem > 0 then v1.x - 4 + 3 else v1.x - 4)
  else v1.x - 7

/-- Slope `s0` of the pitches of the boundary heads over the width `dx` of the
bracket: `3 * (s2->pits[s2->nhd] - s1->pits[s1->nhd]) / (x2 - x1)` above the
staff, with the heads 0 below it. -/
def tuplet_s0 (upper : Bool) (v1 v2 : SYMBOL) (dx : ℚ) : ℚ :=
  if upper then
    ((3 * (v2.pits.getD v2.nhd 0 - v1.pits.getD v1.nhd 0) : Int) : ℚ) / dx
  else ((3 * (v2.pits.getD 0 0 - v1.pits.getD 0 0) : Int) : ℚ) / dx

/-- Primitive `tubr` (or `tubrl` below the staff) written by `draw_tuplet` for
the bracket of ends `x1`, `x2` on the line of slope `a` through `(xm, ym)`. -/
def tuplet_line (upper : Bool) (x1 x2 xm ym a : ℚ) (upstaff : Nat) : Prim :=
  let y1 := ym + a * (x1 - xm)
  let y2 := ym + a * (x2 - xm)
  if upper then Prim.tubr (x2 - x1) (y2 - y1) x1 (y1 + 4) upstaff
  else Prim.tubrl (x2 - x1) (y2 - y1) x1 (y1 + 4) upstaff

/-- A staff whose occupancy top is 0 in the first 20 columns and 40 in the
others. -/
def stepStaff : STAFF_S :=
  { topbar := 24, botbar := 0, top := List.replicate 20 0 ++ List.replicate 108 40,
    bot := List.replicate 128 24 }

/-- The triplet of `markScore` with a bracket always drawn and no number
(`u = 0x201`), on `stepStaff`. -/
def stepScore : Score := { markScore 0x201 with staff_tb := [stepStaff] }

/-- Clef that starts the upper voice of `clashScore`. -/
def clashClef : SYMBOL :=
  { next := some 1, ts_next := some 1, type := SymType.CLEF, as_type := AbcType.ABC_T_CLEF,
    x := 20, ymn := 0, ymx := 24 }

/-- Two voices on one staff, all stems up, the staves not yet defined
(`staff_tb[0].y = 0`).  Voice 0 holds the clef and the beamed notes 1 and 2
(abscissae 100 and 120, stem tips at 20 and 60); voice 1 holds the beamed
notes 3 and 4 (abscissae 120 and 140), the note 3 sounding with the note 2 at
the same abscissa and following it in the time-ordered list. -/
def clashScore : Score :=
  { syms :=
      [clashClef,
       { next := some 2, prev := some 0, ts_next := some 2, ts_prev := some 0,
         pits := [18], as_pits := [18], shhd := [0], stem := 1, nflags := 1,
         x := 100, xs := 207 / 2, y := 0, ys := 20, ymn := -3, ymx := 22, dur := 96,
         sflags := { S_BEAM_ST := true } },
       { prev := some 1, ts_next := some 3, ts_prev := some 1,
         pits := [31], as_pits := [31], shhd := [0], stem := 1, nflags := 1,
         x := 120, xs := 247 / 2, y := 39, ys := 60, ymn := 36, ymx := 62, dur := 96,
         time := 96, sflags := { S_BEAM_END := true } },
       { next := some 4, ts_next := some 4, ts_prev := some 2, voice := 1,
         pits := [24], as_pits := [24], shhd := [0], stem := 1, nflags := 1,
         x := 120, xs := 247 / 2, y := 18, ys := 40, ymn := 15, ymx := 42, dur := 48,
         time := 96, sflags := { S_BEAM_ST := true } },
       { prev := some 3, ts_prev := some 3, voice := 1,
         pits := [24], as_pits := [24], shhd := [0], stem := 1, nflags := 1,
         x := 140, xs := 287 / 2, y := 18, ys := 40, ymn := 15, ymx := 42, dur := 48,
         time := 144, sflags := { S_BEAM_END := true } }],
    realwidth := 500, staff_tb := [{ y := 0 }], voice_scale := [1, 1] }

/-- A clef and two beamed eighth notes with opposite stems, 7 units apart:
the first one (stem up) starts the beam, the second one (stem down) ends it.
The staves are not defined yet (`staff_tb[0].y = 0`). -/
def pinchScore : Score :=
  { syms :=
      [{ next := some 1, ts_next := some 1, type := SymType.CLEF,
         as_type := AbcType.ABC_T_CLEF, x := 20, ymn := 0, ymx := 24 },
       { next := some 2, prev := some 0, ts_next := some 2, ts_prev := some 0,
         pits := [16], as_pits := [16], shhd := [0], stem := 1, nflags := 1,
         x := 100, xs := 207 / 2, y := -6, ys := 15, ymn := -9, ymx := 17, dur := 192,
         sflags := { S_BEAM_ST := true } },
       { prev := some 1, ts_prev := some 1,
         pits := [28], as_pits := [28], shhd := [0], stem := -1, nflags := 1,
         x := 107, xs := 207 / 2, y := 30, ys := 9, ymn := 7, ymx := 33, dur := 192,
         time := 192, sflags := { S_BEAM_END := true } }],
    realwidth := 500, staff_tb := [{ y := 0 }], voice_scale := [1] }

/-- The output buffer of `st1` is that of `st` followed by what was written in
between: nothing of `st.out` is lost or moved. -/
def out_grows (st st1 : Score) : Prop := ∃ l, st1.out = st.out ++ l

/-! ## The function `draw_sym_near` -/

/-- Accidental code `A_SH` (sharp) of `abcparse.h`: the index of `"sh"` in the
table `acc_tb` of `draw.c`. -/
def A_SH : Nat := 1

/-- Accidental code `A_NT` (natural): the index of `"nt"` in `acc_tb`. -/
def A_NT : Nat := 2

/-- Functions called by `draw_sym_near` that are not translated: each one is
given as a function on the state.  `draw_all_slurs` takes the rank of the
voice in the list of the voices, `set_sscale` its argument `staff`, and
`draw_slurs` (called by `draw_tuplet`) its two symbols. -/
structure NearCalls where
  set_tie_room : Score → Option Score
  draw_deco_near : Score → Option Score
  draw_measnb : Score → Option Score
  draw_deco_note : Score → Option Score
  set_sscale : Int → Score → Option Score
  draw_slurs : Score → Nat → Nat → Option Score
  draw_all_slurs : Nat → Score → Option Score
  draw_all_lyrics : Score → Option Score
  draw_deco_staff : Score → Option Score

/-- Loop `for (s = p_voice->sym; s; s = s->next)` of the block "calculate the
beams but don't draw them" of `draw_sym_near`, carrying `first_note`. -/
def near_beam_loop (H : Hdr) : Nat → Option Nat → Bool → Score → Option Score
  | 0, _, _, _ => none
  | _ + 1, none, _, st => some st
  | fuel + 1, some s, first_note, st =>
    match st.sym s with
    | none => none
    | some v =>
      if v.as_type ≠ AbcType.ABC_T_NOTE then near_beam_loop H fuel v.next first_note st
      else if (v.sflags.S_BEAM_ST ∧ ¬ v.sflags.S_BEAM_END)
          ∨ (first_note ∧ ¬ v.sflags.S_BEAM_ST) then
        match calculate_beam H st {} s with
        | none => none
        | some (st1, _, _) =>
          match st1.sym s with
          | none => none
          | some w => near_beam_loop H fuel w.next false st1
      else near_beam_loop H fuel v.next first_note st

/-- Block "calculate the beams but don't draw them" of `draw_sym_near`: the
loop over the voices, given by their first symbols `p_voice->sym`.  A call of
`calculate_beam` adds two symbols at most to the chain of a voice. -/
def near_beams (H : Hdr) : List (Option Nat) → Score → Option Score
  | [], st => some st
  | sym :: V, st =>
    match near_beam_loop H (3 * st.fuel) sym true st with
    | none => none
    | some st1 => near_beams H V st1

/-- Loop over the grace notes `g = s->extra; g; g = g->next` of the block
"set the min/max vertical offsets". -/
def near_minmax_grace (H : Hdr) (staff : Nat) : Nat → Option Nat → Score → Option Score
  | 0, _, _ => none
  | _ + 1, none, st => some st
  | fuel + 1, some g, st =>
    match st.sym g with
    | none => none
    | some gv =>
      let st := y_set H st staff true (gv.x - gv.wl) (gv.wl + gv.wr) ((gv.ymx + 1 : Int) : ℚ)
      let st := y_set H st staff false (gv.x - gv.wl) (gv.wl + gv.wr) ((gv.ymn - 1 : Int) : ℚ)
      near_minmax_grace H staff fuel gv.next st

/-- Statements "have room for the accidentals" of the block "set the min/max
vertical offsets", for the note `v` at `s`. -/
def near_minmax_accs (H : Hdr) (st : Score) (s : Nat) (v : SYMBOL) : Score :=
  let st :=
    if v.accs.getD v.nhd 0 ≠ 0 then
      let y : Int := v.y + 8
      let st := if v.ymx < y then st.upd s (fun z => { z with ymx := y }) else st
      y_set H st v.staff true v.x 0 (y : ℚ)
    else st
  if v.accs.getD 0 0 ≠ 0 then
    let y : Int :=
      if v.accs.getD 0 0 &&& 0x07 = A_SH ∨ v.accs.getD 0 0 = A_NT then v.y - 7 else v.y - 5
    let st := if v.ymn > y then st.upd s (fun z => { z with ymn := y }) else st
    y_set H st v.staff false v.x 0 (y : ℚ)
  else st

/-- Block "set the min/max vertical offsets" of `draw_sym_near`:
`for (s = tsfirst; s; s = s->ts_next)`. -/
def near_minmax (H : Hdr) : Nat → Option Nat → Score → Option Score
  | 0, _, _ => none
  | _ + 1, none, st => some st
  | fuel + 1, some s, st =>
    match st.sym s with
    | none => none
    | some v =>
      if v.ABC_F_INVIS then near_minmax H fuel v.ts_next st
      else if v.type = SymType.GRACE then
        match near_minmax_grace H v.staff st.fuel v.extra st with
        | none => none
        | some st1 => near_minmax H fuel v.ts_next st1
      else
        let st1 :=
          if v.type ≠ SymType.MREST then
            y_set H
              (y_set H st v.staff true (v.x - v.wl) (v.wl + v.wr) ((v.ymx + 2 : Int) : ℚ))
              v.staff false (v.x - v.wl) (v.wl + v.wr) ((v.ymn - 2 : Int) : ℚ)
          else y_set H st v.staff true (v.x - 16) 32 ((v.ymx + 2 : Int) : ℚ)
        if v.as_type ≠ AbcType.ABC_T_NOTE then near_minmax H fuel v.ts_next st1
        else near_minmax H fuel v.ts_next (near_minmax_accs H st1 s v)

/-- Statements of `draw_sym_near` between the block "initialize the y offsets"
and the loop over the voices that draws the tuplets and the slurs:
`set_tie_room()`, `draw_deco_near()`, the block "set the min/max vertical
offsets", `draw_measnb()` when `cfmt.measurenb >= 0`, `draw_deco_note()`. -/
def near_prepare (C : NearCalls) (H : Hdr) (measurenb : Int) (tsfirst : Option Nat)
    (st : Score) : Option Score :=
  match C.set_tie_room st with
  | none => none
  | some st =>
    match C.draw_deco_near st with
    | none => none
    | some st =>
      match near_minmax H st.fuel tsfirst st with
      | none => none
      | some st =>
        match (if measurenb ≥ 0 then C.draw_measnb st else some st) with
        | none => none
        | some st => C.draw_deco_note st

/-- Loop over the voices of `draw_sym_near` that draws the tuplets and the
slurs: for a voice with a symbol, `set_sscale(s->staff)`, the loop "draw the
tuplets near the notes", `draw_all_slurs(p_voice)` and the loop "draw the
tuplets over the slurs"; `i` is the rank of the first voice of the list. -/
def near_draw_voices (C : NearCalls) (H : Hdr) : Nat → List (Option Nat) → Score → Option Score
  | _, [], st => some st
  | i, none :: V, st => near_draw_voices C H (i + 1) V st
  | i, some sym :: V, st =>
    match st.sym sym with
    | none => none
    | some v0 =>
      match C.set_sscale v0.staff st with
      | none => none
      | some st1 =>
        match near_voice_tuplets H C.draw_slurs (C.draw_all_slurs i) st1 sym with
        | none => none
        | some st2 => near_draw_voices C H (i + 1) V st2

/-- Statements of `draw_sym_near` after the block "set the top and bottom for
all symbols to be out of the staves": `draw_all_lyrics()`,
`draw_deco_staff()`, `set_sscale(-1)`. -/
def near_finish (C : NearCalls) (st : Score) : Option Score :=
  match C.draw_all_lyrics st with
  | none => none
  | some st =>
    match C.draw_deco_staff st with
    | none => none
    | some st => C.set_sscale (-1) st

/-- Function `draw_sym_near`, "draw symbols at proximity" : `V` is the list
of the voices from `first_voice`, each given by its first symbol
`p_voice->sym`, `tsfirst` the head of the time-ordered list and `measurenb`
the option `cfmt.measurenb`. -/
def draw_sym_near (C : NearCalls) (H : Hdr) (measurenb : Int) (tsfirst : Option Nat)
    (V : List (Option Nat)) (st : Score) : Option Score :=
  match near_beams H V st with
  | none => none
  | some st =>
    match near_prepare C H measurenb tsfirst (init_y_offsets H st) with
    | none => none
    | some st =>
      match near_draw_voices C H 0 V st with
      | none => none
      | some st => near_finish C (clamp_y_offsets H st)

/-- Calls of a score without tie, decoration, measure number, slur and lyrics,
on staves of scale 1: the functions not translated have nothing to do. -/
def plainCalls : NearCalls :=
  { set_tie_room := fun st => some st,
    draw_deco_near := fun st => some st,
    draw_measnb := fun st => some st,
    draw_deco_note := fun st => some st,
    set_sscale := fun _ st => some st,
    draw_slurs := fun st _ _ => some st,
    draw_all_slurs := fun _ st => some st,
    draw_all_lyrics := fun st => some st,
    draw_deco_staff := fun st => some st }

/-- Clef number `i` that starts the voice `i` of `duoScore` on the staff `i`. -/
def duoClef (i : Nat) : SYMBOL :=
  { next := some (4 * i + 1),
    ts_next := if i = 0 then some 4 else some 1,
    ts_prev := if i = 0 then none else some 0,
    type := SymType.CLEF, as_type := AbcType.ABC_T_CLEF, voice := i, staff := i,
    x := 20, ymn := 0, ymx := 24, wl := 12, wr := 12 }

/-- Eighth note number `k` (1..3) of the voice `i` of `duoScore`: stem up, one
flag, at abscissa `30 + 20*k`; the first one starts the beam and carries the
tuplet marker of the voice in its extra chain, the last one ends the beam; no
note carries a slur.  In the time-ordered list the note of the voice 0 comes
before the note of the voice 1 that sounds with it. -/
def duoNote (i k : Nat) : SYMBOL :=
  { next := if k < 3 then some (4 * i + k + 1) else none,
    prev := some (4 * i + k - 1),
    ts_next := if i = 0 then some (4 + k) else if k < 3 then some (k + 1) else none,
    ts_prev := if i = 0 then (if k = 1 then some 4 else some (4 + k - 1)) else some k,
    extra := if k = 1 then some (8 + i) else none,
    voice := i, staff := i,
    pits := [(19 : Int) + k], as_pits := [(19 : Int) + k], shhd := [0], stem := 1, nflags := 1,
    x := 30 + 20 * k, xs := 30 + 20 * k + 7 / 2, y := 3 * ((1 : Int) + k),
    ys := 4 * (k : ℚ) + 26, ymn := 3 * ((1 : Int) + k) - 3, ymx := 4 * (k : Int) + 28,
    wl := 5, wr := 5, dur := 128, time := 128 * ((k : Int) - 1),
    sflags := { S_BEAM_ST := decide (k = 1), S_BEAM_END := decide (k = 3),
                S_IN_TUPLET := true } }

/-- Two voices on two staves, each one a clef and a triplet of three beamed
eighth notes and none with a slur: the triplet of the voice 0 is displayed as
a slur without number (`u = 0x11`), the triplet of the voice 1 as a number
(`u = 0`).  The symbols 0..3 are the voice 0, 4..7 the voice 1, 8 and 9 the
tuplet markers; the staves are not defined yet. -/
def duoScore : Score :=
  { syms := [duoClef 0, duoNote 0 1, duoNote 0 2, duoNote 0 3,
             duoClef 1, duoNote 1 1, duoNote 1 2, duoNote 1 3,
             markTuplet 0x11, markTuplet 0],
    realwidth := 500, nstaff := 1,
    staff_tb := [{ occStaff with y := 0 }, { occStaff with y := 0 }], voice_scale := [1, 1] }

/-! ## Binary floating point (`float`, `double`) -/

/-- Integer part of the binary logarithm of `n`: the number `k` with
`2^k <= n < 2^(k+1)` for `n >= 1`, and 0 for `n = 0`.  The first argument
bounds the number of halvings. -/
def ilog2 : Nat → Nat → Nat
  | 0, _ => 0
  | fuel + 1, n => if n ≥ 2 then ilog2 fuel (n / 2) + 1 else 0

/-- Rounding of the rational `q` to the nearest number `m * 2^u` with
`m < 2^p` and `u >= emin`, ties going to the even `m`: the rounding to nearest
of the IEEE 754 binary formats of precision `p` whose smallest positive number
is `2^emin`.  The overflow to infinity is not represented: the results met in
`calculate_beam` are far below the largest finite number. -/
def fround (p : Nat) (emin : Int) (q : ℚ) : ℚ :=
  if q = 0 then 0
  else
    let n := q.num.natAbs
    let d := q.den
    -- exponent of the leading bit: 2^e <= |q| < 2^(e+1)
    let e0 : Int := (ilog2 n n : Int) - (ilog2 d d : Int)
    let e : Int :=
      if e0 ≥ 0 then (if n < d * 2 ^ e0.toNat then e0 - 1 else e0)
      else (if n * 2 ^ (-e0).toNat < d then e0 - 1 else e0)
    -- exponent of the last place
    let u : Int := max (e - ((p : Int) - 1)) emin
    -- |q| / 2^u as a fraction, its integer part and the rest
    let N := if u ≥ 0 then n else n * 2 ^ (-u).toNat
    let D := if u ≥ 0 then d * 2 ^ u.toNat else d
    let m := if 2 * (N % D) > D ∨ (2 * (N % D) = D ∧ (N / D) % 2 = 1) then N / D + 1 else N / D
    let z : ℚ :=
      if u ≥ 0 then ((m * 2 ^ u.toNat : Nat) : ℚ)
      else ((m : Nat) : ℚ) / ((2 ^ (-u).toNat : Nat) : ℚ)
    if q < 0 then -z else z

/-- Rounding to the type `float` (binary32: 24 bits, smallest number
`2^-149`). -/
def f32 (q : ℚ) : ℚ := fround 24 (-149) q

/-- Rounding to the type `double` (binary64: 53 bits, smallest number
`2^-1074`). -/
def f64 (q : ℚ) : ℚ := fround 53 (-1074) q

/-! ## The fit of `calculate_beam` in binary floating point

The definitions `stem_x`, `beam_sums`, ..., `beam_refit` above take the
arithmetic of `calculate_beam` as exact.  The definitions of this section are
the same statements with the arithmetic of the C types: a variable of type
`float` holds a binary32 number, an operation on two `float` operands (an
`int` operand being converted) is rounded to binary32, an operation with a
`double` operand (a decimal constant of the source or of the header) is
rounded to binary64, and a store to a `float` is rounded to binary32.  A
division by zero (not a number in C) is not represented. -/

/-- Abscissa of the stem end of a note, as computed by the fit loop:
`x = stem_xoff + s->shhd[0]` (or `-stem_xoff + s->shhd[s->nhd]`),
`x *= scale`, `x += s->x`. -/
def stem_x32 (st : Score) (stem_xoff : ℚ) (v : SYMBOL) : ℚ :=
  let scale := st.voice_scale.getD v.voice 1
  let scale := if scale = 1 then (st.staffOf v.staff).staffscale else scale
  let x := if v.stem ≥ 0 then f32 (stem_xoff + v.shhd.getD 0 0)
           else f32 (-stem_xoff + v.shhd.getD v.nhd 0)
  f32 (f32 (x * scale) + v.x)

/-- One more point `(x, y)` in the sums: `sx += x; sy += y; sxx += x * x;
sxy += x * y; syy += y * y`. -/
def BeamSums.add32 (m : BeamSums) (x y : ℚ) : BeamSums :=
  { sx := f32 (m.sx + x), sy := f32 (m.sy + y), sxx := f32 (m.sxx + f32 (x * x)),
    sxy := f32 (m.sxy + f32 (x * y)), syy := f32 (m.syy + f32 (y * y)) }

/-- Loop "linear fit through stem ends" of `calculate_beam`. -/
def beam_sums32 (stem_xoff : ℚ) (s2 : Nat) :
    Nat → Nat → Score → BeamSums → Option (Score × BeamSums)
  | 0, _, _, _ => none
  | fuel + 1, s, st, m =>
    match st.sym s with
    | none => none
    | some v =>
      if v.as_type ≠ AbcType.ABC_T_NOTE then
        match v.next with
        | none => none
        | some n => beam_sums32 stem_xoff s2 fuel n st m
      else
        let x := stem_x32 st stem_xoff v
        let st1 := st.upd s (fun z => { z with xs := x })
        let y := f32 (v.ys + (st.staffOf v.staff).y)
        let m1 := m.add32 x y
        if s = s2 then some (st1, m1)
        else
          match v.next with
          | none => none
          | some n => beam_sums32 stem_xoff s2 fuel n st1 m1

/-- Statement `b = (sy - a * sx) / notes`. -/
def beam_icpt32 (m : BeamSums) (notes : Int) (a : ℚ) : ℚ :=
  f32 (f32 (m.sy - f32 (a * m.sx)) / f32 notes)

/-- Least-squares line "beam fct: y=ax+b":
`a = (sxy * notes - sx * sy) / (sxx * notes - sx * sx)` and
`b = (sy - a * sx) / notes`. -/
def beam_fit32 (m : BeamSums) (notes : Int) : ℚ × ℚ :=
  let a := f32 (f32 (f32 (m.sxy * f32 notes) - f32 (m.sx * m.sy))
              / f32 (f32 (m.sxx * f32 notes) - f32 (m.sx * m.sx)))
  (a, beam_icpt32 m notes a)

/-- Quantity `hh = syy - a * sxy - b * sy` of the flattening rule. -/
def beam_hh32 (m : BeamSums) (a b : ℚ) : ℚ :=
  f32 (f32 (m.syy - f32 (a * m.sxy)) - f32 (b * m.sy))

/-- Test `notes >= 3` and `hh > 0 && hh / (notes - 2) > .5` of the flattening
rule. -/
def beam_flat32 (m : BeamSums) (notes : Int) (a b : ℚ) : Bool :=
  decide (notes ≥ 3 ∧ beam_hh32 m a b > 0
    ∧ f32 (beam_hh32 m a b / f32 ((notes - 2 : Int) : ℚ)) > 1 / 2)

/-- The lines of `calculate_beam` that "modify the slope of the beam", for
normal notes: `a *= BEAM_FLATFAC` when the test holds, then
`a = BEAM_SLOPE * a / (BEAM_SLOPE + a)` (or `- a`), the constants being of
type `double`. -/
def beam_slope_normal32 (H : Hdr) (m : BeamSums) (notes : Int) (a b : ℚ) : ℚ :=
  let a := if beam_flat32 m notes a b then f32 (f64 (a * f64 H.BEAM_FLATFAC)) else a
  if a ≥ 0 then f32 (f64 (f64 (f64 H.BEAM_SLOPE * a) / f64 (f64 H.BEAM_SLOPE + a)))
  else f32 (f64 (f64 (f64 H.BEAM_SLOPE * a) / f64 (f64 H.BEAM_SLOPE - a)))

/-- The same for grace notes. -/
def beam_slope_grace32 (H : Hdr) (a : ℚ) : ℚ :=
  if a > f64 H.BEAM_SLOPE then f32 (f64 H.BEAM_SLOPE)
  else if a < -f64 H.BEAM_SLOPE then f32 (-f64 H.BEAM_SLOPE)
  else a

/-- Flat below threshold: `a0 = a * (s2->xs - s1->xs) / (20 * (notes - 1))`
and `if (a0 * a0 < BEAM_THRESH * BEAM_THRESH) a = 0`; `xs1`, `xs2` are the
abscissae of the stem ends of `s1` and `s2`. -/
def beam_snap32 (H : Hdr) (notes : Int) (xs1 xs2 a : ℚ) : ℚ :=
  let a0 := f32 (f32 (a * f32 (xs2 - xs1)) / f32 ((20 * (notes - 1) : Int) : ℚ))
  if f32 (a0 * a0) < f64 (f64 H.BEAM_THRESH * f64 H.BEAM_THRESH) then 0 else a

/-- Slope and intercept after the correction passes of `calculate_beam`
(from "beam fct: y=ax+b" to "have flat beams when asked"). -/
def beam_line32 (H : Hdr) (grace flatbeams : Bool) (m : BeamSums) (notes : Int)
    (xs1 xs2 y0 : ℚ) : ℚ × ℚ :=
  let ab := beam_fit32 m notes
  let a := if ¬ grace then beam_slope_normal32 H m notes ab.1 ab.2
           else beam_slope_grace32 H ab.1
  let a := beam_snap32 H notes xs1 xs2 a
  let b := beam_icpt32 m notes a
  if flatbeams then (0, (if ¬ grace then f32 (-11 + y0) else f32 (35 + y0)))
  else (a, b)

/-- Shift of the beam with two stem directions (the branch
`if (two_dir)`): `ys = BEAM_SHIFT` (or 3), `ys *= (nflags - 1)`,
`ys += BEAM_DEPTH`, `ys *= .5`, `ys *= stem`. -/
def beam_two_dir_shift32 (H : Hdr) (grace : Bool) (nflags : Int) (v1 v2 : SYMBOL) : ℚ :=
  let ys : ℚ := if ¬ grace then f32 (f64 H.BEAM_SHIFT) else 3
  let ys := f32 (ys * f32 ((nflags - 1 : Int) : ℚ))
  let ys := f32 (f64 (ys + f64 H.BEAM_DEPTH))
  let ys := f32 (f64 (ys * (1 / 2)))
  if v1.stem ≠ v2.stem ∧ v1.nflags < v2.nflags then f32 (ys * f32 v2.stem)
  else f32 (ys * f32 v1.stem)

/-- Value `a * x + b - staff_tb[s->staff].y` of the beam line over the
abscissa `x`, relative to the staff of origin `y`. -/
def beam_at32 (a b x y : ℚ) : ℚ := f32 (f32 (f32 (a * x) + b) - y)

/-- Value `BEAM_DEPTH + BEAM_SHIFT * (nflags - 1)`, of type `double`. -/
def beam_depth64 (H : Hdr) (nflags : Int) : ℚ :=
  f64 (f64 H.BEAM_DEPTH + f64 (f64 H.BEAM_SHIFT * ((nflags - 1 : Int) : ℚ)))

/-- Stem shortfall of one symbol `s` met by the loop over the time chain
(normal notes): `none` for a symbol the loop skips. -/
def stem_err_normal32 (H : Hdr) (st : Score) (staff voice : Nat) (v1 : SYMBOL)
    (a b beam_h : ℚ) (s : SYMBOL) : Option ℚ :=
  if s.as_type ≠ AbcType.ABC_T_NOTE ∨ s.ABC_F_INVIS
      ∨ (s.staff ≠ staff ∧ s.voice ≠ voice) then none
  else
    let x := if s.voice = voice then s.xs else s.x
    let ys := beam_at32 a b x (st.staffOf s.staff).y
    if s.voice = voice then
      let e := if s.nhd = 0 then min_tb H 0 s.nflags else min_tb H 1 s.nflags
      let e := f32 e
      let e :=
        if s.stem > 0 then
          let e := if s.pits.getD s.nhd 0 > 26 then
                     (if s.pits.getD s.nhd 0 > 28 then f32 (f32 (e - 2) - 2) else f32 (e - 2))
                   else e
          f32 (e - f32 (ys - f32 ((3 * (s.pits.getD s.nhd 0 - 18) : Int) : ℚ)))
        else
          let e := if s.pits.getD 0 0 < 18 then
                     (if s.pits.getD 0 0 < 16 then f32 (f32 (e - 2) - 2) else f32 (e - 2))
                   else e
          f32 (e - f32 (f32 ((3 * (s.pits.getD 0 0 - 18) : Int) : ℚ) - ys))
      some (f32 (f64 (e + beam_depth64 H s.nflags)))
    else
      let e : Option ℚ :=
        if v1.stem > 0 then
          if s.stem > 0 then
            if f32 (s.ymn : ℚ) > f32 (ys + 4) ∨ f32 (s.ymx : ℚ) < f32 (f32 (ys - beam_h) - 2)
            then none
            else if s.voice > voice then some (f32 (f32 (s.ymx : ℚ) - ys))
            else some (f32 (f32 ((s.ymn + 8 : Int) : ℚ) - ys))
          else some (f32 (f32 (s.ymx : ℚ) - ys))
        else
          if s.stem < 0 then
            if f32 (s.ymx : ℚ) < f32 (ys - 4) ∨ f32 (s.ymn : ℚ) > f32 (f32 (ys - beam_h) - 2)
            then none
            else if s.voice < voice then some (f32 (ys - f32 (s.ymn : ℚ)))
            else some (f32 (f32 (ys - f32 (s.ymx : ℚ)) + 8))
          else some (f32 (ys - f32 (s.ymn : ℚ)))
      e.map (fun e => f32 (e + f32 (2 + beam_h)))

/-- Loop `for (; s && s->time <= s2->time; s = s->ts_next)` of the stem
length check, carrying `max_stem_err`. -/
def stem_loop_normal32 (H : Hdr) (st : Score) (staff voice : Nat) (v1 : SYMBOL) (time2 : Int)
    (a b beam_h : ℚ) : Nat → Option Nat → ℚ → Option ℚ
  | 0, _, _ => none
  | _ + 1, none, mx => some mx
  | fuel + 1, some s, mx =>
    match st.sym s with
    | none => none
    | some v =>
      if ¬ v.time ≤ time2 then some mx
      else
        let mx1 :=
          match stem_err_normal32 H st staff voice v1 a b beam_h v with
          | none => mx
          | some e => if e > mx then e else mx
        stem_loop_normal32 H st staff voice v1 time2 a b beam_h fuel v.ts_next mx1

/-- Stem shortfall of one grace note. -/
def stem_err_grace32 (H : Hdr) (st : Score) (a b : ℚ) (s : SYMBOL) : ℚ :=
  let ys := beam_at32 a b s.xs (st.staffOf s.staff).y
  let e := f32 (H.GSTEM - 2)
  let e := if s.stem > 0 then f32 (e - f32 (ys - f32 ((3 * (s.pits.getD s.nhd 0 - 18) : Int) : ℚ)))
           else f32 (e + f32 (ys - f32 ((3 * (s.pits.getD 0 0 - 18) : Int) : ℚ)))
  f32 (e + f32 ((3 * (s.nflags - 1) : Int) : ℚ))

/-- Loop `for ( ; ; s = s->next)` of the stem length check for grace notes. -/
def stem_loop_grace32 (H : Hdr) (st : Score) (s2 : Nat) (a b : ℚ) : Nat → Nat → ℚ → Option ℚ
  | 0, _, _ => none
  | fuel + 1, s, mx =>
    match st.sym s with
    | none => none
    | some v =>
      let e := stem_err_grace32 H st a b v
      let mx1 := if e > mx then e else mx
      if s = s2 then some mx1
      else
        match v.next with
        | none => none
        | some n => stem_loop_grace32 H st s2 a b fuel n mx1

/-- Section "have room for the symbols in the staff" of `calculate_beam`:
the intercept after the shift for the stem lengths. -/
def beam_stems32 (H : Hdr) (st : Score) (s1 s2 : Nat) (v1 v2 : SYMBOL) (c : BeamScan)
    (a b : ℚ) : Option ℚ :=
  if c.two_dir then
    some (f32 (b + beam_two_dir_shift32 H v1.ABC_F_GRACE c.nflags v1 v2))
  else
    let mo : Option ℚ :=
      if ¬ v1.ABC_F_GRACE then
        let beam_h := f32 (beam_depth64 H c.nflags)
        match stem_first st v1.xs st.fuel s1 with
        | none => none
        | some s =>
          stem_loop_normal32 H st v1.staff v1.voice v1 v2.time a b beam_h st.fuel (some s) 0
      else stem_loop_grace32 H st s2 a b st.fuel s1 0
    mo.map (fun mx => if mx > 0 then f32 (b + f32 (f32 v1.stem * mx)) else b)

/-- Statements of the case `CLEF` of the clearance loop for a symbol with
extents `ymx`, `ymn` at abscissa `x`: the new intercept. -/
def beam_clear_one32 (H : Hdr) (stem1 nflags : Int) (a : ℚ) (x : ℚ) (ymx ymn : Int) (b : ℚ) :
    ℚ :=
  let y := f32 (f32 (a * x) + b)
  let k := f64 (f64 H.BEAM_SHIFT * ((nflags - 1 : Int) : ℚ))
  if stem1 > 0 then
    let y := f32 (f64 (f64 (f64 (f32 (f32 (ymx : ℚ) - y) + f64 H.BEAM_DEPTH) + k) + 2))
    if y > 0 then f32 (b + y) else b
  else
    let y := f32 (f64 (f64 (f64 (f32 (f32 (ymn : ℚ) - y) - f64 H.BEAM_DEPTH) - k) - 2))
    if y < 0 then f32 (b + y) else b

/-- Loop over the grace notes of the case `GRACE` of the clearance loop. -/
def beam_clear_grace32 (H : Hdr) (st : Score) (stem1 nflags : Int) (a : ℚ) :
    Nat → Option Nat → ℚ → Option ℚ
  | 0, _, _ => none
  | _ + 1, none, b => some b
  | fuel + 1, some g, b =>
    match st.sym g with
    | none => none
    | some v =>
      beam_clear_grace32 H st stem1 nflags a fuel v.next
        (if v.type ≠ SymType.NOTEREST then b
         else beam_clear_one32 H stem1 nflags a v.x v.ymx v.ymn b)

/-- Loop "have room for the gracenotes, bars and clefs", from `s` to `s2`. -/
def beam_clear32 (H : Hdr) (st : Score) (staff : Nat) (stem1 nflags : Int) (s2 : Nat) (a : ℚ) :
    Nat → Option Nat → ℚ → Option ℚ
  | 0, _, _ => none
  | _ + 1, none, _ => none
  | fuel + 1, some s, b =>
    match st.sym s with
    | none => none
    | some v =>
      let b1 : Option ℚ :=
        if v.type = SymType.NOTEREST then
          if v.as_type ≠ AbcType.ABC_T_REST then some b
          else
            match v.ts_next.bind st.sym with
            | none => none
            | some g =>
              if g.staff ≠ staff ∨ g.type ≠ SymType.NOTEREST then some b
              else if v.ABC_F_INVIS then some b
              else some (beam_clear_one32 H stem1 nflags a v.x v.ymx v.ymn b)
        else if v.type = SymType.BAR then
          if v.ABC_F_INVIS then some b
          else some (beam_clear_one32 H stem1 nflags a v.x v.ymx v.ymn b)
        else if v.type = SymType.CLEF then
          some (beam_clear_one32 H stem1 nflags a v.x v.ymx v.ymn b)
        else if v.type = SymType.GRACE then
          beam_clear_grace32 H st stem1 nflags a st.fuel v.extra b
        else some b
      match b1 with
      | none => none
      | some b1 =>
        if s = s2 then some b1
        else beam_clear32 H st staff stem1 nflags s2 a fuel v.next b1

/-- Up/down shift needed to get `k*6`: `y + 2.999` is of type `double`. -/
def rnd6_32 (y : ℚ) : ℚ :=
  let iy : Int := Int.tdiv (ctrunc (f64 (y + f64 (2999 / 1000))) + 12) 6 * 6 - 12
  f32 (f32 (iy : ℚ) - y)

/-- Compute the best vertical offset for the beams. -/
def b_pos32 (H : Hdr) (grace : Bool) (stem : Int) (flags : Int) (b : ℚ) : ℚ :=
  let shift : ℚ := if ¬ grace then f32 (f64 H.BEAM_SHIFT) else 3
  let depth : ℚ := if ¬ grace then f32 (f64 H.BEAM_DEPTH) else f32 (f64 (17 / 10))
  if stem > 0 then
    let bot := f32 (f32 (b - f32 (f32 ((flags - 1 : Int) : ℚ) * shift)) - depth)
    if bot > 26 then 0
    else
      let d1 := rnd6_32 (f32 (f64 (b - f64 H.BEAM_OFFSET)))
      let d2 := rnd6_32 (f32 (f64 (bot + f64 H.BEAM_OFFSET)))
      if f32 (d1 * d1) > f32 (d2 * d2) then d2 else d1
  else
    let top := f32 (f32 (b + f32 (f32 ((flags - 1 : Int) : ℚ) * shift)) + depth)
    if top < -2 then 0
    else
      let d1 := rnd6_32 (f32 (f64 (top - f64 H.BEAM_OFFSET)))
      let d2 := rnd6_32 (f32 (f64 (b + f64 H.BEAM_OFFSET)))
      if f32 (d1 * d1) > f32 (d2 * d2) then d2 else d1

/-- Case `ABC_T_NOTE` of the final loop of `calculate_beam` for the note at
`s`: `s->ys = a * s->xs + b - staff_tb[s->staff].y`, then `ymx` or `ymn` and
the shift "fix stem clash". -/
def beam_adjust_note32 (st : Score) (a b : ℚ) (s : Nat) (v : SYMBOL) : Score :=
  let ys := beam_at32 a b v.xs (st.staffOf v.staff).y
  let st := st.upd s (fun z => { z with ys := ys })
  if v.stem > 0 then
    let ymx := ctrunc (f64 (ys + 5 / 2))
    let st := st.upd s (fun z => { z with ymx := ymx })
    match v.ts_prev with
    | none => st
    | some p =>
      match st.sym p with
      | none => st
      | some w =>
        if w.stem > 0 ∧ w.staff = v.staff ∧ w.ymn < ymx ∧ w.x = v.x ∧ v.shhd.getD 0 0 = 0 then
          st.upd p (fun z => { z with x := f32 (z.x - 5), xs := f32 (z.xs - 5) })
        else st
  else st.upd s (fun z => { z with ymn := ctrunc (f64 (ys - 5 / 2)) })

/-- Case `ABC_T_REST` of the final loop of `calculate_beam` for the rest at
`s`. -/
def beam_adjust_rest32 (H : Hdr) (st : Score) (v1 : SYMBOL) (nflags : Int) (a b : ℚ)
    (s : Nat) (v : SYMBOL) : Score :=
  let y := beam_at32 a b v.x (st.staffOf v.staff).y
  let dy := f32 (f64 (beam_depth64 H nflags + (if v.head ≠ HeadType.H_FULL then 4 else 9)))
  let y :=
    if v1.stem > 0 then
      (if v1.multi = 0 ∧ f32 (y - dy) > 12 then 12 else f32 (y - dy))
    else
      (if v1.multi = 0 ∧ f32 (y + dy) < 12 then 12 else f32 (y + dy))
  if (v1.stem > 0 ∧ (v.y : ℚ) ≤ y) ∨ (¬ v1.stem > 0 ∧ (v.y : ℚ) ≥ y) then st
  else
    let y : ℚ :=
      if v.head ≠ HeadType.H_FULL then
        f32 ((Int.tdiv (ctrunc y + 3 + 12) 6 * 6 - 12 : Int) : ℚ)
      else y
    st.upd s (fun z => { z with y := ctrunc y })

/-- Loop "adjust final stems and rests under beam" of `calculate_beam`. -/
def beam_adjust32 (H : Hdr) (s1 s2 : Nat) (nflags : Int) (a b : ℚ) :
    Nat → Nat → Score → Option Score
  | 0, _, _ => none
  | fuel + 1, s, st =>
    match st.sym s, st.sym s1 with
    | some v, some v1 =>
      let st1 :=
        if v.as_type = AbcType.ABC_T_NOTE then beam_adjust_note32 st a b s v
        else if v.as_type = AbcType.ABC_T_REST then beam_adjust_rest32 H st v1 nflags a b s v
        else st
      if s = s2 then some st1
      else
        match (st1.sym s).bind (fun z => z.next) with
        | none => none
        | some n => beam_adjust32 H s1 s2 nflags a b fuel n st1
    | _, _ => none

/-- Part of `calculate_beam` after the search of the last note, when the
line is fitted anew (from "linear fit through stem ends" to the end):
returns the state, the slope, the intercept. -/
def beam_refit32 (H : Hdr) (st : Score) (s1 s2 : Nat) (c : BeamScan) :
    Option (Score × ℚ × ℚ) :=
  match st.sym s1 with
  | none => none
  | some v1a =>
    let stem_xoff := if v1a.ABC_F_GRACE then f32 (f64 H.GSTEM_XOFF) else f32 (f64 H.STEM_XOFF)
    match beam_sums32 stem_xoff s2 st.fuel s1 st {} with
    | none => none
    | some (st, m) =>
      match st.sym s1, st.sym s2 with
      | some v1, some v2 =>
        let y0 := (st.staffOf v1a.staff).y
        let ab := beam_line32 H v1.ABC_F_GRACE st.flatbeams m c.notes v1.xs v2.xs y0
        let a := ab.1
        match beam_stems32 H st s1 s2 v1 v2 c a ab.2 with
        | none => none
        | some b =>
          let bo : Option ℚ :=
            if ¬ c.two_staves ∧ ¬ c.two_dir then
              beam_clear32 H st v1a.staff v1.stem c.nflags s2 a st.fuel v1.next b
            else some b
          match bo with
          | none => none
          | some b =>
            let b := if a = 0 then
                       f32 (b + b_pos32 H v1.ABC_F_GRACE v1.stem c.nflags (f32 (b - y0)))
                     else b
            match beam_adjust32 H s1 s2 c.nflags a b st.fuel s1 st with
            | none => none
            | some st => some (st, a, b)
      | _, _ => none

/-- Statements of the branch "beam already calculated" of `calculate_beam`:
`bm->a = (s1->ys- s2->ys) / (s1->xs - s2->xs)` and
`bm->b = s1->ys - s1->xs * bm->a + staff_tb[staff].y`. -/
def beam_reload32 (v1 v2 : SYMBOL) (y0 : ℚ) : ℚ × ℚ :=
  let a := f32 (f32 (v1.ys - v2.ys) / f32 (v1.xs - v2.xs))
  (a, f32 (f32 (v1.ys - f32 (v1.xs * a)) + y0))

/-- Eighth note number `i` (1..4) of `bendScore`: stem up, one flag, at
abscissa `80 + 20*i`, of pitch `p` and stem tip at height `t`. -/
def bendNote (i : Nat) (p : Int) (t : ℚ) : SYMBOL :=
  { next := if i < 4 then some (i + 1) else none, prev := some (i - 1),
    ts_next := if i < 4 then some (i + 1) else none, ts_prev := some (i - 1),
    pits := [p], as_pits := [p], shhd := [0], stem := 1, nflags := 1,
    x := 80 + 20 * i, xs := 80 + 20 * i + 7 / 2, y := 3 * (p - 18),
    ys := t, ymn := 3 * (p - 18) - 3, ymx := ctrunc t + 2,
    dur := 192, time := 192 * ((i : Int) - 1),
    sflags := { S_BEAM_ST := decide (i = 1), S_BEAM_END := decide (i = 4) } }

/-- Four beamed eighth notes on one staff, stems up, 20 units apart, whose
stem tips are at the heights 32, 27, 23 and 20: they are half a unit above,
below, below and above the line of slope -1/5 that fits them best, so the sum
of the squares of the residuals is 1.  The staves are not yet defined. -/
def bendScore : Score :=
  { syms := [lineClef, bendNote 1 22 32, bendNote 2 20 27, bendNote 3 19 23, bendNote 4 18 20],
    realwidth := 500, staff_tb := [{ y := 0 }], voice_scale := [1] }

/-! # Theorems -/

/-! ## Slur direction -/

theorem downstem_iff (v : SYMBOL) :
    (v.as_type = AbcType.ABC_T_NOTE ∧ ¬ (v.ABC_F_STEMLESS = true) ∧ v.stem < 0)
      ↔ v.downstem = true := by
  simp [SYMBOL.downstem, and_assoc]

theorem stemmed_iff (v : SYMBOL) :
    (v.as_type = AbcType.ABC_T_NOTE ∧ ¬ (v.ABC_F_STEMLESS = true))
      ↔ (v.downstem || v.upstem) = true := by
  by_cases h1 : v.as_type = AbcType.ABC_T_NOTE <;>
    by_cases h2 : v.ABC_F_STEMLESS = true <;>
    by_cases h3 : v.stem < 0 <;>
    simp [SYMBOL.downstem, SYMBOL.upstem, h1, h2, h3]
  omega

theorem low_iff (v : SYMBOL) :
    (v.as_type = AbcType.ABC_T_NOTE ∧ v.pits.getD 0 0 < 22) ↔ v.low = true := by
  simp [SYMBOL.low]

theorem slur_direction_loop_eq (st : Score) (k2 : Nat) :
    ∀ (fuel s : Nat) (u lw : Bool) (l : List SYMBOL),
      chain_to st k2 fuel s = some l →
      slur_direction_loop st k2 fuel s u lw =
        some (if l.any SYMBOL.downstem then 1
              else if !(u || l.any SYMBOL.upstem) && !(lw || l.any SYMBOL.low)
              then 1 else -1) := by
  intro fuel
  induction fuel with
  | zero => intro s u lw l h; simp [chain_to] at h
  | succ n ih =>
    intro s u lw l h
    unfold chain_to at h
    unfold slur_direction_loop
    cases hv : st.sym s with
    | none => simp [hv] at h
    | some v =>
      simp only [hv] at h ⊢
      simp only [downstem_iff, stemmed_iff, low_iff]
      by_cases hk : s = k2
      · simp only [hk, if_true] at h ⊢
        have hl : l = [v] := by simpa using h.symm
        subst hl
        simp only [List.any_cons, List.any_nil, Bool.or_false]
        by_cases hd : v.downstem = true <;> by_cases hu : v.upstem = true <;>
          by_cases hl : v.low = true <;> cases u <;> cases lw <;> simp [hd, hu, hl]
      · simp only [hk, if_false] at h ⊢
        cases hn : v.next with
        | none => simp [hn] at h
        | some nx =>
          simp only [hn, Option.map_eq_some'] at h ⊢
          obtain ⟨l2, hl2, rfl⟩ := h
          simp only [List.any_cons]
          cases hd : v.downstem
          · simp only [Bool.false_eq_true, if_false, Bool.false_or]
            rw [ih nx _ _ l2 hl2]
            by_cases hu : v.upstem = true <;> by_cases hl : v.low = true <;>
              cases u <;> cases lw <;> simp [hu, hl]
          · simp

/-- Direction of `slur_direction` in terms of the symbols `l` met from `k1`
to `k2`. -/
theorem slur_direction_eq (st : Score) (k1 k2 : Nat) (l : List SYMBOL)
    (h : chain_to st k2 st.fuel k1 = some l) :
    slur_direction st k1 k2 =
      some (if l.any SYMBOL.downstem then 1
            else if !(l.any SYMBOL.upstem) && !(l.any SYMBOL.low) then 1 else -1) := by
  unfold slur_direction
  rw [slur_direction_loop_eq st k2 _ _ _ _ l h]
  simp

/-- C9, as amended: for a slur of automatic direction in a voice alone on
its staff (`slur_multi` gives 0), the direction chosen by `draw_slur` over the
symbols `l` from `k1` to `k2` is above (`1`) when some note with a stem has
its stem down, or when no note has a stem and no note lies under the middle
of the staff (lowest pitch < 22); it is below (`-1`) otherwise. -/
theorem slur_direction_auto (st : Score) (k1 k2 slur_type : Nat) (l : List SYMBOL)
    (hA : slur_type &&& 3 ≠ SL_ABOVE) (hB : slur_type &&& 3 ≠ SL_BELOW)
    (hm : slur_multi st k1 k2 = some 0)
    (hl : chain_to st k2 st.fuel k1 = some l) :
    draw_slur_dir st k1 k2 slur_type =
      some (if l.any SYMBOL.downstem ∨ (l.any SYMBOL.upstem = false ∧ l.any SYMBOL.low = false)
            then 1 else -1) := by
  unfold draw_slur_dir
  rw [if_neg hA, if_neg hB, hm]
  simp only [if_true]
  rw [slur_direction_eq st k1 k2 l hl]
  by_cases h1 : l.any SYMBOL.downstem = true <;>
    by_cases h2 : l.any SYMBOL.upstem = true <;>
    by_cases h3 : l.any SYMBOL.low = true <;> simp [h1, h2, h3]

/-- Instance of `slur_direction_auto`: one note with its stem up and under the
middle of the staff gets its slur below. -/
theorem slur_direction_auto_witness :
    draw_slur_dir slurDirScore 0 0 SL_AUTO = some (-1) := by
  have h := slur_direction_auto slurDirScore 0 0 SL_AUTO
    [{ stem := 1, pits := [16], as_pits := [16] }]
    (by decide) (by decide) (by rfl) (by rfl)
  rw [h]
  decide

/-- C9 fails as stated: for a single note with its stem up at pitch 16 every
note of the slur is under the middle of the staff, so the specification text
puts the slur above, while `draw_slur` chooses below. -/
theorem slur_direction_low_upstem_below :
    slur_multi slurDirScore 0 0 = some 0
      ∧ (chain_to slurDirScore 0 slurDirScore.fuel 0).map spec_slur_direction = some 1
      ∧ draw_slur_dir slurDirScore 0 0 SL_AUTO = some (-1) := by
  decide

/-! ## Occupancy rows -/

theorem for_range_succ {σ : Type} (n : Nat) (body : Nat → σ → σ) (s : σ) :
    for_range (n + 1) body s = body n (for_range n body s) := by
  simp [for_range, List.range_succ]

theorem for_range_zero {σ : Type} (body : Nat → σ → σ) (s : σ) :
    for_range 0 body s = s := by
  simp [for_range]

theorem clamp_bucket_fields (t b : Int) (i : Nat) (p : STAFF_S) :
    (clamp_bucket t b i p).topbar = p.topbar ∧ (clamp_bucket t b i p).botbar = p.botbar
      ∧ (clamp_bucket t b i p).y = p.y
      ∧ (clamp_bucket t b i p).top
          = (if (t : ℚ) > p.top.getD i 0 then p.top.set i (t : ℚ) else p.top)
      ∧ (clamp_bucket t b i p).bot
          = (if (b : ℚ) < p.bot.getD i 0 then p.bot.set i (b : ℚ) else p.bot) := by
  have ht : (clamp_top t i p).topbar = p.topbar ∧ (clamp_top t i p).botbar = p.botbar
      ∧ (clamp_top t i p).y = p.y ∧ (clamp_top t i p).bot = p.bot
      ∧ (clamp_top t i p).top
          = (if (t : ℚ) > p.top.getD i 0 then p.top.set i (t : ℚ) else p.top) := by
    unfold clamp_top
    split_ifs <;> exact ⟨rfl, rfl, rfl, rfl, rfl⟩
  have hb : ∀ q : STAFF_S, (clamp_bot b i q).topbar = q.topbar
      ∧ (clamp_bot b i q).botbar = q.botbar
      ∧ (clamp_bot b i q).y = q.y ∧ (clamp_bot b i q).top = q.top
      ∧ (clamp_bot b i q).bot
          = (if (b : ℚ) < q.bot.getD i 0 then q.bot.set i (b : ℚ) else q.bot) := by
    intro q
    unfold clamp_bot
    split_ifs <;> exact ⟨rfl, rfl, rfl, rfl, rfl⟩
  obtain ⟨t1, t2, t3, t4, t5⟩ := ht
  obtain ⟨b1, b2, b3, b4, b5⟩ := hb (clamp_top t i p)
  unfold clamp_bucket
  refine ⟨by rw [b1, t1], by rw [b2, t2], by rw [b3, t3], by rw [b4, t5], by rw [b5, t4]⟩

theorem clamp_loop_spec (t b : Int) (p : STAFF_S) :
    ∀ n : Nat,
      (for_range n (clamp_bucket t b) p).topbar = p.topbar
      ∧ (for_range n (clamp_bucket t b) p).botbar = p.botbar
      ∧ (∀ j : Nat, (for_range n (clamp_bucket t b) p).top[j]?
          = if j < n then (p.top[j]?).map (fun v => max v (t : ℚ)) else p.top[j]?)
      ∧ (∀ j : Nat, (for_range n (clamp_bucket t b) p).bot[j]?
          = if j < n then (p.bot[j]?).map (fun v => min v (b : ℚ)) else p.bot[j]?) := by
  intro n
  induction n with
  | zero => simp [for_range_zero]
  | succ n ih =>
    obtain ⟨h1, h2, h3, h4⟩ := ih
    rw [for_range_succ]
    obtain ⟨f1, f2, _, f4, f5⟩ := clamp_bucket_fields t b n (for_range n (clamp_bucket t b) p)
    refine ⟨by rw [f1, h1], by rw [f2, h2], ?_, ?_⟩
    · intro j
      rw [f4]
      have hn := h3 n
      simp only [lt_irrefl, if_false] at hn
      by_cases hjn : j = n
      · subst hjn
        simp only [List.getD_eq_getElem?_getD, hn, Nat.lt_succ_self, if_true]
        cases hp : p.top[j]? with
        | none =>
          have hnone : (for_range j (clamp_bucket t b) p).top[j]? = none := by rw [hn, hp]
          by_cases hc : (t : ℚ) > 0
          · simp only [Option.getD_none, hc, if_true, Option.map_none']
            rw [List.getElem?_eq_none_iff] at hnone ⊢
            simpa using hnone
          · simp only [Option.getD_none, hc, if_false, Option.map_none']
            exact hnone
        | some v =>
          have hsome : (for_range j (clamp_bucket t b) p).top[j]? = some v := by rw [hn, hp]
          have hlt : j < (for_range j (clamp_bucket t b) p).top.length := by
            by_contra hge
            rw [List.getElem?_eq_none (by omega)] at hsome
            exact Option.noConfusion hsome
          by_cases hc : (t : ℚ) > v
          · simp only [Option.getD_some, hc, if_true, Option.map_some']
            rw [List.getElem?_set_self hlt]
            rw [max_eq_right (le_of_lt hc)]
          · simp only [Option.getD_some, hc, if_false, Option.map_some']
            rw [hsome, max_eq_left (not_lt.mp hc)]
      · have hset : ∀ (l : List ℚ) (c : Prop) [Decidable c] (a : ℚ),
            (if c then l.set n a else l)[j]? = l[j]? := by
          intro l c _ a
          by_cases hc : c
          · simp only [hc, if_true]
            exact List.getElem?_set_ne (Ne.symm hjn)
          · simp only [hc, if_false]
        rw [hset, h3 j]
        by_cases hlt : j < n
        · simp [hlt, Nat.lt_succ_of_lt hlt]
        · have : ¬ j < n + 1 := by omega
          simp [hlt, this]
    · intro j
      rw [f5]
      have hn := h4 n
      simp only [lt_irrefl, if_false] at hn
      by_cases hjn : j = n
      · subst hjn
        simp only [List.getD_eq_getElem?_getD, hn, Nat.lt_succ_self, if_true]
        cases hp : p.bot[j]? with
        | none =>
          have hnone : (for_range j (clamp_bucket t b) p).bot[j]? = none := by rw [hn, hp]
          by_cases hc : (b : ℚ) < 0
          · simp only [Option.getD_none, hc, if_true, Option.map_none']
            rw [List.getElem?_eq_none_iff] at hnone ⊢
            simpa using hnone
          · simp only [Option.getD_none, hc, if_false, Option.map_none']
            exact hnone
        | some v =>
          have hsome : (for_range j (clamp_bucket t b) p).bot[j]? = some v := by rw [hn, hp]
          have hlt : j < (for_range j (clamp_bucket t b) p).bot.length := by
            by_contra hge
            rw [List.getElem?_eq_none (by omega)] at hsome
            exact Option.noConfusion hsome
          by_cases hc : (b : ℚ) < v
          · simp only [Option.getD_some, hc, if_true, Option.map_some']
            rw [List.getElem?_set_self hlt]
            rw [min_eq_right (le_of_lt hc)]
          · simp only [Option.getD_some, hc, if_false, Option.map_some']
            rw [hsome, min_eq_left (not_lt.mp hc)]
      · have hset : ∀ (l : List ℚ) (c : Prop) [Decidable c] (a : ℚ),
            (if c then l.set n a else l)[j]? = l[j]? := by
          intro l c _ a
          by_cases hc : c
          · simp only [hc, if_true]
            exact List.getElem?_set_ne (Ne.symm hjn)
          · simp only [hc, if_false]
        rw [hset, h4 j]
        by_cases hlt : j < n
        · simp [hlt, Nat.lt_succ_of_lt hlt]
        · have : ¬ j < n + 1 := by omega
          simp [hlt, this]

theorem clamp_outer_spec (H : Hdr) (st : Score) :
    ∀ (n j : Nat),
      (for_range n
        (fun staff (s : Score) =>
          { s with staff_tb := s.staff_tb.modify (clamp_staff H) staff }) st).staff_tb[j]?
        = if j < n then (st.staff_tb[j]?).map (clamp_staff H) else st.staff_tb[j]? := by
  intro n
  induction n with
  | zero => intro j; simp [for_range_zero]
  | succ n ih =>
    intro j
    rw [for_range_succ]
    simp only [List.getElem?_modify]
    by_cases hjn : n = j
    · subst hjn
      rw [ih n]
      simp
    · simp only [hjn, if_false]
      rw [ih j]
      by_cases hlt : j < n
      · simp [hlt, Nat.lt_succ_of_lt hlt]
      · have : ¬ j < n + 1 := by omega
        simp [hlt, this]

/-- C4: the final block of `draw_sym_near` leaves, for every staff
`staff <= nstaff` and every bucket `i < YSTEP`, `top[i] = max(old top[i],
topbar + 2)` and `bot[i] = min(old bot[i], botbar - 2)`; so a stored top is
never lowered, a stored bottom never raised, and afterwards
`top[i] >= topbar + 2` and `bot[i] <= botbar - 2`. -/
theorem clamp_y_offsets_monotone (H : Hdr) (st : Score) (staff i : Nat) (p : STAFF_S)
    (t b : ℚ) (hs : staff ≤ st.nstaff) (hi : i < H.YSTEP)
    (hp : st.staff_tb[staff]? = some p) (ht : p.top[i]? = some t)
    (hb : p.bot[i]? = some b) :
    ∃ (q : STAFF_S) (t1 b1 : ℚ),
      (clamp_y_offsets H st).staff_tb[staff]? = some q
      ∧ q.topbar = p.topbar ∧ q.botbar = p.botbar
      ∧ q.top[i]? = some t1 ∧ q.bot[i]? = some b1
      ∧ t1 = max t ((p.topbar + 2 : Int) : ℚ) ∧ b1 = min b ((p.botbar - 2 : Int) : ℚ)
      ∧ t ≤ t1 ∧ b1 ≤ b
      ∧ ((p.topbar + 2 : Int) : ℚ) ≤ t1 ∧ b1 ≤ ((p.botbar - 2 : Int) : ℚ) := by
  obtain ⟨c1, c2, c3, c4⟩ := clamp_loop_spec (p.topbar + 2) (p.botbar - 2) p H.YSTEP
  refine ⟨clamp_staff H p, max t ((p.topbar + 2 : Int) : ℚ),
    min b ((p.botbar - 2 : Int) : ℚ), ?_, c1, c2, ?_, ?_, rfl, rfl,
    le_max_left _ _, min_le_left _ _, le_max_right _ _, min_le_right _ _⟩
  · unfold clamp_y_offsets
    rw [clamp_outer_spec H st (st.nstaff + 1) staff, if_pos (by omega), hp]
    rfl
  · unfold clamp_staff
    rw [c3 i, if_pos hi, ht]
    rfl
  · unfold clamp_staff
    rw [c4 i, if_pos hi, hb]
    rfl

/-- Instance of `clamp_y_offsets_monotone`: rows in their initial state
(top 0, bottom 24) of a staff with bar extents 24 and 0 are clamped to 26
and -2. -/
theorem clamp_y_offsets_monotone_witness :
    ∃ (q : STAFF_S) (t1 b1 : ℚ),
      (clamp_y_offsets stdHdr occScore).staff_tb[0]? = some q
      ∧ q.topbar = occStaff.topbar ∧ q.botbar = occStaff.botbar
      ∧ q.top[5]? = some t1 ∧ q.bot[5]? = some b1
      ∧ t1 = max 0 ((occStaff.topbar + 2 : Int) : ℚ)
      ∧ b1 = min 24 ((occStaff.botbar - 2 : Int) : ℚ)
      ∧ (0 : ℚ) ≤ t1 ∧ b1 ≤ (24 : ℚ)
      ∧ ((occStaff.topbar + 2 : Int) : ℚ) ≤ t1 ∧ b1 ≤ ((occStaff.botbar - 2 : Int) : ℚ) :=
  clamp_y_offsets_monotone stdHdr occScore 0 5 occStaff 0 24 (by decide) (by decide)
    (by rfl) (by decide!) (by decide!)

/-! ## Ties -/

theorem tie_search_found (k1 k2 : SYMBOL) (i : Nat) (pit : Int) :
    ∀ (cnt : Nat) (tie2 : Int),
      (∃ m, m < cnt ∧ k2.as_pits.getD m 0 = pit) →
      ∃ (m1 : Nat) (t : Int), tie_search k1 k2 i pit cnt tie2 = (some m1, t)
        ∧ m1 < cnt ∧ k2.as_pits.getD m1 0 = pit := by
  intro cnt
  induction cnt with
  | zero => intro tie2 h; obtain ⟨m, hm, _⟩ := h; omega
  | succ n ih =>
    intro tie2 h
    obtain ⟨m, hm, hp⟩ := h
    unfold tie_search
    by_cases hd : k2.as_pits.getD n 0 - pit = 0
    · refine ⟨n, tie2, ?_, by omega, by omega⟩
      simp only [hd, if_true]
    · have hmn : m < n := by
        rcases Nat.lt_or_ge m n with h1 | h1
        · exact h1
        · have : m = n := by omega
          subst this
          exact absurd (by omega) hd
      simp only [hd, if_false]
      split_ifs
      · obtain ⟨m1, t, e, h1, h2⟩ := ih (n : Int) ⟨m, hmn, hp⟩
        exact ⟨m1, t, e, by omega, h2⟩
      · obtain ⟨m1, t, e, h1, h2⟩ := ih tie2 ⟨m, hmn, hp⟩
        exact ⟨m1, t, e, by omega, h2⟩

theorem tie_setup_same (k1 k2 : SYMBOL) (hn : k1.nhd = k2.nhd)
    (hp : ∀ m, m ≤ k1.nhd → k2.as_pits.getD m 0 = k1.as_pits.getD m 0) :
    ∀ n, n ≤ k1.nhd + 1 →
      (for_range n (tie_setup_step k1 k2) {}).mhead1
          = (List.range n).filter (fun i => decide (k1.ti1.getD i 0 ≠ 0))
      ∧ (for_range n (tie_setup_step k1 k2) {}).mhead3 = []
      ∧ List.Forall₂ (fun i m => m ≤ k2.nhd ∧ k2.as_pits.getD m 0 = k1.as_pits.getD i 0)
          (for_range n (tie_setup_step k1 k2) {}).mhead1
          (for_range n (tie_setup_step k1 k2) {}).mhead2 := by
  intro n
  induction n with
  | zero => intro _; simp [for_range_zero]
  | succ n ih =>
    intro hle
    obtain ⟨h1, h3, h2⟩ := ih (by omega)
    rw [for_range_succ]
    generalize for_range n (tie_setup_step k1 k2) {} = t at h1 h2 h3 ⊢
    unfold tie_setup_step
    by_cases hti : k1.ti1.getD n 0 = 0
    · simp only [hti, if_true]
      refine ⟨?_, h3, h2⟩
      rw [h1, List.range_succ, List.filter_append]
      have hti2 := hti
      rw [List.getD_eq_getElem?_getD] at hti2
      simp [hti2]
    · simp only [hti, if_false]
      have hti2 := hti
      rw [List.getD_eq_getElem?_getD] at hti2
      obtain ⟨m1, tt, e, hlt, hpit⟩ :=
        tie_search_found k1 k2 n (k1.as_pits.getD n 0) (k2.nhd + 1) (-1)
          ⟨n, by omega, hp n (by omega)⟩
      rw [e]
      refine ⟨?_, h3, ?_⟩
      · show t.mhead1 ++ [n] = _
        rw [h1, List.range_succ, List.filter_append]
        simp [hti2]
      · show List.Forall₂ _ (t.mhead1 ++ [n]) (t.mhead2 ++ [m1])
        exact List.rel_append h2
          (List.Forall₂.cons ⟨by omega, hpit⟩ List.Forall₂.nil)

theorem note_tie_job0 (st : Score) (k1p k2p : Nat) (k1 k2 : SYMBOL) (m1 m2 : Nat) :
    ∃ c, note_tie st k1p k2p k1 k2 m1 m2 0 = some c := by
  unfold note_tie
  simp

theorem draw_note_ties_loop_job0 (st : Score) (k1p k2p : Nat) (k1 k2 : SYMBOL) :
    ∀ (l1 l2 : List Nat) (acc : Score), l1.length = l2.length →
      ∃ cs : List SlurOut, cs.length = l1.length
        ∧ draw_note_ties_loop st k1p k2p k1 k2 0 l1 l2 acc
            = some { acc with out := acc.out ++ cs.map Prim.slur } := by
  intro l1
  induction l1 with
  | nil =>
    intro l2 acc _
    exact ⟨[], rfl, by simp [draw_note_ties_loop]⟩
  | cons a r ih =>
    intro l2 acc hlen
    cases l2 with
    | nil => simp at hlen
    | cons b r2 =>
      obtain ⟨c, hc⟩ := note_tie_job0 st k1p k2p k1 k2 a b
      obtain ⟨cs, hcs, e⟩ := ih r2 { acc with out := acc.out ++ [Prim.slur c] }
        (by simpa using hlen)
      refine ⟨c :: cs, by simp [hcs], ?_⟩
      unfold draw_note_ties_loop
      rw [hc]
      simp only []
      rw [e]
      simp

/-- C2: for two chords with the same heads and the same pitch at each head
(`as.u.note.pits`, the field `draw_ties` compares) and a normal tie (job 0),
the match list of `draw_ties` holds exactly one pair `(i, m)` per tied head
`i` of `k1`, in order, with `m` a head of `k2` of the same pitch; the
unmatched list is empty; and `draw_ties` returns having emitted one tie curve
per tied head and nothing else (no "Bad tie"). -/
theorem draw_ties_same_pitches (st : Score) (k1p k2p : Nat) (k1 k2 : SYMBOL)
    (h1 : st.sym k1p = some k1) (h2 : st.sym k2p = some k2)
    (g1 : k1.type ≠ SymType.GRACE) (g2 : k2.type ≠ SymType.GRACE)
    (hn : k1.nhd = k2.nhd)
    (hp : ∀ m, m ≤ k1.nhd → k2.as_pits.getD m 0 = k1.as_pits.getD m 0) :
    (tie_setup k1 k2).mhead1 = tied_heads k1
      ∧ (tie_setup k1 k2).mhead3 = []
      ∧ List.Forall₂ (fun i m => m ≤ k2.nhd ∧ k2.as_pits.getD m 0 = k1.as_pits.getD i 0)
          (tie_setup k1 k2).mhead1 (tie_setup k1 k2).mhead2
      ∧ ∃ cs : List SlurOut, cs.length = (tied_heads k1).length
          ∧ draw_ties st k1p k2p 0 = some { st with out := st.out ++ cs.map Prim.slur } := by
  obtain ⟨e1, e3, e2⟩ := tie_setup_same k1 k2 hn hp (k1.nhd + 1) (le_refl _)
  refine ⟨e1, e3, e2, ?_⟩
  have hlen : (tie_setup k1 k2).mhead1.length = (tie_setup k1 k2).mhead2.length :=
    List.Forall₂.length_eq e2
  obtain ⟨cs, hcs, e⟩ :=
    draw_note_ties_loop_job0 st k1p k2p k1 k2 (tie_setup k1 k2).mhead1
      (tie_setup k1 k2).mhead2 st hlen
  refine ⟨cs, ?_, ?_⟩
  · rw [hcs]
    exact congrArg List.length e1
  · unfold draw_ties
    simp only [h1, h2, g1, g2, if_false]
    unfold draw_note_ties
    simp only [h1, h2]
    rw [e]
    have e3b : (tie_setup k1 k2).mhead3.length = 0 := by
      have : (tie_setup k1 k2).mhead3 = [] := e3
      rw [this]; rfl
    simp [e3b]

/-- Instance of `draw_ties_same_pitches`: the chord `c e g` tied to itself
on heads 0 and 2. -/
theorem draw_ties_same_pitches_witness :
    (tie_setup tieChord1 tieChord2).mhead1 = tied_heads tieChord1
      ∧ (tie_setup tieChord1 tieChord2).mhead3 = []
      ∧ List.Forall₂
          (fun i m => m ≤ tieChord2.nhd
            ∧ tieChord2.as_pits.getD m 0 = tieChord1.as_pits.getD i 0)
          (tie_setup tieChord1 tieChord2).mhead1 (tie_setup tieChord1 tieChord2).mhead2
      ∧ ∃ cs : List SlurOut, cs.length = (tied_heads tieChord1).length
          ∧ draw_ties tieScore 0 1 0
              = some { tieScore with out := tieScore.out ++ cs.map Prim.slur } :=
  draw_ties_same_pitches tieScore 0 1 tieChord1 tieChord2 (by rfl) (by rfl)
    (by decide) (by decide) (by rfl)
    (by intro m hm
        have h3 : m ≤ 2 := hm
        interval_cases m <;> rfl)

theorem sym_upd (st : Score) (p q : Nat) (f : SYMBOL → SYMBOL) :
    (st.upd p f).sym q = if p = q then (st.sym q).map f else st.sym q := by
  unfold Score.upd Score.sym
  simp only [List.getElem?_modify]
  by_cases h : p = q
  · simp [h]
  · simp [h]

theorem voice_chain_upd (st : Score) (s : Nat) (f : SYMBOL → SYMBOL)
    (hf : ∀ v, (f v).next = v.next) :
    ∀ (fuel : Nat) (p : Option Nat),
      voice_chain (st.upd s f) fuel p = voice_chain st fuel p := by
  intro fuel
  induction fuel with
  | zero => intro p; rfl
  | succ n ih =>
    intro p
    cases p with
    | none => rfl
    | some q =>
      unfold voice_chain
      rw [sym_upd]
      by_cases h : s = q
      · subst h
        simp only [if_true]
        cases hq : st.sym s with
        | none => rfl
        | some v => simp only [Option.map_some', hf, ih]
      · simp only [h, if_false]
        cases hq : st.sym q with
        | none => rfl
        | some v => simp only [ih]

theorem set_tie_dir_loop_total :
    ∀ (fuel : Nat) (p : Option Nat) (st : Score) (l : List Nat),
      voice_chain st fuel p = some l →
      ∃ st1, set_tie_dir_loop fuel p st = some st1 := by
  intro fuel
  induction fuel with
  | zero => intro p st l h; simp [voice_chain] at h
  | succ n ih =>
    intro p st l h
    cases p with
    | none => exact ⟨st, rfl⟩
    | some q =>
      unfold voice_chain at h
      unfold set_tie_dir_loop
      cases hq : st.sym q with
      | none => simp [hq] at h
      | some v =>
        simp only [hq, Option.map_eq_some'] at h ⊢
        obtain ⟨l2, hl2, _⟩ := h
        apply ih v.next (st.upd q set_tie_dir_sym) l2
        rw [voice_chain_upd st q set_tie_dir_sym (fun w => rfl)]
        exact hl2

theorem and_dotted_cases (t : Nat) : t &&& SL_DOTTED = 0 ∨ t &&& SL_DOTTED = 4 := by
  have h := Nat.and_two_pow t 2
  have h4 : (2 : Nat) ^ 2 = 4 := by norm_num
  rw [h4] at h
  unfold SL_DOTTED
  rw [h]
  cases t.testBit 2 <;> simp

theorem dotted_or_dir (t d : Nat) (hd : d = SL_ABOVE ∨ d = SL_BELOW) :
    ((t &&& SL_DOTTED) ||| d) &&& 3 = d := by
  rcases and_dotted_cases t with h | h <;> rcases hd with rfl | rfl <;>
    rw [h] <;> decide

theorem for_range_one {σ : Type} (body : Nat → σ → σ) (s : σ) :
    for_range (0 + 1) body s = body 0 s := by
  rw [for_range_succ, for_range_zero]

theorem set_tie_dir_ti1_single (s : SYMBOL) (hti : s.sflags.S_TI1 = true)
    (hm : s.multi = 0) (hn : s.nhd = 0) :
    set_tie_dir_ti1 s =
      (tie_one_step (if s.stem < 0 then SL_ABOVE else SL_BELOW) 0 (s.ti1, false)).1 := by
  unfold set_tie_dir_ti1
  simp only [hti, hm, hn, not_true_eq_false, if_false, ne_eq, for_range_one]
  have hc : (tie_count_step s 0 ((0 : Int), (0 : Int), (128 : Int))).1 ≤ 1 := by
    unfold tie_count_step
    split_ifs <;> simp
  simp only [hc, if_true]

theorem getD_set_zero (l : List Nat) (x : Nat) (h : l.getD 0 0 ≠ 0) :
    (l.set 0 x).getD 0 0 = x := by
  cases l with
  | nil => simp at h
  | cons a r => simp

/-- Direction given by `set_tie_dir` to a single tie of a single-head note in
a voice alone on its staff. -/
theorem set_tie_dir_ti1_auto (s : SYMBOL) (hti : s.sflags.S_TI1 = true)
    (hm : s.multi = 0) (hn : s.nhd = 0) (ha : s.ti1.getD 0 0 &&& 3 = SL_AUTO) :
    (set_tie_dir_ti1 s).getD 0 0 &&& 3 = (if s.stem < 0 then SL_ABOVE else SL_BELOW) := by
  rw [set_tie_dir_ti1_single s hti hm hn]
  have hne : s.ti1.getD 0 0 ≠ 0 := by
    intro h0
    rw [h0] at ha
    exact absurd ha (by decide)
  unfold tie_one_step
  simp only [Bool.false_eq_true, if_false, hne, ne_eq, not_false_eq_true, if_true]
  unfold set_auto
  simp only [ha, if_true]
  rw [getD_set_zero _ _ hne]
  apply dotted_or_dir
  split_ifs
  · exact Or.inl rfl
  · exact Or.inr rfl

/-- A tie whose direction is already fixed is left alone. -/
theorem set_tie_dir_ti1_fixed (s : SYMBOL) (hti : s.sflags.S_TI1 = true)
    (hm : s.multi = 0) (hn : s.nhd = 0) (ha : s.ti1.getD 0 0 &&& 3 ≠ SL_AUTO) :
    set_tie_dir_ti1 s = s.ti1 := by
  rw [set_tie_dir_ti1_single s hti hm hn]
  unfold tie_one_step
  simp only [Bool.false_eq_true, if_false]
  by_cases h0 : s.ti1.getD 0 0 ≠ 0
  · rw [if_pos h0]
    unfold set_auto
    rw [if_neg ha]
  · rw [if_neg h0]

theorem set_tie_dir_loop_frame :
    ∀ (fuel : Nat) (p : Option Nat) (st st1 : Score),
      set_tie_dir_loop fuel p st = some st1 →
      st1 = { st with syms := st1.syms }
      ∧ ∀ q v, st.sym q = some v → ∃ w, st1.sym q = some w ∧ w = { v with ti1 := w.ti1 } := by
  intro fuel
  induction fuel with
  | zero => intro p st st1 h; simp [set_tie_dir_loop] at h
  | succ n ih =>
    intro p st st1 h
    cases p with
    | none =>
      simp only [set_tie_dir_loop, Option.some.injEq] at h
      subst h
      exact ⟨rfl, fun q v hv => ⟨v, hv, rfl⟩⟩
    | some s =>
      unfold set_tie_dir_loop at h
      cases hs : st.sym s with
      | none => simp [hs] at h
      | some u =>
        simp only [hs] at h
        obtain ⟨e1, e2⟩ := ih _ _ _ h
        refine ⟨?_, ?_⟩
        · rw [e1]
          rfl
        · intro q v hv
          have hq : (st.upd s set_tie_dir_sym).sym q
              = some (if s = q then set_tie_dir_sym v else v) := by
            rw [sym_upd, hv]
            split_ifs <;> rfl
          obtain ⟨w, hw1, hw2⟩ := e2 q _ hq
          refine ⟨w, hw1, ?_⟩
          rw [hw2]
          split_ifs <;> rfl

theorem set_tie_dir_loop_keeps (k1p : Nat) (d : Nat) (hd : d ≠ SL_AUTO) :
    ∀ (fuel : Nat) (p : Option Nat) (st st1 : Score) (w : SYMBOL),
      set_tie_dir_loop fuel p st = some st1 →
      st.sym k1p = some w → w.sflags.S_TI1 = true → w.multi = 0 → w.nhd = 0 →
      w.ti1.getD 0 0 &&& 3 = d →
      ∃ w1, st1.sym k1p = some w1 ∧ w1.ti1.getD 0 0 &&& 3 = d := by
  intro fuel
  induction fuel with
  | zero => intro p st st1 w h; simp [set_tie_dir_loop] at h
  | succ n ih =>
    intro p st st1 w h hw h1 h2 h3 h4
    cases p with
    | none =>
      simp only [set_tie_dir_loop, Option.some.injEq] at h
      subst h
      exact ⟨w, hw, h4⟩
    | some s =>
      unfold set_tie_dir_loop at h
      cases hs : st.sym s with
      | none => simp [hs] at h
      | some u =>
        simp only [hs] at h
        have hfix : set_tie_dir_sym w = w := by
          unfold set_tie_dir_sym
          rw [set_tie_dir_ti1_fixed w h1 h2 h3 (by rw [h4]; exact hd)]
        have hq : (st.upd s set_tie_dir_sym).sym k1p = some w := by
          rw [sym_upd, hw]
          split_ifs
          · simp [hfix]
          · rfl
        exact ih _ _ _ w h hq h1 h2 h3 h4

theorem note_tie_job0_dir (st : Score) (k1p k2p : Nat) (k1 k2 : SYMBOL) (m1 m2 : Nat)
    (c : SlurOut) (h : note_tie st k1p k2p k1 k2 m1 m2 0 = some c) :
    c.s = if k1.ti1.getD m1 0 &&& 3 = SL_ABOVE then 1 else -1 := by
  unfold note_tie at h
  simp only [if_true, Option.some.injEq] at h
  rw [← h]

/-- C7: two consecutive single-head notes of a voice alone on its staff
(`multi = 0`), on the same staff, both at pitch 20, the first carrying one tie
of automatic direction.  When the voice chain from the first note ends,
`set_tie_dir` returns and the following `draw_ties` (job 0) emits exactly one
`slur_out` call; its direction is `+1` (above) when the stem of the first
note is down and `-1` (below) otherwise.  (That the two notes follow each
other on one staff is what makes `draw_all_ties` call `draw_ties` with job 0;
`draw_ties` itself does not use it.) -/
theorem tie_two_notes_one_curve (st : Score) (k1p k2p : Nat) (v1 v2 : SYMBOL)
    (l : List Nat)
    (h1 : st.sym k1p = some v1) (h2 : st.sym k2p = some v2)
    (t1 : v1.type = SymType.NOTEREST) (t2 : v2.type = SymType.NOTEREST)
    (n1 : v1.nhd = 0) (n2 : v2.nhd = 0)
    (p1 : v1.pits.getD 0 0 = 20 ∧ v1.as_pits.getD 0 0 = 20)
    (p2 : v2.pits.getD 0 0 = 20 ∧ v2.as_pits.getD 0 0 = 20)
    (hti : v1.sflags.S_TI1 = true) (hauto : v1.ti1.getD 0 0 &&& 3 = SL_AUTO)
    (hmulti : v1.multi = 0)
    (hchain : voice_chain st st.fuel (some k1p) = some l) :
    ∃ (st1 : Score) (c : SlurOut),
      set_tie_dir st k1p = some st1
      ∧ st1.out = st.out
      ∧ draw_ties st1 k1p k2p 0 = some { st1 with out := st.out ++ [Prim.slur c] }
      ∧ c.s = (if v1.stem < 0 then 1 else -1) := by
  obtain ⟨st1, hst1⟩ := set_tie_dir_loop_total st.fuel (some k1p) st l hchain
  -- the first iteration treats the first note
  have hstep : set_tie_dir_loop (st.syms.length) v1.next (st.upd k1p set_tie_dir_sym)
      = some st1 := by
    have := hst1
    unfold Score.fuel at this
    unfold set_tie_dir_loop at this
    simpa only [h1] using this
  set d : Nat := if v1.stem < 0 then SL_ABOVE else SL_BELOW with hd
  have hdne : d ≠ SL_AUTO := by
    rw [hd]; split_ifs <;> decide
  have hw0 : (st.upd k1p set_tie_dir_sym).sym k1p = some (set_tie_dir_sym v1) := by
    rw [sym_upd, h1]; simp
  obtain ⟨w1, hw1, hdir⟩ :=
    set_tie_dir_loop_keeps k1p d hdne _ _ _ _ (set_tie_dir_sym v1) hstep hw0 hti hmulti n1
      (set_tie_dir_ti1_auto v1 hti hmulti n1 hauto)
  obtain ⟨e1, e2⟩ := set_tie_dir_loop_frame _ _ _ _ hst1
  obtain ⟨w1b, hw1b, f1⟩ := e2 k1p v1 h1
  obtain ⟨w2, hw2, f2⟩ := e2 k2p v2 h2
  have hww : w1b = w1 := by
    rw [hw1] at hw1b
    exact (Option.some.inj hw1b).symm
  subst hww
  have hout : st1.out = st.out := by rw [e1]
  have w1type : w1b.type = SymType.NOTEREST := by rw [f1]; exact t1
  have w2type : w2.type = SymType.NOTEREST := by rw [f2]; exact t2
  have w1n : w1b.nhd = 0 := by rw [f1]; exact n1
  have w2n : w2.nhd = 0 := by rw [f2]; exact n2
  have w1p : w1b.as_pits.getD 0 0 = 20 := by rw [f1]; exact p1.2
  have w2p : w2.as_pits.getD 0 0 = 20 := by rw [f2]; exact p2.2
  have hne0 : w1b.ti1.getD 0 0 ≠ 0 := by
    intro h0
    rw [h0] at hdir
    rw [hd] at hdir
    split_ifs at hdir <;> exact absurd hdir (by decide)
  obtain ⟨c, hc⟩ := note_tie_job0 st1 k1p k2p w1b w2 0 0
  have hcs := note_tie_job0_dir st1 k1p k2p w1b w2 0 0 c hc
  have hsetup : tie_setup w1b w2 = { mhead1 := [0], mhead2 := [0], mhead3 := [] } := by
    unfold tie_setup
    rw [w1n, for_range_one]
    unfold tie_setup_step
    simp only [hne0, if_false, w2n]
    unfold tie_search
    simp only [w1p, w2p, sub_self, if_true]
    rfl
  refine ⟨st1, c, hst1, hout, ?_, ?_⟩
  · unfold draw_ties
    simp only [hw1, hw2, w1type, w2type]
    simp only [show SymType.NOTEREST ≠ SymType.GRACE by decide, if_false]
    simp only [hw1, hw2, hsetup]
    unfold draw_note_ties
    simp only [hw1, hw2]
    unfold draw_note_ties_loop
    simp only [hc]
    unfold draw_note_ties_loop
    simp [hout]
  · rw [hcs, hdir, hd]
    by_cases hs : v1.stem < 0
    · simp [hs]
    · simp only [hs, if_false]
      decide

/-- Instance of `tie_two_notes_one_curve`: two notes at pitch 20, stems
down; the tie goes above. -/
theorem tie_two_notes_one_curve_witness :
    ∃ (st1 : Score) (c : SlurOut),
      set_tie_dir tieNoteScore 0 = some st1
      ∧ st1.out = tieNoteScore.out
      ∧ draw_ties st1 0 1 0 = some { st1 with out := tieNoteScore.out ++ [Prim.slur c] }
      ∧ c.s = (if tieNote1.stem < 0 then 1 else -1) :=
  tie_two_notes_one_curve tieNoteScore 0 1 tieNote1 tieNote2 [0, 1]
    (by rfl) (by rfl) (by rfl) (by rfl) (by rfl) (by rfl)
    (by decide) (by decide) (by rfl) (by decide) (by rfl) (by rfl)

/-! ## Slur height -/

theorem y_set_sym (H : Hdr) (st : Score) (staff : Nat) (up : Bool) (x w y : ℚ) (q : Nat) :
    (y_set H st staff up x w y).sym q = st.sym q := rfl

theorem y_set_out (H : Hdr) (st : Score) (staff : Nat) (up : Bool) (x w y : ℚ) :
    (y_set H st staff up x w y).out = st.out := rfl

theorem upd_out (st : Score) (p : Nat) (f : SYMBOL → SYMBOL) : (st.upd p f).out = st.out := rfl

theorem fuel_two (st : Score) (k1 : Nat) (v1 : SYMBOL) (h1 : st.sym k1 = some v1) :
    st.fuel = (st.syms.length - 1) + 1 + 1 := by
  have : k1 < st.syms.length := by
    unfold Score.sym at h1
    by_contra hge
    rw [List.getElem?_eq_none (by omega)] at h1
    exact Option.noConfusion h1
  unfold Score.fuel
  omega

theorem slur_multi_adjacent (st : Score) (k1 k2 : Nat) (v1 v2 : SYMBOL)
    (h1 : st.sym k1 = some v1) (h2 : st.sym k2 = some v2) (hnext : v1.next = some k2) :
    ∃ m, slur_multi st k1 k2 = some m := by
  unfold slur_multi
  rw [fuel_two st k1 v1 h1]
  unfold slur_multi_loop
  simp only [h1]
  by_cases hm : v1.multi = 0
  · rw [if_neg (not_not.mpr hm)]
    by_cases hk : k1 = k2
    · exact ⟨0, by rw [if_pos hk]⟩
    · rw [if_neg hk]
      simp only [hnext]
      unfold slur_multi_loop
      simp only [h2]
      by_cases hm2 : v2.multi = 0
      · exact ⟨0, by rw [if_neg (not_not.mpr hm2), if_pos trivial]⟩
      · exact ⟨v2.multi, by rw [if_pos hm2]⟩
  · exact ⟨v1.multi, by rw [if_pos hm]⟩

theorem slur_direction_adjacent (st : Score) (k1 k2 : Nat) (v1 v2 : SYMBOL)
    (h1 : st.sym k1 = some v1) (h2 : st.sym k2 = some v2) (hnext : v1.next = some k2) :
    ∃ d, slur_direction st k1 k2 = some d := by
  by_cases hk : k1 = k2
  · have hc : chain_to st k2 st.fuel k1 = some [v1] := by
      rw [fuel_two st k1 v1 h1]
      unfold chain_to
      simp only [h1]
      rw [if_pos hk]
    exact ⟨_, slur_direction_eq st k1 k2 _ hc⟩
  · have hc : chain_to st k2 st.fuel k1 = some [v1, v2] := by
      rw [fuel_two st k1 v1 h1]
      unfold chain_to
      simp only [h1]
      rw [if_neg hk]
      simp only [hnext]
      unfold chain_to
      simp only [h2, if_true, Option.map_some']
    exact ⟨_, slur_direction_eq st k1 k2 _ hc⟩

theorem draw_slur_dir_adjacent (st : Score) (k1 k2 slur_type : Nat) (v1 v2 : SYMBOL)
    (h1 : st.sym k1 = some v1) (h2 : st.sym k2 = some v2) (hnext : v1.next = some k2) :
    ∃ s, draw_slur_dir st k1 k2 slur_type = some s := by
  unfold draw_slur_dir
  obtain ⟨m, hm⟩ := slur_multi_adjacent st k1 k2 v1 v2 h1 h2 hnext
  obtain ⟨d, hd⟩ := slur_direction_adjacent st k1 k2 v1 v2 h1 h2 hnext
  rw [hm, hd]
  by_cases hA : slur_type &&& 3 = SL_ABOVE
  · exact ⟨1, by rw [if_pos hA]⟩
  · rw [if_neg hA]
    by_cases hB : slur_type &&& 3 = SL_BELOW
    · exact ⟨-1, by rw [if_pos hB]⟩
    · rw [if_neg hB]
      by_cases h0 : m = 0
      · exact ⟨d, by simp only [h0, if_true]⟩
      · exact ⟨m, by simp only [h0, if_false]⟩

theorem slur_room_adjacent (H : Hdr) (k1 k2 upstaff : Nat) (s : Int) (a addy x2 x1 : ℚ)
    (st1 : Score) (v1 v2 : SYMBOL) (n : Nat)
    (h1 : st1.sym k1 = some v1) (h2 : st1.sym k2 = some v2)
    (hnext : v1.next = some k2) (hne : k1 ≠ k2) :
    ∃ st2, slur_room H k1 k2 upstaff s a addy x2 (n + 1 + 1) (some k1) x1 st1 = some st2
      ∧ st2.out = st1.out := by
  unfold slur_room
  rw [if_neg hne]
  simp only [h1, hnext]
  by_cases hs : v1.staff = upstaff
  · rw [if_neg (not_not.mpr hs)]
    have hsym : ∀ (q : Nat) (v : SYMBOL), st1.sym q = some v → k1 ≠ q →
        (if (v1.ymx : ℚ) < a * v1.x + addy then
            st1.upd k1 (fun z => { z with ymx := ctrunc (a * v1.x + addy) })
          else if (v1.ymn : ℚ) > a * v1.x + addy then
            st1.upd k1 (fun z => { z with ymn := ctrunc (a * v1.x + addy) })
          else st1).sym q = some v := by
      intro q v hq hkq
      split_ifs
      · rw [sym_upd, if_neg hkq, hq]
      · rw [sym_upd, if_neg hkq, hq]
      · exact hq
    have hout : (if (v1.ymx : ℚ) < a * v1.x + addy then
            st1.upd k1 (fun z => { z with ymx := ctrunc (a * v1.x + addy) })
          else if (v1.ymn : ℚ) > a * v1.x + addy then
            st1.upd k1 (fun z => { z with ymn := ctrunc (a * v1.x + addy) })
          else st1).out = st1.out := by
      split_ifs <;> rfl
    simp only [hsym k2 v2 h2 hne]
    unfold slur_room
    rw [if_pos rfl]
    exact ⟨_, rfl, by rw [y_set_out, hout]⟩
  · rw [if_pos hs]
    unfold slur_room
    rw [if_pos rfl]
    exact ⟨st1, rfl, rfl⟩

theorem slur_count_adjacent (st : Score) (k2 : Nat) (v2 : SYMBOL) (n staff : Nat)
    (h2 : st.sym k2 = some v2) :
    ∃ nn up two, slur_count st k2 (n + 1) (some k2) (1, staff, false) = some (nn, up, two)
      ∧ nn ≤ 3 := by
  unfold slur_count
  simp only [h2, if_true]
  by_cases ht : v2.type = SymType.NOTEREST
  · rw [if_pos ht]
    exact ⟨_, _, _, rfl, by norm_num⟩
  · rw [if_neg ht]
    exact ⟨_, _, _, rfl, by norm_num⟩

theorem slur_clear_adjacent (st : Score) (k2 upstaff : Nat) (s : Int) (a addy h : ℚ)
    (n : Nat) :
    slur_clear st k2 upstaff s a addy (n + 1) (some k2) h = some h := by
  unfold slur_clear
  rw [if_pos rfl]

theorem slur_ends_adjacent (H : Hdr) (st : Score) (k1 k2 : Nat) (v1 v2 : SYMBOL) (s : Int)
    (nn : Nat) (hne : k1 ≠ k2) (hnn : nn ≤ 2) :
    ∃ e5, slur_ends H st k1 k2 v1 v2 s nn = some e5 := by
  unfold slur_ends
  have h3 : ¬ nn ≥ 3 := by omega
  simp only [hne, ne_eq, not_false_eq_true, if_true, h3, if_false]
  exact ⟨_, rfl⟩

theorem slur_finish_adjacent (H : Hdr) (st : Score) (k1 k2 upstaff : Nat) (c : SlurOut)
    (ret : Nat) (v1 v2 : SYMBOL)
    (h1 : st.sym k1 = some v1) (h2 : st.sym k2 = some v2)
    (hnext : v1.next = some k2) (hne : k1 ≠ k2) :
    ∃ st2, slur_finish H st k1 k2 upstaff c ret = some (st2, ret)
      ∧ st2.out = st.out ++ [Prim.slur c] := by
  unfold slur_finish
  have h1b : ({ st with out := st.out ++ [Prim.slur c] } : Score).sym k1 = some v1 := h1
  have h2b : ({ st with out := st.out ++ [Prim.slur c] } : Score).sym k2 = some v2 := h2
  simp only []
  rw [fuel_two _ k1 v1 h1b]
  obtain ⟨st2, e, eo⟩ := slur_room_adjacent H k1 k2 upstaff c.s
    ((c.y2 - c.y1) / (c.x2 - c.x1))
    (c.y1 - (c.y2 - c.y1) / (c.x2 - c.x1) * c.x1 + 4 / 10 * c.height) c.x2 c.x1
    { st with out := st.out ++ [Prim.slur c] } v1 v2
    (({ st with out := st.out ++ [Prim.slur c] } : Score).syms.length - 1) h1b h2b hnext hne
  rw [e]
  exact ⟨st2, rfl, eo⟩

theorem ite_lt_max (x y : ℚ) : (if x < y then y else x) = max x y := by
  rw [max_def]
  split_ifs <;> linarith

theorem ite_gt_min (x y : ℚ) : (if x > y then y else x) = min x y := by
  rw [min_def]
  split_ifs <;> linarith

/-- Height of a slur with no clearance to respect and at most three notes:
the base value `(0.03*(x2 - x1) + 8)*s` is clamped between 0 and 40 on the
side of the slur and raised to 0.8 times the rise of the chord line. -/
theorem slur_height_no_clear (st : Score) (nn : Nat) (s : Int) (e : SlurEnds)
    (hnn : nn ≤ 3) :
    slur_height st nn s e 0 =
      (if s > 0 then
        max (min (max ((3 / 100 * (e.x2 - e.x1) + 8) * s) 0) 40) (8 / 10 * |e.y2 - e.y1|)
       else
        min (max (min ((3 / 100 * (e.x2 - e.x1) + 8) * s) 0) (-40))
          (-(8 / 10) * |e.y2 - e.y1|)) * st.slurheight := by
  unfold slur_height
  have h3 : ¬ nn > 3 := by omega
  simp only [h3, if_false, mul_zero]
  congr 1
  have habs : (if e.y2 - e.y1 < 0 then -(e.y2 - e.y1) else e.y2 - e.y1) = |e.y2 - e.y1| := by
    split_ifs with h
    · rw [abs_of_neg h]
    · rw [abs_of_nonneg (not_lt.mp h)]
  rw [habs]
  generalize |e.y2 - e.y1| = d
  generalize (3 / 100 * (e.x2 - e.x1) + 8) * (s : ℚ) = base
  by_cases hs : s > 0
  · simp only [hs, if_true]
    simp only [ite_lt_max, ite_gt_min]
  · simp only [hs, if_false]
    simp only [ite_lt_max, ite_gt_min]

/-- C3 fails as stated: for two neighbouring notes with stems down, 100
units apart, the second 60 units higher, `draw_slur` draws a slur above from
`(100, 8)` to `(196, 65.6)` with height `46.08 = 0.8*(65.6 - 8)`, not
`(0.03*(196 - 100) + 8)*1*1 = 10.88`. -/
theorem draw_slur_height_not_base :
    (draw_slur stdHdr slurScore 0 1 (-1) (-1) SL_ABOVE).map (fun r => r.1.out)
        = some [Prim.slur { x1 := 100, y1 := 8, x2 := 196, y2 := 328 / 5, s := 1,
                            height := 1152 / 25, dotted := 0, staff := 0 }]
      ∧ (1152 / 25 : ℚ) ≠ (3 / 100 * (196 - 100) + 8) * 1 * slurScore.slurheight := by
  decide!

/-! ## Beam slope -/

theorem blend_abs_lt (K a : ℚ) (hK : 0 < K) :
    |(if a ≥ 0 then K * a / (K + a) else K * a / (K - a))| < K := by
  by_cases ha : a ≥ 0
  · rw [if_pos ha]
    have hpos : 0 < K + a := by linarith
    rw [abs_of_nonneg (div_nonneg (mul_nonneg hK.le ha) hpos.le)]
    rw [div_lt_iff₀ hpos]
    nlinarith
  · rw [if_neg ha]
    have ha' : a < 0 := not_le.mp ha
    have hpos : 0 < K - a := by linarith
    have hneg : K * a / (K - a) ≤ 0 :=
      div_nonpos_of_nonpos_of_nonneg (by nlinarith) hpos.le
    rw [abs_of_nonpos hneg, neg_lt, lt_div_iff₀ hpos]
    nlinarith

theorem beam_slope_normal_lt (H : Hdr) (m : BeamSums) (notes : Int) (a b : ℚ)
    (hK : 0 < H.BEAM_SLOPE) : |beam_slope_normal H m notes a b| < H.BEAM_SLOPE := by
  unfold beam_slope_normal
  exact blend_abs_lt H.BEAM_SLOPE _ hK

theorem beam_slope_grace_le (H : Hdr) (a : ℚ) (hK : 0 < H.BEAM_SLOPE) :
    |beam_slope_grace H a| ≤ H.BEAM_SLOPE := by
  unfold beam_slope_grace
  split_ifs with h1 h2
  · rw [abs_of_pos hK]
  · rw [abs_neg, abs_of_pos hK]
  · rw [abs_le]
    constructor <;> linarith

theorem beam_snap_cases (H : Hdr) (notes : Int) (dx a : ℚ) :
    beam_snap H notes dx a = 0 ∨ beam_snap H notes dx a = a := by
  unfold beam_snap
  simp only []
  split_ifs
  · exact Or.inl rfl
  · exact Or.inr rfl

theorem beam_line_fst (H : Hdr) (grace flatbeams : Bool) (m : BeamSums) (notes : Int)
    (dx y0 : ℚ) :
    (beam_line H grace flatbeams m notes dx y0).1 =
      if flatbeams then 0
      else beam_snap H notes dx
        (if ¬ grace then beam_slope_normal H m notes (beam_fit m notes).1 (beam_fit m notes).2
         else beam_slope_grace H (beam_fit m notes).1) := by
  unfold beam_line
  simp only []
  split_ifs <;> rfl

/-- The slope left by the correction passes is within the steepness bound,
strictly for normal notes. -/
theorem beam_line_bound (H : Hdr) (grace flatbeams : Bool) (m : BeamSums) (notes : Int)
    (dx y0 : ℚ) (hK : 0 < H.BEAM_SLOPE) :
    |(beam_line H grace flatbeams m notes dx y0).1| ≤ H.BEAM_SLOPE
      ∧ (grace = false → |(beam_line H grace flatbeams m notes dx y0).1| < H.BEAM_SLOPE) := by
  rw [beam_line_fst]
  by_cases hf : flatbeams = true
  · rw [if_pos hf, abs_zero]
    exact ⟨hK.le, fun _ => hK⟩
  · rw [if_neg hf]
    cases grace with
    | true =>
      refine ⟨?_, fun h => absurd h (by decide)⟩
      rw [if_neg (by simp)]
      rcases beam_snap_cases H notes dx (beam_slope_grace H (beam_fit m notes).1) with h | h
      · rw [h, abs_zero]; exact hK.le
      · rw [h]; exact beam_slope_grace_le H _ hK
    | false =>
      rw [if_pos (by simp)]
      have hlt : |beam_snap H notes dx
          (beam_slope_normal H m notes (beam_fit m notes).1 (beam_fit m notes).2)|
            < H.BEAM_SLOPE := by
        rcases beam_snap_cases H notes dx
          (beam_slope_normal H m notes (beam_fit m notes).1 (beam_fit m notes).2) with h | h
        · rw [h, abs_zero]; exact hK
        · rw [h]; exact beam_slope_normal_lt H m notes _ _ hK
      exact ⟨hlt.le, fun _ => hlt⟩

theorem beam_refit_slope (H : Hdr) (st : Score) (s1 s2 : Nat) (c : BeamScan)
    (st' : Score) (a b : ℚ) (h : beam_refit H st s1 s2 c = some (st', a, b)) :
    ∃ (v1a : SYMBOL) (st2 : Score) (m : BeamSums) (v1 v2 : SYMBOL),
      st.sym s1 = some v1a
      ∧ beam_sums (if v1a.ABC_F_GRACE then H.GSTEM_XOFF else H.STEM_XOFF) s2 st.fuel s1 st {}
          = some (st2, m)
      ∧ st2.sym s1 = some v1 ∧ st2.sym s2 = some v2
      ∧ a = (beam_line H v1.ABC_F_GRACE st2.flatbeams m c.notes (v2.xs - v1.xs)
              (st2.staffOf v1a.staff).y).1 := by
  unfold beam_refit at h
  cases h0 : st.sym s1 with
  | none => simp [h0] at h
  | some v1a =>
    simp only [h0] at h
    cases hs : beam_sums (if v1a.ABC_F_GRACE then H.GSTEM_XOFF else H.STEM_XOFF) s2
        st.fuel s1 st {} with
    | none => simp [hs] at h
    | some r =>
      obtain ⟨st2, m⟩ := r
      simp only [hs] at h
      cases h1 : st2.sym s1 with
      | none => simp [h1] at h
      | some v1 =>
        cases h2 : st2.sym s2 with
        | none => simp [h1, h2] at h
        | some v2 =>
          simp only [h1, h2] at h
          refine ⟨v1a, st2, m, v1, v2, rfl, hs, h1, h2, ?_⟩
          split at h
          · exact absurd h (by simp)
          · split at h
            · exact absurd h (by simp)
            · split at h
              · exact absurd h (by simp)
              · simp only [Option.some.injEq, Prod.mk.injEq] at h
                exact h.2.1.symm

theorem beam_sums_frame (stem_xoff : ℚ) (s2 : Nat) :
    ∀ (fuel s : Nat) (st : Score) (m : BeamSums) (st' : Score) (m' : BeamSums),
      beam_sums stem_xoff s2 fuel s st m = some (st', m') →
      st' = { st with syms := st'.syms }
      ∧ ∀ q v, st.sym q = some v → ∃ w, st'.sym q = some w ∧ w = { v with xs := w.xs } := by
  intro fuel
  induction fuel with
  | zero => intro s st m st' m' h; simp [beam_sums] at h
  | succ n ih =>
    intro s st m st' m' h
    unfold beam_sums at h
    cases hs : st.sym s with
    | none => simp [hs] at h
    | some v =>
      simp only [hs] at h
      by_cases hn : v.as_type ≠ AbcType.ABC_T_NOTE
      · rw [if_pos hn] at h
        cases hnx : v.next with
        | none => simp [hnx] at h
        | some nx =>
          simp only [hnx] at h
          exact ih _ _ _ _ _ h
      · rw [if_neg hn] at h
        have hupd : ∀ q u, st.sym q = some u →
            ∃ w, (st.upd s (fun z => { z with xs := stem_x st stem_xoff v })).sym q = some w
              ∧ w = { u with xs := w.xs } := by
          intro q u hq
          rw [sym_upd, hq]
          by_cases hsq : s = q
          · rw [if_pos hsq]
            exact ⟨_, rfl, rfl⟩
          · rw [if_neg hsq]
            exact ⟨u, rfl, rfl⟩
        by_cases hend : s = s2
        · rw [if_pos hend] at h
          simp only [Option.some.injEq, Prod.mk.injEq] at h
          obtain ⟨h1, _⟩ := h
          subst h1
          exact ⟨rfl, hupd⟩
        · rw [if_neg hend] at h
          cases hnx : v.next with
          | none => simp [hnx] at h
          | some nx =>
            simp only [hnx] at h
            obtain ⟨e1, e2⟩ := ih _ _ _ _ _ h
            refine ⟨?_, ?_⟩
            · rw [e1]; rfl
            · intro q u hq
              obtain ⟨w, hw, hwe⟩ := hupd q u hq
              obtain ⟨w2, hw2, hwe2⟩ := e2 q w hw
              refine ⟨w2, hw2, ?_⟩
              rw [hwe2, hwe]

/-! ## Running the beam fitter twice -/

/-- C5 fails as stated, on both groups that are fitted anew at every call.
On the beam across two staves of `crossScore` the first call of
`calculate_beam` returns slope 5/12 and intercept 20569/120; a second call on
its result, with nothing changed in between, returns slope 5/22 and
intercept 43689/220.  On the grace notes of `graceScore` (stems in both
directions) the two calls return the same slope 635/3237 but the intercepts
1704502/5395 and 1713134/5395. -/
theorem calculate_beam_twice_differs :
    (calculate_beam stdHdr crossScore {} 0).map (fun r => (r.2.1.a, r.2.1.b, r.2.2))
        = some (5 / 12, 20569 / 120, 1)
      ∧ ((calculate_beam stdHdr crossScore {} 0).bind
          (fun r => calculate_beam stdHdr r.1 r.2.1 0)).map (fun r => (r.2.1.a, r.2.1.b, r.2.2))
        = some (5 / 22, 43689 / 220, 1)
      ∧ (calculate_beam stdHdr graceScore {} 1).map (fun r => (r.2.1.a, r.2.1.b, r.2.2))
        = some (635 / 3237, 1704502 / 5395, 1)
      ∧ ((calculate_beam stdHdr graceScore {} 1).bind
          (fun r => calculate_beam stdHdr r.1 r.2.1 1)).map (fun r => (r.2.1.a, r.2.1.b, r.2.2))
        = some (635 / 3237, 1713134 / 5395, 1) := by
  decide!

/-- C5, as amended: when a call of `calculate_beam` takes the line from the
stored end points (staves defined, group on one staff, normal notes) for a
group with its own beam-start and beam-end marks (no boundary duplicate is
made), it returns `a = (s1.ys - s2.ys)/(s1.xs - s2.xs)` and
`b = s1.ys - s1.xs*a + staff_tb[staff].y`, leaves the state as it was, and a
second call on its result returns the same state and the same beam. -/
theorem calculate_beam_stored_idempotent (H : Hdr) (st : Score) (bm : BEAM) (s1 s2 : Nat)
    (c : BeamScan) (v1 v2 : SYMBOL)
    (hv1 : st.sym s1 = some v1) (hv2 : st.sym s2 = some v2)
    (hvis : v1.ABC_F_INVIS = false)
    (hends : beam_ends st s1 = some (st, s1, s2, c))
    (hstored : beam_stored st v1 c) :
    ∃ bm1 : BEAM,
      calculate_beam H st bm s1 = some (st, bm1, 1)
      ∧ bm1.a = (v1.ys - v2.ys) / (v1.xs - v2.xs)
      ∧ bm1.b = v1.ys - v1.xs * bm1.a + (st.staffOf v1.staff).y
      ∧ calculate_beam H st bm1 s1 = some (st, bm1, 1) := by
  have hy : ¬ ((st.staffOf v1.staff).y = 0 ∧ c.two_staves = true) := by
    intro hc
    exact hstored.1 hc.1
  have key : ∀ b0 : BEAM, calculate_beam H st b0 s1
      = some (st, { b0 with s1 := s1, s2 := s2, a := (v1.ys - v2.ys) / (v1.xs - v2.xs),
                            b := v1.ys - v1.xs * ((v1.ys - v2.ys) / (v1.xs - v2.xs))
                                  + (st.staffOf v1.staff).y,
                            nflags := c.nflags }, 1) := by
    intro b0
    unfold calculate_beam
    simp only [hv1, hvis, Bool.false_eq_true, false_and, if_false, hends, hv2]
    rw [if_neg hy, if_pos hstored]
  refine ⟨_, key bm, rfl, rfl, ?_⟩
  rw [key]

/-- Instance of `calculate_beam_stored_idempotent`: the four eighth notes of
`lineScore` once the staff origin is defined. -/
theorem calculate_beam_stored_idempotent_witness :
    ∃ bm1 : BEAM,
      calculate_beam stdHdr { lineScore with staff_tb := [{ y := 300 }] } {} 1
        = some ({ lineScore with staff_tb := [{ y := 300 }] }, bm1, 1)
      ∧ bm1.a = ((lineNote 1).ys - (lineNote 4).ys) / ((lineNote 1).xs - (lineNote 4).xs)
      ∧ bm1.b = (lineNote 1).ys - (lineNote 1).xs * bm1.a
          + (({ lineScore with staff_tb := [{ y := 300 }] } : Score).staffOf (lineNote 1).staff).y
      ∧ calculate_beam stdHdr { lineScore with staff_tb := [{ y := 300 }] } bm1 1
        = some ({ lineScore with staff_tb := [{ y := 300 }] }, bm1, 1) :=
  calculate_beam_stored_idempotent stdHdr { lineScore with staff_tb := [{ y := 300 }] } {} 1 4
    { notes := 4, nflags := 1 } (lineNote 1) (lineNote 4) (by rfl) (by rfl) (by rfl) (by rfl)
    (by decide!)

/-! ## Colinear stem tips -/

/-- C6 fails as stated: the four eighth notes of `lineScore` have their stem
tips on the line of slope 1/5 (which is the line through the first and the
last tip), yet `calculate_beam` fits the slope 1/7 = 0.5*(1/5)/(0.5 + 1/5):
the steepness limit is applied to it, and the stems are set on that line. -/
theorem colinear_beam_slope_reduced :
    (∀ i ∈ [1, 2, 3, 4], (lineNote i).ys = 1 / 5 * (lineNote i).xs + 133 / 10)
      ∧ ((lineNote 4).ys - (lineNote 1).ys) / ((lineNote 4).xs - (lineNote 1).xs) = 1 / 5
      ∧ (beam_ends lineScore 1).map (fun r => (r.2.1, r.2.2.1, r.2.2.2))
          = some (1, 4, { notes := 4, nflags := 1 })
      ∧ (beam_refit stdHdr lineScore 1 4 { notes := 4, nflags := 1 }).map (fun r => r.2.1)
          = some (1 / 7)
      ∧ (calculate_beam stdHdr lineScore {} 1).map (fun r => r.1.syms.map (fun v => v.ys))
          = some [0, 250 / 7, 270 / 7, 290 / 7, 310 / 7] := by
  decide!

/-! ## Tuplets -/

theorem sym_lt (st : Score) (p : Nat) (v : SYMBOL) (h : st.sym p = some v) :
    p < st.syms.length := by
  unfold Score.sym at h
  by_contra hge
  rw [List.getElem?_eq_none (by omega)] at h
  exact Option.noConfusion h

theorem nodup_length_le (l : List Nat) (n : Nat) (hnd : l.Nodup) (hlt : ∀ x ∈ l, x < n) :
    l.length ≤ n := by
  have h1 : l.toFinset ⊆ Finset.range n := by
    intro x hx
    rw [List.mem_toFinset] at hx
    exact Finset.mem_range.mpr (hlt x hx)
  have h2 := Finset.card_le_card h1
  rw [List.toFinset_card_of_nodup hnd, Finset.card_range] at h2
  exact h2

theorem tuplet_chain_none (call : TupletCall) (s : Nat) (st : Score) (next : Nat) :
    ∀ (fuel : Nat) (g : Option Nat), no_tuplet st fuel g = true →
      tuplet_chain call s fuel g st next = some (st, next) := by
  intro fuel
  induction fuel with
  | zero => intro g h; simp [no_tuplet] at h
  | succ n ih =>
    intro g h
    cases g with
    | none => rfl
    | some g =>
      unfold no_tuplet at h
      unfold tuplet_chain
      cases hg : st.sym g with
      | none => simp [hg] at h
      | some gv =>
        simp only [hg, Bool.and_eq_true, decide_eq_true_eq] at h
        simp only [if_neg h.1]
        exact ih gv.next h.2

theorem grace_has_slur_total (st : Score) :
    ∀ (fuel : Nat) (g : Option Nat) (b : Bool), no_tuplet st fuel g = true →
      ∃ b1, grace_has_slur st fuel g b = some b1 := by
  intro fuel
  induction fuel with
  | zero => intro g b h; simp [no_tuplet] at h
  | succ n ih =>
    intro g b h
    cases g with
    | none => exact ⟨b, rfl⟩
    | some g =>
      unfold no_tuplet at h
      unfold grace_has_slur
      cases hg : st.sym g with
      | none => simp [hg] at h
      | some gv =>
        simp only [hg, Bool.and_eq_true, decide_eq_true_eq] at h
        exact ih gv.next _ h.2

theorem tuplet_members_step (call : TupletCall) (s : Nat) (st : Score) (fuel p : Nat)
    (v : SYMBOL) (c : TupletScan) (hsym : st.sym p = some v)
    (hext : p ≠ s → no_tuplet st st.fuel v.extra = true) :
    tuplet_members call s (fuel + 1) (some p) st c =
      if v.type ≠ SymType.NOTEREST then
        if v.type = SymType.GRACE then
          match grace_has_slur st st.fuel v.extra c.some_slur with
          | none => none
          | some b => tuplet_members call s fuel v.next st { c with some_slur := b }
        else tuplet_members call s fuel v.next st c
      else
        if c.r - 1 ≤ 0 then
          some (st, some p,
            { c with
              some_slur :=
                if v.slur_st ≠ 0 ∨ v.slur_end ≠ 0 ∨ v.sflags.S_SL1 ∨ v.sflags.S_SL2 then true
                else c.some_slur,
              upstaff := if v.staff < c.upstaff then v.staff else c.upstaff,
              s1 := if c.s1 = none then some p else c.s1,
              r := c.r - 1 })
        else
          tuplet_members call s fuel v.next st
            { c with
              some_slur :=
                if v.slur_st ≠ 0 ∨ v.slur_end ≠ 0 ∨ v.sflags.S_SL1 ∨ v.sflags.S_SL2 then true
                else c.some_slur,
              upstaff := if v.staff < c.upstaff then v.staff else c.upstaff,
              s1 := if c.s1 = none then some p else c.s1,
              r := c.r - 1 } := by
  have hch : (if p ≠ s then tuplet_chain call p st.fuel v.extra st c.next
              else some (st, c.next)) = some (st, c.next) := by
    by_cases h : p = s
    · rw [if_neg (not_not.mpr h)]
    · rw [if_pos h]
      exact tuplet_chain_none call p st c.next st.fuel v.extra (hext h)
  conv_lhs => unfold tuplet_members
  simp only [hsym, hch]

theorem tuplet_members_path (call : TupletCall) (s : Nat) (st : Score) (s2 : Nat) (v2 : SYMBOL)
    (h2 : v2.type = SymType.NOTEREST)
    (hsg : ∀ v, st.sym s = some v → v.type ≠ SymType.GRACE) :
    ∀ (q : List (Nat × SYMBOL)) (p : Nat) (v : SYMBOL) (fuel : Nat) (c : TupletScan),
      ((p, v) :: q).getLast? = some (s2, v2) →
      (∀ pv ∈ (p, v) :: q, st.sym pv.1 = some pv.2) →
      linked ((p, v) :: q) →
      (∀ pv ∈ (p, v) :: q, pv.1 ≠ s → no_tuplet st st.fuel pv.2.extra = true) →
      c.r = ((((p, v) :: q).filter (fun pv => decide (pv.2.type = SymType.NOTEREST))).length
              : Int) →
      (c.s1 = none → v.type = SymType.NOTEREST) →
      ((p, v) :: q).length ≤ fuel →
      ∃ c1, tuplet_members call s fuel (some p) st c = some (st, some s2, c1)
        ∧ c1.next = c.next ∧ c1.s1 = some (c.s1.getD p) := by
  intro q
  induction q with
  | nil =>
    intro p v fuel c hlast hsym _ hext hr _ hfuel
    simp only [List.getLast?_singleton, Option.some.injEq, Prod.mk.injEq] at hlast
    obtain ⟨hp, hv⟩ := hlast
    subst hp hv
    obtain ⟨n, rfl⟩ : ∃ n, fuel = n + 1 := ⟨fuel - 1, by simp at hfuel; omega⟩
    rw [tuplet_members_step call s st n p v c (hsym (p, v) (List.mem_singleton.mpr rfl))
      (hext (p, v) (List.mem_singleton.mpr rfl))]
    have hr1 : c.r = 1 := by
      rw [hr]; simp [List.filter, h2]
    rw [if_neg (not_not.mpr h2), if_pos (by rw [hr1]; decide)]
    refine ⟨_, rfl, rfl, ?_⟩
    cases hs : c.s1 <;> simp
  | cons b q ih =>
    intro p v fuel c hlast hsym hlink hext hr hs1 hfuel
    obtain ⟨n, rfl⟩ : ∃ n, fuel = n + 1 := ⟨fuel - 1, by simp at hfuel; omega⟩
    obtain ⟨bp, bv⟩ := b
    have hnext : v.next = some bp := hlink.1
    have hlast1 : ((bp, bv) :: q).getLast? = some (s2, v2) := by
      rw [List.getLast?_cons_cons] at hlast; exact hlast
    have hsym1 : ∀ pv ∈ (bp, bv) :: q, st.sym pv.1 = some pv.2 :=
      fun pv h => hsym pv (List.mem_cons_of_mem _ h)
    have hext1 : ∀ pv ∈ (bp, bv) :: q, pv.1 ≠ s → no_tuplet st st.fuel pv.2.extra = true :=
      fun pv h => hext pv (List.mem_cons_of_mem _ h)
    have hfuel1 : ((bp, bv) :: q).length ≤ n := by
      simp only [List.length_cons] at hfuel ⊢; omega
    have hcnt : 1 ≤ ((((bp, bv) :: q).filter
        (fun pv => decide (pv.2.type = SymType.NOTEREST))).length : Int) := by
      have hmem : (s2, v2) ∈ ((bp, bv) :: q).filter
          (fun pv => decide (pv.2.type = SymType.NOTEREST)) := by
        rw [List.mem_filter]
        exact ⟨List.mem_of_getLast?_eq_some hlast1, by simpa using h2⟩
      have := List.length_pos_of_mem hmem
      omega
    rw [tuplet_members_step call s st n p v c (hsym (p, v) (List.mem_cons_self _ _))
      (hext (p, v) (List.mem_cons_self _ _))]
    by_cases hty : v.type = SymType.NOTEREST
    · rw [if_neg (not_not.mpr hty)]
      have hr1 : c.r - 1 = ((((bp, bv) :: q).filter
          (fun pv => decide (pv.2.type = SymType.NOTEREST))).length : Int) := by
        rw [hr, List.filter_cons_of_pos (by simpa using hty)]
        simp only [List.length_cons]; push_cast; ring
      rw [if_neg (by rw [hr1]; omega), hnext]
      have hnn : (if c.s1 = none then some p else c.s1) = some (c.s1.getD p) := by
        cases hs : c.s1 <;> simp
      rw [hnn]
      obtain ⟨c1, e1, e2, e3⟩ := ih bp bv n
        { c with
          some_slur :=
            if v.slur_st ≠ 0 ∨ v.slur_end ≠ 0 ∨ v.sflags.S_SL1 ∨ v.sflags.S_SL2 then true
            else c.some_slur,
          upstaff := if v.staff < c.upstaff then v.staff else c.upstaff,
          s1 := some (c.s1.getD p),
          r := c.r - 1 } hlast1 hsym1 hlink.2 hext1 hr1
        (by intro h; exact absurd h (by simp)) hfuel1
      exact ⟨c1, e1, e2, e3⟩
    · have hs1n : ∃ x, c.s1 = some x := by
        cases hs : c.s1 with
        | none => exact absurd (hs1 hs) hty
        | some x => exact ⟨x, rfl⟩
      obtain ⟨x, hx⟩ := hs1n
      have hr1 : c.r = ((((bp, bv) :: q).filter
          (fun pv => decide (pv.2.type = SymType.NOTEREST))).length : Int) := by
        rw [hr, List.filter_cons_of_neg (by simpa using hty)]
      rw [if_pos hty, hnext]
      by_cases hg : v.type = SymType.GRACE
      · rw [if_pos hg]
        by_cases hps : p = s
        · subst hps
          exact absurd hg (hsg v (hsym (p, v) (List.mem_cons_self _ _)))
        · obtain ⟨b1, hb1⟩ := grace_has_slur_total st st.fuel v.extra c.some_slur
            (hext (p, v) (List.mem_cons_self _ _) hps)
          rw [hb1]
          obtain ⟨c1, e1, e2, e3⟩ := ih bp bv n { c with some_slur := b1 } hlast1 hsym1 hlink.2
            hext1 hr1 (by intro h; simp [hx] at h) hfuel1
          refine ⟨c1, e1, e2, ?_⟩
          rw [e3, hx]; rfl
      · rw [if_neg hg]
        obtain ⟨c1, e1, e2, e3⟩ := ih bp bv n c hlast1 hsym1 hlink.2 hext1 hr1
          (by intro h; simp [hx] at h) hfuel1
        refine ⟨c1, e1, e2, ?_⟩
        rw [e3, hx]; rfl

theorem tuplet_beamed_path (st : Score) (s2 : Nat) (v2 : SYMBOL)
    (h2 : v2.type = SymType.NOTEREST) :
    ∀ (q : List (Nat × SYMBOL)) (p : Nat) (v : SYMBOL) (fuel : Nat),
      ((p, v) :: q).getLast? = some (s2, v2) →
      (∀ pv ∈ (p, v) :: q, st.sym pv.1 = some pv.2) →
      linked ((p, v) :: q) →
      (∀ pv ∈ (p, v) :: q, pv.2.type = SymType.NOTEREST ∨ pv.2.type = SymType.GRACE
        ∨ pv.2.type = SymType.SPACE) →
      (∀ pv ∈ (p, v) :: q, pv.2.type = SymType.NOTEREST → pv.1 ≠ s2 →
        pv.2.sflags.S_BEAM_END = false) →
      ((p, v) :: q).length ≤ fuel →
      tuplet_beamed st s2 fuel (some p) = some true := by
  intro q
  induction q with
  | nil =>
    intro p v fuel hlast hsym _ _ _ hfuel
    simp only [List.getLast?_singleton, Option.some.injEq, Prod.mk.injEq] at hlast
    obtain ⟨hp, hv⟩ := hlast
    subst hp hv
    obtain ⟨n, rfl⟩ : ∃ n, fuel = n + 1 := ⟨fuel - 1, by simp at hfuel; omega⟩
    unfold tuplet_beamed
    simp only [hsym (p, v) (List.mem_singleton.mpr rfl)]
    rw [if_neg (not_not.mpr h2), if_pos trivial]
  | cons b q ih =>
    intro p v fuel hlast hsym hlink hty hbe hfuel
    obtain ⟨n, rfl⟩ : ∃ n, fuel = n + 1 := ⟨fuel - 1, by simp at hfuel; omega⟩
    obtain ⟨bp, bv⟩ := b
    have hnext : v.next = some bp := hlink.1
    have hrec : tuplet_beamed st s2 n (some bp) = some true :=
      ih bp bv n (by rw [List.getLast?_cons_cons] at hlast; exact hlast)
        (fun pv h => hsym pv (List.mem_cons_of_mem _ h)) hlink.2
        (fun pv h => hty pv (List.mem_cons_of_mem _ h))
        (fun pv h => hbe pv (List.mem_cons_of_mem _ h))
        (by simp only [List.length_cons] at hfuel ⊢; omega)
    unfold tuplet_beamed
    simp only [hsym (p, v) (List.mem_cons_self _ _)]
    by_cases ht : v.type = SymType.NOTEREST
    · rw [if_neg (not_not.mpr ht)]
      by_cases hp : p = s2
      · rw [if_pos hp]
      · rw [if_neg hp, hbe (p, v) (List.mem_cons_self _ _) ht hp, hnext]
        simpa using hrec
    · rw [if_pos ht]
      have := hty (p, v) (List.mem_cons_self _ _)
      rw [if_pos (this.resolve_left ht), hnext]
      exact hrec

theorem tuplet_find_x_path (st : Score) (xm : ℚ) :
    ∀ (q : List (Nat × SYMBOL)) (fuel : Nat),
      (∀ pv ∈ q, st.sym pv.1 = some pv.2) →
      linked q →
      (∃ pv ∈ q, pv.2.x ≥ xm) →
      q.length ≤ fuel →
      ∃ sy ∈ q, tuplet_find_x st xm fuel ((q.head?).map (fun pv => pv.1)) = some sy.1 := by
  intro q
  induction q with
  | nil => intro fuel _ _ hx _; obtain ⟨pv, h, _⟩ := hx; cases h
  | cons a q ih =>
    intro fuel hsym hlink hx hfuel
    obtain ⟨n, rfl⟩ : ∃ n, fuel = n + 1 := ⟨fuel - 1, by simp at hfuel; omega⟩
    obtain ⟨p, v⟩ := a
    simp only [List.head?_cons, Option.map_some']
    unfold tuplet_find_x
    simp only [hsym (p, v) (List.mem_cons_self _ _)]
    by_cases hv : v.x ≥ xm
    · rw [if_pos hv]
      exact ⟨(p, v), List.mem_cons_self _ _, rfl⟩
    · rw [if_neg hv]
      have hx1 : ∃ pv ∈ q, pv.2.x ≥ xm := by
        obtain ⟨pv, h, hge⟩ := hx
        rcases List.mem_cons.mp h with rfl | h
        · exact absurd hge hv
        · exact ⟨pv, h, hge⟩
      cases q with
      | nil => obtain ⟨pv, h, _⟩ := hx1; cases h
      | cons b q =>
        have hnext : v.next = some b.1 := hlink.1
        obtain ⟨sy, hsy, e⟩ := ih n (fun pv h => hsym pv (List.mem_cons_of_mem _ h)) hlink.2 hx1
          (by simp only [List.length_cons] at hfuel ⊢; omega)
        rw [hnext]
        exact ⟨sy, List.mem_cons_of_mem _ hsy, e⟩

theorem tuplet_number_out (H : Hdr) (st : Score) (tv : SYMBOL) (s s1 s2 : Nat) (v1 v2 : SYMBOL)
    (q : List (Nat × SYMBOL))
    (hlast : ((s1, v1) :: q).getLast? = some (s2, v2))
    (hsym : ∀ pv ∈ (s1, v1) :: q, st.sym pv.1 = some pv.2)
    (hlink : linked ((s1, v1) :: q))
    (hfuel : ((s1, v1) :: q).length ≤ st.fuel)
    (hvalue : tv.u &&& 0x0f = 0)
    (hx : v1.x ≤ v2.x) :
    ∃ st1 x y, tuplet_number H st tv s s1 s2 v1 v2 = some st1
      ∧ st1.out = st.out ++ [Prim.bnum tv.p_plet none x y v1.staff] := by
  have hxm : v2.x ≥ (v2.x + v1.x) * (1 / 2) := by
    show (v2.x + v1.x) * (1 / 2) ≤ v2.x
    linarith
  obtain ⟨sy, hsy, hfind⟩ := tuplet_find_x_path st ((v2.x + v1.x) * (1 / 2)) ((s1, v1) :: q)
    st.fuel hsym hlink ⟨(s2, v2), List.mem_of_getLast?_eq_some hlast, hxm⟩ hfuel
  simp only [List.head?_cons, Option.map_some'] at hfind
  have hsy1 := hsym sy hsy
  unfold tuplet_number
  simp only [hfind, hvalue, if_true]
  have hsy2 : ∀ (o : List Prim), Score.sym { st with out := o } sy.1 = some sy.2 :=
    fun _ => hsy1
  simp only [hsy2]
  by_cases hstem : v1.stem > 0
  · simp only [if_pos hstem]
    split_ifs <;> exact ⟨_, _, _, rfl, rfl⟩
  · simp only [if_neg hstem]
    split_ifs <;> exact ⟨_, _, _, rfl, rfl⟩

theorem tuplet_nb_only_beamed (st : Score) (tv v1 v2 : SYMBOL) (s1 s2 : Nat)
    (q : List (Nat × SYMBOL))
    (hwhen : tv.u &&& 0x0f00 = 0)
    (hlast : ((s1, v1) :: q).getLast? = some (s2, v2))
    (hsym : ∀ pv ∈ (s1, v1) :: q, st.sym pv.1 = some pv.2)
    (hlink : linked ((s1, v1) :: q))
    (hfuel : ((s1, v1) :: q).length ≤ st.fuel)
    (hty : ∀ pv ∈ (s1, v1) :: q, pv.2.type = SymType.NOTEREST ∨ pv.2.type = SymType.GRACE
      ∨ pv.2.type = SymType.SPACE)
    (hbe : ∀ pv ∈ (s1, v1) :: q, pv.2.type = SymType.NOTEREST → pv.1 ≠ s2 →
      pv.2.sflags.S_BEAM_END = false)
    (hn1 : v1.as_type = AbcType.ABC_T_NOTE)
    (hn2 : v2.type = SymType.NOTEREST ∧ v2.as_type = AbcType.ABC_T_NOTE)
    (hst : v1.sflags.S_BEAM_ST = true) (hend : v2.sflags.S_BEAM_END = true) :
    tuplet_nb_only st tv v1 v2 s1 s2 = some true := by
  unfold tuplet_nb_only
  rw [if_neg (by rw [hwhen, hn1, hn2.2]; decide),
    tuplet_beamed_path st s2 v2 hn2.1 q s1 v1 st.fuel hlast hsym hlink hty hbe hfuel]
  simp only [hst, hend]
  rfl

/-- C8: for a tuplet marker `t` of the main note `s` with the default display
mode (the 'when', 'what' and 'value' digits of `u` are 0) and no nested
tuplet, whose members are the notes and rests of the chain `s = s1 .. s2`
(`r_plet` of them, the chain holding only notes/rests, grace groups and
spaces, laid out from left to right), if the first member is a note that
carries the beam start, the last member a note that carries the beam end and
no earlier member carries a beam end, `draw_tuplet` returns and appends to the
output exactly one primitive, the number `bnum` (no `tubr` / `tubrl`). -/
theorem draw_tuplet_beamed_number (H : Hdr) (slurs : Score → Nat → Nat → Option Score)
    (st : Score) (t s s2 : Nat) (tv v1 v2 : SYMBOL) (q : List (Nat × SYMBOL))
    (ht : st.sym t = some tv)
    (hwhen : tv.u &&& 0x0f00 = 0) (hwhat : tv.u &&& 0x0f0 = 0) (hvalue : tv.u &&& 0x0f = 0)
    (hnest : no_tuplet st st.fuel tv.next = true)
    (hlast : ((s, v1) :: q).getLast? = some (s2, v2))
    (hsym : ∀ pv ∈ (s, v1) :: q, st.sym pv.1 = some pv.2)
    (hlink : linked ((s, v1) :: q))
    (hnd : (((s, v1) :: q).map (fun pv => pv.1)).Nodup)
    (hext : ∀ pv ∈ q, no_tuplet st st.fuel pv.2.extra = true)
    (hty : ∀ pv ∈ (s, v1) :: q, pv.2.type = SymType.NOTEREST ∨ pv.2.type = SymType.GRACE
      ∨ pv.2.type = SymType.SPACE)
    (hcount : tv.r_plet
      = ((((s, v1) :: q).filter (fun pv => decide (pv.2.type = SymType.NOTEREST))).length : Int))
    (hn1 : v1.type = SymType.NOTEREST ∧ v1.as_type = AbcType.ABC_T_NOTE)
    (hn2 : v2.type = SymType.NOTEREST ∧ v2.as_type = AbcType.ABC_T_NOTE)
    (hst : v1.sflags.S_BEAM_ST = true) (hend : v2.sflags.S_BEAM_END = true)
    (hbe : ∀ pv ∈ (s, v1) :: q, pv.2.type = SymType.NOTEREST → pv.1 ≠ s2 →
      pv.2.sflags.S_BEAM_END = false)
    (hx : v1.x ≤ v2.x) :
    ∃ (st1 : Score) (next : Nat) (x y : ℚ),
      draw_tuplet H slurs st t s = some (st1, next)
      ∧ st1.out = st.out ++ [Prim.bnum tv.p_plet none x y v1.staff] := by
  have hs1 : st.sym s = some v1 := hsym (s, v1) (List.mem_cons_self _ _)
  have hs2 : st.sym s2 = some v2 := hsym (s2, v2) (List.mem_of_getLast?_eq_some hlast)
  have hfuel : ((s, v1) :: q).length ≤ st.fuel := by
    have h1 := nodup_length_le _ st.syms.length hnd (by
      intro x hx
      obtain ⟨pv, hpv, rfl⟩ := List.mem_map.mp hx
      exact sym_lt st pv.1 pv.2 (hsym pv hpv))
    rw [List.length_map] at h1
    unfold Score.fuel
    omega
  obtain ⟨c1, hmem, hc1n, hc1s⟩ := tuplet_members_path
    (draw_tuplet_depth H slurs st.syms.length) s st s2 v2 hn2.1
    (by intro v hv; rw [hs1] at hv; cases hv; rw [hn1.1]; decide)
    q s v1 st.fuel { r := tv.r_plet, upstaff := v1.staff, next := s } hlast hsym hlink
    (by
      intro pv hpv hne
      rcases List.mem_cons.mp hpv with rfl | h
      · exact absurd rfl hne
      · exact hext pv h)
    hcount (fun _ => hn1.1) hfuel
  obtain ⟨st1, x, y, hnum, hout⟩ :=
    tuplet_number_out H st tv s s s2 v1 v2 q hlast hsym hlink hfuel hvalue hx
  have hnb : s ≠ s2 → tuplet_nb_only st tv v1 v2 s s2 = some true := fun _ =>
    tuplet_nb_only_beamed st tv v1 v2 s s2 q hwhen hlast hsym hlink hfuel hty hbe hn1.2 hn2
      hst hend
  have hlater : ∃ next, later_sym st s2 c1.next = some next := by
    unfold later_sym
    rw [hc1n, hs2]
    simp only [hs1]
    exact ⟨_, rfl⟩
  obtain ⟨next, hnext⟩ := hlater
  refine ⟨st1, next, x, y, ?_, hout⟩
  unfold draw_tuplet
  show draw_tuplet_depth H slurs (st.syms.length + 1) st t s = _
  unfold draw_tuplet_depth draw_tuplet_body
  simp only [ht, hs1]
  rw [if_neg (by rw [hwhen]; decide),
    tuplet_chain_none _ s st s st.fuel tv.next hnest]
  simp only [hmem, hnext, hc1s, Option.getD_none, hs1, hs2]
  by_cases he : s = s2
  · simp only [if_pos he, if_true]
    rw [if_neg (by rw [hvalue]; decide)]
    simp only [hs1, hs2, hnum, Option.map_some']
  · simp only [if_neg he]
    rw [if_neg (by rw [hwhat]; decide), hnb he]
    simp only [Option.map_some', if_true]
    rw [if_neg (by rw [hvalue]; decide)]
    simp only [hs1, hs2, hnum, Option.map_some']

/-- Instance of `draw_tuplet_beamed_number`: the beamed triplet of `tupScore`
gets its number and no bracket. -/
theorem draw_tuplet_beamed_number_witness :
    ∃ (st1 : Score) (next : Nat) (x y : ℚ),
      draw_tuplet stdHdr (fun _ _ _ => none) tupScore 3 0 = some (st1, next)
      ∧ st1.out = tupScore.out ++ [Prim.bnum tupMark.p_plet none x y (tupNote 0).staff] :=
  draw_tuplet_beamed_number stdHdr (fun _ _ _ => none) tupScore 3 0 2 tupMark (tupNote 0)
    (tupNote 2) [(1, tupNote 1), (2, tupNote 2)] rfl (by decide) (by decide) (by decide) rfl rfl
    (by
      intro pv h
      simp only [List.mem_cons, List.mem_singleton, List.not_mem_nil, or_false] at h
      rcases h with rfl | rfl | rfl <;> rfl)
    ⟨rfl, rfl, trivial⟩ (by decide)
    (by
      intro pv h
      simp only [List.mem_cons, List.mem_singleton, List.not_mem_nil, or_false] at h
      rcases h with rfl | rfl <;> rfl)
    (by
      intro pv h
      simp only [List.mem_cons, List.mem_singleton, List.not_mem_nil, or_false] at h
      rcases h with rfl | rfl | rfl <;> exact Or.inl rfl)
    (by decide) ⟨rfl, rfl⟩ ⟨rfl, rfl⟩ rfl rfl
    (by
      intro pv h _ hne
      simp only [List.mem_cons, List.mem_singleton, List.not_mem_nil, or_false] at h
      rcases h with rfl | rfl | rfl
      · rfl
      · rfl
      · exact absurd rfl hne)
    (by decide!)

/-- Value computed on `tupScore`: the number `(3)` is put at abscissa
`70 + GSTEM_XOFF`, 4 above the line of the stem tips, and it is the only
primitive written. -/
theorem draw_tuplet_tupScore_out :
    (draw_tuplet stdHdr (fun _ _ _ => none) tupScore 3 0).map (fun r => (r.1.out, r.2))
      = some ([Prim.bnum 3 none (70 + 8 / 5) (38 + 8 / 25) 0], 2) := by
  decide!

/-! ## Least-squares fit -/

theorem foldl_add_eq (l : List (ℚ × ℚ)) :
    ∀ m : BeamSums,
      l.foldl (fun m t => m.add t.1 t.2) m
        = { sx := m.sx + (l.map (fun t => t.1)).sum,
            sy := m.sy + (l.map (fun t => t.2)).sum,
            sxx := m.sxx + (l.map (fun t => t.1 * t.1)).sum,
            sxy := m.sxy + (l.map (fun t => t.1 * t.2)).sum,
            syy := m.syy + (l.map (fun t => t.2 * t.2)).sum } := by
  induction l with
  | nil => intro m; simp
  | cons t l ih =>
    intro m
    rw [List.foldl_cons, ih]
    simp only [BeamSums.add, List.map_cons, List.sum_cons, add_assoc]

theorem tip_sums_append (l : List (ℚ × ℚ)) (t : ℚ × ℚ) :
    tip_sums (l ++ [t]) = (tip_sums l).add t.1 t.2 := by
  unfold tip_sums
  rw [List.foldl_append]
  rfl

theorem sq_dist_expand (l : List (ℚ × ℚ)) (a b : ℚ) :
    sq_dist l a b
      = (tip_sums l).syy - 2 * a * (tip_sums l).sxy - 2 * b * (tip_sums l).sy
        + a ^ 2 * (tip_sums l).sxx + 2 * a * b * (tip_sums l).sx + l.length * b ^ 2 := by
  unfold tip_sums sq_dist
  rw [foldl_add_eq]
  simp only [zero_add]
  induction l with
  | nil => simp
  | cons t l ih =>
    simp only [List.map_cons, List.sum_cons, List.length_cons, ih]
    push_cast
    ring

theorem sq_dist_nonneg (l : List (ℚ × ℚ)) (a b : ℚ) : 0 ≤ sq_dist l a b := by
  unfold sq_dist
  apply List.sum_nonneg
  intro x hx
  obtain ⟨t, _, rfl⟩ := List.mem_map.mp hx
  exact sq_nonneg _

theorem sq_dist_eq_zero (l : List (ℚ × ℚ)) (a b : ℚ) (h : sq_dist l a b = 0) :
    ∀ t ∈ l, t.2 - a * t.1 - b = 0 := by
  induction l with
  | nil => intro t ht; cases ht
  | cons u l ih =>
    intro t ht
    unfold sq_dist at h
    simp only [List.map_cons, List.sum_cons] at h
    have h1 : 0 ≤ (u.2 - a * u.1 - b) ^ 2 := sq_nonneg _
    have h2 : 0 ≤ sq_dist l a b := sq_dist_nonneg l a b
    unfold sq_dist at h2
    have h3 : (u.2 - a * u.1 - b) ^ 2 = 0 := by linarith
    have h4 : sq_dist l a b = 0 := by unfold sq_dist; linarith
    rcases List.mem_cons.mp ht with rfl | ht
    · exact pow_eq_zero_iff (two_ne_zero) |>.mp h3
    · exact ih h4 t ht

theorem tip_sums_det_pos (l : List (ℚ × ℚ))
    (hx : ∃ t ∈ l, ∃ u ∈ l, t.1 ≠ u.1) :
    0 < (tip_sums l).sxx * l.length - (tip_sums l).sx * (tip_sums l).sx := by
  obtain ⟨t, ht, u, hu, hne⟩ := hx
  have hn : 0 < (l.length : ℚ) := by
    have := List.length_pos_of_mem ht
    exact_mod_cast this
  -- the points (x, x) and the line y = 0*x + mean
  set l2 : List (ℚ × ℚ) := l.map (fun t => (t.1, t.1)) with hl2
  have hs : (tip_sums l2).syy = (tip_sums l).sxx ∧ (tip_sums l2).sy = (tip_sums l).sx := by
    unfold tip_sums
    rw [foldl_add_eq, foldl_add_eq, hl2]
    simp only [List.map_map, zero_add]
    exact ⟨rfl, rfl⟩
  have hlen : l2.length = l.length := by rw [hl2, List.length_map]
  have hexp := sq_dist_expand l2 0 ((tip_sums l).sx / l.length)
  rw [hs.1, hs.2, hlen] at hexp
  have hval : sq_dist l2 0 ((tip_sums l).sx / l.length) * l.length
      = (tip_sums l).sxx * l.length - (tip_sums l).sx * (tip_sums l).sx := by
    rw [hexp]
    field_simp
    ring
  rw [← hval]
  apply mul_pos _ hn
  rcases (sq_dist_nonneg l2 0 ((tip_sums l).sx / l.length)).lt_or_eq with h | h
  · exact h
  · exfalso
    have hz := sq_dist_eq_zero l2 0 _ h.symm
    have e1 := hz (t.1, t.1) (by rw [hl2]; exact List.mem_map.mpr ⟨t, ht, rfl⟩)
    have e2 := hz (u.1, u.1) (by rw [hl2]; exact List.mem_map.mpr ⟨u, hu, rfl⟩)
    simp only at e1 e2
    apply hne
    linarith

theorem beam_fit_least_squares (l : List (ℚ × ℚ))
    (hx : ∃ t ∈ l, ∃ u ∈ l, t.1 ≠ u.1) (a1 b1 : ℚ) :
    sq_dist l (beam_fit (tip_sums l) l.length).1 (beam_fit (tip_sums l) l.length).2
      ≤ sq_dist l a1 b1 := by
  have hD := tip_sums_det_pos l hx
  obtain ⟨t, ht, _⟩ := hx
  have hn : 0 < (l.length : ℚ) := by
    have := List.length_pos_of_mem ht
    exact_mod_cast this
  set m := tip_sums l with hm
  set n : ℚ := (l.length : ℚ) with hnn
  have hfit : beam_fit m (l.length : Int)
      = ((m.sxy * n - m.sx * m.sy) / (m.sxx * n - m.sx * m.sx),
         (m.sy - (m.sxy * n - m.sx * m.sy) / (m.sxx * n - m.sx * m.sx) * m.sx) / n) := by
    unfold beam_fit
    simp only [Int.cast_natCast]
  rw [hfit]
  set a := (m.sxy * n - m.sx * m.sy) / (m.sxx * n - m.sx * m.sx) with ha
  set b := (m.sy - a * m.sx) / n with hb
  have hDne : m.sxx * n - m.sx * m.sx ≠ 0 := ne_of_gt hD
  have N0 : a * (m.sxx * n - m.sx * m.sx) = m.sxy * n - m.sx * m.sy := by
    rw [ha]; field_simp
  have N2 : n * b = m.sy - a * m.sx := by
    rw [hb]; field_simp
  have N1 : n * (a * m.sxx + b * m.sx) = n * m.sxy := by
    have : n * (a * m.sxx + b * m.sx) = a * (m.sxx * n - m.sx * m.sx) + m.sx * (n * b + a * m.sx)
        := by ring
    rw [this, N0, N2]; ring
  have N1a : a * m.sxx + b * m.sx = m.sxy := mul_left_cancel₀ (ne_of_gt hn) N1
  have key : sq_dist l a1 b1 - sq_dist l a b
      = (a1 - a) ^ 2 * m.sxx + 2 * (a1 - a) * (b1 - b) * m.sx + n * (b1 - b) ^ 2 := by
    rw [sq_dist_expand, sq_dist_expand]
    have e1 : m.sxy = a * m.sxx + b * m.sx := N1a.symm
    have e2 : m.sy = n * b + a * m.sx := by rw [N2]; ring
    rw [e1, e2]
    ring
  have hq : 0 ≤ ((a1 - a) ^ 2 * m.sxx + 2 * (a1 - a) * (b1 - b) * m.sx + n * (b1 - b) ^ 2) * n
      := by
    have : ((a1 - a) ^ 2 * m.sxx + 2 * (a1 - a) * (b1 - b) * m.sx + n * (b1 - b) ^ 2) * n
        = (n * (b1 - b) + (a1 - a) * m.sx) ^ 2
          + (a1 - a) ^ 2 * (m.sxx * n - m.sx * m.sx) := by ring
    rw [this]
    have := sq_nonneg (n * (b1 - b) + (a1 - a) * m.sx)
    have := mul_nonneg (sq_nonneg (a1 - a)) hD.le
    linarith
  have hq2 := nonneg_of_mul_nonneg_left hq hn
  linarith

theorem beam_same_refl (v : SYMBOL) : beam_same v v :=
  ⟨rfl, rfl, rfl, rfl, rfl, rfl, rfl, rfl, rfl, rfl⟩

theorem beam_same_trans (u v w : SYMBOL) (h1 : beam_same u v) (h2 : beam_same v w) :
    beam_same u w := by
  obtain ⟨a1, a2, a3, a4, a5, a6, a7, a8, a9, a10⟩ := h1
  obtain ⟨b1, b2, b3, b4, b5, b6, b7, b8, b9, b10⟩ := h2
  exact ⟨b1.trans a1, b2.trans a2, b3.trans a3, b4.trans a4, b5.trans a5, b6.trans a6,
    b7.trans a7, b8.trans a8, b9.trans a9, b10.trans a10⟩

theorem beam_tip_same (st : Score) (xoff : ℚ) (v w : SYMBOL) (h : beam_same v w) :
    beam_tip st xoff w = beam_tip st xoff v := by
  obtain ⟨_, _, _, h4, h5, h6, h7, h8, h9, h10⟩ := h
  unfold beam_tip stem_x
  rw [h4, h5, h6, h7, h8, h9, h10]

theorem sym_upd_same (st : Score) (p a : Nat) (f : SYMBOL → SYMBOL) (v : SYMBOL)
    (hf : ∀ z, beam_same z (f z))
    (h : ∃ w, st.sym a = some w ∧ beam_same v w) :
    ∃ w, (st.upd p f).sym a = some w ∧ beam_same v w := by
  obtain ⟨w, hw, hs⟩ := h
  rw [sym_upd]
  by_cases hpa : p = a
  · rw [if_pos hpa, hw]
    exact ⟨f w, rfl, beam_same_trans v w (f w) hs (hf w)⟩
  · rw [if_neg hpa]
    exact ⟨w, hw, hs⟩

theorem note_tips_cons_pos (st : Score) (xoff : ℚ) (p : Nat) (v : SYMBOL)
    (l : List (Nat × SYMBOL)) (h : v.as_type = AbcType.ABC_T_NOTE) :
    note_tips st xoff ((p, v) :: l) = beam_tip st xoff v :: note_tips st xoff l := by
  unfold note_tips
  rw [List.filter_cons_of_pos (by simpa using h)]
  rfl

theorem note_tips_cons_neg (st : Score) (xoff : ℚ) (p : Nat) (v : SYMBOL)
    (l : List (Nat × SYMBOL)) (h : ¬ v.as_type = AbcType.ABC_T_NOTE) :
    note_tips st xoff ((p, v) :: l) = note_tips st xoff l := by
  unfold note_tips
  rw [List.filter_cons_of_neg (by simpa using h)]

theorem note_tips_upd (st : Score) (xoff : ℚ) (p : Nat) (f : SYMBOL → SYMBOL)
    (l : List (Nat × SYMBOL)) : note_tips (st.upd p f) xoff l = note_tips st xoff l := rfl

theorem beam_sums_path (xoff : ℚ) (s2 : Nat) (v2 : SYMBOL)
    (h2 : v2.as_type = AbcType.ABC_T_NOTE) :
    ∀ (q : List (Nat × SYMBOL)) (p : Nat) (v : SYMBOL) (fuel : Nat) (st : Score) (m : BeamSums),
      ((p, v) :: q).getLast? = some (s2, v2) →
      (∀ pv ∈ (p, v) :: q, ∃ w, st.sym pv.1 = some w ∧ beam_same pv.2 w) →
      linked ((p, v) :: q) →
      (((p, v) :: q).map (fun pv => pv.1)).Nodup →
      ((p, v) :: q).length ≤ fuel →
      ∃ st1, beam_sums xoff s2 fuel p st m
          = some (st1, (note_tips st xoff ((p, v) :: q)).foldl (fun m t => m.add t.1 t.2) m) := by
  intro q
  induction q with
  | nil =>
    intro p v fuel st m hlast hsym _ _ hfuel
    simp only [List.getLast?_singleton, Option.some.injEq, Prod.mk.injEq] at hlast
    obtain ⟨hp, hv⟩ := hlast
    subst hp hv
    obtain ⟨n, rfl⟩ : ∃ n, fuel = n + 1 := ⟨fuel - 1, by simp at hfuel; omega⟩
    obtain ⟨w, hw, hwe⟩ := hsym (p, v) (List.mem_singleton.mpr rfl)
    have hty : w.as_type = AbcType.ABC_T_NOTE := by rw [hwe.2.1]; exact h2
    have htip := beam_tip_same st xoff v w hwe
    unfold beam_sums
    simp only [hw]
    rw [if_neg (not_not.mpr hty)]
    simp only [if_true]
    refine ⟨st.upd p (fun z => { z with xs := stem_x st xoff w }), ?_⟩
    rw [note_tips_cons_pos st xoff p v [] h2, ← htip]
    rfl
  | cons b q ih =>
    intro p v fuel st m hlast hsym hlink hnd hfuel
    obtain ⟨n, rfl⟩ : ∃ n, fuel = n + 1 := ⟨fuel - 1, by simp at hfuel; omega⟩
    obtain ⟨bp, bv⟩ := b
    have hlast1 : ((bp, bv) :: q).getLast? = some (s2, v2) := by
      rw [List.getLast?_cons_cons] at hlast; exact hlast
    have hnd1 : (((bp, bv) :: q).map (fun pv => pv.1)).Nodup := (List.nodup_cons.mp hnd).2
    have hfuel1 : ((bp, bv) :: q).length ≤ n := by
      simp only [List.length_cons] at hfuel ⊢; omega
    obtain ⟨w, hw, hwe⟩ := hsym (p, v) (List.mem_cons_self _ _)
    have hnext : w.next = some bp := by rw [hwe.1]; exact hlink.1
    have htip := beam_tip_same st xoff v w hwe
    have hps2 : p ≠ s2 := by
      intro h
      have hmem : s2 ∈ ((bp, bv) :: q).map (fun pv => pv.1) :=
        List.mem_map.mpr ⟨(s2, v2), List.mem_of_getLast?_eq_some hlast1, rfl⟩
      exact (List.nodup_cons.mp hnd).1 (by rw [h]; exact hmem)
    unfold beam_sums
    simp only [hw]
    by_cases hty : v.as_type = AbcType.ABC_T_NOTE
    · have htw : w.as_type = AbcType.ABC_T_NOTE := by rw [hwe.2.1]; exact hty
      rw [if_neg (not_not.mpr htw)]
      simp only [if_neg hps2, hnext]
      obtain ⟨st1, e1⟩ := ih bp bv n
        (st.upd p (fun z => { z with xs := stem_x st xoff w }))
        (m.add (stem_x st xoff w) (w.ys + (st.staffOf w.staff).y)) hlast1
        (fun pv hpv => sym_upd_same st p pv.1 _ pv.2 (fun z => beam_same_refl z)
          (hsym pv (List.mem_cons_of_mem _ hpv)))
        hlink.2 hnd1 hfuel1
      refine ⟨st1, ?_⟩
      rw [e1, note_tips_upd, note_tips_cons_pos st xoff p v _ hty, ← htip]
      rfl
    · have htw : ¬ w.as_type = AbcType.ABC_T_NOTE := by rw [hwe.2.1]; exact hty
      rw [if_pos htw]
      simp only [hnext]
      obtain ⟨st1, e1⟩ := ih bp bv n st m hlast1
        (fun pv hpv => hsym pv (List.mem_cons_of_mem _ hpv)) hlink.2 hnd1 hfuel1
      refine ⟨st1, ?_⟩
      rw [e1, note_tips_cons_neg st xoff p v _ hty]

theorem beam_scan_sym_notes (staff : Nat) (stem1 : Int) (v : SYMBOL) (c : BeamScan) :
    (beam_scan_sym staff stem1 v c).notes
      = c.notes + (if v.as_type = AbcType.ABC_T_NOTE then 1 else 0) := by
  unfold beam_scan_sym
  split_ifs <;> simp

theorem note_filter_cons (p : Nat) (v : SYMBOL) (l : List (Nat × SYMBOL)) :
    ((((p, v) :: l).filter (fun pv => decide (pv.2.as_type = AbcType.ABC_T_NOTE))).length : Int)
      = (if v.as_type = AbcType.ABC_T_NOTE then 1 else 0)
        + ((l.filter (fun pv => decide (pv.2.as_type = AbcType.ABC_T_NOTE))).length : Int) := by
  by_cases h : v.as_type = AbcType.ABC_T_NOTE
  · rw [List.filter_cons_of_pos (by simpa using h), if_pos h, List.length_cons]
    push_cast; ring
  · rw [List.filter_cons_of_neg (by simpa using h), if_neg h]
    ring

theorem beam_search_end (st : Score) (staff : Nat) (stem1 : Int) (s2 : Nat) (v2 : SYMBOL)
    (h2 : v2.as_type = AbcType.ABC_T_NOTE ∧ v2.sflags.S_BEAM_END = true) :
    ∀ (q : List (Nat × SYMBOL)) (p : Nat) (v : SYMBOL) (fuel : Nat) (c : BeamScan),
      ((p, v) :: q).getLast? = some (s2, v2) →
      (∀ pv ∈ (p, v) :: q, st.sym pv.1 = some pv.2) →
      linked ((p, v) :: q) →
      (∀ pv ∈ ((p, v) :: q).dropLast,
        ¬ (pv.2.as_type = AbcType.ABC_T_NOTE ∧ pv.2.sflags.S_BEAM_END = true)) →
      ((p, v) :: q).length ≤ fuel →
      ∃ c1, beam_search st staff stem1 fuel p c = some (st, s2, c1)
        ∧ c1.notes = c.notes
            + ((((p, v) :: q).filter
                (fun pv => decide (pv.2.as_type = AbcType.ABC_T_NOTE))).length : Int) := by
  intro q
  induction q with
  | nil =>
    intro p v fuel c hlast hsym _ _ hfuel
    simp only [List.getLast?_singleton, Option.some.injEq, Prod.mk.injEq] at hlast
    obtain ⟨hp, hv⟩ := hlast
    subst hp hv
    obtain ⟨n, rfl⟩ : ∃ n, fuel = n + 1 := ⟨fuel - 1, by simp at hfuel; omega⟩
    unfold beam_search
    simp only [hsym (p, v) (List.mem_singleton.mpr rfl)]
    rw [if_pos h2]
    refine ⟨_, rfl, ?_⟩
    rw [beam_scan_sym_notes, note_filter_cons]
    simp
  | cons b q ih =>
    intro p v fuel c hlast hsym hlink hbe hfuel
    obtain ⟨n, rfl⟩ : ∃ n, fuel = n + 1 := ⟨fuel - 1, by simp at hfuel; omega⟩
    obtain ⟨bp, bv⟩ := b
    have hnext : v.next = some bp := hlink.1
    rw [List.dropLast_cons₂] at hbe
    unfold beam_search
    simp only [hsym (p, v) (List.mem_cons_self _ _)]
    rw [if_neg (hbe (p, v) (List.mem_cons_self _ _))]
    simp only [hnext]
    obtain ⟨c1, e1, e2⟩ := ih bp bv n (beam_scan_sym staff stem1 v c)
      (by rw [List.getLast?_cons_cons] at hlast; exact hlast)
      (fun pv h => hsym pv (List.mem_cons_of_mem _ h)) hlink.2
      (fun pv h => hbe pv (List.mem_cons_of_mem _ h))
      (by simp only [List.length_cons] at hfuel ⊢; omega)
    refine ⟨c1, e1, ?_⟩
    rw [e2, beam_scan_sym_notes, note_filter_cons p v]
    ring

theorem beam_search_open (st : Score) (staff : Nat) (stem1 : Int) (pk : Nat) (vk : SYMBOL)
    (hk : vk.next = none) :
    ∀ (q : List (Nat × SYMBOL)) (p : Nat) (v : SYMBOL) (fuel : Nat) (c : BeamScan),
      ((p, v) :: q).getLast? = some (pk, vk) →
      (∀ pv ∈ (p, v) :: q, st.sym pv.1 = some pv.2) →
      linked ((p, v) :: q) →
      (∀ pv ∈ (p, v) :: q,
        ¬ (pv.2.as_type = AbcType.ABC_T_NOTE ∧ pv.2.sflags.S_BEAM_END = true)) →
      ((p, v) :: q).length ≤ fuel →
      ∃ c1 : BeamScan, beam_search st staff stem1 fuel p c
          = (back_to_note st st.fuel pk).bind (fun l =>
              (beam_dup_next st l).map (fun r => (r.1, r.2, { c1 with notes := c1.notes + 1 })))
        ∧ c1.notes = c.notes
            + ((((p, v) :: q).filter
                (fun pv => decide (pv.2.as_type = AbcType.ABC_T_NOTE))).length : Int) := by
  intro q
  induction q with
  | nil =>
    intro p v fuel c hlast hsym _ hbe hfuel
    simp only [List.getLast?_singleton, Option.some.injEq, Prod.mk.injEq] at hlast
    obtain ⟨hp, hv⟩ := hlast
    subst hp hv
    obtain ⟨n, rfl⟩ : ∃ n, fuel = n + 1 := ⟨fuel - 1, by simp at hfuel; omega⟩
    unfold beam_search
    simp only [hsym (p, v) (List.mem_singleton.mpr rfl)]
    rw [if_neg (hbe (p, v) (List.mem_singleton.mpr rfl))]
    simp only [hk]
    refine ⟨beam_scan_sym staff stem1 v c, ?_, ?_⟩
    · cases back_to_note st st.fuel p with
      | none => rfl
      | some l =>
        simp only [Option.some_bind]
        cases beam_dup_next st l with
        | none => rfl
        | some r => rfl
    · rw [beam_scan_sym_notes, note_filter_cons]
      simp
  | cons b q ih =>
    intro p v fuel c hlast hsym hlink hbe hfuel
    obtain ⟨n, rfl⟩ : ∃ n, fuel = n + 1 := ⟨fuel - 1, by simp at hfuel; omega⟩
    obtain ⟨bp, bv⟩ := b
    have hnext : v.next = some bp := hlink.1
    unfold beam_search
    simp only [hsym (p, v) (List.mem_cons_self _ _)]
    rw [if_neg (hbe (p, v) (List.mem_cons_self _ _))]
    simp only [hnext]
    obtain ⟨c1, e1, e2⟩ := ih bp bv n (beam_scan_sym staff stem1 v c)
      (by rw [List.getLast?_cons_cons] at hlast; exact hlast)
      (fun pv h => hsym pv (List.mem_cons_of_mem _ h)) hlink.2
      (fun pv h => hbe pv (List.mem_cons_of_mem _ h))
      (by simp only [List.length_cons] at hfuel ⊢; omega)
    refine ⟨c1, e1, ?_⟩
    rw [e2, beam_scan_sym_notes, note_filter_cons p v]
    ring

theorem sym_push (st : Score) (x : SYMBOL) (a : Nat) :
    Score.sym { st with syms := st.syms ++ [x] } a
      = if a < st.syms.length then st.sym a
        else if a = st.syms.length then some x else none := by
  unfold Score.sym
  simp only
  by_cases h : a < st.syms.length
  · rw [if_pos h, List.getElem?_append_left h]
  · rw [if_neg h]
    by_cases h2 : a = st.syms.length
    · rw [if_pos h2, h2, List.getElem?_append_right (le_refl _)]
      simp
    · rw [if_neg h2, List.getElem?_eq_none]
      simp only [List.length_append, List.length_singleton]
      omega

theorem upd_length (st : Score) (p : Nat) (f : SYMBOL → SYMBOL) :
    (st.upd p f).syms.length = st.syms.length := by
  unfold Score.upd
  simp

theorem upd_realwidth (st : Score) (p : Nat) (f : SYMBOL → SYMBOL) :
    (st.upd p f).realwidth = st.realwidth := rfl

theorem beam_dup_next_spec (st : Score) (l : Nat) (vl : SYMBOL) (h : st.sym l = some vl) :
    ∃ st1, beam_dup_next st l = some (st1, st.syms.length)
      ∧ st1.staff_tb = st.staff_tb ∧ st1.voice_scale = st.voice_scale
      ∧ st1.syms.length = st.syms.length + 1
      ∧ (∀ a v, a ≠ l → st.sym a = some v → ∃ w, st1.sym a = some w ∧ beam_same v w)
      ∧ (∃ w, st1.sym l = some w ∧ beam_same { vl with next := some st.syms.length } w)
      ∧ (∃ w, st1.sym st.syms.length = some w ∧ beam_same (dup_next_sym st vl) w) := by
  have hl : l < st.syms.length := sym_lt st l vl h
  have hld : l ≠ st.syms.length := by omega
  have hdl : st.syms.length ≠ l := by omega
  unfold beam_dup_next
  simp only [h]
  refine ⟨_, rfl, ?_, ?_, ?_, ?_, ?_, ?_⟩
  · cases vl.next <;> cases vl.ts_next <;> rfl
  · cases vl.next <;> cases vl.ts_next <;> rfl
  · cases vl.next <;> cases vl.ts_next <;>
      simp only [upd_length, List.length_append, List.length_singleton]
  · intro a v hal hv
    have ha : a < st.syms.length := sym_lt st a v hv
    have had : st.syms.length ≠ a := by omega
    have hla : l ≠ a := fun e => hal e.symm
    cases vl.next <;> cases vl.ts_next <;>
      simp only [sym_upd, sym_push, if_pos ha, if_neg had, if_neg hla, hv] <;>
      (try split_ifs) <;>
      exact ⟨_, rfl, ⟨rfl, rfl, rfl, rfl, rfl, rfl, rfl, rfl, rfl, rfl⟩⟩
  · cases vl.next <;> cases vl.ts_next <;>
      simp only [sym_upd, sym_push, if_pos hl, if_neg hdl, if_true, h, Option.map_some'] <;>
      (try split_ifs) <;>
      exact ⟨_, rfl, ⟨rfl, rfl, rfl, rfl, rfl, rfl, rfl, rfl, rfl, rfl⟩⟩
  · have hnl : ¬ st.syms.length < st.syms.length := lt_irrefl _
    cases hn : vl.next <;> cases vl.ts_next <;>
      simp only [sym_upd, sym_push, if_neg hnl, if_neg hld, if_true, Option.map_some',
        upd_realwidth] <;>
      (try split_ifs) <;>
      refine ⟨_, rfl, ?_⟩ <;>
      (simp_all [beam_same, dup_next_sym, sym_dup]
       try split_ifs <;> linarith)

theorem back_to_note_tail (st : Score) (l : Nat) (vl : SYMBOL)
    (hl : vl.as_type = AbcType.ABC_T_NOTE) :
    ∀ (B : List (Nat × SYMBOL)) (fuel : Nat) (pk : Nat) (vk : SYMBOL),
      (∀ pv ∈ (l, vl) :: B, st.sym pv.1 = some pv.2) →
      (∀ pv ∈ B, ¬ pv.2.as_type = AbcType.ABC_T_NOTE) →
      linked_prev ((l, vl) :: B) →
      ((l, vl) :: B).getLast? = some (pk, vk) →
      ((l, vl) :: B).length ≤ fuel →
      back_to_note st fuel pk = some l := by
  intro B
  induction B using List.reverseRecOn with
  | nil =>
    intro fuel pk vk hsym _ _ hlast hfuel
    simp only [List.getLast?_singleton, Option.some.injEq, Prod.mk.injEq] at hlast
    obtain ⟨hp, hv⟩ := hlast
    subst hp hv
    obtain ⟨n, rfl⟩ : ∃ n, fuel = n + 1 := ⟨fuel - 1, by simp at hfuel; omega⟩
    unfold back_to_note
    simp only [hsym (l, vl) (List.mem_singleton.mpr rfl)]
    rw [if_pos hl]
  | append_singleton B e ih =>
    intro fuel pk vk hsym hB hprev hlast hfuel
    obtain ⟨n, rfl⟩ : ∃ n, fuel = n + 1 :=
      ⟨fuel - 1, by simp only [List.length_cons] at hfuel; omega⟩
    have hcons : (l, vl) :: (B ++ [e]) = ((l, vl) :: B) ++ [e] := rfl
    rw [hcons, List.getLast?_append] at hlast
    have hlast2 : e = (pk, vk) := Option.some.inj hlast
    subst hlast2
    unfold linked_prev at hprev
    rw [hcons, List.chain'_append] at hprev
    obtain ⟨hp1, _, hp2⟩ := hprev
    obtain ⟨x, hx⟩ : ∃ x, ((l, vl) :: B).getLast? = some x := by
      cases hq : ((l, vl) :: B).getLast? with
      | none => simp at hq
      | some x => exact ⟨x, rfl⟩
    have hpe : vk.prev = some x.1 := hp2 x (by rw [hx]; rfl) (pk, vk) (by simp)
    unfold back_to_note
    simp only [hsym (pk, vk) (by rw [hcons]; simp)]
    rw [if_neg (hB (pk, vk) (by simp)), hpe]
    exact ih n x.1 x.2
      (fun pv h => hsym pv (by
        rw [hcons]; exact List.mem_append_left _ h))
      (fun pv h => hB pv (List.mem_append_left _ h)) hp1 hx
      (by simp only [List.length_cons, List.length_append, List.length_singleton] at hfuel ⊢
          omega)

theorem last_note_split (P : List (Nat × SYMBOL))
    (h : ∃ pv ∈ P, pv.2.as_type = AbcType.ABC_T_NOTE) :
    ∃ A x B, P = A ++ x :: B ∧ x.2.as_type = AbcType.ABC_T_NOTE
      ∧ ∀ pv ∈ B, ¬ pv.2.as_type = AbcType.ABC_T_NOTE := by
  induction P with
  | nil => obtain ⟨pv, hpv, _⟩ := h; cases hpv
  | cons a P ih =>
    by_cases hP : ∃ pv ∈ P, pv.2.as_type = AbcType.ABC_T_NOTE
    · obtain ⟨A, x, B, e, hx, hB⟩ := ih hP
      exact ⟨a :: A, x, B, by rw [e]; rfl, hx, hB⟩
    · obtain ⟨pv, hpv, hn⟩ := h
      rcases List.mem_cons.mp hpv with rfl | hpv
      · exact ⟨[], pv, P, rfl, hn, fun y hy hy2 => hP ⟨y, hy, hy2⟩⟩
      · exact absurd ⟨pv, hpv, hn⟩ hP

theorem linked_iff_chain (l : List (Nat × SYMBOL)) :
    linked l ↔ List.Chain' (fun a b => a.2.next = some b.1) l := by
  induction l with
  | nil => simp [linked]
  | cons a l ih =>
    cases l with
    | nil => simp [linked]
    | cons b r =>
      rw [List.chain'_cons, ← ih]
      rfl

theorem note_tips_append (st : Score) (xoff : ℚ) (A B : List (Nat × SYMBOL)) :
    note_tips st xoff (A ++ B) = note_tips st xoff A ++ note_tips st xoff B := by
  unfold note_tips
  rw [List.filter_append, List.map_append]

theorem note_tips_none (st : Score) (xoff : ℚ) (B : List (Nat × SYMBOL))
    (hB : ∀ pv ∈ B, ¬ pv.2.as_type = AbcType.ABC_T_NOTE) : note_tips st xoff B = [] := by
  unfold note_tips
  rw [List.filter_eq_nil_iff.mpr (by intro pv h; simpa using hB pv h)]
  rfl

theorem note_tips_length (st : Score) (xoff : ℚ) (P : List (Nat × SYMBOL)) :
    (note_tips st xoff P).length
      = (P.filter (fun pv => decide (pv.2.as_type = AbcType.ABC_T_NOTE))).length := by
  unfold note_tips
  rw [List.length_map]

theorem beam_tip_congr (st st1 : Score) (xoff : ℚ) (v : SYMBOL)
    (h1 : st1.staff_tb = st.staff_tb) (h2 : st1.voice_scale = st.voice_scale) :
    beam_tip st1 xoff v = beam_tip st xoff v := by
  unfold beam_tip stem_x Score.staffOf
  rw [h1, h2]

theorem note_tips_congr (st st1 : Score) (xoff : ℚ) (P : List (Nat × SYMBOL))
    (h1 : st1.staff_tb = st.staff_tb) (h2 : st1.voice_scale = st.voice_scale) :
    note_tips st1 xoff P = note_tips st xoff P := by
  unfold note_tips
  apply List.map_congr_left
  intro pv _
  exact beam_tip_congr st st1 xoff pv.2 h1 h2

theorem group_tips_end (st : Score) (xoff : ℚ) (P : List (Nat × SYMBOL)) (s2 : Nat)
    (v2 : SYMBOL) (hlast : P.getLast? = some (s2, v2))
    (h2 : v2.as_type = AbcType.ABC_T_NOTE) (he : v2.sflags.S_BEAM_END = true) :
    group_tips st xoff P = note_tips st xoff P := by
  obtain ⟨A, rfl⟩ := List.getLast?_eq_some_iff.mp hlast
  unfold group_tips
  rw [List.filter_append, List.filter_cons_of_pos (by simpa using h2), List.filter_nil,
    List.getLast?_append]
  simp only [List.getLast?_singleton, Option.or_some, he, if_true, List.append_nil]

theorem group_tips_open (st : Score) (xoff : ℚ) (A B : List (Nat × SYMBOL)) (l : Nat)
    (vl : SYMBOL) (hl : vl.as_type = AbcType.ABC_T_NOTE) (he : ¬ vl.sflags.S_BEAM_END = true)
    (hB : ∀ pv ∈ B, ¬ pv.2.as_type = AbcType.ABC_T_NOTE) :
    group_tips st xoff (A ++ (l, vl) :: B)
      = note_tips st xoff A ++ [beam_tip st xoff vl, beam_tip st xoff (dup_next_sym st vl)] := by
  have hf : (A ++ (l, vl) :: B).filter (fun pv => decide (pv.2.as_type = AbcType.ABC_T_NOTE))
      = A.filter (fun pv => decide (pv.2.as_type = AbcType.ABC_T_NOTE)) ++ [(l, vl)] := by
    have hBf : B.filter (fun pv => decide (pv.2.as_type = AbcType.ABC_T_NOTE)) = [] :=
      List.filter_eq_nil_iff.mpr (by intro pv h; simpa using hB pv h)
    rw [List.filter_append, List.filter_cons_of_pos (by simpa using hl), hBf]
  unfold group_tips
  rw [hf, List.getLast?_append]
  simp only [List.getLast?_singleton, Option.or_some, if_neg he]
  unfold note_tips
  rw [hf, List.map_append]
  simp

theorem path_fuel (st : Score) (P : List (Nat × SYMBOL))
    (hsym : ∀ pv ∈ P, ∃ w, st.sym pv.1 = some w)
    (hnd : (P.map (fun pv => pv.1)).Nodup) : P.length ≤ st.syms.length := by
  have h1 := nodup_length_le _ st.syms.length hnd (by
    intro x hx
    obtain ⟨pv, hpv, rfl⟩ := List.mem_map.mp hx
    obtain ⟨w, hw⟩ := hsym pv hpv
    exact sym_lt st pv.1 w hw)
  rw [List.length_map] at h1
  exact h1

theorem beam_group_end (xoff : ℚ) (st0 : Score) (s1n : Nat) (v1 : SYMBOL)
    (q : List (Nat × SYMBOL)) (s2 : Nat) (v2 : SYMBOL)
    (hsym : ∀ pv ∈ (s1n, v1) :: q, st0.sym pv.1 = some pv.2)
    (hlink : linked ((s1n, v1) :: q))
    (hnd : (((s1n, v1) :: q).map (fun pv => pv.1)).Nodup)
    (hlast : ((s1n, v1) :: q).getLast? = some (s2, v2))
    (h2 : v2.as_type = AbcType.ABC_T_NOTE) (he : v2.sflags.S_BEAM_END = true)
    (hbe : ∀ pv ∈ ((s1n, v1) :: q).dropLast,
      ¬ (pv.2.as_type = AbcType.ABC_T_NOTE ∧ pv.2.sflags.S_BEAM_END = true)) :
    ∃ (st1 : Score) (s2 : Nat) (c : BeamScan) (w1 : SYMBOL) (st2 : Score),
      beam_search st0 v1.staff v1.stem st0.fuel s1n {} = some (st1, s2, c)
      ∧ st1.sym s1n = some w1 ∧ w1.ABC_F_GRACE = v1.ABC_F_GRACE
      ∧ beam_sums xoff s2 st1.fuel s1n st1 {}
          = some (st2, tip_sums (group_tips st0 xoff ((s1n, v1) :: q)))
      ∧ c.notes = ((group_tips st0 xoff ((s1n, v1) :: q)).length : Int) := by
  have hfuel : ((s1n, v1) :: q).length ≤ st0.fuel := by
    have := path_fuel st0 _ (fun pv h => ⟨pv.2, hsym pv h⟩) hnd
    unfold Score.fuel
    omega
  obtain ⟨c1, e1, e2⟩ := beam_search_end st0 v1.staff v1.stem s2 v2 ⟨h2, he⟩ q s1n v1 st0.fuel {}
    hlast hsym hlink hbe hfuel
  obtain ⟨st2, e3⟩ := beam_sums_path xoff s2 v2 h2 q s1n v1 st0.fuel st0 {} hlast
    (fun pv h => ⟨pv.2, hsym pv h, beam_same_refl _⟩) hlink hnd hfuel
  refine ⟨st0, s2, c1, v1, st2, e1, hsym _ (List.mem_cons_self _ _), rfl, ?_, ?_⟩
  · rw [e3, group_tips_end st0 xoff _ s2 v2 hlast h2 he]
    rfl
  · rw [e2, group_tips_end st0 xoff _ s2 v2 hlast h2 he, note_tips_length]
    simp

theorem beam_sums_path_head (xoff : ℚ) (s2 : Nat) (v2 : SYMBOL)
    (h2 : v2.as_type = AbcType.ABC_T_NOTE) (P : List (Nat × SYMBOL)) (p : Nat)
    (fuel : Nat) (st : Score) (m : BeamSums)
    (hhead : P.head?.map (fun pv => pv.1) = some p)
    (hlast : P.getLast? = some (s2, v2))
    (hsym : ∀ pv ∈ P, ∃ w, st.sym pv.1 = some w ∧ beam_same pv.2 w)
    (hlink : linked P)
    (hnd : (P.map (fun pv => pv.1)).Nodup)
    (hfuel : P.length ≤ fuel) :
    ∃ st1, beam_sums xoff s2 fuel p st m
      = some (st1, (note_tips st xoff P).foldl (fun m t => m.add t.1 t.2) m) := by
  cases P with
  | nil => simp at hhead
  | cons a P =>
    obtain ⟨p1, v⟩ := a
    simp only [List.head?_cons, Option.map_some', Option.some.injEq] at hhead
    subst hhead
    exact beam_sums_path xoff s2 v2 h2 P p1 v fuel st m hlast hsym hlink hnd hfuel

theorem beam_group_open (xoff : ℚ) (st0 : Score) (s1n : Nat) (v1 : SYMBOL)
    (q : List (Nat × SYMBOL)) (pk : Nat) (vk : SYMBOL)
    (hsym : ∀ pv ∈ (s1n, v1) :: q, st0.sym pv.1 = some pv.2)
    (hlink : linked ((s1n, v1) :: q))
    (hnd : (((s1n, v1) :: q).map (fun pv => pv.1)).Nodup)
    (hn1 : v1.as_type = AbcType.ABC_T_NOTE)
    (hlast : ((s1n, v1) :: q).getLast? = some (pk, vk))
    (hk : vk.next = none)
    (hbe : ∀ pv ∈ (s1n, v1) :: q,
      ¬ (pv.2.as_type = AbcType.ABC_T_NOTE ∧ pv.2.sflags.S_BEAM_END = true))
    (hprev : linked_prev ((s1n, v1) :: q)) :
    ∃ (st1 : Score) (s2 : Nat) (c : BeamScan) (w1 : SYMBOL) (st2 : Score),
      beam_search st0 v1.staff v1.stem st0.fuel s1n {} = some (st1, s2, c)
      ∧ st1.sym s1n = some w1 ∧ w1.ABC_F_GRACE = v1.ABC_F_GRACE
      ∧ beam_sums xoff s2 st1.fuel s1n st1 {}
          = some (st2, tip_sums (group_tips st0 xoff ((s1n, v1) :: q)))
      ∧ c.notes = ((group_tips st0 xoff ((s1n, v1) :: q)).length : Int) := by
  have hlen : ((s1n, v1) :: q).length ≤ st0.syms.length :=
    path_fuel st0 _ (fun pv h => ⟨pv.2, hsym pv h⟩) hnd
  have hfuel : ((s1n, v1) :: q).length ≤ st0.fuel := by
    unfold Score.fuel
    omega
  obtain ⟨c1, e1, e2⟩ := beam_search_open st0 v1.staff v1.stem pk vk hk q s1n v1 st0.fuel {}
    hlast hsym hlink hbe hfuel
  obtain ⟨A, x, B, hP, hx, hB⟩ := last_note_split ((s1n, v1) :: q)
    ⟨(s1n, v1), List.mem_cons_self _ _, hn1⟩
  obtain ⟨l, vl⟩ := x
  have hlmem : (l, vl) ∈ (s1n, v1) :: q := by rw [hP]; simp
  have hsl : st0.sym l = some vl := hsym (l, vl) hlmem
  have hel : ¬ vl.sflags.S_BEAM_END = true := fun h => hbe (l, vl) hlmem ⟨hx, h⟩
  -- the walk back to the last note
  have hback : back_to_note st0 st0.fuel pk = some l := by
    apply back_to_note_tail st0 l vl hx B st0.fuel pk vk
    · intro pv h
      exact hsym pv (by rw [hP]; exact List.mem_append_right _ h)
    · exact hB
    · unfold linked_prev at hprev ⊢
      rw [hP, List.chain'_append] at hprev
      exact hprev.2.1
    · rw [hP, List.getLast?_append] at hlast
      cases hq : ((l, vl) :: B).getLast? with
      | none => simp at hq
      | some y =>
        rw [hq] at hlast
        exact hlast
    · have : ((l, vl) :: B).length ≤ ((s1n, v1) :: q).length := by
        rw [hP, List.length_append]; omega
      omega
  obtain ⟨st1, hdup, htb, hvs, hlen1, hother, hsl1, hsd1⟩ := beam_dup_next_spec st0 l vl hsl
  -- the chain in the new state
  have hndP : ((A ++ (l, vl) :: B).map (fun pv => pv.1)).Nodup := by rw [← hP]; exact hnd
  rw [List.map_append, List.map_cons] at hndP
  have hlA : ∀ pv ∈ A, pv.1 ≠ l := by
    intro pv h e
    have h1 := (List.nodup_append.mp hndP).2.2
    exact h1 (List.mem_map.mpr ⟨pv, h, rfl⟩) (by rw [e]; exact List.mem_cons_self _ _)
  have hAlt : ∀ pv ∈ A, pv.1 < st0.syms.length := fun pv h =>
    sym_lt st0 pv.1 pv.2 (hsym pv (by rw [hP]; exact List.mem_append_left _ h))
  have hllt : l < st0.syms.length := sym_lt st0 l vl hsl
  have hsymP : ∀ pv ∈ A ++ [(l, { vl with next := some st0.syms.length }),
      (st0.syms.length, dup_next_sym st0 vl)],
      ∃ w, st1.sym pv.1 = some w ∧ beam_same pv.2 w := by
    intro pv h
    rcases List.mem_append.mp h with h | h
    · exact hother pv.1 pv.2 (hlA pv h) (hsym pv (by rw [hP]; exact List.mem_append_left _ h))
    · simp only [List.mem_cons, List.mem_singleton, List.not_mem_nil, or_false] at h
      rcases h with rfl | rfl
      · exact hsl1
      · exact hsd1
  have hlinkP : linked (A ++ [(l, { vl with next := some st0.syms.length }),
      (st0.syms.length, dup_next_sym st0 vl)]) := by
    rw [linked_iff_chain] at hlink ⊢
    rw [hP, List.chain'_append] at hlink
    rw [List.chain'_append]
    refine ⟨hlink.1, ?_, ?_⟩
    · rw [List.chain'_cons]
      exact ⟨rfl, List.chain'_singleton _⟩
    · intro a ha y hy
      simp only [List.head?_cons, Option.mem_def, Option.some.injEq] at hy
      subst hy
      exact hlink.2.2 a ha (l, vl) (by simp)
  have hndP1 : ((A ++ [(l, { vl with next := some st0.syms.length }),
      (st0.syms.length, dup_next_sym st0 vl)]).map (fun pv => pv.1)).Nodup := by
    rw [List.map_append]
    simp only [List.map_cons, List.map_nil]
    rw [List.nodup_append]
    refine ⟨(List.nodup_append.mp hndP).1, ?_, ?_⟩
    · rw [List.nodup_cons]
      refine ⟨?_, List.nodup_singleton _⟩
      simp only [List.mem_singleton]
      omega
    · intro a ha hb
      obtain ⟨pv, hpv, rfl⟩ := List.mem_map.mp ha
      simp only [List.mem_cons, List.mem_singleton, List.not_mem_nil, or_false] at hb
      rcases hb with e | e
      · exact hlA pv hpv e
      · have := hAlt pv hpv
        omega
  have hheadP : (A ++ [(l, { vl with next := some st0.syms.length }),
      (st0.syms.length, dup_next_sym st0 vl)]).head?.map (fun pv => pv.1) = some s1n := by
    cases A with
    | nil =>
      simp only [List.nil_append] at hP
      have hp : s1n = l := (Prod.mk.inj (List.cons.inj hP).1).1
      simp only [List.nil_append, List.head?_cons, Option.map_some']
      rw [hp]
    | cons a A =>
      have := (List.cons.inj hP).1
      simp only [List.cons_append, List.head?_cons, Option.map_some']
      rw [← this]
  have hlastP : (A ++ [(l, { vl with next := some st0.syms.length }),
      (st0.syms.length, dup_next_sym st0 vl)]).getLast?
      = some (st0.syms.length, dup_next_sym st0 vl) := by
    rw [List.getLast?_append]
    rfl
  have hfuelP : (A ++ [(l, { vl with next := some st0.syms.length }),
      (st0.syms.length, dup_next_sym st0 vl)]).length ≤ st1.fuel := by
    have : (A ++ (l, vl) :: B).length ≤ st0.syms.length := by rw [← hP]; exact hlen
    simp only [List.length_append, List.length_cons, List.length_nil] at this ⊢
    unfold Score.fuel
    omega
  obtain ⟨st2, e3⟩ := beam_sums_path_head xoff st0.syms.length (dup_next_sym st0 vl) hx _ s1n
    st1.fuel st1 {} hheadP hlastP hsymP hlinkP hndP1 hfuelP
  -- the first symbol in the new state
  obtain ⟨w1, hw1, hg1⟩ : ∃ w1, st1.sym s1n = some w1 ∧ w1.ABC_F_GRACE = v1.ABC_F_GRACE := by
    cases A with
    | nil =>
      simp only [List.nil_append] at hP
      have h1 := (List.cons.inj hP).1
      have hp : s1n = l := (Prod.mk.inj h1).1
      have hv : v1 = vl := (Prod.mk.inj h1).2
      obtain ⟨w, hw, hs⟩ := hsl1
      exact ⟨w, by rw [hp]; exact hw, by rw [hs.2.2.1, hv]⟩
    | cons a A =>
      have h1 := (List.cons.inj hP).1
      obtain ⟨w, hw, hs⟩ := hother s1n v1 (by
        have := hlA a (List.mem_cons_self _ _)
        rw [← h1] at this
        exact this) (hsym _ (List.mem_cons_self _ _))
      exact ⟨w, hw, hs.2.2.1⟩
  have htips : note_tips st1 xoff (A ++ [(l, { vl with next := some st0.syms.length }),
      (st0.syms.length, dup_next_sym st0 vl)])
      = group_tips st0 xoff ((s1n, v1) :: q) := by
    rw [note_tips_congr st0 st1 xoff _ htb hvs, hP, group_tips_open st0 xoff A B l vl hx hel hB,
      note_tips_append]
    congr 1
    rw [note_tips_cons_pos st0 xoff l { vl with next := some st0.syms.length } _ hx,
      note_tips_cons_pos st0 xoff st0.syms.length (dup_next_sym st0 vl) [] hx]
    rfl
  refine ⟨st1, st0.syms.length, { c1 with notes := c1.notes + 1 }, w1, st2, ?_, hw1, hg1, ?_, ?_⟩
  · rw [e1, hback, Option.some_bind, hdup]
    rfl
  · rw [e3, htips]
    rfl
  · show c1.notes + 1 = _
    have hBf : B.filter (fun pv => decide (pv.2.as_type = AbcType.ABC_T_NOTE)) = [] :=
      List.filter_eq_nil_iff.mpr (by intro pv h; simpa using hB pv h)
    have hcount : ((s1n, v1) :: q).filter (fun pv => decide (pv.2.as_type = AbcType.ABC_T_NOTE))
        = A.filter (fun pv => decide (pv.2.as_type = AbcType.ABC_T_NOTE)) ++ [(l, vl)] := by
      rw [hP, List.filter_append, List.filter_cons_of_pos (by simpa using hx), hBf]
    rw [e2, hcount, hP, group_tips_open st0 xoff A B l vl hx hel hB]
    simp only [List.length_append, List.length_cons, List.length_nil, note_tips_length]
    push_cast
    ring

/-- C10: let the chain `s1 .. ` (`(s1n, v1) :: q`, a doubly linked list of
distinct symbols starting with a note) be the beam group in the state in which
`calculate_beam` starts the search of the last note (after the duplicate for a
beam from the previous line, if one is made, which is then the first note of
the chain).  Either the chain ends with the first note that carries the beam
end, or it ends the voice (`next == NULL`) with no beam end, in which case the
last note is duplicated.  Then the search returns, the loop "linear fit through
stem ends" returns sums `m` that are the sums over the stem tips of exactly the
notes of the group, the duplicate of the last note included (`group_tips`),
the divisor `notes` is the number of these points, and, when two of the tips
have different abscissae, the line `beam_fit m notes` of "beam fct: y=ax+b"
minimises the sum of the squared vertical distances to the tips among all
lines `y = a*x + b`. -/
theorem calculate_beam_fit_least_squares (H : Hdr) (st : Score) (s1 : Nat) (v0 : SYMBOL)
    (st0 : Score) (s1n : Nat) (v1 : SYMBOL) (q : List (Nat × SYMBOL))
    (hs : st.sym s1 = some v0)
    (hdup : (if ¬ v0.sflags.S_BEAM_ST then beam_dup_prev st s1 else some (st, s1))
      = some (st0, s1n))
    (hsym : ∀ pv ∈ (s1n, v1) :: q, st0.sym pv.1 = some pv.2)
    (hlink : linked ((s1n, v1) :: q))
    (hnd : (((s1n, v1) :: q).map (fun pv => pv.1)).Nodup)
    (hn1 : v1.as_type = AbcType.ABC_T_NOTE)
    (hshape :
      (∃ s2 v2, ((s1n, v1) :: q).getLast? = some (s2, v2)
        ∧ v2.as_type = AbcType.ABC_T_NOTE ∧ v2.sflags.S_BEAM_END = true
        ∧ ∀ pv ∈ ((s1n, v1) :: q).dropLast,
            ¬ (pv.2.as_type = AbcType.ABC_T_NOTE ∧ pv.2.sflags.S_BEAM_END = true))
      ∨ (∃ pk vk, ((s1n, v1) :: q).getLast? = some (pk, vk) ∧ vk.next = none
        ∧ (∀ pv ∈ (s1n, v1) :: q,
            ¬ (pv.2.as_type = AbcType.ABC_T_NOTE ∧ pv.2.sflags.S_BEAM_END = true))
        ∧ linked_prev ((s1n, v1) :: q)))
    (hx : ∃ t ∈ group_tips st0 (if v1.ABC_F_GRACE then H.GSTEM_XOFF else H.STEM_XOFF)
            ((s1n, v1) :: q),
          ∃ u ∈ group_tips st0 (if v1.ABC_F_GRACE then H.GSTEM_XOFF else H.STEM_XOFF)
            ((s1n, v1) :: q), t.1 ≠ u.1) :
    ∃ (st1 : Score) (s2 : Nat) (c : BeamScan) (w1 : SYMBOL) (st2 : Score) (m : BeamSums),
      beam_ends st s1 = some (st1, s1n, s2, c)
      ∧ st1.sym s1n = some w1
      ∧ beam_sums (if w1.ABC_F_GRACE then H.GSTEM_XOFF else H.STEM_XOFF) s2 st1.fuel s1n st1 {}
          = some (st2, m)
      ∧ m = tip_sums (group_tips st0 (if v1.ABC_F_GRACE then H.GSTEM_XOFF else H.STEM_XOFF)
              ((s1n, v1) :: q))
      ∧ c.notes = ((group_tips st0 (if v1.ABC_F_GRACE then H.GSTEM_XOFF else H.STEM_XOFF)
              ((s1n, v1) :: q)).length : Int)
      ∧ ∀ a b : ℚ,
          sq_dist (group_tips st0 (if v1.ABC_F_GRACE then H.GSTEM_XOFF else H.STEM_XOFF)
              ((s1n, v1) :: q)) (beam_fit m c.notes).1 (beam_fit m c.notes).2
            ≤ sq_dist (group_tips st0 (if v1.ABC_F_GRACE then H.GSTEM_XOFF else H.STEM_XOFF)
              ((s1n, v1) :: q)) a b := by
  have hgroup : ∃ (st1 : Score) (s2 : Nat) (c : BeamScan) (w1 : SYMBOL) (st2 : Score),
      beam_search st0 v1.staff v1.stem st0.fuel s1n {} = some (st1, s2, c)
      ∧ st1.sym s1n = some w1 ∧ w1.ABC_F_GRACE = v1.ABC_F_GRACE
      ∧ beam_sums (if v1.ABC_F_GRACE then H.GSTEM_XOFF else H.STEM_XOFF) s2 st1.fuel s1n st1 {}
          = some (st2, tip_sums (group_tips st0
              (if v1.ABC_F_GRACE then H.GSTEM_XOFF else H.STEM_XOFF) ((s1n, v1) :: q)))
      ∧ c.notes = ((group_tips st0 (if v1.ABC_F_GRACE then H.GSTEM_XOFF else H.STEM_XOFF)
              ((s1n, v1) :: q)).length : Int) := by
    rcases hshape with ⟨s2, v2, hlast, h2, he, hbe⟩ | ⟨pk, vk, hlast, hk, hbe, hprev⟩
    · exact beam_group_end _ st0 s1n v1 q s2 v2 hsym hlink hnd hlast h2 he hbe
    · exact beam_group_open _ st0 s1n v1 q pk vk hsym hlink hnd hn1 hlast hk hbe hprev
  obtain ⟨st1, s2, c, w1, st2, e1, e2, e3, e4, e5⟩ := hgroup
  refine ⟨st1, s2, c, w1, st2, _, ?_, e2, ?_, rfl, e5, ?_⟩
  · unfold beam_ends
    simp only [hs, hdup, hsym (s1n, v1) (List.mem_cons_self _ _), e1]
  · rw [e3]
    exact e4
  · intro a b
    rw [e5]
    exact beam_fit_least_squares _ hx a b

/-- Instance of `calculate_beam_fit_least_squares`: the two notes of
`openScore`, whose beam goes on in the next line; the duplicate of the second
note is the third point of the fit. -/
theorem calculate_beam_fit_least_squares_witness :
    ∃ (st1 : Score) (s2 : Nat) (c : BeamScan) (w1 : SYMBOL) (st2 : Score) (m : BeamSums),
      beam_ends openScore 1 = some (st1, 1, s2, c)
      ∧ st1.sym 1 = some w1
      ∧ beam_sums (if w1.ABC_F_GRACE then stdHdr.GSTEM_XOFF else stdHdr.STEM_XOFF) s2 st1.fuel 1
          st1 {} = some (st2, m)
      ∧ m = tip_sums (group_tips openScore
              (if (openNote 1).ABC_F_GRACE then stdHdr.GSTEM_XOFF else stdHdr.STEM_XOFF)
              [(1, openNote 1), (2, openNote 2)])
      ∧ c.notes = ((group_tips openScore
              (if (openNote 1).ABC_F_GRACE then stdHdr.GSTEM_XOFF else stdHdr.STEM_XOFF)
              [(1, openNote 1), (2, openNote 2)]).length : Int)
      ∧ ∀ a b : ℚ,
          sq_dist (group_tips openScore
              (if (openNote 1).ABC_F_GRACE then stdHdr.GSTEM_XOFF else stdHdr.STEM_XOFF)
              [(1, openNote 1), (2, openNote 2)]) (beam_fit m c.notes).1 (beam_fit m c.notes).2
            ≤ sq_dist (group_tips openScore
              (if (openNote 1).ABC_F_GRACE then stdHdr.GSTEM_XOFF else stdHdr.STEM_XOFF)
              [(1, openNote 1), (2, openNote 2)]) a b :=
  calculate_beam_fit_least_squares stdHdr openScore 1 (openNote 1) openScore 1 (openNote 1)
    [(2, openNote 2)] rfl rfl
    (by
      intro pv h
      simp only [List.mem_cons, List.mem_singleton, List.not_mem_nil, or_false] at h
      rcases h with rfl | rfl <;> rfl)
    ⟨rfl, trivial⟩ (by decide) rfl
    (Or.inr ⟨2, openNote 2, rfl, rfl,
      (by
        intro pv h
        simp only [List.mem_cons, List.mem_singleton, List.not_mem_nil, or_false] at h
        rcases h with rfl | rfl <;> decide),
      (by unfold linked_prev; exact List.Chain'.cons rfl (List.chain'_singleton _))⟩)
    ⟨(433 + 1 / 2, 32), by decide!, (463 + 1 / 2, 34), by decide!, by decide!⟩

/-- Values computed on `openScore`: the search returns the duplicate (symbol
3) with `notes = 3`, and the fit sums the three tips. -/
theorem openScore_group_values :
    (beam_ends openScore 1).map (fun r => (r.2.1, r.2.2.1, r.2.2.2.notes)) = some (1, 3, 3)
      ∧ group_tips openScore stdHdr.STEM_XOFF [(1, openNote 1), (2, openNote 2)]
          = [(433 + 1 / 2, 32), (463 + 1 / 2, 34), (491 + 1 / 2, 34)]
      ∧ ((beam_ends openScore 1).bind (fun r =>
            beam_sums stdHdr.STEM_XOFF r.2.2.1 r.1.fuel r.2.1 r.1 {})).map (fun r => r.2)
          = some (tip_sums [(433 + 1 / 2, 32), (463 + 1 / 2, 34), (491 + 1 / 2, 34)]) := by
  decide!

/-! ## Fit of colinear stem tips -/

theorem colinear_sums (l : List (ℚ × ℚ)) (α β : ℚ) (hcol : ∀ t ∈ l, t.2 = α * t.1 + β) :
    (tip_sums l).sy = α * (tip_sums l).sx + l.length * β
      ∧ (tip_sums l).sxy = α * (tip_sums l).sxx + β * (tip_sums l).sx
      ∧ (tip_sums l).syy = α * (tip_sums l).sxy + β * (tip_sums l).sy := by
  unfold tip_sums
  rw [foldl_add_eq]
  simp only [zero_add]
  induction l with
  | nil => simp
  | cons t l ih =>
    obtain ⟨i1, i2, i3⟩ := ih (fun u hu => hcol u (List.mem_cons_of_mem _ hu))
    have ht := hcol t (List.mem_cons_self _ _)
    simp only [List.map_cons, List.sum_cons, List.length_cons, i1, i2, i3, ht]
    push_cast
    exact ⟨by ring, by ring, by ring⟩

theorem beam_fit_colinear (l : List (ℚ × ℚ)) (α β : ℚ)
    (hcol : ∀ t ∈ l, t.2 = α * t.1 + β) (hx : ∃ t ∈ l, ∃ u ∈ l, t.1 ≠ u.1) :
    beam_fit (tip_sums l) l.length = (α, β) := by
  have hD := tip_sums_det_pos l hx
  obtain ⟨c1, c2, _⟩ := colinear_sums l α β hcol
  obtain ⟨t, ht, _⟩ := hx
  have hn : 0 < (l.length : ℚ) := by
    have := List.length_pos_of_mem ht
    exact_mod_cast this
  unfold beam_fit
  simp only [Int.cast_natCast]
  have ha : ((tip_sums l).sxy * (l.length : ℚ) - (tip_sums l).sx * (tip_sums l).sy)
      / ((tip_sums l).sxx * (l.length : ℚ) - (tip_sums l).sx * (tip_sums l).sx) = α := by
    rw [div_eq_iff (ne_of_gt hD), c2, c1]
    ring
  rw [ha]
  have hb : ((tip_sums l).sy - α * (tip_sums l).sx) / (l.length : ℚ) = β := by
    rw [div_eq_iff (ne_of_gt hn), c1]
    ring
  rw [hb]

theorem beam_slope_normal_colinear (H : Hdr) (l : List (ℚ × ℚ)) (α β : ℚ)
    (hcol : ∀ t ∈ l, t.2 = α * t.1 + β) :
    beam_slope_normal H (tip_sums l) l.length α β
      = H.BEAM_SLOPE * α / (H.BEAM_SLOPE + |α|) := by
  obtain ⟨_, _, c3⟩ := colinear_sums l α β hcol
  unfold beam_slope_normal
  have hh : (tip_sums l).syy - α * (tip_sums l).sxy - β * (tip_sums l).sy = 0 := by
    rw [c3]; ring
  simp only [hh, lt_irrefl, false_and, and_false, if_false]
  by_cases h : α ≥ 0
  · rw [if_pos h, abs_of_nonneg h]
  · rw [if_neg h, abs_of_neg (not_le.mp h)]
    ring_nf

theorem beam_line_colinear (H : Hdr) (flatbeams : Bool) (l : List (ℚ × ℚ)) (α β dx y0 : ℚ)
    (hcol : ∀ t ∈ l, t.2 = α * t.1 + β) (hx : ∃ t ∈ l, ∃ u ∈ l, t.1 ≠ u.1) :
    (beam_line H false flatbeams (tip_sums l) l.length dx y0).1 = 0
      ∨ (beam_line H false flatbeams (tip_sums l) l.length dx y0).1
          = H.BEAM_SLOPE * α / (H.BEAM_SLOPE + |α|) := by
  rw [beam_line_fst, beam_fit_colinear l α β hcol hx]
  by_cases hf : flatbeams = true
  · rw [if_pos hf]
    exact Or.inl rfl
  · rw [if_neg hf]
    simp only [Bool.false_eq_true, not_false_eq_true, if_true]
    rw [beam_slope_normal_colinear H l α β hcol]
    exact beam_snap_cases H _ dx _

theorem limited_slope_eq_iff (K α : ℚ) (hK : 0 < K) :
    K * α / (K + |α|) = α ↔ α = 0 := by
  have hpos : 0 < K + |α| := by
    have := abs_nonneg α
    linarith
  constructor
  · intro h
    rw [div_eq_iff (ne_of_gt hpos)] at h
    have h2 : α * |α| = 0 := by linarith
    rcases mul_eq_zero.mp h2 with h3 | h3
    · exact h3
    · exact abs_eq_zero.mp h3
  · intro h
    rw [h]
    simp

/-- C6, as amended: for a beam group of normal notes (the chain
`(s1n, v1) :: q` of distinct symbols, from the first note to the note that
ends the beam or to the end of the voice, in the state in which the search of
the last note starts) whose stem tips all lie on one line `y = α*x + β` and do
not all have the same abscissa, when
`calculate_beam` fits the line anew the least-squares line is exactly that
line, `(α, β)`, and the flattening is not applied, but the limit of steepness
is: the slope fitted is `BEAM_SLOPE*α / (BEAM_SLOPE + |α|)`, or 0 (flat below
the threshold, or flat beams asked).  It is the slope `α` of the tips only
when `α = 0`. -/
theorem colinear_beam_slope (H : Hdr) (st : Score) (s1 : Nat) (v0 : SYMBOL)
    (st0 : Score) (s1n : Nat) (v1 : SYMBOL) (q : List (Nat × SYMBOL))
    (st1 : Score) (s2 : Nat) (c : BeamScan) (st3 : Score) (a b α β : ℚ)
    (hK : 0 < H.BEAM_SLOPE)
    (hs : st.sym s1 = some v0)
    (hdup : (if ¬ v0.sflags.S_BEAM_ST then beam_dup_prev st s1 else some (st, s1))
      = some (st0, s1n))
    (hsym : ∀ pv ∈ (s1n, v1) :: q, st0.sym pv.1 = some pv.2)
    (hlink : linked ((s1n, v1) :: q))
    (hnd : (((s1n, v1) :: q).map (fun pv => pv.1)).Nodup)
    (hn1 : v1.as_type = AbcType.ABC_T_NOTE)
    (hg1 : v1.ABC_F_GRACE = false)
    (hshape :
      (∃ s2 v2, ((s1n, v1) :: q).getLast? = some (s2, v2)
        ∧ v2.as_type = AbcType.ABC_T_NOTE ∧ v2.sflags.S_BEAM_END = true
        ∧ ∀ pv ∈ ((s1n, v1) :: q).dropLast,
            ¬ (pv.2.as_type = AbcType.ABC_T_NOTE ∧ pv.2.sflags.S_BEAM_END = true))
      ∨ (∃ pk vk, ((s1n, v1) :: q).getLast? = some (pk, vk) ∧ vk.next = none
        ∧ (∀ pv ∈ (s1n, v1) :: q,
            ¬ (pv.2.as_type = AbcType.ABC_T_NOTE ∧ pv.2.sflags.S_BEAM_END = true))
        ∧ linked_prev ((s1n, v1) :: q)))
    (hcol : ∀ t ∈ group_tips st0 H.STEM_XOFF ((s1n, v1) :: q), t.2 = α * t.1 + β)
    (hx : ∃ t ∈ group_tips st0 H.STEM_XOFF ((s1n, v1) :: q),
          ∃ u ∈ group_tips st0 H.STEM_XOFF ((s1n, v1) :: q), t.1 ≠ u.1)
    (hends : beam_ends st s1 = some (st1, s1n, s2, c))
    (hr : beam_refit H st1 s1n s2 c = some (st3, a, b)) :
    (∃ (st2 : Score) (m : BeamSums),
        beam_sums H.STEM_XOFF s2 st1.fuel s1n st1 {} = some (st2, m)
        ∧ beam_fit m c.notes = (α, β))
      ∧ (a = 0 ∨ a = H.BEAM_SLOPE * α / (H.BEAM_SLOPE + |α|))
      ∧ (a = α ↔ α = 0) := by
  have hgroup : ∃ (st1 : Score) (s2 : Nat) (c : BeamScan) (w1 : SYMBOL) (st2 : Score),
      beam_search st0 v1.staff v1.stem st0.fuel s1n {} = some (st1, s2, c)
      ∧ st1.sym s1n = some w1 ∧ w1.ABC_F_GRACE = v1.ABC_F_GRACE
      ∧ beam_sums H.STEM_XOFF s2 st1.fuel s1n st1 {}
          = some (st2, tip_sums (group_tips st0 H.STEM_XOFF ((s1n, v1) :: q)))
      ∧ c.notes = ((group_tips st0 H.STEM_XOFF ((s1n, v1) :: q)).length : Int) := by
    rcases hshape with ⟨s2, v2, hlast, h2, he, hbe⟩ | ⟨pk, vk, hlast, hk, hbe, hprev⟩
    · exact beam_group_end _ st0 s1n v1 q s2 v2 hsym hlink hnd hlast h2 he hbe
    · exact beam_group_open _ st0 s1n v1 q pk vk hsym hlink hnd hn1 hlast hk hbe hprev
  obtain ⟨st1a, s2a, ca, w1, st2, e1, e2, e3, e4, e5⟩ := hgroup
  unfold beam_ends at hends
  simp only [hs, hdup, hsym (s1n, v1) (List.mem_cons_self _ _), e1, Option.some.injEq,
    Prod.mk.injEq, true_and] at hends
  obtain ⟨h1, h2, h3⟩ := hends
  subst h1 h2 h3
  obtain ⟨v1a, st2a, m, u1, u2, f0, fs, f1, _, fa⟩ := beam_refit_slope H st1a s1n s2a ca st3 a b hr
  have hv : v1a = w1 := by
    rw [e2] at f0
    exact (Option.some.inj f0).symm
  subst hv
  have hgr : v1a.ABC_F_GRACE = false := by rw [e3, hg1]
  rw [hgr] at fs
  simp only [Bool.false_eq_true, if_false] at fs
  rw [e4] at fs
  have hst : st2 = st2a ∧ tip_sums (group_tips st0 H.STEM_XOFF ((s1n, v1) :: q)) = m := by
    have := Option.some.inj fs
    exact ⟨(Prod.mk.inj this).1, (Prod.mk.inj this).2⟩
  obtain ⟨hst2, hm⟩ := hst
  subst hst2
  obtain ⟨_, fr⟩ := beam_sums_frame _ s2a _ _ _ _ _ _ e4
  obtain ⟨w, hw, hwe⟩ := fr s1n v1a e2
  have hu : u1 = w := by
    rw [hw] at f1
    exact (Option.some.inj f1).symm
  have hug : u1.ABC_F_GRACE = false := by rw [hu, hwe]; exact hgr
  rw [hug, ← hm, e5] at fa
  have hfit := beam_fit_colinear _ α β hcol hx
  have hline := beam_line_colinear H st2.flatbeams _ α β (u2.xs - u1.xs)
    (st2.staffOf v1a.staff).y hcol hx
  rw [← fa] at hline
  refine ⟨⟨st2, m, ?_, ?_⟩, hline, ?_⟩
  · rw [← hm]; exact e4
  · rw [← hm, e5]; exact hfit
  · constructor
    · intro h
      rcases hline with h0 | h0
      · rw [← h, h0]
      · rw [h] at h0
        exact (limited_slope_eq_iff H.BEAM_SLOPE α hK).mp h0.symm
    · intro h
      rcases hline with h0 | h0
      · rw [h0, h]
      · rw [h0, h]; simp

/-- Instance of `colinear_beam_slope`: the four eighth notes of `lineScore`,
whose stem tips lie on the line `y = x/5 + 133/10`. -/
theorem colinear_beam_slope_witness :
    ∃ (st3 : Score) (a b : ℚ),
      beam_refit stdHdr lineScore 1 4 { notes := 4, nflags := 1 } = some (st3, a, b)
      ∧ (∃ (st2 : Score) (m : BeamSums),
          beam_sums stdHdr.STEM_XOFF 4 lineScore.fuel 1 lineScore {} = some (st2, m)
          ∧ beam_fit m (4 : Int) = (1 / 5, 133 / 10))
      ∧ (a = 0 ∨ a = stdHdr.BEAM_SLOPE * (1 / 5) / (stdHdr.BEAM_SLOPE + |(1 / 5 : ℚ)|))
      ∧ (a = 1 / 5 ↔ (1 / 5 : ℚ) = 0) := by
  have hret : (beam_refit stdHdr lineScore 1 4 { notes := 4, nflags := 1 }).isSome = true := by
    decide!
  cases hc : beam_refit stdHdr lineScore 1 4 { notes := 4, nflags := 1 } with
  | none => rw [hc] at hret; exact absurd hret (by simp)
  | some r =>
    obtain ⟨st3, a, b⟩ := r
    exact ⟨st3, a, b, rfl,
      colinear_beam_slope stdHdr lineScore 1 (lineNote 1) lineScore 1 (lineNote 1)
        [(2, lineNote 2), (3, lineNote 3), (4, lineNote 4)] lineScore 4
        { notes := 4, nflags := 1 } st3 a b (1 / 5) (133 / 10) (by decide!) rfl rfl
        (by
          intro pv h
          simp only [List.mem_cons, List.mem_singleton, List.not_mem_nil, or_false] at h
          rcases h with rfl | rfl | rfl | rfl <;> rfl)
        ⟨rfl, rfl, rfl, trivial⟩ (by decide) rfl rfl
        (Or.inl ⟨4, lineNote 4, rfl, rfl, rfl, by
          intro pv h
          simp only [List.dropLast, List.mem_cons, List.mem_singleton, List.not_mem_nil,
            or_false] at h
          rcases h with rfl | rfl | rfl <;> decide⟩)
        (by decide!)
        ⟨(207 / 2, 34), by decide!, (247 / 2, 38), by decide!, by decide!⟩
        (by rfl) hc⟩

/-! ## Choice of the tied heads -/

theorem tie_search_none (k1 k2 : SYMBOL) (i : Nat) :
    ∀ (cnt : Nat) (tie2 : Int),
      (∀ m, m < cnt → k2.as_pits.getD m 0 ≠ k1.as_pits.getD i 0) →
      (tie_search k1 k2 i (k1.as_pits.getD i 0) cnt tie2).1 = none
      ∧ ((∃ m, m < cnt ∧ tie_second k1 k2 i m) →
          ∃ m, m < cnt ∧ tie_second k1 k2 i m
            ∧ (tie_search k1 k2 i (k1.as_pits.getD i 0) cnt tie2).2 = (m : Int))
      ∧ ((∀ m, m < cnt → ¬ tie_second k1 k2 i m) →
          (tie_search k1 k2 i (k1.as_pits.getD i 0) cnt tie2).2 = tie2) := by
  intro cnt
  induction cnt with
  | zero =>
    intro tie2 _
    refine ⟨rfl, ?_, fun _ => rfl⟩
    intro h; obtain ⟨m, hm, _⟩ := h; omega
  | succ n ih =>
    intro tie2 hne
    have hd : ¬ k2.as_pits.getD n 0 - k1.as_pits.getD i 0 = 0 := by
      have := hne n (by omega)
      omega
    have hne1 : ∀ m, m < n → k2.as_pits.getD m 0 ≠ k1.as_pits.getD i 0 :=
      fun m hm => hne m (by omega)
    unfold tie_search
    simp only [hd, if_false]
    by_cases hc : (k2.as_pits.getD n 0 - k1.as_pits.getD i 0 = 1
        ∨ k2.as_pits.getD n 0 - k1.as_pits.getD i 0 = -1)
        ∧ k1.accs.getD i 0 ≠ k2.accs.getD n 0
    · rw [if_pos hc]
      obtain ⟨e1, e2, e3⟩ := ih (n : Int) hne1
      refine ⟨e1, ?_, ?_⟩
      · intro _
        by_cases hex : ∃ m, m < n ∧ tie_second k1 k2 i m
        · obtain ⟨m, hm, hs, he⟩ := e2 hex
          exact ⟨m, by omega, hs, he⟩
        · have hall : ∀ m, m < n → ¬ tie_second k1 k2 i m :=
            fun m hm hs => hex ⟨m, hm, hs⟩
          exact ⟨n, by omega, hc, e3 hall⟩
      · intro hall
        exact absurd hc (hall n (by omega))
    · rw [if_neg hc]
      obtain ⟨e1, e2, e3⟩ := ih tie2 hne1
      refine ⟨e1, ?_, ?_⟩
      · intro hex
        obtain ⟨m, hm, hs⟩ := hex
        have hmn : m < n := by
          rcases Nat.lt_or_ge m n with h1 | h1
          · exact h1
          · have : m = n := by omega
            subst this
            exact absurd hs hc
        obtain ⟨m1, hm1, hs1, he⟩ := e2 ⟨m, hmn, hs⟩
        exact ⟨m1, by omega, hs1, he⟩
      · intro hall
        exact e3 (fun m hm => hall m (by omega))

theorem tie_pick_exact (k1 k2 : SYMBOL) (i : Nat)
    (h : ∃ m, m ≤ k2.nhd ∧ k2.as_pits.getD m 0 = k1.as_pits.getD i 0) :
    ∃ m, tie_pick k1 k2 i = some m ∧ m ≤ k2.nhd
      ∧ k2.as_pits.getD m 0 = k1.as_pits.getD i 0 := by
  obtain ⟨m, hm, hp⟩ := h
  obtain ⟨m1, t, e, h1, h2⟩ :=
    tie_search_found k1 k2 i (k1.as_pits.getD i 0) (k2.nhd + 1) (-1) ⟨m, by omega, hp⟩
  refine ⟨m1, ?_, by omega, h2⟩
  unfold tie_pick
  rw [e]

theorem tie_pick_second (k1 k2 : SYMBOL) (i : Nat)
    (hne : ∀ m, m ≤ k2.nhd → k2.as_pits.getD m 0 ≠ k1.as_pits.getD i 0)
    (h : ∃ m, m ≤ k2.nhd ∧ tie_second k1 k2 i m) :
    ∃ m, tie_pick k1 k2 i = some m ∧ m ≤ k2.nhd ∧ tie_second k1 k2 i m := by
  obtain ⟨e1, e2, _⟩ := tie_search_none k1 k2 i (k2.nhd + 1) (-1)
    (fun m hm => hne m (by omega))
  obtain ⟨m, hm, hs⟩ := h
  obtain ⟨m1, hm1, hs1, he⟩ := e2 ⟨m, by omega, hs⟩
  refine ⟨m1, ?_, by omega, hs1⟩
  unfold tie_pick
  cases hr : tie_search k1 k2 i (k1.as_pits.getD i 0) (k2.nhd + 1) (-1) with
  | mk a b =>
    rw [hr] at e1 he
    simp only at e1 he
    subst e1 he
    simp

theorem tie_pick_none (k1 k2 : SYMBOL) (i : Nat)
    (hne : ∀ m, m ≤ k2.nhd → k2.as_pits.getD m 0 ≠ k1.as_pits.getD i 0)
    (h : ∀ m, m ≤ k2.nhd → ¬ tie_second k1 k2 i m) :
    tie_pick k1 k2 i = none := by
  obtain ⟨e1, _, e3⟩ := tie_search_none k1 k2 i (k2.nhd + 1) (-1)
    (fun m hm => hne m (by omega))
  have he := e3 (fun m hm => h m (by omega))
  unfold tie_pick
  cases hr : tie_search k1 k2 i (k1.as_pits.getD i 0) (k2.nhd + 1) (-1) with
  | mk a b =>
    rw [hr] at e1 he
    simp only at e1 he
    subst e1 he
    simp

theorem tie_setup_step_pick (k1 k2 : SYMBOL) (i : Nat) (t : TieLists) :
    tie_setup_step k1 k2 i t =
      if k1.ti1.getD i 0 = 0 then t
      else
        match tie_pick k1 k2 i with
        | some m => { t with mhead1 := t.mhead1 ++ [i], mhead2 := t.mhead2 ++ [m] }
        | none => { t with mhead3 := t.mhead3 ++ [i] } := by
  unfold tie_setup_step tie_pick
  by_cases hti : k1.ti1.getD i 0 = 0
  · simp only [hti, if_true]
  · simp only [hti, if_false]
    cases hr : tie_search k1 k2 i (k1.as_pits.getD i 0) (k2.nhd + 1) (-1) with
    | mk a b =>
      cases a with
      | some m => rfl
      | none =>
        simp only
        split_ifs <;> rfl

/-- The lists built by the loop "set up list of ties to draw", head by head. -/
theorem tie_setup_lists (k1 k2 : SYMBOL) :
    ∀ n,
      (for_range n (tie_setup_step k1 k2) {}).mhead1.zip
          (for_range n (tie_setup_step k1 k2) {}).mhead2
        = (List.range n).filterMap (fun i =>
            if k1.ti1.getD i 0 = 0 then none else (tie_pick k1 k2 i).map (fun m => (i, m)))
      ∧ (for_range n (tie_setup_step k1 k2) {}).mhead1.length
          = (for_range n (tie_setup_step k1 k2) {}).mhead2.length
      ∧ (for_range n (tie_setup_step k1 k2) {}).mhead3
        = (List.range n).filter (fun i =>
            decide (k1.ti1.getD i 0 ≠ 0) && (tie_pick k1 k2 i).isNone) := by
  intro n
  induction n with
  | zero => simp [for_range_zero]
  | succ n ih =>
    obtain ⟨h1, h2, h3⟩ := ih
    rw [for_range_succ, tie_setup_step_pick]
    generalize for_range n (tie_setup_step k1 k2) {} = t at h1 h2 h3 ⊢
    rw [List.range_succ, List.filterMap_append, List.filter_append, ← h1, ← h3]
    by_cases hti : k1.ti1.getD n 0 = 0
    · have hti2 := hti
      rw [List.getD_eq_getElem?_getD] at hti2
      simp [hti, hti2, h2]
    · have hti2 := hti
      rw [List.getD_eq_getElem?_getD] at hti2
      cases hp : tie_pick k1 k2 n with
      | none => simp [hti, hti2, h2, hp]
      | some m =>
        simp only [hti, if_false, hp]
        refine ⟨?_, ?_, ?_⟩
        · rw [List.zip_append h2]
          simp [hti2, hp]
        · simp [h2]
        · simp [hti2, hp]

theorem tie_setup_zip_mem (k1 k2 : SYMBOL) (i m : Nat) :
    (i, m) ∈ (tie_setup k1 k2).mhead1.zip (tie_setup k1 k2).mhead2
      ↔ i ≤ k1.nhd ∧ k1.ti1.getD i 0 ≠ 0 ∧ tie_pick k1 k2 i = some m := by
  unfold tie_setup
  rw [(tie_setup_lists k1 k2 (k1.nhd + 1)).1, List.mem_filterMap]
  constructor
  · rintro ⟨j, hj, hf⟩
    rw [List.mem_range] at hj
    by_cases hti : k1.ti1.getD j 0 = 0
    · rw [if_pos hti] at hf
      exact absurd hf (by simp)
    · rw [if_neg hti] at hf
      cases hp : tie_pick k1 k2 j with
      | none => rw [hp] at hf; exact absurd hf (by simp)
      | some m1 =>
        rw [hp] at hf
        simp only [Option.map_some', Option.some.injEq, Prod.mk.injEq] at hf
        obtain ⟨rfl, rfl⟩ := hf
        exact ⟨by omega, hti, hp⟩
  · rintro ⟨hi, hti, hp⟩
    refine ⟨i, List.mem_range.mpr (by omega), ?_⟩
    rw [if_neg hti, hp]
    rfl

theorem tie_setup_mhead3_mem (k1 k2 : SYMBOL) (i : Nat) :
    i ∈ (tie_setup k1 k2).mhead3
      ↔ i ≤ k1.nhd ∧ k1.ti1.getD i 0 ≠ 0 ∧ tie_pick k1 k2 i = none := by
  unfold tie_setup
  rw [(tie_setup_lists k1 k2 (k1.nhd + 1)).2.2, List.mem_filter, List.mem_range]
  simp only [Bool.and_eq_true, decide_eq_true_eq, Option.isNone_iff_eq_none]
  constructor
  · rintro ⟨h1, h2, h3⟩
    exact ⟨by omega, h2, h3⟩
  · rintro ⟨h1, h2, h3⟩
    exact ⟨by omega, h2, h3⟩

/-- C13: for a tied head `i` of `k1` (the lists being those of the loop "set up
list of ties to draw" of `draw_ties`): if `k2` has a head of the pitch of `i`,
the match list holds the pair `(i, m)` for one head `m` of that pitch and for
no other head, whatever heads one step away `k2` also has; if `k2` has no head
of that pitch but a head one step away with an accidental that differs from
that of `i`, the match list holds `(i, m)` for one such head and no other;
otherwise `i` is in the unmatched list and in no pair. -/
theorem draw_ties_prefers_exact (k1 k2 : SYMBOL) (i : Nat) (hi : i ≤ k1.nhd)
    (ht : k1.ti1.getD i 0 ≠ 0) :
    ((∃ m, m ≤ k2.nhd ∧ k2.as_pits.getD m 0 = k1.as_pits.getD i 0) →
        ∃ m, m ≤ k2.nhd ∧ k2.as_pits.getD m 0 = k1.as_pits.getD i 0
          ∧ (i, m) ∈ (tie_setup k1 k2).mhead1.zip (tie_setup k1 k2).mhead2
          ∧ (∀ m1, (i, m1) ∈ (tie_setup k1 k2).mhead1.zip (tie_setup k1 k2).mhead2 → m1 = m)
          ∧ i ∉ (tie_setup k1 k2).mhead3)
      ∧ ((∀ m, m ≤ k2.nhd → k2.as_pits.getD m 0 ≠ k1.as_pits.getD i 0) →
          (∃ m, m ≤ k2.nhd ∧ tie_second k1 k2 i m) →
          ∃ m, m ≤ k2.nhd ∧ tie_second k1 k2 i m
            ∧ (i, m) ∈ (tie_setup k1 k2).mhead1.zip (tie_setup k1 k2).mhead2
            ∧ (∀ m1, (i, m1) ∈ (tie_setup k1 k2).mhead1.zip (tie_setup k1 k2).mhead2 →
                m1 = m)
            ∧ i ∉ (tie_setup k1 k2).mhead3)
      ∧ ((∀ m, m ≤ k2.nhd → k2.as_pits.getD m 0 ≠ k1.as_pits.getD i 0) →
          (∀ m, m ≤ k2.nhd → ¬ tie_second k1 k2 i m) →
          i ∈ (tie_setup k1 k2).mhead3
            ∧ ∀ m, (i, m) ∉ (tie_setup k1 k2).mhead1.zip (tie_setup k1 k2).mhead2) := by
  refine ⟨?_, ?_, ?_⟩
  · intro h
    obtain ⟨m, hp, hm, he⟩ := tie_pick_exact k1 k2 i h
    refine ⟨m, hm, he, (tie_setup_zip_mem k1 k2 i m).mpr ⟨hi, ht, hp⟩, ?_, ?_⟩
    · intro m1 h1
      have := ((tie_setup_zip_mem k1 k2 i m1).mp h1).2.2
      rw [hp] at this
      exact (Option.some.inj this).symm
    · intro h3
      have := ((tie_setup_mhead3_mem k1 k2 i).mp h3).2.2
      rw [hp] at this
      exact absurd this (by simp)
  · intro hne h
    obtain ⟨m, hp, hm, hs⟩ := tie_pick_second k1 k2 i hne h
    refine ⟨m, hm, hs, (tie_setup_zip_mem k1 k2 i m).mpr ⟨hi, ht, hp⟩, ?_, ?_⟩
    · intro m1 h1
      have := ((tie_setup_zip_mem k1 k2 i m1).mp h1).2.2
      rw [hp] at this
      exact (Option.some.inj this).symm
    · intro h3
      have := ((tie_setup_mhead3_mem k1 k2 i).mp h3).2.2
      rw [hp] at this
      exact absurd this (by simp)
  · intro hne h
    have hp := tie_pick_none k1 k2 i hne h
    refine ⟨(tie_setup_mhead3_mem k1 k2 i).mpr ⟨hi, ht, hp⟩, ?_⟩
    intro m h1
    have := ((tie_setup_zip_mem k1 k2 i m).mp h1).2.2
    rw [hp] at this
    exact absurd this (by simp)

/-- Instance of `draw_ties_prefers_exact`: the tied `c` of `pickNote1` before
the chord `c d` of `pickChord2`, whose `d` is one step away with another
accidental; the tie goes to the `c` (head 0). -/
theorem draw_ties_prefers_exact_witness :
    (tie_setup pickNote1 pickChord2).mhead1 = [0]
      ∧ (tie_setup pickNote1 pickChord2).mhead2 = [0]
      ∧ tie_second pickNote1 pickChord2 0 1
      ∧ ((∃ m, m ≤ pickChord2.nhd ∧ pickChord2.as_pits.getD m 0 = pickNote1.as_pits.getD 0 0) →
        ∃ m, m ≤ pickChord2.nhd ∧ pickChord2.as_pits.getD m 0 = pickNote1.as_pits.getD 0 0
          ∧ (0, m) ∈ (tie_setup pickNote1 pickChord2).mhead1.zip
              (tie_setup pickNote1 pickChord2).mhead2
          ∧ (∀ m1, (0, m1) ∈ (tie_setup pickNote1 pickChord2).mhead1.zip
              (tie_setup pickNote1 pickChord2).mhead2 → m1 = m)
          ∧ 0 ∉ (tie_setup pickNote1 pickChord2).mhead3) :=
  ⟨by decide, by decide, by unfold tie_second; decide,
    (draw_ties_prefers_exact pickNote1 pickChord2 0 (by decide) (by decide)).1⟩

/-! ## Ties that find no end -/

theorem find_pit_none (k3 : SYMBOL) (pit : Int) :
    ∀ n, find_pit k3 pit n = none ↔ ∀ m, m < n → k3.as_pits.getD m 0 ≠ pit := by
  intro n
  induction n with
  | zero => simp [find_pit]
  | succ n ih =>
    unfold find_pit
    by_cases h : k3.as_pits.getD n 0 = pit
    · rw [if_pos h]
      constructor
      · intro h1; exact absurd h1 (by simp)
      · intro h1; exact absurd h (h1 n (by omega))
    · rw [if_neg h, ih]
      constructor
      · intro h1 m hm
        rcases Nat.lt_or_ge m n with h2 | h2
        · exact h1 m h2
        · have : m = n := by omega
          rw [this]; exact h
      · intro h1 m hm
        exact h1 m (by omega)

theorem find_pit_unmatched (k1 k3 : SYMBOL) (i : Nat) :
    (find_pit k3 (k1.as_pits.getD i 0) (k3.nhd + 1)).isNone = tie_unmatched k1 k3 i := by
  unfold tie_unmatched
  by_cases h : find_pit k3 (k1.as_pits.getD i 0) (k3.nhd + 1) = none
  · rw [h]
    have := (find_pit_none k3 _ _).mp h
    symm
    simp only [Option.isNone_none, List.all_eq_true, List.mem_range, decide_eq_true_eq]
    exact this
  · have h2 : (find_pit k3 (k1.as_pits.getD i 0) (k3.nhd + 1)).isNone = false := by
      cases hq : find_pit k3 (k1.as_pits.getD i 0) (k3.nhd + 1) with
      | none => exact absurd hq h
      | some m => rfl
    rw [h2]
    symm
    rw [Bool.eq_false_iff]
    intro hall
    simp only [List.all_eq_true, List.mem_range, decide_eq_true_eq] at hall
    exact h ((find_pit_none k3 _ _).mpr hall)

theorem swap_remove (F G : List Nat) (x : Nat) :
    ∃ G1, ((F ++ x :: G).set F.length ((F ++ x :: G).getD ((F ++ x :: G).length - 1) 0)).take
        ((F ++ x :: G).length - 1) = F ++ G1 ∧ G1.Perm G := by
  induction G using List.reverseRecOn with
  | nil =>
    refine ⟨[], ?_, List.Perm.refl _⟩
    simp
  | append_singleton G0 g _ =>
    refine ⟨g :: G0, ?_, ?_⟩
    · have h1 : (F ++ x :: (G0 ++ [g])).length - 1 = F.length + G0.length + 1 := by
        simp only [List.length_append, List.length_cons, List.length_nil]; omega
      rw [h1]
      have h2 : (F ++ x :: (G0 ++ [g])).getD (F.length + G0.length + 1) 0 = g := by
        have e : F ++ x :: (G0 ++ [g]) = (F ++ x :: G0) ++ [g] := by simp
        rw [e, List.getD_eq_getElem?_getD, List.getElem?_append_right (by simp; omega)]
        have e2 : F.length + G0.length + 1 - (F ++ x :: G0).length = 0 := by
          simp only [List.length_append, List.length_cons]; omega
        rw [e2]
        rfl
      rw [h2]
      have h3 : (F ++ x :: (G0 ++ [g])).set F.length g = F ++ g :: (G0 ++ [g]) := by
        rw [List.set_append_right _ _ (le_refl _)]
        simp
      rw [h3]
      have e : F ++ g :: (G0 ++ [g]) = (F ++ g :: G0) ++ [g] := by simp
      rw [e, List.take_append_of_le_length (by simp; omega), List.take_of_length_le (by simp; omega)]
    · exact (List.perm_append_singleton g G0).symm

theorem other_voice_loop_spec (k1 k3 : SYMBOL) :
    ∀ (i : Nat) (t : TieLists) (F G : List Nat),
      t.mhead3 = F ++ G → F.length = i → (∀ a ∈ G, tie_unmatched k1 k3 a = true) →
      (other_voice_loop k1 k3 i t).mhead3.Perm (F.filter (tie_unmatched k1 k3) ++ G)
      ∧ (other_voice_loop k1 k3 i t).mhead1.length + (F.filter (tie_unmatched k1 k3)).length
          = t.mhead1.length + F.length
      ∧ (other_voice_loop k1 k3 i t).mhead2.length + (F.filter (tie_unmatched k1 k3)).length
          = t.mhead2.length + F.length := by
  intro i
  induction i with
  | zero =>
    intro t F G ht hF _
    have : F = [] := List.length_eq_zero.mp hF
    subst this
    unfold other_voice_loop
    simp [ht]
  | succ n ih =>
    intro t F G ht hF hG
    obtain ⟨F1, x, rfl⟩ : ∃ F1 x, F = F1 ++ [x] := by
      have hne : F ≠ [] := by intro h; rw [h] at hF; simp at hF
      exact ⟨F.dropLast, F.getLast hne, (List.dropLast_append_getLast hne).symm⟩
    have hF1 : F1.length = n := by simpa using hF
    have hx : t.mhead3.getD n 0 = x := by
      rw [ht, List.getD_eq_getElem?_getD, List.append_assoc,
        List.getElem?_append_right (by omega)]
      simp [hF1]
    unfold other_voice_loop
    rw [hx]
    have hun := find_pit_unmatched k1 k3 x
    cases hp : find_pit k3 (k1.as_pits.getD x 0) (k3.nhd + 1) with
    | none =>
      rw [hp] at hun
      have hux : tie_unmatched k1 k3 x = true := by rw [← hun]; rfl
      simp only
      obtain ⟨e1, e2, e3⟩ := ih t F1 (x :: G) (by rw [ht]; simp) hF1 (by
        intro a ha
        rcases List.mem_cons.mp ha with rfl | ha
        · exact hux
        · exact hG a ha)
      refine ⟨?_, ?_, ?_⟩
      · rw [List.filter_append]
        simp only [List.filter_cons, List.filter_nil, hux, if_true]
        simpa using e1
      · rw [List.filter_append]
        simp only [List.filter_cons, List.filter_nil, hux, if_true, List.length_append,
          List.length_cons, List.length_nil]
        omega
      · rw [List.filter_append]
        simp only [List.filter_cons, List.filter_nil, hux, if_true, List.length_append,
          List.length_cons, List.length_nil]
        omega
    | some m =>
      rw [hp] at hun
      have hux : tie_unmatched k1 k3 x = false := by rw [← hun]; rfl
      simp only
      have hm3 : t.mhead3 = F1 ++ x :: G := by rw [ht]; simp
      obtain ⟨G1, hs, hperm⟩ := swap_remove F1 G x
      rw [← hm3, hF1] at hs
      obtain ⟨e1, e2, e3⟩ := ih
        { mhead1 := t.mhead1 ++ [x], mhead2 := t.mhead2 ++ [m],
          mhead3 := (t.mhead3.set n (t.mhead3.getD (t.mhead3.length - 1) 0)).take
                      (t.mhead3.length - 1) } F1 G1 hs hF1 (by
        intro a ha
        exact hG a (hperm.subset ha))
      refine ⟨?_, ?_, ?_⟩
      · rw [List.filter_append]
        simp only [List.filter_cons, List.filter_nil, hux, Bool.false_eq_true, if_false,
          List.append_nil]
        exact e1.trans (List.Perm.append_left _ hperm)
      · rw [List.filter_append]
        simp only [List.filter_cons, List.filter_nil, hux, Bool.false_eq_true, if_false,
          List.append_nil, List.length_append, List.length_cons, List.length_nil] at e2 ⊢
        omega
      · rw [List.filter_append]
        simp only [List.filter_cons, List.filter_nil, hux, Bool.false_eq_true, if_false,
          List.append_nil, List.length_append, List.length_cons, List.length_nil] at e3 ⊢
        omega

theorem note_tie_some (st : Score) (k1p k2p : Nat) (k1 k2 : SYMBOL) (m1 m2 job : Nat)
    (hjob : job = 0 ∨ job = 1 ∨ job = 3) :
    ∃ c, note_tie st k1p k2p k1 k2 m1 m2 job = some c := by
  unfold note_tie
  rcases hjob with rfl | rfl | rfl <;> simp

theorem draw_note_ties_loop_total (st : Score) (k1p k2p : Nat) (k1 k2 : SYMBOL) (job : Nat)
    (hjob : job = 0 ∨ job = 1 ∨ job = 3) :
    ∀ (l1 l2 : List Nat) (acc : Score), l1.length = l2.length →
      ∃ cs : List SlurOut, cs.length = l1.length
        ∧ draw_note_ties_loop st k1p k2p k1 k2 job l1 l2 acc
            = some { acc with out := acc.out ++ cs.map Prim.slur } := by
  intro l1
  induction l1 with
  | nil =>
    intro l2 acc _
    exact ⟨[], rfl, by simp [draw_note_ties_loop]⟩
  | cons a r ih =>
    intro l2 acc hlen
    cases l2 with
    | nil => simp at hlen
    | cons b r2 =>
      obtain ⟨c, hc⟩ := note_tie_some st k1p k2p k1 k2 a b job hjob
      obtain ⟨cs, hcs, e⟩ := ih r2 { acc with out := acc.out ++ [Prim.slur c] }
        (by simpa using hlen)
      refine ⟨c :: cs, by simp [hcs], ?_⟩
      unfold draw_note_ties_loop
      rw [hc]
      simp only []
      rw [e]
      simp

theorem tie_bad_nil (k1 : SYMBOL) (time : Int) (M : List Nat) : tie_bad k1 time [] M = M := by
  unfold tie_bad
  simp

theorem tie_bad_stop (k1 : SYMBOL) (time : Int) (pv : Nat × SYMBOL) (R : List (Nat × SYMBOL))
    (M : List Nat) (h : pv.2.time ≠ time) : tie_bad k1 time (pv :: R) M = M := by
  unfold tie_bad
  rw [List.takeWhile_cons_of_neg (by simpa using h)]
  simp

theorem tie_bad_skip (k1 : SYMBOL) (time : Int) (pv : Nat × SYMBOL) (R : List (Nat × SYMBOL))
    (M : List Nat) (h : pv.2.time = time)
    (hc : ¬ (pv.2.as_type = AbcType.ABC_T_NOTE ∧ pv.2.staff = k1.staff)) :
    tie_bad k1 time (pv :: R) M = tie_bad k1 time R M := by
  unfold tie_bad
  rw [List.takeWhile_cons_of_pos (by simpa using h), List.filter_cons_of_neg (by simpa using hc)]

theorem tie_bad_cand (k1 : SYMBOL) (time : Int) (pv : Nat × SYMBOL) (R : List (Nat × SYMBOL))
    (M : List Nat) (h : pv.2.time = time)
    (hc : pv.2.as_type = AbcType.ABC_T_NOTE ∧ pv.2.staff = k1.staff) :
    tie_bad k1 time (pv :: R) M = tie_bad k1 time R (M.filter (tie_unmatched k1 pv.2)) := by
  unfold tie_bad
  rw [List.takeWhile_cons_of_pos (by simpa using h), List.filter_cons_of_pos (by simpa using hc),
    List.filter_filter]
  apply List.filter_congr
  intro i _
  simp only [List.all_cons]
  rw [Bool.and_comm]

theorem tie_bad_perm (k1 : SYMBOL) (time : Int) (R : List (Nat × SYMBOL)) (M M1 : List Nat)
    (h : M1.Perm M) : (tie_bad k1 time R M1).length = (tie_bad k1 time R M).length := by
  unfold tie_bad
  exact (h.filter _).length_eq

theorem tie_bad_length_le (k1 : SYMBOL) (time : Int) (R : List (Nat × SYMBOL)) (M : List Nat) :
    (tie_bad k1 time R M).length ≤ M.length := by
  unfold tie_bad
  exact List.length_filter_le _ _

theorem other_voices_end (k1p : Nat) (M : List Nat) (acc : Score) :
    (if M.length ≠ 0 then
        ({ acc with out := acc.out ++ [Prim.error 1 k1p "Bad tie"] } : Score) else acc)
      = { acc with out := acc.out ++ ([] : List SlurOut).map Prim.slur
            ++ (if M.length = 0 then [] else [Prim.error 1 k1p "Bad tie"]) } := by
  by_cases h : M.length = 0
  · simp [h]
  · simp [h]

theorem other_voices_spec (st0 : Score) (k1p : Nat) (k1 : SYMBOL) (time : Int) (job : Nat) :
    ∀ (R : List (Nat × SYMBOL)) (fuel : Nat) (M : List Nat) (acc : Score),
      (∀ pv ∈ R, st0.sym pv.1 = some pv.2) → linked_ts R → R.length < fuel →
      ∃ cs : List SlurOut,
        other_voices st0 k1p k1 time job fuel (R.head?.map (fun pv => pv.1)) M acc
          = some { acc with out := acc.out ++ cs.map Prim.slur
              ++ (if (tie_bad k1 time R M).length = 0 then []
                  else [Prim.error 1 k1p "Bad tie"]) }
        ∧ cs.length + (tie_bad k1 time R M).length = M.length := by
  intro R
  induction R with
  | nil =>
    intro fuel M acc _ _ hfuel
    obtain ⟨n, rfl⟩ : ∃ n, fuel = n + 1 := ⟨fuel - 1, by simp at hfuel; omega⟩
    refine ⟨[], ?_, by rw [tie_bad_nil]; simp⟩
    simp only [List.head?_nil, Option.map_none']
    unfold other_voices
    rw [tie_bad_nil, other_voices_end]
  | cons pv R ih =>
    intro fuel M acc hsym hlink hfuel
    obtain ⟨n, rfl⟩ : ∃ n, fuel = n + 1 := ⟨fuel - 1, by simp at hfuel; omega⟩
    have hfuel1 : R.length < n := by simp only [List.length_cons] at hfuel; omega
    have hsym1 : ∀ pv ∈ R, st0.sym pv.1 = some pv.2 :=
      fun q h => hsym q (List.mem_cons_of_mem _ h)
    have hnext : pv.2.ts_next = R.head?.map (fun pv => pv.1) ∧ linked_ts R := by
      cases R with
      | nil => exact ⟨hlink, trivial⟩
      | cons b r => exact ⟨hlink.1, hlink.2⟩
    simp only [List.head?_cons, Option.map_some']
    unfold other_voices
    simp only [hsym pv (List.mem_cons_self _ _)]
    by_cases ht : pv.2.time ≠ time
    · rw [if_pos ht, tie_bad_stop k1 time pv R M ht, other_voices_end]
      exact ⟨[], rfl, by simp⟩
    · rw [if_neg ht]
      have ht1 : pv.2.time = time := not_not.mp ht
      by_cases hc : pv.2.as_type ≠ AbcType.ABC_T_NOTE ∨ pv.2.staff ≠ k1.staff
      · rw [if_pos hc, hnext.1, tie_bad_skip k1 time pv R M ht1 (by
          intro h; rcases hc with h1 | h1
          · exact h1 h.1
          · exact h1 h.2)]
        exact ih n M acc hsym1 hnext.2 hfuel1
      · rw [if_neg hc]
        have hc1 : pv.2.as_type = AbcType.ABC_T_NOTE ∧ pv.2.staff = k1.staff := by
          constructor
          · by_contra h; exact hc (Or.inl h)
          · by_contra h; exact hc (Or.inr h)
        obtain ⟨p1, p2, p3⟩ := other_voice_loop_spec k1 pv.2 M.length { mhead3 := M } M []
          (by simp) rfl (by intro a ha; cases ha)
        simp only [List.append_nil, List.length_nil, Nat.zero_add] at p1 p2 p3
        rw [tie_bad_cand k1 time pv R M ht1 hc1, hnext.1]
        generalize other_voice_loop k1 pv.2 M.length { mhead3 := M } = t at p1 p2 p3 ⊢
        have hlen3 : t.mhead3.length = (M.filter (tie_unmatched k1 pv.2)).length := p1.length_eq
        have hbad := tie_bad_perm k1 time R _ _ p1
        by_cases h1 : t.mhead1.length > 0
        · rw [if_pos h1]
          obtain ⟨cs1, hcs1, e1⟩ := draw_note_ties_loop_total st0 k1p pv.1 k1 pv.2
            (if job = 1 then 1 else 0) (by split_ifs <;> simp) t.mhead1 t.mhead2 acc (by omega)
          rw [e1]
          simp only
          by_cases h3 : t.mhead3.length = 0
          · rw [if_pos h3]
            have hz : (tie_bad k1 time R (M.filter (tie_unmatched k1 pv.2))).length = 0 := by
              have := tie_bad_length_le k1 time R (M.filter (tie_unmatched k1 pv.2))
              omega
            refine ⟨cs1, ?_, by omega⟩
            rw [hz]
            simp
          · rw [if_neg h3]
            obtain ⟨cs2, e2, hcs2⟩ := ih n t.mhead3
              { acc with out := acc.out ++ cs1.map Prim.slur } hsym1 hnext.2 hfuel1
            refine ⟨cs1 ++ cs2, ?_, ?_⟩
            · rw [e2, hbad]
              simp [List.append_assoc]
            · rw [List.length_append]
              omega
        · rw [if_neg h1]
          obtain ⟨cs2, e2, hcs2⟩ := ih n t.mhead3 acc hsym1 hnext.2 hfuel1
          refine ⟨cs2, ?_, ?_⟩
          · rw [e2, hbad]
          · omega

theorem linked_ts_tail (a : Nat × SYMBOL) (P : List (Nat × SYMBOL)) (h : linked_ts (a :: P)) :
    a.2.ts_next = P.head?.map (fun pv => pv.1) ∧ linked_ts P := by
  cases P with
  | nil => exact ⟨h, trivial⟩
  | cons b r => exact ⟨h.1, h.2⟩

theorem linked_ts_dropWhile (f : Nat × SYMBOL → Bool) :
    ∀ P : List (Nat × SYMBOL), linked_ts P → linked_ts (P.dropWhile f) := by
  intro P
  induction P with
  | nil => intro h; exact h
  | cons a P ih =>
    intro h
    by_cases hf : f a = true
    · rw [List.dropWhile_cons_of_pos hf]
      exact ih (linked_ts_tail a P h).2
    · rw [List.dropWhile_cons_of_neg hf]
      exact h

theorem skip_earlier_spec (st : Score) (time : Int) :
    ∀ (P : List (Nat × SYMBOL)) (fuel : Nat),
      (∀ pv ∈ P, st.sym pv.1 = some pv.2) → linked_ts P → P.length < fuel →
      skip_earlier st time fuel (P.head?.map (fun pv => pv.1))
        = some ((P.dropWhile (fun pv => decide (pv.2.time < time))).head?.map (fun pv => pv.1)) := by
  intro P
  induction P with
  | nil =>
    intro fuel _ _ hfuel
    obtain ⟨n, rfl⟩ : ∃ n, fuel = n + 1 := ⟨fuel - 1, by simp at hfuel; omega⟩
    rfl
  | cons a P ih =>
    intro fuel hsym hlink hfuel
    obtain ⟨n, rfl⟩ : ∃ n, fuel = n + 1 := ⟨fuel - 1, by simp at hfuel; omega⟩
    simp only [List.head?_cons, Option.map_some']
    unfold skip_earlier
    simp only [hsym a (List.mem_cons_self _ _)]
    by_cases ht : a.2.time < time
    · rw [if_pos ht, List.dropWhile_cons_of_pos (by simpa using ht), (linked_ts_tail a P hlink).1]
      exact ih n (fun q h => hsym q (List.mem_cons_of_mem _ h)) (linked_ts_tail a P hlink).2
        (by simp only [List.length_cons] at hfuel; omega)
    · rw [if_neg ht, List.dropWhile_cons_of_neg (by simpa using ht)]
      rfl

theorem tie_candidates_sorted (k1 : SYMBOL) (time : Int) :
    ∀ P : List (Nat × SYMBOL), P.Pairwise (fun a b => a.2.time ≤ b.2.time) →
      ((P.dropWhile (fun pv => decide (pv.2.time < time))).takeWhile
          (fun pv => decide (pv.2.time = time))).filter
        (fun pv => decide (pv.2.as_type = AbcType.ABC_T_NOTE) && decide (pv.2.staff = k1.staff))
      = P.filter (fun pv => tie_candidate k1 time pv.2) := by
  intro P
  induction P with
  | nil => intro _; rfl
  | cons a P ih =>
    intro hs
    have hs1 := (List.pairwise_cons.mp hs).2
    have ha := (List.pairwise_cons.mp hs).1
    by_cases ht : a.2.time < time
    · rw [List.dropWhile_cons_of_pos (by simpa using ht), ih hs1,
        List.filter_cons_of_neg (by
          unfold tie_candidate
          simp only [Bool.and_eq_true, decide_eq_true_eq, not_and]
          intro h; omega)]
    · rw [List.dropWhile_cons_of_neg (by simpa using ht)]
      by_cases he : a.2.time = time
      · rw [List.takeWhile_cons_of_pos (by simpa using he)]
        have hdw : P.dropWhile (fun pv => decide (pv.2.time < time)) = P := by
          cases P with
          | nil => rfl
          | cons b r =>
            have := ha b (List.mem_cons_self _ _)
            rw [List.dropWhile_cons_of_neg (by simp only [decide_eq_true_eq]; omega)]
        have ih1 := ih hs1
        rw [hdw] at ih1
        by_cases hc : a.2.as_type = AbcType.ABC_T_NOTE ∧ a.2.staff = k1.staff
        · rw [List.filter_cons_of_pos (by simpa using hc), ih1,
            List.filter_cons_of_pos (by
              unfold tie_candidate
              simp only [Bool.and_eq_true, decide_eq_true_eq]
              exact ⟨⟨he, hc.1⟩, hc.2⟩)]
        · rw [List.filter_cons_of_neg (by simpa using hc), ih1,
            List.filter_cons_of_neg (by
              unfold tie_candidate
              simp only [Bool.and_eq_true, decide_eq_true_eq, not_and]
              intro h1 h2
              exact hc ⟨h1.2, h2⟩)]
      · rw [List.takeWhile_cons_of_neg (by simpa using he)]
        symm
        rw [List.filter_nil, List.filter_eq_nil_iff]
        intro b hb
        unfold tie_candidate
        simp only [Bool.and_eq_true, decide_eq_true_eq, not_and]
        intro h1
        rcases List.mem_cons.mp hb with rfl | hb
        · exact absurd h1.1 he
        · have := ha b hb
          have := h1.1
          omega

theorem tie_setup_count (k1 k2 : SYMBOL) :
    ∀ n, (for_range n (tie_setup_step k1 k2) {}).mhead1.length
        + (for_range n (tie_setup_step k1 k2) {}).mhead3.length
      = ((List.range n).filter (fun i => decide (k1.ti1.getD i 0 ≠ 0))).length := by
  intro n
  induction n with
  | zero => simp [for_range_zero]
  | succ n ih =>
    rw [for_range_succ, tie_setup_step_pick, List.range_succ, List.filter_append,
      List.length_append, ← ih]
    generalize for_range n (tie_setup_step k1 k2) {} = t
    by_cases hti : k1.ti1.getD n 0 = 0
    · have hti2 := hti
      rw [List.getD_eq_getElem?_getD] at hti2
      simp [hti, hti2]
    · have hti2 := hti
      rw [List.getD_eq_getElem?_getD] at hti2
      cases hp : tie_pick k1 k2 n with
      | none => simp [hti, hti2]; omega
      | some m => simp [hti, hti2]; omega

/-- C14: for `draw_ties` with job 0, 1 or 3 (`k1q`, `k2q` being `k1`, `k2`
after the replacement by a grace note, and `P` the time-ordered list after
`k1`, ordered by time), let `bad` be the tied heads of `k1` that are in the
unmatched list of the set-up (no head of `k2` of the same pitch nor as second
choice) and find no head of their pitch in any note of the staff of `k1` at
the time `k1.time + k1.dur` in `P`.  Then `draw_ties` returns, it writes
"Bad tie" exactly when `bad` is not empty (as its last output), and the tie
curves it writes are as many as the tied heads that are not in `bad`. -/
theorem draw_ties_bad_tie (st : Score) (k1p k2p job : Nat) (k1a k2a : SYMBOL)
    (k1q k2q : Nat) (k1 k2 : SYMBOL) (P : List (Nat × SYMBOL))
    (h1 : st.sym k1p = some k1a) (h2 : st.sym k2p = some k2a)
    (hg1 : (if k1a.type = SymType.GRACE then last_grace st st.fuel k1a.extra k1p
            else some k1p) = some k1q)
    (hg2 : (if k2a.type = SymType.GRACE then first_grace st st.fuel k2a.extra k2p
            else some k2p) = some k2q)
    (hq1 : st.sym k1q = some k1) (hq2 : st.sym k2q = some k2)
    (hjob : job = 0 ∨ job = 1 ∨ job = 3)
    (hP : ∀ pv ∈ P, st.sym pv.1 = some pv.2) (hlink : linked_ts P)
    (hhead : k1.ts_next = P.head?.map (fun pv => pv.1))
    (hnd : (P.map (fun pv => pv.1)).Nodup)
    (hsorted : P.Pairwise (fun a b => a.2.time ≤ b.2.time)) :
    ∃ cs : List SlurOut,
      draw_ties st k1p k2p job
        = some { st with out := st.out ++ cs.map Prim.slur
            ++ (if ((tie_setup k1 k2).mhead3.filter (fun i =>
                    (P.filter (fun pv => tie_candidate k1 (k1.time + k1.dur) pv.2)).all
                      (fun pv => tie_unmatched k1 pv.2 i))).length = 0 then []
                else [Prim.error 1 k1q "Bad tie"]) }
      ∧ cs.length
          + ((tie_setup k1 k2).mhead3.filter (fun i =>
              (P.filter (fun pv => tie_candidate k1 (k1.time + k1.dur) pv.2)).all
                (fun pv => tie_unmatched k1 pv.2 i))).length
        = (tied_heads k1).length := by
  have hj2 : job ≠ 2 := by rcases hjob with rfl | rfl | rfl <;> decide
  have hlen12 : (tie_setup k1 k2).mhead1.length = (tie_setup k1 k2).mhead2.length :=
    (tie_setup_lists k1 k2 (k1.nhd + 1)).2.1
  have hcount : (tie_setup k1 k2).mhead1.length + (tie_setup k1 k2).mhead3.length
      = (tied_heads k1).length := tie_setup_count k1 k2 (k1.nhd + 1)
  obtain ⟨cs1, hcs1, e1⟩ := draw_note_ties_loop_total st k1q k2q k1 k2 job hjob
    (tie_setup k1 k2).mhead1 (tie_setup k1 k2).mhead2 st hlen12
  have hfuel : P.length < st.fuel := by
    have := path_fuel st P (fun pv h => ⟨pv.2, hP pv h⟩) hnd
    unfold Score.fuel
    omega
  have hbadeq : tie_bad k1 (k1.time + k1.dur)
      (P.dropWhile (fun pv => decide (pv.2.time < k1.time + k1.dur))) (tie_setup k1 k2).mhead3
      = (tie_setup k1 k2).mhead3.filter (fun i =>
          (P.filter (fun pv => tie_candidate k1 (k1.time + k1.dur) pv.2)).all
            (fun pv => tie_unmatched k1 pv.2 i)) := by
    unfold tie_bad
    rw [tie_candidates_sorted k1 (k1.time + k1.dur) P hsorted]
  rw [← hbadeq]
  unfold draw_ties
  simp only [h1, h2, hg1, hg2, hq1, hq2, if_neg hj2]
  unfold draw_note_ties
  simp only [hq1, hq2]
  rw [e1]
  simp only
  by_cases h3 : (tie_setup k1 k2).mhead3.length = 0
  · rw [if_pos h3]
    have hz : (tie_bad k1 (k1.time + k1.dur)
        (P.dropWhile (fun pv => decide (pv.2.time < k1.time + k1.dur)))
        (tie_setup k1 k2).mhead3).length = 0 := by
      have := tie_bad_length_le k1 (k1.time + k1.dur)
        (P.dropWhile (fun pv => decide (pv.2.time < k1.time + k1.dur))) (tie_setup k1 k2).mhead3
      omega
    refine ⟨cs1, ?_, ?_⟩
    · rw [hz]; simp
    · omega
  · rw [if_neg h3, hhead, skip_earlier_spec st (k1.time + k1.dur) P st.fuel hP hlink hfuel]
    simp only
    obtain ⟨cs2, e2, hcs2⟩ := other_voices_spec st k1q k1 (k1.time + k1.dur) job
      (P.dropWhile (fun pv => decide (pv.2.time < k1.time + k1.dur))) st.fuel
      (tie_setup k1 k2).mhead3 { st with out := st.out ++ cs1.map Prim.slur }
      (fun pv h => hP pv ((List.dropWhile_suffix _).subset h))
      (linked_ts_dropWhile _ P hlink)
      (lt_of_le_of_lt (List.dropWhile_suffix _).length_le hfuel)
    refine ⟨cs1 ++ cs2, ?_, ?_⟩
    · rw [e2]
      simp [List.append_assoc]
    · rw [List.length_append]
      omega

/-- Instance of `draw_ties_bad_tie`: the tie of `badNote1` has no end in
`badNote2`, the only later symbol; "Bad tie" is the only output. -/
theorem draw_ties_bad_tie_witness :
    draw_ties badScore 0 1 0
        = some { badScore with out := [Prim.error 1 0 "Bad tie"] }
      ∧ ∃ cs : List SlurOut,
        draw_ties badScore 0 1 0
          = some { badScore with out := badScore.out ++ cs.map Prim.slur
              ++ (if ((tie_setup badNote1 badNote2).mhead3.filter (fun i =>
                      ([(1, badNote2)].filter
                        (fun pv => tie_candidate badNote1 (badNote1.time + badNote1.dur) pv.2)).all
                        (fun pv => tie_unmatched badNote1 pv.2 i))).length = 0 then []
                  else [Prim.error 1 0 "Bad tie"]) }
        ∧ cs.length
            + ((tie_setup badNote1 badNote2).mhead3.filter (fun i =>
                ([(1, badNote2)].filter
                  (fun pv => tie_candidate badNote1 (badNote1.time + badNote1.dur) pv.2)).all
                  (fun pv => tie_unmatched badNote1 pv.2 i))).length
          = (tied_heads badNote1).length :=
  ⟨by rfl,
    draw_ties_bad_tie badScore 0 1 0 badNote1 badNote2 0 1 badNote1 badNote2 [(1, badNote2)]
      rfl rfl rfl rfl rfl rfl (Or.inl rfl)
      (by
        intro pv h
        simp only [List.mem_singleton] at h
        subst h; rfl)
      rfl rfl (by decide) (by simp)⟩

/-! ## Split of the tie directions in a chord (`set_tie_dir`) -/

theorem tied_below_succ (s : SYMBOL) (n : Nat) :
    tied_below s (n + 1)
      = tied_below s n + (if s.ti1.getD n 0 = 0 then 0 else 1) := by
  unfold tied_below
  rw [List.range_succ, List.filter_append, List.length_append]
  by_cases h : s.ti1.getD n 0 = 0
  · have h2 := h
    rw [List.getD_eq_getElem?_getD] at h2
    simp [h2]
  · have h2 := h
    rw [List.getD_eq_getElem?_getD] at h2
    simp [h2]

theorem tied_heads_length (s : SYMBOL) :
    (tied_heads s).length = tied_below s (s.nhd + 1) := rfl

/-- The tied head number `i` stands at place `tied_below s i` of the list of
the tied heads. -/
theorem tied_heads_rank (s : SYMBOL) :
    ∀ m i, i < m → s.ti1.getD i 0 ≠ 0 →
      tied_below s i < tied_below s m
      ∧ ((List.range m).filter (fun i => decide (s.ti1.getD i 0 ≠ 0))).getD (tied_below s i) 0 = i := by
  intro m
  induction m with
  | zero => intro i hi; omega
  | succ m ih =>
    intro i hi ht
    rw [tied_below_succ, List.range_succ, List.filter_append]
    rcases Nat.lt_or_ge i m with h | h
    · obtain ⟨h1, h2⟩ := ih i h ht
      refine ⟨by omega, ?_⟩
      rw [List.getD_append _ _ _ _ (by exact h1)]
      exact h2
    · have him : i = m := by omega
      subst him
      have ht2 := ht
      rw [List.getD_eq_getElem?_getD] at ht2
      refine ⟨by simp [ht2], ?_⟩
      rw [List.getD_append_right _ _ _ _ (by unfold tied_below; exact Nat.le_refl _)]
      simp [tied_below, ht2]

theorem tied_heads_mem (s : SYMBOL) (i : Nat) :
    i ∈ tied_heads s ↔ i ≤ s.nhd ∧ s.ti1.getD i 0 ≠ 0 := by
  unfold tied_heads
  simp only [List.mem_filter, List.mem_range, decide_eq_true_eq]
  omega

theorem tied_heads_nodup (s : SYMBOL) : (tied_heads s).Nodup :=
  List.Nodup.filter _ (List.nodup_range _)

/-- Place `j` of the list of the tied heads holds a tied head with `j` tied
heads below it. -/
theorem tied_heads_place (s : SYMBOL) (j : Nat) (hj : j < (tied_heads s).length) :
    (tied_heads s).getD j 0 ∈ tied_heads s
    ∧ tied_below s ((tied_heads s).getD j 0) = j := by
  have hget : (tied_heads s).getD j 0 = (tied_heads s)[j] := List.getD_eq_getElem _ _ hj
  rw [hget]
  have hmem : (tied_heads s)[j] ∈ tied_heads s := List.getElem_mem hj
  refine ⟨hmem, ?_⟩
  generalize hi : (tied_heads s)[j] = i at hmem
  obtain ⟨h1, h2⟩ := (tied_heads_mem s _).mp hmem
  obtain ⟨h3, h4⟩ := tied_heads_rank s (s.nhd + 1) i (by omega) h2
  have h3b : tied_below s i < (tied_heads s).length := h3
  have h5 : (tied_heads s).getD (tied_below s i) 0 = i := h4
  rw [List.getD_eq_getElem _ _ h3b] at h5
  exact (List.Nodup.getElem_inj_iff (tied_heads_nodup s)).mp (h5.trans hi.symm)

theorem set_auto_length (l : List Nat) (i dir : Nat) :
    (set_auto l i dir).length = l.length := by
  unfold set_auto
  split_ifs <;> simp

theorem set_auto_other (l : List Nat) (i dir k : Nat) (h : k ≠ i) :
    (set_auto l i dir).getD k 0 = l.getD k 0 := by
  unfold set_auto
  split_ifs
  · simp only [List.getD_eq_getElem?_getD]
    rw [List.getElem?_set_ne (Ne.symm h)]
  · rfl

theorem set_auto_self (l : List Nat) (i dir : Nat) (h : l.getD i 0 ≠ 0) :
    (set_auto l i dir).getD i 0
      = if l.getD i 0 &&& 3 = SL_AUTO then (l.getD i 0 &&& SL_DOTTED) ||| dir
        else l.getD i 0 := by
  have hlt : i < l.length := by
    by_contra hc
    exact h (List.getD_eq_default _ _ (by omega))
  unfold set_auto
  split_ifs
  · simp only [List.getD_eq_getElem?_getD]
    rw [List.getElem?_set_self hlt]
    rfl
  · rfl

/-- A direction loop of `set_tie_dir` of step `F`, which skips the untied
heads and at a tied head stores the direction `d` and moves its auxiliary
state by `g`: the array after `n` heads. -/
theorem tie_walk {α : Type} (F : Nat → List Nat × α → List Nat × α)
    (d : Nat → α → Nat) (g : Nat → α → α)
    (hF : ∀ i l a, F i (l, a)
      = if l.getD i 0 = 0 then (l, a) else (set_auto l i (d i a), g i a))
    (l0 : List Nat) (a0 : α) :
    ∀ n, (for_range n F (l0, a0)).2 = tie_aux l0 g a0 n
      ∧ (∀ k, n ≤ k → (for_range n F (l0, a0)).1.getD k 0 = l0.getD k 0)
      ∧ (∀ k, k < n → l0.getD k 0 = 0 → (for_range n F (l0, a0)).1.getD k 0 = 0)
      ∧ (∀ k, k < n → l0.getD k 0 ≠ 0 →
          (for_range n F (l0, a0)).1.getD k 0
            = if l0.getD k 0 &&& 3 = SL_AUTO
              then (l0.getD k 0 &&& SL_DOTTED) ||| d k (tie_aux l0 g a0 k)
              else l0.getD k 0) := by
  intro n
  induction n with
  | zero =>
    rw [for_range_zero]
    exact ⟨rfl, fun _ _ => rfl, fun k hk => by omega, fun k hk => by omega⟩
  | succ n ih =>
    obtain ⟨h1, h2, h3, h4⟩ := ih
    rw [for_range_succ]
    cases hc : for_range n F (l0, a0) with
    | mk l a =>
      rw [hc] at h1 h2 h3 h4
      simp only at h1 h2 h3 h4
      have hn : l.getD n 0 = l0.getD n 0 := h2 n (Nat.le_refl _)
      rw [hF, hn]
      by_cases ht : l0.getD n 0 = 0
      · simp only [ht, if_true]
        refine ⟨?_, fun k hk => h2 k (by omega), ?_, ?_⟩
        · simp only [tie_aux, ht, if_true]; exact h1
        · intro k hk hk0
          rcases Nat.lt_or_ge k n with h | h
          · exact h3 k h hk0
          · have : k = n := by omega
            subst this
            rw [hn]; exact ht
        · intro k hk hk0
          rcases Nat.lt_or_ge k n with h | h
          · exact h4 k h hk0
          · have : k = n := by omega
            subst this
            exact absurd ht hk0
      · simp only [ht, if_false]
        refine ⟨?_, ?_, ?_, ?_⟩
        · simp only [tie_aux, ht, if_false]; rw [h1]
        · intro k hk
          rw [set_auto_other _ _ _ _ (by omega)]
          exact h2 k (by omega)
        · intro k hk hk0
          have hkn : k ≠ n := fun e => ht (e ▸ hk0)
          rw [set_auto_other _ _ _ _ hkn]
          exact h3 k (by omega) hk0
        · intro k hk hk0
          rcases Nat.lt_or_ge k n with h | h
          · rw [set_auto_other _ _ _ _ (by omega)]
            exact h4 k h hk0
          · have : k = n := by omega
            subst this
            rw [set_auto_self _ _ _ (by rw [hn]; exact ht), hn, h1]

/-- Counting loop of `set_tie_dir` on a chord whose tied heads are each more
than one step above the tied head before: `ntie` counts the tied heads and
`sec` stays 0. -/
theorem tie_count_spec (s : SYMBOL)
    (hsec : ∀ i j, i < j → j ≤ s.nhd → s.ti1.getD i 0 ≠ 0 → s.ti1.getD j 0 ≠ 0 →
      tied_below s j = tied_below s i + 1 →
      s.as_pits.getD i 0 + 1 < s.as_pits.getD j 0) :
    ∀ n, n ≤ s.nhd + 1 →
      (for_range n (tie_count_step s) ((0 : Int), (0 : Int), (128 : Int))).1
          = (tied_below s n : Int)
      ∧ (for_range n (tie_count_step s) ((0 : Int), (0 : Int), (128 : Int))).2.1 = 0
      ∧ ((for_range n (tie_count_step s) ((0 : Int), (0 : Int), (128 : Int))).2.2 = 128
          ∨ ∃ i, i < n ∧ s.ti1.getD i 0 ≠ 0 ∧ tied_below s n = tied_below s i + 1
              ∧ (for_range n (tie_count_step s) ((0 : Int), (0 : Int), (128 : Int))).2.2
                  = s.as_pits.getD i 0) := by
  intro n
  induction n with
  | zero =>
    intro _
    rw [for_range_zero]
    exact ⟨rfl, rfl, Or.inl rfl⟩
  | succ n ih =>
    intro hn
    obtain ⟨h1, h2, h3⟩ := ih (by omega)
    rw [for_range_succ, tied_below_succ]
    generalize for_range n (tie_count_step s) ((0 : Int), (0 : Int), (128 : Int)) = c
      at h1 h2 h3
    unfold tie_count_step
    by_cases ht : s.ti1.getD n 0 = 0
    · simp only [ht, ne_eq, not_true_eq_false, if_false, if_true]
      refine ⟨by simp [h1], h2, ?_⟩
      rcases h3 with h3 | ⟨i, hi, hti, hr, hp⟩
      · exact Or.inl h3
      · exact Or.inr ⟨i, by omega, hti, by omega, hp⟩
    · simp only [ht, ne_eq, not_false_eq_true, if_true, if_false]
      refine ⟨by rw [h1]; push_cast; ring, ?_, Or.inr ⟨n, by omega, ht, rfl, rfl⟩⟩
      rw [if_neg, h2]
      rintro ⟨hlt, hle⟩
      rcases h3 with h3 | ⟨i, hi, hti, hr, hp⟩
      · omega
      · have := hsec i n hi (by omega) hti ht hr
        omega

theorem tie_odd_aux (s : SYMBOL) (k : Nat) :
    ∀ n, tie_aux s.ti1
        (fun i (a : Int × Nat) =>
          (a.1 - 1,
           if a.1 - 1 = 0 then SL_ABOVE
           else if a.1 - 1 = 0 ∧ s.as_pits.getD i 0 ≥ 22 then SL_ABOVE else a.2))
        ((k : Int) + 1, SL_BELOW) n
      = ((k : Int) + 1 - (tied_below s n : Int),
         if k + 1 ≤ tied_below s n then SL_ABOVE else SL_BELOW) := by
  intro n
  induction n with
  | zero => simp [tie_aux, tied_below]
  | succ n ih =>
    rw [tie_aux, ih, tied_below_succ]
    by_cases ht : s.ti1.getD n 0 = 0
    · simp only [ht, if_true, Nat.add_zero]
    · simp only [ht, if_false]
      refine Prod.ext (by simp only; push_cast; ring) ?_
      simp only
      by_cases h0 : (k : Int) + 1 - (tied_below s n : Int) - 1 = 0
      · rw [if_pos h0, if_pos (by omega)]
      · rw [if_neg h0, if_neg (fun h => h0 h.1)]
        by_cases h1 : k + 1 ≤ tied_below s n
        · rw [if_pos h1, if_pos (by omega)]
        · rw [if_neg h1, if_neg (by omega)]

theorem tie_even_aux (s : SYMBOL) (k : Nat) (hk : 1 ≤ k) :
    ∀ n, tie_aux s.ti1
        (fun (_ : Nat) (a : Int × Nat) =>
          (a.1 - 1, if a.1 - 1 = 0 then SL_ABOVE else a.2))
        ((k : Int), SL_BELOW) n
      = ((k : Int) - (tied_below s n : Int),
         if k ≤ tied_below s n then SL_ABOVE else SL_BELOW) := by
  intro n
  induction n with
  | zero =>
    simp only [tie_aux, tied_below, List.range_zero, List.filter_nil, List.length_nil]
    rw [if_neg (by omega)]
    simp
  | succ n ih =>
    rw [tie_aux, ih, tied_below_succ]
    by_cases ht : s.ti1.getD n 0 = 0
    · simp only [ht, if_true, Nat.add_zero]
    · simp only [ht, if_false]
      refine Prod.ext (by simp only; push_cast; ring) ?_
      simp only
      by_cases h0 : (k : Int) - (tied_below s n : Int) - 1 = 0
      · rw [if_pos h0, if_pos (by omega)]
      · rw [if_neg h0]
        by_cases h1 : k ≤ tied_below s n
        · rw [if_pos h1, if_pos (by omega)]
        · rw [if_neg h1, if_neg (by omega)]

/-- Direction codes stored by the branch `sec == 0` of `set_tie_dir` in a
chord of a voice alone on its staff with at least two tied heads: the head
with `r` tied heads below it, of `n`. -/
theorem set_tie_dir_ti1_split (s : SYMBOL)
    (h1 : s.sflags.S_TI1 = true) (hm : s.multi = 0)
    (hn : 2 ≤ tied_below s (s.nhd + 1))
    (hsec : ∀ i j, i < j → j ≤ s.nhd → s.ti1.getD i 0 ≠ 0 → s.ti1.getD j 0 ≠ 0 →
      tied_below s j = tied_below s i + 1 →
      s.as_pits.getD i 0 + 1 < s.as_pits.getD j 0)
    (i : Nat) (hi : i ≤ s.nhd) (ht : s.ti1.getD i 0 ≠ 0)
    (hauto : s.ti1.getD i 0 &&& 3 = SL_AUTO) :
    (set_tie_dir_ti1 s).getD i 0
      = (s.ti1.getD i 0 &&& SL_DOTTED) |||
          (if tied_below s (s.nhd + 1) % 2 = 1 then
            (if tied_below s i < tied_below s (s.nhd + 1) / 2 then SL_BELOW
             else if tied_below s i = tied_below s (s.nhd + 1) / 2
                  ∧ s.as_pits.getD i 0 < 22 then SL_BELOW
             else SL_ABOVE)
           else
            (if tied_below s i < tied_below s (s.nhd + 1) / 2 then SL_BELOW
             else SL_ABOVE)) := by
  obtain ⟨c1, c2, _⟩ := tie_count_spec s hsec (s.nhd + 1) (Nat.le_refl _)
  unfold set_tie_dir_ti1
  simp only [h1, not_true_eq_false, if_false, hm, ne_eq, c1, c2, if_true]
  rw [if_neg (by omega)]
  have hdiv : Int.tdiv (tied_below s (s.nhd + 1) : Int) 2
      = ((tied_below s (s.nhd + 1) / 2 : Nat) : Int) := by
    rw [Int.tdiv_eq_ediv (by omega) (by omega)]
    rfl
  rw [hdiv]
  generalize tied_below s (s.nhd + 1) = n at hn ⊢
  by_cases hodd : n % 2 = 1
  · rw [if_pos (by omega), if_pos hodd]
    obtain ⟨_, _, _, w4⟩ := tie_walk (tie_odd_step s)
      (fun i (a : Int × Nat) =>
        if a.1 - 1 = 0 ∧ s.as_pits.getD i 0 ≥ 22 then SL_ABOVE else a.2)
      (fun i (a : Int × Nat) =>
        (a.1 - 1,
         if a.1 - 1 = 0 then SL_ABOVE
         else if a.1 - 1 = 0 ∧ s.as_pits.getD i 0 ≥ 22 then SL_ABOVE else a.2))
      (by intro i l a; rfl) s.ti1 (((n / 2 : Nat) : Int) + 1, SL_BELOW) (s.nhd + 1)
    rw [w4 i (by omega) ht, if_pos hauto, tie_odd_aux]
    simp only
    congr 1
    split_ifs <;> first | rfl | omega
  · rw [if_neg (by omega), if_neg hodd]
    obtain ⟨_, _, _, w4⟩ := tie_walk tie_even_step
      (fun (_ : Nat) (a : Int × Nat) => a.2)
      (fun (_ : Nat) (a : Int × Nat) =>
        (a.1 - 1, if a.1 - 1 = 0 then SL_ABOVE else a.2))
      (by intro i l a; rfl) s.ti1 (((n / 2 : Nat) : Int), SL_BELOW) (s.nhd + 1)
    rw [w4 i (by omega) ht, if_pos hauto, tie_even_aux s (n / 2) (by omega)]
    simp only
    congr 1
    split_ifs <;> first | rfl | omega

/-- The loop of `set_tie_dir` over a voice given by its chain: it returns,
every symbol of the chain has got the body of the loop once, and no other
symbol is touched. -/
theorem set_tie_dir_loop_path :
    ∀ (P : List (Nat × SYMBOL)) (st : Score) (fuel : Nat),
      linked P → (∀ v, P.getLast? = some v → v.2.next = none) →
      (∀ pv ∈ P, st.sym pv.1 = some pv.2) → (P.map (fun pv => pv.1)).Nodup →
      P.length < fuel →
      ∃ st1, set_tie_dir_loop fuel (P.head?.map (fun pv => pv.1)) st = some st1
        ∧ (∀ pv ∈ P, st1.sym pv.1 = some (set_tie_dir_sym pv.2))
        ∧ (∀ q, q ∉ P.map (fun pv => pv.1) → st1.sym q = st.sym q) := by
  intro P
  induction P with
  | nil =>
    intro st fuel _ _ _ _ hf
    obtain ⟨n, rfl⟩ : ∃ n, fuel = n + 1 := ⟨fuel - 1, by simp at hf; omega⟩
    exact ⟨st, rfl, fun pv h => by simp at h, fun _ _ => rfl⟩
  | cons a r ih =>
    intro st fuel hlink hlast hsym hnd hf
    obtain ⟨n, rfl⟩ : ∃ n, fuel = n + 1 := ⟨fuel - 1, by simp at hf; omega⟩
    have ha : st.sym a.1 = some a.2 := hsym a (List.mem_cons_self _ _)
    simp only [List.map_cons, List.nodup_cons] at hnd
    have hnext : a.2.next = r.head?.map (fun pv => pv.1) := by
      cases r with
      | nil => exact hlast a rfl
      | cons b r2 => exact hlink.1
    have hsym2 : ∀ pv ∈ r, (st.upd a.1 set_tie_dir_sym).sym pv.1 = some pv.2 := by
      intro pv hpv
      rw [sym_upd, if_neg]
      · exact hsym pv (List.mem_cons_of_mem _ hpv)
      · intro e
        exact hnd.1 (List.mem_map.mpr ⟨pv, hpv, e.symm⟩)
    have hlink2 : linked r := by
      cases r with
      | nil => trivial
      | cons b r2 => exact hlink.2
    have hlast2 : ∀ v, r.getLast? = some v → v.2.next = none := by
      intro v hv
      apply hlast v
      cases r with
      | nil => simp at hv
      | cons b r2 => rw [List.getLast?_cons_cons]; exact hv
    obtain ⟨st1, e1, e2, e3⟩ := ih (st.upd a.1 set_tie_dir_sym) n hlink2 hlast2 hsym2 hnd.2
      (by simp at hf; omega)
    refine ⟨st1, ?_, ?_, ?_⟩
    · simp only [List.head?_cons, Option.map_some']
      unfold set_tie_dir_loop
      simp only [ha]
      rw [hnext]
      exact e1
    · intro pv hpv
      rcases List.mem_cons.mp hpv with h | h
      · subst h
        rw [e3 pv.1 hnd.1, sym_upd, if_pos rfl, ha]
        rfl
      · exact e2 pv h
    · intro q hq
      simp only [List.map_cons, List.mem_cons, not_or] at hq
      rw [e3 q hq.2, sym_upd, if_neg (Ne.symm hq.1)]

/-- C16 (as amended): in a voice given by its chain, for a chord of the voice
alone on its staff (`multi = 0`) with `n ≥ 2` tied heads, all of automatic
direction, each of them more than one step above the tied head before it (the
test `sec == 0` of the code), `set_tie_dir` returns and leaves in the place `j`
of the tied heads, from the lowest, the dotted bit with: for `n` even `below` in
the lower `n/2` places and `above` in the upper `n/2`; for `n` odd `below` in the
lower `(n-1)/2` places, `above` in the upper `(n-1)/2`, and in the central place
`above` when the pitch is 22 or more, else `below`. -/
theorem set_tie_dir_split (st : Score) (sym : Nat) (P : List (Nat × SYMBOL))
    (hhead : P.head?.map (fun pv => pv.1) = some sym)
    (hlink : linked P) (hlast : ∀ v, P.getLast? = some v → v.2.next = none)
    (hsym : ∀ pv ∈ P, st.sym pv.1 = some pv.2)
    (hnd : (P.map (fun pv => pv.1)).Nodup)
    (p : Nat) (v : SYMBOL) (hp : (p, v) ∈ P)
    (h1 : v.sflags.S_TI1 = true) (hm : v.multi = 0)
    (hn : 2 ≤ (tied_heads v).length)
    (hauto : ∀ i ∈ tied_heads v, v.ti1.getD i 0 &&& 3 = SL_AUTO)
    (hsec : ∀ j, j + 1 < (tied_heads v).length →
      v.as_pits.getD ((tied_heads v).getD j 0) 0 + 1
        < v.as_pits.getD ((tied_heads v).getD (j + 1) 0) 0) :
    ∃ st1 w, set_tie_dir st sym = some st1 ∧ st1.sym p = some w
      ∧ w = { v with ti1 := w.ti1 }
      ∧ ∀ j, j < (tied_heads v).length →
        ((tied_heads v).length % 2 = 0 → j < (tied_heads v).length / 2 →
            w.ti1.getD ((tied_heads v).getD j 0) 0
              = (v.ti1.getD ((tied_heads v).getD j 0) 0 &&& SL_DOTTED) ||| SL_BELOW)
        ∧ ((tied_heads v).length % 2 = 0 → (tied_heads v).length / 2 ≤ j →
            w.ti1.getD ((tied_heads v).getD j 0) 0
              = (v.ti1.getD ((tied_heads v).getD j 0) 0 &&& SL_DOTTED) ||| SL_ABOVE)
        ∧ ((tied_heads v).length % 2 = 1 → j < ((tied_heads v).length - 1) / 2 →
            w.ti1.getD ((tied_heads v).getD j 0) 0
              = (v.ti1.getD ((tied_heads v).getD j 0) 0 &&& SL_DOTTED) ||| SL_BELOW)
        ∧ ((tied_heads v).length % 2 = 1 → ((tied_heads v).length - 1) / 2 < j →
            w.ti1.getD ((tied_heads v).getD j 0) 0
              = (v.ti1.getD ((tied_heads v).getD j 0) 0 &&& SL_DOTTED) ||| SL_ABOVE)
        ∧ ((tied_heads v).length % 2 = 1 → j = ((tied_heads v).length - 1) / 2 →
            22 ≤ v.as_pits.getD ((tied_heads v).getD j 0) 0 →
            w.ti1.getD ((tied_heads v).getD j 0) 0
              = (v.ti1.getD ((tied_heads v).getD j 0) 0 &&& SL_DOTTED) ||| SL_ABOVE)
        ∧ ((tied_heads v).length % 2 = 1 → j = ((tied_heads v).length - 1) / 2 →
            v.as_pits.getD ((tied_heads v).getD j 0) 0 < 22 →
            w.ti1.getD ((tied_heads v).getD j 0) 0
              = (v.ti1.getD ((tied_heads v).getD j 0) 0 &&& SL_DOTTED) ||| SL_BELOW) := by
  have hfuel : P.length < st.fuel := by
    have := path_fuel st P (fun pv h => ⟨pv.2, hsym pv h⟩) hnd
    unfold Score.fuel
    omega
  obtain ⟨st1, e1, e2, _⟩ := set_tie_dir_loop_path P st st.fuel hlink hlast hsym hnd hfuel
  rw [hhead] at e1
  refine ⟨st1, set_tie_dir_sym v, e1, e2 (p, v) hp, rfl, ?_⟩
  intro j hj
  obtain ⟨hmem, hrank⟩ := tied_heads_place v j hj
  obtain ⟨hi, ht⟩ := (tied_heads_mem v _).mp hmem
  have hsec2 : ∀ i k, i < k → k ≤ v.nhd → v.ti1.getD i 0 ≠ 0 → v.ti1.getD k 0 ≠ 0 →
      tied_below v k = tied_below v i + 1 →
      v.as_pits.getD i 0 + 1 < v.as_pits.getD k 0 := by
    intro i k _ hk hti htk hr
    obtain ⟨a1, a2⟩ := tied_heads_rank v (v.nhd + 1) i (by omega) hti
    obtain ⟨b1, b2⟩ := tied_heads_rank v (v.nhd + 1) k (by omega) htk
    have := hsec (tied_below v i) (by rw [tied_heads_length]; omega)
    rw [← hr] at this
    have a3 : (tied_heads v).getD (tied_below v i) 0 = i := a2
    have b3 : (tied_heads v).getD (tied_below v k) 0 = k := b2
    rw [a3, b3] at this
    exact this
  have hmain := set_tie_dir_ti1_split v h1 hm hn hsec2 _ hi ht (hauto _ hmem)
  rw [hrank, ← tied_heads_length] at hmain
  have hw : (set_tie_dir_sym v).ti1 = set_tie_dir_ti1 v := rfl
  rw [hw, hmain]
  generalize (tied_heads v).length = n at hn hj ⊢
  refine ⟨?_, ?_, ?_, ?_, ?_, ?_⟩
  · intro h2 h3
    rw [if_neg (by omega), if_pos h3]
  · intro h2 h3
    rw [if_neg (by omega), if_neg (by omega)]
  · intro h2 h3
    rw [if_pos h2, if_pos (by omega)]
  · intro h2 h3
    rw [if_pos h2, if_neg (by omega), if_neg (by omega)]
  · intro h2 h3 h4
    rw [if_pos h2, if_neg (by omega), if_neg (by omega)]
  · intro h2 h3 h4
    rw [if_pos h2, if_neg (by omega), if_pos ⟨by omega, h4⟩]

theorem set_tie_dir_split_witness :
    (set_tie_dir (splitScore 20 24 28) 0).map (fun st1 => st1.syms.map (fun w => w.ti1))
        = some [[SL_BELOW, SL_ABOVE, SL_ABOVE]]
    ∧ (set_tie_dir (splitScore 16 19 28) 0).map (fun st1 => st1.syms.map (fun w => w.ti1))
        = some [[SL_BELOW, SL_BELOW, SL_ABOVE]]
    ∧ ∃ st1 w, set_tie_dir (splitScore 20 24 28) 0 = some st1 ∧ st1.sym 0 = some w
      ∧ w.ti1.getD 0 0 = SL_BELOW ∧ w.ti1.getD 1 0 = SL_ABOVE
      ∧ w.ti1.getD 2 0 = SL_ABOVE := by
  refine ⟨rfl, rfl, ?_⟩
  obtain ⟨st1, w, e1, e2, _, e4⟩ := set_tie_dir_split (splitScore 20 24 28) 0
    [(0, splitChord 20 24 28)] rfl trivial (fun v hv => by cases hv; rfl)
    (fun pv hpv => by
      rcases List.mem_singleton.mp hpv with rfl
      rfl)
    (by decide) 0 (splitChord 20 24 28) (List.mem_singleton.mpr rfl) rfl rfl (by decide)
    (by decide)
    (fun j hj => by
      have h : j + 1 < 3 := hj
      have h2 : j < 2 := by omega
      clear h hj
      interval_cases j <;> decide)
  refine ⟨st1, w, e1, e2, ?_, ?_, ?_⟩
  · exact (e4 0 (by decide)).2.2.1 (by decide) (by decide)
  · exact (e4 1 (by decide)).2.2.2.2.1 (by decide) (by decide) (by decide)
  · exact (e4 2 (by decide)).2.2.2.1 (by decide) (by decide)

/-- C16 (counterexample): the chord of `splitScore 20 20 30` is alone on its
staff and has three tied heads of automatic direction, no two of them a second
apart (the two lower ones are in unison); the central tied head has the pitch
20, below 22, yet `set_tie_dir` gives it `above`: the unison takes the branch of
the seconds. -/
theorem set_tie_dir_unison_central_above :
    (splitChord 20 20 30).multi = 0
    ∧ tied_heads (splitChord 20 20 30) = [0, 1, 2]
    ∧ (∀ i ∈ tied_heads (splitChord 20 20 30),
        (splitChord 20 20 30).ti1.getD i 0 &&& 3 = SL_AUTO)
    ∧ (∀ i ∈ tied_heads (splitChord 20 20 30), ∀ j ∈ tied_heads (splitChord 20 20 30),
        (splitChord 20 20 30).as_pits.getD j 0 - (splitChord 20 20 30).as_pits.getD i 0 ≠ 1)
    ∧ (splitChord 20 20 30).as_pits.getD 1 0 < 22
    ∧ (set_tie_dir (splitScore 20 20 30) 0).map (fun st1 => st1.syms.map (fun w => w.ti1))
        = some [[SL_BELOW, SL_ABOVE, SL_ABOVE]] := by
  refine ⟨rfl, rfl, by decide, by decide, by decide, rfl⟩

/-! ## Stem lengths under a beam -/

theorem stem_loop_normal_ge (H : Hdr) (st : Score) (staff voice : Nat) (v1 : SYMBOL)
    (time2 : Int) (a b beam_h : ℚ) :
    ∀ (fuel : Nat) (p : Option Nat) (mx r : ℚ),
      stem_loop_normal H st staff voice v1 time2 a b beam_h fuel p mx = some r → mx ≤ r := by
  intro fuel
  induction fuel with
  | zero => intro p mx r h; simp [stem_loop_normal] at h
  | succ n ih =>
    intro p mx r h
    cases p with
    | none =>
      simp only [stem_loop_normal, Option.some.injEq] at h
      exact le_of_eq h
    | some s =>
      unfold stem_loop_normal at h
      cases hs : st.sym s with
      | none => simp [hs] at h
      | some v =>
        simp only [hs] at h
        by_cases ht : v.time ≤ time2
        swap
        · rw [if_pos ht] at h
          simp only [Option.some.injEq] at h
          exact le_of_eq h
        · rw [if_neg (not_not.mpr ht)] at h
          have := ih _ _ _ h
          refine le_trans ?_ this
          cases stem_err_normal H st staff voice v1 a b beam_h v with
          | none => exact le_refl _
          | some e =>
            simp only
            split_ifs with he
            · exact le_of_lt he
            · exact le_refl _

/-- Every symbol met by the loop of the stem length check has its shortfall
at most `max_stem_err`. -/
theorem stem_loop_normal_visits (H : Hdr) (st : Score) (staff voice : Nat) (v1 : SYMBOL)
    (time2 : Int) (a b beam_h : ℚ) :
    ∀ (P : List (Nat × SYMBOL)) (fuel : Nat) (mx r : ℚ),
      List.Chain' (fun x y => x.2.ts_next = some y.1) P →
      (∀ pv ∈ P, st.sym pv.1 = some pv.2) →
      (∀ pv ∈ P, pv.2.time ≤ time2) →
      stem_loop_normal H st staff voice v1 time2 a b beam_h fuel
        (P.head?.map (fun pv => pv.1)) mx = some r →
      ∀ pv ∈ P, ∀ e, stem_err_normal H st staff voice v1 a b beam_h pv.2 = some e → e ≤ r := by
  intro P
  induction P with
  | nil => intro fuel mx r _ _ _ _ pv hpv; simp at hpv
  | cons x rest ih =>
    intro fuel mx r hch hsym htime h pv hpv e he
    cases fuel with
    | zero => simp [stem_loop_normal] at h
    | succ n =>
      simp only [List.head?_cons, Option.map_some'] at h
      unfold stem_loop_normal at h
      have hx := hsym x (List.mem_cons_self _ _)
      have htx := htime x (List.mem_cons_self _ _)
      simp only [hx, htx, not_true_eq_false, if_false] at h
      rcases List.mem_cons.mp hpv with hp | hp
      · subst hp
        have := stem_loop_normal_ge H st staff voice v1 time2 a b beam_h _ _ _ _ h
        refine le_trans ?_ this
        rw [he]
        simp only
        split_ifs with h2
        · exact le_refl _
        · exact not_lt.mp h2
      · cases rest with
        | nil => simp at hp
        | cons y r2 =>
          have hxy : x.2.ts_next = some y.1 := (List.chain'_cons.mp hch).1
          rw [hxy] at h
          exact ih n _ r (List.chain'_cons.mp hch).2
            (fun q hq => hsym q (List.mem_cons_of_mem _ hq))
            (fun q hq => htime q (List.mem_cons_of_mem _ hq)) h pv hp e he

/-- Shortfall of a visible note of the voice of the beam, with its stem in the
direction of the beam, after the intercept is moved by `stem * d`: it is `d`
less. -/
theorem stem_err_normal_shift (H : Hdr) (st : Score) (v1 : SYMBOL) (a b beam_h d : ℚ)
    (w : SYMBOL) (hstem : v1.stem = 1 ∨ v1.stem = -1)
    (hnote : w.as_type = AbcType.ABC_T_NOTE) (hvis : w.ABC_F_INVIS = false)
    (hvoice : w.voice = v1.voice) (hw : w.stem = v1.stem) :
    ∃ e, stem_err_normal H st v1.staff v1.voice v1 a b beam_h w = some e
      ∧ stem_err_normal H st v1.staff v1.voice v1 a (b + v1.stem * d) beam_h w
          = some (e - d) := by
  unfold stem_err_normal
  simp only [hnote, ne_eq, not_true_eq_false, hvis, Bool.false_eq_true, hvoice, and_false,
    or_self, if_false, if_true, hw]
  rcases hstem with h | h
  · rw [h]
    simp only [gt_iff_lt, zero_lt_one, if_true]
    refine ⟨_, rfl, ?_⟩
    congr 1
    push_cast
    ring
  · rw [h]
    simp only [gt_iff_lt, Int.reduceNeg, Left.neg_pos_iff, Int.reduceLT, if_false]
    refine ⟨_, rfl, ?_⟩
    congr 1
    push_cast
    ring

/-- C19: for a beam of normal notes with one stem direction (`two_dir = 0`,
stem `+1` or `-1`), `b1` being the intercept right after the shift by
`s1->stem * max_stem_err`, every visible note of the voice of the beam met by
the loop of the check (the chain `P` of the time-ordered list from the symbol
where the loop starts, up to the time of `s2`) with its stem in the direction of
the beam has a recomputed shortfall at most 0: the distance from its outermost
head to the shifted line at its stem abscissa is at least the table minimum,
less the allowance for the heads far outside the staff, plus the depth of its
beams. -/
theorem beam_stems_none_short (H : Hdr) (st : Score) (s1 s2 : Nat) (v1 v2 : SYMBOL)
    (c : BeamScan) (a b b1 : ℚ)
    (hdir : c.two_dir = false) (hg : v1.ABC_F_GRACE = false)
    (hstem : v1.stem = 1 ∨ v1.stem = -1)
    (hb : beam_stems H st s1 s2 v1 v2 c a b = some b1)
    (s0 : Nat) (h0 : stem_first st v1.xs st.fuel s1 = some s0)
    (P : List (Nat × SYMBOL)) (hhead : P.head?.map (fun pv => pv.1) = some s0)
    (hchain : List.Chain' (fun x y => x.2.ts_next = some y.1) P)
    (hsym : ∀ pv ∈ P, st.sym pv.1 = some pv.2)
    (htime : ∀ pv ∈ P, pv.2.time ≤ v2.time)
    (p : Nat) (w : SYMBOL) (hmem : (p, w) ∈ P)
    (hnote : w.as_type = AbcType.ABC_T_NOTE) (hvis : w.ABC_F_INVIS = false)
    (hvoice : w.voice = v1.voice) (hw : w.stem = v1.stem) :
    ∃ e, stem_err_normal H st v1.staff v1.voice v1 a b1
        (H.BEAM_DEPTH + H.BEAM_SHIFT * ((c.nflags - 1 : Int) : ℚ)) w = some e
      ∧ e ≤ 0 := by
  unfold beam_stems at hb
  simp only [hdir, Bool.false_eq_true, if_false, hg, not_false_eq_true, if_true, h0] at hb
  cases hl : stem_loop_normal H st v1.staff v1.voice v1 v2.time a b
      (H.BEAM_DEPTH + H.BEAM_SHIFT * ((c.nflags - 1 : Int) : ℚ)) st.fuel (some s0) 0 with
  | none => rw [hl] at hb; simp at hb
  | some mx =>
    rw [hl] at hb
    simp only [Option.map_some', Option.some.injEq] at hb
    obtain ⟨e, he1, he2⟩ := stem_err_normal_shift H st v1 a b
      (H.BEAM_DEPTH + H.BEAM_SHIFT * ((c.nflags - 1 : Int) : ℚ)) mx w hstem hnote hvis hvoice hw
    rw [← hhead] at hl
    have hle := stem_loop_normal_visits H st v1.staff v1.voice v1 v2.time a b _ P st.fuel 0 mx
      hchain hsym htime hl (p, w) hmem e he1
    have h0le := stem_loop_normal_ge H st v1.staff v1.voice v1 v2.time a b _ _ _ _ _ hl
    by_cases hpos : mx > 0
    · rw [if_pos hpos] at hb
      rw [← hb, he2]
      exact ⟨_, rfl, by linarith⟩
    · rw [if_neg hpos] at hb
      rw [← hb, he1]
      exact ⟨_, rfl, by linarith⟩

theorem beam_stems_none_short_witness :
    ∃ b1, beam_stems stdHdr lineScore 1 4 (lineNote 1) (lineNote 4)
        { notes := 4, nflags := 1 } (1 / 5) 0 = some b1
      ∧ ∃ e, stem_err_normal stdHdr lineScore (lineNote 1).staff (lineNote 1).voice (lineNote 1)
          (1 / 5) b1 (stdHdr.BEAM_DEPTH + stdHdr.BEAM_SHIFT * (((1 : Int) - 1 : Int) : ℚ))
          (lineNote 3) = some e
        ∧ e ≤ 0 := by
  have hsome : (beam_stems stdHdr lineScore 1 4 (lineNote 1) (lineNote 4)
      { notes := 4, nflags := 1 } (1 / 5) 0).isSome = true := by decide!
  cases hc : beam_stems stdHdr lineScore 1 4 (lineNote 1) (lineNote 4)
      { notes := 4, nflags := 1 } (1 / 5) 0 with
  | none => rw [hc] at hsome; cases hsome
  | some b1 =>
    exact ⟨b1, rfl, beam_stems_none_short stdHdr lineScore 1 4 (lineNote 1) (lineNote 4)
      { notes := 4, nflags := 1 } (1 / 5) 0 b1 rfl rfl (Or.inl rfl) hc 1 (by decide!)
      [(1, lineNote 1), (2, lineNote 2), (3, lineNote 3), (4, lineNote 4)] rfl
      (by
        simp only [List.chain'_cons, List.chain'_singleton, and_true]
        exact ⟨rfl, rfl, rfl⟩)
      (by
        intro pv hpv
        simp only [List.mem_cons, List.mem_singleton, List.not_mem_nil, or_false] at hpv
        rcases hpv with rfl | rfl | rfl | rfl <;> rfl)
      (by
        intro pv hpv
        simp only [List.mem_cons, List.mem_singleton, List.not_mem_nil, or_false] at hpv
        rcases hpv with rfl | rfl | rfl | rfl <;> decide)
      3 (lineNote 3) (by simp) rfl rfl rfl rfl⟩

/-! ## Frame of the fit of `calculate_beam` -/

theorem refit_same_refl (v : SYMBOL) : refit_same v v := rfl

theorem refit_same_fields (v w : SYMBOL) (h : refit_same v w) :
    w.next = v.next ∧ w.as_type = v.as_type ∧ w.staff = v.staff ∧ w.ts_prev = v.ts_prev
      ∧ w.ts_next = v.ts_next ∧ w.prev = v.prev ∧ w.sflags = v.sflags
      ∧ w.ABC_F_INVIS = v.ABC_F_INVIS ∧ w.ABC_F_GRACE = v.ABC_F_GRACE
      ∧ w.stem = v.stem ∧ w.nflags = v.nflags := by
  unfold refit_same at h
  rw [h]
  exact ⟨rfl, rfl, rfl, rfl, rfl, rfl, rfl, rfl, rfl, rfl, rfl⟩

theorem refit_same_trans (u v w : SYMBOL) (h1 : refit_same u v) (h2 : refit_same v w) :
    refit_same u w := by
  unfold refit_same at *
  rw [h2, h1]

theorem adj_frame_refl (S T : Nat → Prop) (st : Score) : adj_frame S T st st :=
  ⟨rfl, rfl, fun _ u hu => ⟨u, hu, rfl, fun _ => ⟨rfl, rfl⟩, fun _ _ => rfl⟩⟩

theorem adj_frame_trans (S T : Nat → Prop) (st0 st1 st2 : Score)
    (h1 : adj_frame S T st0 st1) (h2 : adj_frame S T st1 st2) : adj_frame S T st0 st2 := by
  obtain ⟨a1, l1, b1⟩ := h1
  obtain ⟨a2, l2, b2⟩ := h2
  refine ⟨by rw [a2, a1], l2.trans l1, ?_⟩
  intro q u hu
  obtain ⟨v, hv, r1, x1, k1⟩ := b1 q u hu
  obtain ⟨w, hw, r2, x2, k2⟩ := b2 q v hv
  refine ⟨w, hw, refit_same_trans u v w r1 r2, ?_, ?_⟩
  · intro hS
    exact ⟨(x2 hS).1.trans (x1 hS).1, (x2 hS).2.trans (x1 hS).2⟩
  · intro hS hT
    rw [k2 hS hT, k1 hS hT]

theorem adj_frame_mono (S T T2 : Nat → Prop) (st0 st1 : Score) (hT : ∀ q, T q → T2 q)
    (h : adj_frame S T st0 st1) : adj_frame S T2 st0 st1 := by
  obtain ⟨a1, l1, b1⟩ := h
  refine ⟨a1, l1, ?_⟩
  intro q u hu
  obtain ⟨v, hv, r1, x1, k1⟩ := b1 q u hu
  exact ⟨v, hv, r1, x1, fun hS hn => k1 hS (fun ht => hn (hT q ht))⟩

/-- A store in a symbol of `T` that keeps `x` and `xs`. -/
theorem adj_frame_upd (S T : Nat → Prop) (st : Score) (p : Nat) (f : SYMBOL → SYMBOL)
    (hT : T p) (hf : ∀ u, refit_same u (f u) ∧ (f u).x = u.x ∧ (f u).xs = u.xs) :
    adj_frame S T st (st.upd p f) := by
  refine ⟨rfl, upd_length st p f, ?_⟩
  intro q u hu
  rw [sym_upd]
  by_cases hpq : p = q
  · subst hpq
    rw [if_pos rfl, hu]
    exact ⟨f u, rfl, (hf u).1, fun _ => (hf u).2, fun _ hn => absurd hT hn⟩
  · rw [if_neg hpq]
    exact ⟨u, hu, rfl, fun _ => ⟨rfl, rfl⟩, fun _ _ => rfl⟩

/-- A store in a symbol outside `S`. -/
theorem adj_frame_upd_out (S T : Nat → Prop) (st : Score) (p : Nat) (f : SYMBOL → SYMBOL)
    (hS : ¬ S p) (hf : ∀ u, refit_same u (f u)) :
    adj_frame S T st (st.upd p f) := by
  refine ⟨rfl, upd_length st p f, ?_⟩
  intro q u hu
  rw [sym_upd]
  by_cases hpq : p = q
  · subst hpq
    rw [if_pos rfl, hu]
    exact ⟨f u, rfl, hf u, fun h => absurd h hS, fun h => absurd h hS⟩
  · rw [if_neg hpq]
    exact ⟨u, hu, rfl, fun _ => ⟨rfl, rfl⟩, fun _ _ => rfl⟩

theorem adj_frame_staffOf (S T : Nat → Prop) (st st1 : Score) (h : adj_frame S T st st1)
    (n : Nat) : st1.staffOf n = st.staffOf n := by
  unfold Score.staffOf
  rw [h.1]

theorem adj_frame_sym (S T : Nat → Prop) (st st1 : Score) (h : adj_frame S T st st1)
    (q : Nat) (w : SYMBOL) (hw : st1.sym q = some w) : ∃ u, st.sym q = some u := by
  have hlt := sym_lt st1 q w hw
  rw [h.2.1] at hlt
  exact ⟨st.syms[q], by unfold Score.sym; exact List.getElem?_eq_getElem hlt⟩

theorem sym_upd_self (st : Score) (s : Nat) (v : SYMBOL) (f : SYMBOL → SYMBOL)
    (h : st.sym s = some v) : (st.upd s f).sym s = some (f v) := by
  rw [sym_upd, if_pos rfl, h]
  rfl

theorem sym_upd_ne (st : Score) (p q : Nat) (f : SYMBOL → SYMBOL) (h : p ≠ q) :
    (st.upd p f).sym q = st.sym q := by
  rw [sym_upd, if_neg h]

/-- Case `ABC_T_NOTE` of the final loop of `calculate_beam`: the stem tip of
the note is put on the line, and the shift "fix stem clash" touches no symbol
of `S` when no symbol of `S` stands before the note in the time-ordered list
at its abscissa. -/
theorem beam_adjust_note_spec (S T : Nat → Prop) (st : Score) (a b : ℚ) (s : Nat) (v : SYMBOL)
    (hT : T s) (hv : st.sym s = some v)
    (hx : ∀ q w, S q → v.ts_prev = some q → st.sym q = some w → w.x ≠ v.x) :
    adj_frame S T st (beam_adjust_note st a b s v)
    ∧ (S s → ∃ w, (beam_adjust_note st a b s v).sym s = some w
        ∧ w.ys = a * v.xs + b - (st.staffOf v.staff).y ∧ w.xs = v.xs) := by
  have f1 : adj_frame S T st
      (st.upd s (fun z => { z with ys := a * v.xs + b - (st.staffOf v.staff).y })) :=
    adj_frame_upd S T st s _ hT (fun u => ⟨rfl, rfl, rfl⟩)
  have s1 := sym_upd_self st s v
    (fun z => { z with ys := a * v.xs + b - (st.staffOf v.staff).y }) hv
  unfold beam_adjust_note
  simp only
  by_cases hst : v.stem > 0
  · rw [if_pos hst]
    have f2 : adj_frame S T st
        ((st.upd s (fun z => { z with ys := a * v.xs + b - (st.staffOf v.staff).y })).upd s
          (fun z => { z with ymx := ctrunc (a * v.xs + b - (st.staffOf v.staff).y + 5 / 2) })) :=
      adj_frame_trans S T _ _ _ f1 (adj_frame_upd S T _ s _ hT (fun u => ⟨rfl, rfl, rfl⟩))
    have s2 := sym_upd_self _ s _
      (fun z => { z with ymx := ctrunc (a * v.xs + b - (st.staffOf v.staff).y + 5 / 2) }) s1
    generalize hst2 : (st.upd s (fun z =>
        { z with ys := a * v.xs + b - (st.staffOf v.staff).y })).upd s
          (fun z => { z with ymx := ctrunc (a * v.xs + b - (st.staffOf v.staff).y + 5 / 2) })
      = st2 at f2 s2 ⊢
    have hother : ∀ q, q ≠ s → st2.sym q = st.sym q := by
      intro q hq
      rw [← hst2, sym_upd_ne _ _ _ _ (Ne.symm hq), sym_upd_ne _ _ _ _ (Ne.symm hq)]
    cases hp : v.ts_prev with
    | none => exact ⟨f2, fun _ => ⟨_, s2, rfl, rfl⟩⟩
    | some p =>
      simp only
      cases hw : st2.sym p with
      | none => exact ⟨f2, fun _ => ⟨_, s2, rfl, rfl⟩⟩
      | some w =>
        simp only
        split_ifs with hc
        · have hnS : ¬ S p := by
            intro hS
            by_cases hps : p = s
            · subst hps
              exact hx p v hS hp hv rfl
            · have hw0 : st.sym p = some w := by rw [← hother p hps]; exact hw
              exact hx p w hS hp hw0 hc.2.2.2.1
          refine ⟨adj_frame_trans S T _ _ _ f2
            (adj_frame_upd_out S T st2 p _ hnS (fun u => rfl)), ?_⟩
          intro hS
          have hps : p ≠ s := fun e => hnS (e ▸ hS)
          rw [sym_upd_ne _ _ _ _ hps]
          exact ⟨_, s2, rfl, rfl⟩
        · exact ⟨f2, fun _ => ⟨_, s2, rfl, rfl⟩⟩
  · rw [if_neg hst]
    refine ⟨adj_frame_trans S T _ _ _ f1
      (adj_frame_upd S T _ s _ hT (fun u => ⟨rfl, rfl, rfl⟩)), ?_⟩
    intro _
    exact ⟨_, sym_upd_self _ s _ _ s1, rfl, rfl⟩

/-- Case `ABC_T_REST` of the final loop of `calculate_beam`: at most the
field `y` of the rest is written. -/
theorem beam_adjust_rest_spec (S T : Nat → Prop) (H : Hdr) (st : Score) (v1 : SYMBOL)
    (nflags : Int) (a b : ℚ) (s : Nat) (v : SYMBOL) (hT : T s) :
    adj_frame S T st (beam_adjust_rest H st v1 nflags a b s v) := by
  unfold beam_adjust_rest
  simp only
  split_ifs <;>
    first
    | exact adj_frame_refl S T st
    | exact adj_frame_upd S T st s _ hT (fun u => ⟨rfl, rfl, rfl⟩)

/-- The loop "adjust final stems and rests under beam" along the chain of the
group: it returns, it keeps `x` and `xs` of the symbols of `S` when none of
them stands just before a symbol of the group in the time-ordered list at its
abscissa, and it leaves the stem tip of every note of the group on the line. -/
theorem beam_adjust_path (S : Nat → Prop) (H : Hdr) (s1 s2 : Nat) (v2 : SYMBOL)
    (nflags : Int) (a b : ℚ) :
    ∀ (q : List (Nat × SYMBOL)) (p : Nat) (v : SYMBOL) (st : Score) (fuel : Nat),
      ((p, v) :: q).getLast? = some (s2, v2) →
      linked ((p, v) :: q) →
      (((p, v) :: q).map (fun pv => pv.1)).Nodup →
      ((p, v) :: q).length ≤ fuel →
      (∀ pv ∈ (p, v) :: q, S pv.1) →
      (∀ pv ∈ (p, v) :: q, ∃ w, st.sym pv.1 = some w ∧ refit_same pv.2 w ∧ w.x = pv.2.x) →
      (∃ w1, st.sym s1 = some w1) →
      (∀ pv ∈ (p, v) :: q, ∀ r w, S r → pv.2.ts_prev = some r → st.sym r = some w →
        w.x ≠ pv.2.x) →
      ∃ st1, beam_adjust H s1 s2 nflags a b fuel p st = some st1
        ∧ adj_frame S (fun r => r ∈ ((p, v) :: q).map (fun pv => pv.1)) st st1
        ∧ ∀ pv ∈ (p, v) :: q, pv.2.as_type = AbcType.ABC_T_NOTE →
            ∃ w, st1.sym pv.1 = some w
              ∧ w.ys = a * w.xs + b - (st.staffOf pv.2.staff).y := by
  intro q
  induction q with
  | nil =>
    intro p v st fuel hlast _ _ hfuel hS hsym hs1 hx
    simp only [List.getLast?_singleton, Option.some.injEq, Prod.mk.injEq] at hlast
    obtain ⟨hp, hv⟩ := hlast
    subst hp hv
    obtain ⟨n, rfl⟩ : ∃ n, fuel = n + 1 := ⟨fuel - 1, by simp at hfuel; omega⟩
    obtain ⟨w, hw, hwe, hwx⟩ := hsym (p, v) (List.mem_singleton.mpr rfl)
    obtain ⟨w1, hw1⟩ := hs1
    have hty : w.as_type = v.as_type := (refit_same_fields v w hwe).2.1
    have hstaff : w.staff = v.staff := (refit_same_fields v w hwe).2.2.1
    have htp : w.ts_prev = v.ts_prev := (refit_same_fields v w hwe).2.2.2.1
    have hSp : S p := hS (p, v) (List.mem_singleton.mpr rfl)
    have hTp : (fun r => r ∈ [(p, v)].map (fun pv => pv.1)) p := by simp
    have hxw : ∀ r w', S r → w.ts_prev = some r → st.sym r = some w' → w'.x ≠ w.x := by
      intro r w' hr hpr hsr
      rw [hwx]
      exact hx (p, v) (List.mem_singleton.mpr rfl) r w' hr (by rw [← htp]; exact hpr) hsr
    unfold beam_adjust
    simp only [hw, hw1, if_true]
    by_cases hn : w.as_type = AbcType.ABC_T_NOTE
    · rw [if_pos hn]
      obtain ⟨f1, f2⟩ := beam_adjust_note_spec S _ st a b p w hTp hw hxw
      refine ⟨_, rfl, f1, ?_⟩
      intro pv hpv _
      rw [List.mem_singleton.mp hpv]
      obtain ⟨w', hw', e1, e2⟩ := f2 hSp
      refine ⟨w', hw', ?_⟩
      simp only
      rw [e1, e2, hstaff]
    · rw [if_neg hn]
      refine ⟨_, rfl, ?_, ?_⟩
      · split_ifs
        · exact beam_adjust_rest_spec S _ H st w1 nflags a b p w hTp
        · exact adj_frame_refl S _ st
      · intro pv hpv hnote
        rw [List.mem_singleton.mp hpv] at hnote
        exact absurd (hty.trans hnote) hn
  | cons b q ih =>
    intro p v st fuel hlast hlink hnd hfuel hS hsym hs1 hx
    obtain ⟨n, rfl⟩ : ∃ n, fuel = n + 1 := ⟨fuel - 1, by simp at hfuel; omega⟩
    obtain ⟨bp, bv⟩ := b
    have hlast1 : ((bp, bv) :: q).getLast? = some (s2, v2) := by
      rw [List.getLast?_cons_cons] at hlast; exact hlast
    have hnd1 : (((bp, bv) :: q).map (fun pv => pv.1)).Nodup := (List.nodup_cons.mp hnd).2
    have hpn : p ∉ ((bp, bv) :: q).map (fun pv => pv.1) := (List.nodup_cons.mp hnd).1
    have hfuel1 : ((bp, bv) :: q).length ≤ n := by
      simp only [List.length_cons] at hfuel ⊢; omega
    obtain ⟨w, hw, hwe, hwx⟩ := hsym (p, v) (List.mem_cons_self _ _)
    obtain ⟨w1, hw1⟩ := hs1
    have hty : w.as_type = v.as_type := (refit_same_fields v w hwe).2.1
    have hstaff : w.staff = v.staff := (refit_same_fields v w hwe).2.2.1
    have htp : w.ts_prev = v.ts_prev := (refit_same_fields v w hwe).2.2.2.1
    have hnext : w.next = some bp := (refit_same_fields v w hwe).1.trans hlink.1
    have hSp : S p := hS (p, v) (List.mem_cons_self _ _)
    have hTp : (fun r => r ∈ ((p, v) :: (bp, bv) :: q).map (fun pv => pv.1)) p := by simp
    have hps2 : p ≠ s2 := by
      intro h
      have hmem : s2 ∈ ((bp, bv) :: q).map (fun pv => pv.1) :=
        List.mem_map.mpr ⟨(s2, v2), List.mem_of_getLast?_eq_some hlast1, rfl⟩
      exact hpn (by rw [h]; exact hmem)
    have hxw : ∀ r w', S r → w.ts_prev = some r → st.sym r = some w' → w'.x ≠ w.x := by
      intro r w' hr hpr hsr
      rw [hwx]
      exact hx (p, v) (List.mem_cons_self _ _) r w' hr (by rw [← htp]; exact hpr) hsr
    -- the step on the symbol `p`
    have hstep : ∃ st', (if w.as_type = AbcType.ABC_T_NOTE then beam_adjust_note st a b p w
          else if w.as_type = AbcType.ABC_T_REST then beam_adjust_rest H st w1 nflags a b p w
          else st) = st'
        ∧ adj_frame S (fun r => r = p) st st'
        ∧ (v.as_type = AbcType.ABC_T_NOTE → ∃ w', st'.sym p = some w'
            ∧ w'.ys = a * w'.xs + b - (st.staffOf v.staff).y) := by
      refine ⟨_, rfl, ?_, ?_⟩
      · split_ifs
        · exact (beam_adjust_note_spec S (fun r => r = p) st a b p w rfl hw hxw).1
        · exact beam_adjust_rest_spec S (fun r => r = p) H st w1 nflags a b p w rfl
        · exact adj_frame_refl S _ st
      · intro hnote
        rw [if_pos (hty.trans hnote)]
        obtain ⟨w', hw', e1, e2⟩ := (beam_adjust_note_spec S (fun r => r = p) st a b p w rfl hw
          hxw).2 hSp
        refine ⟨w', hw', ?_⟩
        rw [e1, e2, hstaff]
    obtain ⟨st', hst', fr, hline⟩ := hstep
    unfold beam_adjust
    simp only [hw, hw1, hst', if_neg hps2]
    obtain ⟨wp, hwp, rp, _, _⟩ := fr.2.2 p w hw
    have hnext' : wp.next = some bp := (refit_same_fields w wp rp).1.trans hnext
    have hbind : ((some wp).bind fun z => z.next) = some bp := hnext'
    simp only [hwp, hbind]
    have hsym' : ∀ pv ∈ (bp, bv) :: q,
        ∃ w, st'.sym pv.1 = some w ∧ refit_same pv.2 w ∧ w.x = pv.2.x := by
      intro pv hpv
      obtain ⟨u, hu, ru, xu⟩ := hsym pv (List.mem_cons_of_mem _ hpv)
      obtain ⟨u', hu', ru', xu', _⟩ := fr.2.2 pv.1 u hu
      exact ⟨u', hu', refit_same_trans _ _ _ ru ru',
        ((xu' (hS pv (List.mem_cons_of_mem _ hpv))).1).trans xu⟩
    have hs1' : ∃ w1', st'.sym s1 = some w1' := by
      obtain ⟨u', hu', _⟩ := fr.2.2 s1 w1 hw1
      exact ⟨u', hu'⟩
    have hx' : ∀ pv ∈ (bp, bv) :: q, ∀ r w', S r → pv.2.ts_prev = some r →
        st'.sym r = some w' → w'.x ≠ pv.2.x := by
      intro pv hpv r w' hr hpr hsr
      obtain ⟨u, hu⟩ := adj_frame_sym S _ st st' fr r w' hsr
      obtain ⟨u', hu', _, xu', _⟩ := fr.2.2 r u hu
      rw [hsr] at hu'
      rw [Option.some.inj hu', (xu' hr).1]
      exact hx pv (List.mem_cons_of_mem _ hpv) r u hr hpr hu
    obtain ⟨st1, e1, e2, e3⟩ := ih bp bv st' n hlast1 hlink.2 hnd1 hfuel1
      (fun pv hpv => hS pv (List.mem_cons_of_mem _ hpv)) hsym' hs1' hx'
    refine ⟨st1, e1, ?_, ?_⟩
    · refine adj_frame_trans S _ st st' st1
        (adj_frame_mono S _ _ st st' (fun r hr => ?_) fr)
        (adj_frame_mono S _ _ st' st1 (fun r hr => ?_) e2)
      · rw [hr]; simp
      · exact List.mem_cons_of_mem _ hr
    · intro pv hpv hnote
      rcases List.mem_cons.mp hpv with h | h
      · rw [h] at hnote ⊢
        obtain ⟨w', hw', e⟩ := hline hnote
        obtain ⟨w'', hw'', _, _, keep⟩ := e2.2.2 p w' hw'
        rw [keep hSp hpn] at hw''
        exact ⟨w', hw'', e⟩
      · obtain ⟨w', hw', e⟩ := e3 pv h hnote
        refine ⟨w', hw', ?_⟩
        rw [e, adj_frame_staffOf S _ st st' fr]

theorem beam_scan_sym_same (staff : Nat) (stem1 : Int) (v w : SYMBOL) (c : BeamScan)
    (h : refit_same v w) : beam_scan_sym staff stem1 w c = beam_scan_sym staff stem1 v c := by
  obtain ⟨_, h2, h3, _, _, _, _, _, _, h10, h11⟩ := refit_same_fields v w h
  unfold beam_scan_sym
  rw [h2, h3, h10, h11]

/-- The loop "search last note in beam" along a chain that ends with the
first note carrying a beam end: no duplicate is made, the state is returned as
it is, and the counters are those of the symbols of the chain. -/
theorem beam_search_scan (st : Score) (staff : Nat) (stem1 : Int) (s2 : Nat) (v2 : SYMBOL)
    (h2 : v2.as_type = AbcType.ABC_T_NOTE ∧ v2.sflags.S_BEAM_END = true) :
    ∀ (q : List (Nat × SYMBOL)) (p : Nat) (v : SYMBOL) (fuel : Nat) (c : BeamScan),
      ((p, v) :: q).getLast? = some (s2, v2) →
      (∀ pv ∈ (p, v) :: q, ∃ w, st.sym pv.1 = some w ∧ refit_same pv.2 w) →
      linked ((p, v) :: q) →
      (∀ pv ∈ ((p, v) :: q).dropLast,
        ¬ (pv.2.as_type = AbcType.ABC_T_NOTE ∧ pv.2.sflags.S_BEAM_END = true)) →
      ((p, v) :: q).length ≤ fuel →
      beam_search st staff stem1 fuel p c
        = some (st, s2,
            ((p, v) :: q).foldl (fun c pv => beam_scan_sym staff stem1 pv.2 c) c) := by
  intro q
  induction q with
  | nil =>
    intro p v fuel c hlast hsym _ _ hfuel
    simp only [List.getLast?_singleton, Option.some.injEq, Prod.mk.injEq] at hlast
    obtain ⟨hp, hv⟩ := hlast
    subst hp hv
    obtain ⟨n, rfl⟩ : ∃ n, fuel = n + 1 := ⟨fuel - 1, by simp at hfuel; omega⟩
    obtain ⟨w, hw, hwe⟩ := hsym (p, v) (List.mem_singleton.mpr rfl)
    obtain ⟨_, f2, _, _, _, _, f7, _⟩ := refit_same_fields v w hwe
    unfold beam_search
    simp only [hw]
    rw [if_pos (by rw [f2, f7]; exact h2), beam_scan_sym_same staff stem1 v w c hwe]
    rfl
  | cons b q ih =>
    intro p v fuel c hlast hsym hlink hbe hfuel
    obtain ⟨n, rfl⟩ : ∃ n, fuel = n + 1 := ⟨fuel - 1, by simp at hfuel; omega⟩
    obtain ⟨bp, bv⟩ := b
    obtain ⟨w, hw, hwe⟩ := hsym (p, v) (List.mem_cons_self _ _)
    obtain ⟨f1, f2, _, _, _, _, f7, _⟩ := refit_same_fields v w hwe
    have hnext : w.next = some bp := f1.trans hlink.1
    rw [List.dropLast_cons₂] at hbe
    unfold beam_search
    simp only [hw]
    rw [if_neg (by rw [f2, f7]; exact hbe (p, v) (List.mem_cons_self _ _))]
    simp only [hnext]
    rw [ih bp bv n (beam_scan_sym staff stem1 w c)
      (by rw [List.getLast?_cons_cons] at hlast; exact hlast)
      (fun pv h => hsym pv (List.mem_cons_of_mem _ h)) hlink.2
      (fun pv h => hbe pv (List.mem_cons_of_mem _ h))
      (by simp only [List.length_cons] at hfuel ⊢; omega),
      beam_scan_sym_same staff stem1 v w c hwe]
    rfl

theorem beam_scan_one_staff (staff : Nat) (stem1 : Int) :
    ∀ (P : List (Nat × SYMBOL)) (c : BeamScan),
      (∀ pv ∈ P, pv.2.as_type = AbcType.ABC_T_NOTE → pv.2.staff = staff) →
      (P.foldl (fun c pv => beam_scan_sym staff stem1 pv.2 c) c).two_staves = c.two_staves := by
  intro P
  induction P with
  | nil => intro c _; rfl
  | cons x r ih =>
    intro c h
    rw [List.foldl_cons, ih _ (fun pv hpv => h pv (List.mem_cons_of_mem _ hpv))]
    unfold beam_scan_sym
    by_cases hn : x.2.as_type = AbcType.ABC_T_NOTE
    · rw [if_pos hn]
      simp only [h x (List.mem_cons_self _ _) hn, ne_eq, not_true_eq_false, if_false]
    · rw [if_neg hn]

/-- Parts of a refit that returns: the sums, the state after them and the
final loop. -/
theorem beam_refit_parts (H : Hdr) (st0 : Score) (s1 s2 : Nat) (c : BeamScan) (v1 : SYMBOL)
    (st1 : Score) (a b : ℚ) (hv1 : st0.sym s1 = some v1)
    (h : beam_refit H st0 s1 s2 c = some (st1, a, b)) :
    ∃ (sts : Score) (m : BeamSums),
      beam_sums (if v1.ABC_F_GRACE then H.GSTEM_XOFF else H.STEM_XOFF) s2 st0.fuel s1 st0 {}
        = some (sts, m)
      ∧ beam_adjust H s1 s2 c.nflags a b sts.fuel s1 sts = some st1 := by
  unfold beam_refit at h
  simp only [hv1] at h
  cases hs : beam_sums (if v1.ABC_F_GRACE then H.GSTEM_XOFF else H.STEM_XOFF) s2 st0.fuel s1 st0 {}
    with
  | none => simp [hs] at h
  | some r =>
    obtain ⟨sts, m⟩ := r
    simp only [hs] at h
    cases hw1 : sts.sym s1 with
    | none => simp [hw1] at h
    | some w1 =>
      cases hw2 : sts.sym s2 with
      | none => simp [hw1, hw2] at h
      | some w2 =>
        simp only [hw1, hw2] at h
        cases hb : beam_stems H sts s1 s2 w1 w2 c
            (beam_line H w1.ABC_F_GRACE sts.flatbeams m c.notes (w2.xs - w1.xs)
              (sts.staffOf v1.staff).y).1
            (beam_line H w1.ABC_F_GRACE sts.flatbeams m c.notes (w2.xs - w1.xs)
              (sts.staffOf v1.staff).y).2 with
        | none => simp [hb] at h
        | some b1 =>
          simp only [hb] at h
          generalize hbo : (if ¬ c.two_staves = true ∧ ¬ c.two_dir = true then
              beam_clear H sts v1.staff w1.stem c.nflags s2
                (beam_line H w1.ABC_F_GRACE sts.flatbeams m c.notes (w2.xs - w1.xs)
                  (sts.staffOf v1.staff).y).1 sts.fuel w1.next b1
            else some b1) = bo at h
          cases bo with
          | none => simp at h
          | some b2 =>
            simp only at h
            generalize hbf : (if (beam_line H w1.ABC_F_GRACE sts.flatbeams m c.notes
                (w2.xs - w1.xs) (sts.staffOf v1.staff).y).1 = 0 then
                b2 + b_pos H w1.ABC_F_GRACE w1.stem c.nflags (b2 - (sts.staffOf v1.staff).y)
              else b2) = bf at h
            cases ha : beam_adjust H s1 s2 c.nflags
                (beam_line H w1.ABC_F_GRACE sts.flatbeams m c.notes (w2.xs - w1.xs)
                  (sts.staffOf v1.staff).y).1 bf sts.fuel s1 sts with
            | none => simp [ha] at h
            | some st2 =>
              simp only [ha, Option.some.injEq, Prod.mk.injEq] at h
              obtain ⟨e1, e2, e3⟩ := h
              subst e1 e2 e3
              exact ⟨sts, m, rfl, ha⟩

/-- C20, as amended: in exact arithmetic, a refit of `calculate_beam` on the
group given by its chain from `s1` to `s2` (notes on the one staff of `s1`, no
symbol of the group standing just before another one in the time-ordered list
at the same abscissa) that returns the line `(a, b)` leaves every note of the
group with its stem tip on the line: `ys = a*xs + b - y0`, `y0` being the staff
origin.  A later call on the state so reached, with any staff table of origin
`y1 ≠ 0` for that staff, for normal notes with `s1.xs ≠ s2.xs`, returns 1 with
the slope `a` and the intercept `b - y0 + y1` and leaves the state as it is.
(In the binary32 arithmetic of the program the stored tips and the values
computed again from them are rounded: see `beam_adjust_note32` and
`beam_reload32`.) -/
theorem refit_then_stored (H : Hdr) (st0 : Score) (s1 s2 : Nat) (c : BeamScan)
    (v1 v2 : SYMBOL) (q : List (Nat × SYMBOL)) (st1 : Score) (a b : ℚ)
    (hsym : ∀ pv ∈ (s1, v1) :: q, st0.sym pv.1 = some pv.2)
    (hlink : linked ((s1, v1) :: q))
    (hnd : (((s1, v1) :: q).map (fun pv => pv.1)).Nodup)
    (hlast : ((s1, v1) :: q).getLast? = some (s2, v2))
    (hn1 : v1.as_type = AbcType.ABC_T_NOTE) (hn2 : v2.as_type = AbcType.ABC_T_NOTE)
    (hst : v1.sflags.S_BEAM_ST = true) (hend : v2.sflags.S_BEAM_END = true)
    (hbe : ∀ pv ∈ ((s1, v1) :: q).dropLast,
      ¬ (pv.2.as_type = AbcType.ABC_T_NOTE ∧ pv.2.sflags.S_BEAM_END = true))
    (hvis : v1.ABC_F_INVIS = false) (hg : v1.ABC_F_GRACE = false)
    (hstaff : ∀ pv ∈ (s1, v1) :: q, pv.2.as_type = AbcType.ABC_T_NOTE → pv.2.staff = v1.staff)
    (hx : ∀ pv ∈ (s1, v1) :: q, ∀ qv ∈ (s1, v1) :: q,
      pv.2.ts_prev = some qv.1 → qv.2.x ≠ pv.2.x)
    (hrefit : beam_refit H st0 s1 s2 c = some (st1, a, b)) :
    (∀ pv ∈ (s1, v1) :: q, pv.2.as_type = AbcType.ABC_T_NOTE →
      ∃ w, st1.sym pv.1 = some w ∧ w.ys = a * w.xs + b - (st0.staffOf v1.staff).y)
    ∧ ∃ w1 w2, st1.sym s1 = some w1 ∧ st1.sym s2 = some w2
      ∧ ∀ (tb : List STAFF_S) (bm : BEAM), (tb.getD v1.staff {}).y ≠ 0 → w1.xs ≠ w2.xs →
        ∃ bm1, calculate_beam H { st1 with staff_tb := tb } bm s1
            = some ({ st1 with staff_tb := tb }, bm1, 1)
          ∧ bm1.s1 = s1 ∧ bm1.s2 = s2 ∧ bm1.a = a
          ∧ bm1.b = b - (st0.staffOf v1.staff).y + (tb.getD v1.staff {}).y := by
  have hv1 : st0.sym s1 = some v1 := hsym (s1, v1) (List.mem_cons_self _ _)
  have hmem2 : (s2, v2) ∈ (s1, v1) :: q := List.mem_of_getLast?_eq_some hlast
  obtain ⟨sts, m, hsums, hadj⟩ := beam_refit_parts H st0 s1 s2 c v1 st1 a b hv1 hrefit
  obtain ⟨fs1, fs2⟩ := beam_sums_frame _ _ _ _ _ _ _ _ hsums
  -- the chain in the state after the sums
  have hsyms : ∀ pv ∈ (s1, v1) :: q,
      ∃ w, sts.sym pv.1 = some w ∧ refit_same pv.2 w ∧ w.x = pv.2.x := by
    intro pv hpv
    obtain ⟨w, hw, hwe⟩ := fs2 pv.1 pv.2 (hsym pv hpv)
    refine ⟨w, hw, ?_, by rw [hwe]⟩
    unfold refit_same
    rw [hwe]
  have hfuel : ((s1, v1) :: q).length ≤ sts.fuel := by
    have := path_fuel sts _ (fun pv h => (hsyms pv h).imp (fun w hw => hw.1)) hnd
    unfold Score.fuel
    omega
  have hxs : ∀ pv ∈ (s1, v1) :: q, ∀ r w,
      (fun r => r ∈ ((s1, v1) :: q).map (fun pv => pv.1)) r → pv.2.ts_prev = some r →
      sts.sym r = some w → w.x ≠ pv.2.x := by
    intro pv hpv r w hr hpr hsr
    obtain ⟨qv, hqv, hqr⟩ := List.mem_map.mp hr
    obtain ⟨w', hw', _, hwx⟩ := hsyms qv hqv
    rw [hqr, hsr] at hw'
    rw [Option.some.inj hw', hwx]
    exact hx pv hpv qv hqv (by rw [hqr]; exact hpr)
  obtain ⟨st1', e1, e2, e3⟩ := beam_adjust_path
    (fun r => r ∈ ((s1, v1) :: q).map (fun pv => pv.1)) H s1 s2 v2 c.nflags a b q s1 v1 sts
    sts.fuel hlast hlink hnd hfuel
    (fun pv hpv => List.mem_map.mpr ⟨pv, hpv, rfl⟩) hsyms
    ((hsyms (s1, v1) (List.mem_cons_self _ _)).imp (fun w hw => hw.1)) hxs
  rw [hadj] at e1
  have hst1 : st1' = st1 := (Option.some.inj e1).symm
  subst hst1
  have hstaffOf : ∀ n, sts.staffOf n = st0.staffOf n := by
    intro n
    unfold Score.staffOf
    rw [fs1]
  have hline : ∀ pv ∈ (s1, v1) :: q, pv.2.as_type = AbcType.ABC_T_NOTE →
      ∃ w, st1'.sym pv.1 = some w ∧ w.ys = a * w.xs + b - (st0.staffOf v1.staff).y := by
    intro pv hpv hnote
    obtain ⟨w, hw, hwe⟩ := e3 pv hpv hnote
    refine ⟨w, hw, ?_⟩
    rw [hwe, hstaffOf, hstaff pv hpv hnote]
  refine ⟨hline, ?_⟩
  obtain ⟨w1, hw1, l1⟩ := hline (s1, v1) (List.mem_cons_self _ _) hn1
  obtain ⟨w2, hw2, l2⟩ := hline (s2, v2) hmem2 hn2
  refine ⟨w1, w2, hw1, hw2, ?_⟩
  intro tb bm hy hne
  -- the symbols of the group in the final state
  have hsym1 : ∀ pv ∈ (s1, v1) :: q,
      ∃ w, ({ st1' with staff_tb := tb } : Score).sym pv.1 = some w ∧ refit_same pv.2 w := by
    intro pv hpv
    obtain ⟨u, hu, ru, _⟩ := hsyms pv hpv
    obtain ⟨w, hw, rw', _⟩ := e2.2.2 pv.1 u hu
    exact ⟨w, hw, refit_same_trans _ _ _ ru rw'⟩
  have hf1 : refit_same v1 w1 := by
    obtain ⟨w, hw, r⟩ := hsym1 (s1, v1) (List.mem_cons_self _ _)
    have : w = w1 := Option.some.inj (hw.symm.trans hw1)
    rw [← this]; exact r
  obtain ⟨_, _, g3, _, _, _, g7, g8, g9, g10, _⟩ := refit_same_fields v1 w1 hf1
  have hfuel2 : ((s1, v1) :: q).length ≤ ({ st1' with staff_tb := tb } : Score).fuel := by
    have := path_fuel ({ st1' with staff_tb := tb } : Score) _
      (fun pv h => (hsym1 pv h).imp (fun w hw => hw.1)) hnd
    unfold Score.fuel
    omega
  have hsearch := beam_search_scan ({ st1' with staff_tb := tb } : Score) w1.staff w1.stem
    s2 v2 ⟨hn2, hend⟩ q s1 v1 _ {} hlast hsym1 hlink hbe hfuel2
  have hends : beam_ends ({ st1' with staff_tb := tb } : Score) s1
      = some ({ st1' with staff_tb := tb }, s1, s2,
          ((s1, v1) :: q).foldl (fun c pv => beam_scan_sym w1.staff w1.stem pv.2 c) {}) := by
    unfold beam_ends
    have hw1' : ({ st1' with staff_tb := tb } : Score).sym s1 = some w1 := hw1
    simp only [hw1', g7, hst, not_true_eq_false, if_false, hsearch]
  have htwo : (((s1, v1) :: q).foldl
      (fun c pv => beam_scan_sym w1.staff w1.stem pv.2 c) {}).two_staves = false := by
    rw [beam_scan_one_staff w1.staff w1.stem _ {}
      (fun pv hpv hnote => by rw [g3]; exact hstaff pv hpv hnote)]
  have hy1 : (({ st1' with staff_tb := tb } : Score).staffOf w1.staff).y
      = (tb.getD v1.staff {}).y := by
    unfold Score.staffOf
    rw [g3]
  have hw1' : ({ st1' with staff_tb := tb } : Score).sym s1 = some w1 := hw1
  have hw2' : ({ st1' with staff_tb := tb } : Score).sym s2 = some w2 := hw2
  have hstored : beam_stored ({ st1' with staff_tb := tb } : Score) w1
      (((s1, v1) :: q).foldl (fun c pv => beam_scan_sym w1.staff w1.stem pv.2 c) {}) :=
    ⟨by rw [hy1]; exact hy, htwo, by rw [g9]; exact hg⟩
  have hy0 : ¬ ((({ st1' with staff_tb := tb } : Score).staffOf w1.staff).y = 0
      ∧ (((s1, v1) :: q).foldl
          (fun c pv => beam_scan_sym w1.staff w1.stem pv.2 c) {}).two_staves = true) := by
    intro hc
    exact hstored.1 hc.1
  have hvis1 : w1.ABC_F_INVIS = false := g8.trans hvis
  have hd : w1.xs - w2.xs ≠ 0 := sub_ne_zero.mpr hne
  have ha : (w1.ys - w2.ys) / (w1.xs - w2.xs) = a := by
    rw [l1, l2]
    field_simp
    ring
  refine ⟨{ bm with
      s2 := s2, s1 := s1, a := (w1.ys - w2.ys) / (w1.xs - w2.xs),
      b := w1.ys - w1.xs * ((w1.ys - w2.ys) / (w1.xs - w2.xs))
            + (({ st1' with staff_tb := tb } : Score).staffOf w1.staff).y,
      nflags := (((s1, v1) :: q).foldl
        (fun c pv => beam_scan_sym w1.staff w1.stem pv.2 c) {}).nflags }, ?_, rfl, rfl, ha, ?_⟩
  · unfold calculate_beam
    simp only [hw1', hvis1, Bool.false_eq_true, false_and, if_false, hends, hw2']
    rw [if_neg hy0, if_pos hstored]
  · simp only
    rw [ha, hy1, l1]
    ring

theorem refit_then_stored_witness :
    ∃ st1 a b, beam_refit stdHdr lineScore 1 4 { notes := 4, nflags := 1 } = some (st1, a, b)
      ∧ (∀ pv ∈ [(1, lineNote 1), (2, lineNote 2), (3, lineNote 3), (4, lineNote 4)],
          ∃ w, st1.sym pv.1 = some w ∧ w.ys = a * w.xs + b - 0)
      ∧ ∃ bm1, calculate_beam stdHdr { st1 with staff_tb := [{ y := 300 }] } {} 1
            = some ({ st1 with staff_tb := [{ y := 300 }] }, bm1, 1)
          ∧ bm1.a = a ∧ bm1.b = b - 0 + 300 := by
  have hxs : (beam_refit stdHdr lineScore 1 4 { notes := 4, nflags := 1 }).map
      (fun r => ((r.1.sym 1).map (fun z => z.xs), (r.1.sym 4).map (fun z => z.xs)))
      = some (some (207 / 2), some (327 / 2)) := by decide!
  cases hc : beam_refit stdHdr lineScore 1 4 { notes := 4, nflags := 1 } with
  | none => rw [hc] at hxs; simp at hxs
  | some r =>
    obtain ⟨st1, a, b⟩ := r
    rw [hc] at hxs
    simp only [Option.map_some', Option.some.injEq, Prod.mk.injEq] at hxs
    obtain ⟨h1, w1, w2, hw1, hw2, h2⟩ := refit_then_stored stdHdr lineScore 1 4
      { notes := 4, nflags := 1 } (lineNote 1) (lineNote 4)
      [(2, lineNote 2), (3, lineNote 3), (4, lineNote 4)] st1 a b
      (by
        intro pv hpv
        simp only [List.mem_cons, List.mem_singleton, List.not_mem_nil, or_false] at hpv
        rcases hpv with rfl | rfl | rfl | rfl <;> rfl)
      ⟨rfl, rfl, rfl, trivial⟩ (by decide) rfl rfl rfl rfl rfl
      (by
        intro pv hpv
        simp only [List.dropLast, List.mem_cons, List.mem_singleton, List.not_mem_nil,
          or_false] at hpv
        rcases hpv with rfl | rfl | rfl <;> decide)
      rfl rfl
      (by
        intro pv hpv _
        simp only [List.mem_cons, List.mem_singleton, List.not_mem_nil, or_false] at hpv
        rcases hpv with rfl | rfl | rfl | rfl <;> rfl)
      (by
        intro pv hpv qv hqv
        simp only [List.mem_cons, List.mem_singleton, List.not_mem_nil, or_false] at hpv hqv
        rcases hpv with rfl | rfl | rfl | rfl <;> rcases hqv with rfl | rfl | rfl | rfl <;>
          first
          | (intro h; exact absurd h (by decide))
          | (intro _; decide!))
      hc
    refine ⟨st1, a, b, rfl, ?_, ?_⟩
    · intro pv hpv
      have hnote : pv.2.as_type = AbcType.ABC_T_NOTE := by
        simp only [List.mem_cons, List.mem_singleton, List.not_mem_nil, or_false] at hpv
        rcases hpv with rfl | rfl | rfl | rfl <;> rfl
      exact h1 pv hpv hnote
    · rw [hw1, hw2] at hxs
      simp only [Option.map_some', Option.some.injEq] at hxs
      obtain ⟨bm1, e1, _, _, e4, e5⟩ := h2 [{ y := 300 }] {} (by decide!)
        (by rw [hxs.1, hxs.2]; decide!)
      exact ⟨bm1, e1, e4, e5⟩

/-! ## Abscissae along the time-ordered list -/

/-- C12 (counterexample): in `prevScore` and in `nextScore` the abscissae
along the time-ordered list do not decrease.  After `calculate_beam` on the beam
of `prevScore` the duplicate of the first note stands at 65 - 12 = 53 after the
clef at 60; after `calculate_beam` on the beam of `nextScore` the duplicate of
the last note stands at `realwidth - 12` = 488 before the note of the second
voice at 460. -/
theorem calculate_beam_breaks_order :
    ts_xs prevScore prevScore.fuel (some 0) = some [60, 65, 90]
    ∧ (calculate_beam stdHdr prevScore {} 1).bind (fun r => ts_xs r.1 r.1.fuel (some 0))
        = some [60, 53, 65, 90]
    ∧ (calculate_beam stdHdr prevScore {} 1).map (fun r => r.2.2) = some 1
    ∧ ts_xs nextScore nextScore.fuel (some 0) = some [20, 430, 460, 460]
    ∧ (calculate_beam stdHdr nextScore {} 1).bind (fun r => ts_xs r.1 r.1.fuel (some 0))
        = some [20, 430, 460, 488, 460]
    ∧ (calculate_beam stdHdr nextScore {} 1).map (fun r => r.2.2) = some 1 := by
  decide!

theorem ts_xs_same (st st1 : Score) (hlen : st1.syms.length = st.syms.length)
    (h : ∀ q v, st.sym q = some v →
      ∃ w, st1.sym q = some w ∧ w.x = v.x ∧ w.ts_next = v.ts_next) :
    ∀ (fuel : Nat) (p : Option Nat), ts_xs st1 fuel p = ts_xs st fuel p := by
  intro fuel
  induction fuel with
  | zero => intro p; rfl
  | succ n ih =>
    intro p
    cases p with
    | none => rfl
    | some q =>
      unfold ts_xs
      cases hq : st.sym q with
      | none =>
        have hn : st1.sym q = none := by
          unfold Score.sym at hq ⊢
          rw [List.getElem?_eq_none_iff] at hq ⊢
          omega
        rw [hn]
      | some v =>
        obtain ⟨w, hw, hx, hn⟩ := h q v hq
        rw [hw]
        simp only [hx, hn, ih]

theorem beam_sums_length (xoff : ℚ) (s2 : Nat) :
    ∀ (fuel s : Nat) (st : Score) (m : BeamSums) (st1 : Score) (m1 : BeamSums),
      beam_sums xoff s2 fuel s st m = some (st1, m1) →
      st1.syms.length = st.syms.length := by
  intro fuel
  induction fuel with
  | zero => intro s st m st1 m1 h; simp [beam_sums] at h
  | succ n ih =>
    intro s st m st1 m1 h
    unfold beam_sums at h
    cases hs : st.sym s with
    | none => simp [hs] at h
    | some v =>
      simp only [hs] at h
      by_cases hty : v.as_type = AbcType.ABC_T_NOTE
      · rw [if_neg (not_not.mpr hty)] at h
        by_cases he : s = s2
        · simp only [he, if_true, Option.some.injEq, Prod.mk.injEq] at h
          rw [← h.1]
          exact upd_length _ _ _
        · simp only [he, if_false] at h
          cases hn : v.next with
          | none => simp [hn] at h
          | some nx =>
            simp only [hn] at h
            rw [ih _ _ _ _ _ h]
            exact upd_length _ _ _
      · rw [if_pos hty] at h
        cases hn : v.next with
        | none => simp [hn] at h
        | some nx =>
          simp only [hn] at h
          exact ih _ _ _ _ _ h

/-- A refit along the chain of the group, no symbol standing just before a
symbol of the group in the time-ordered list at its abscissa: every symbol
keeps its `x` and all its links. -/
theorem beam_refit_keeps (H : Hdr) (st0 : Score) (s1 s2 : Nat) (c : BeamScan)
    (v1 v2 : SYMBOL) (q : List (Nat × SYMBOL)) (st1 : Score) (a b : ℚ)
    (hsym : ∀ pv ∈ (s1, v1) :: q, st0.sym pv.1 = some pv.2)
    (hlink : linked ((s1, v1) :: q))
    (hnd : (((s1, v1) :: q).map (fun pv => pv.1)).Nodup)
    (hlast : ((s1, v1) :: q).getLast? = some (s2, v2))
    (hx : ∀ pv ∈ (s1, v1) :: q, ∀ r w, pv.2.ts_prev = some r → st0.sym r = some w →
      w.x ≠ pv.2.x)
    (hrefit : beam_refit H st0 s1 s2 c = some (st1, a, b)) :
    st1 = { st0 with syms := st1.syms } ∧ st1.syms.length = st0.syms.length
    ∧ ∀ r u, st0.sym r = some u → ∃ w, st1.sym r = some w ∧ refit_same u w ∧ w.x = u.x := by
  have hv1 : st0.sym s1 = some v1 := hsym (s1, v1) (List.mem_cons_self _ _)
  obtain ⟨sts, m, hsums, hadj⟩ := beam_refit_parts H st0 s1 s2 c v1 st1 a b hv1 hrefit
  obtain ⟨fs1, fs2⟩ := beam_sums_frame _ _ _ _ _ _ _ _ hsums
  have hlen := beam_sums_length _ _ _ _ _ _ _ _ hsums
  have hall : ∀ r u, st0.sym r = some u →
      ∃ w, sts.sym r = some w ∧ refit_same u w ∧ w.x = u.x := by
    intro r u hu
    obtain ⟨w, hw, hwe⟩ := fs2 r u hu
    refine ⟨w, hw, ?_, by rw [hwe]⟩
    unfold refit_same
    rw [hwe]
  have hsyms : ∀ pv ∈ (s1, v1) :: q,
      ∃ w, sts.sym pv.1 = some w ∧ refit_same pv.2 w ∧ w.x = pv.2.x :=
    fun pv hpv => hall pv.1 pv.2 (hsym pv hpv)
  have hfuel : ((s1, v1) :: q).length ≤ sts.fuel := by
    have := path_fuel sts _ (fun pv h => (hsyms pv h).imp (fun w hw => hw.1)) hnd
    unfold Score.fuel
    omega
  have hxs : ∀ pv ∈ (s1, v1) :: q, ∀ r w, (fun _ => True) r → pv.2.ts_prev = some r →
      sts.sym r = some w → w.x ≠ pv.2.x := by
    intro pv hpv r w _ hpr hsr
    have hlt := sym_lt sts r w hsr
    rw [hlen] at hlt
    have hu : st0.sym r = some (st0.syms[r]) := by
      unfold Score.sym; exact List.getElem?_eq_getElem hlt
    obtain ⟨w', hw', _, hwx⟩ := hall r _ hu
    rw [hsr] at hw'
    rw [Option.some.inj hw', hwx]
    exact hx pv hpv r _ hpr hu
  obtain ⟨st1', e1, e2, _⟩ := beam_adjust_path (fun _ => True) H s1 s2 v2 c.nflags a b q s1 v1
    sts sts.fuel hlast hlink hnd hfuel (fun _ _ => trivial) hsyms
    ((hsyms (s1, v1) (List.mem_cons_self _ _)).imp (fun w hw => hw.1)) hxs
  rw [hadj] at e1
  have hst1 : st1' = st1 := (Option.some.inj e1).symm
  subst hst1
  refine ⟨by rw [e2.1, fs1], e2.2.1.trans hlen, ?_⟩
  intro r u hu
  obtain ⟨w, hw, rw1, xw⟩ := hall r u hu
  obtain ⟨w2, hw2, rw2, xw2, _⟩ := e2.2.2 r w hw
  exact ⟨w2, hw2, refit_same_trans _ _ _ rw1 rw2, (xw2 trivial).1.trans xw⟩

/-- C12 (as amended): when the first symbol `s1` carries the beam start, the
chain from `s1` ends with the first note that carries a beam end (no duplicate
is made) and no symbol stands just before a symbol of the group in the
time-ordered list at its abscissa, a call of `calculate_beam` that returns
leaves the abscissa `x` and the links of every symbol as they were, and so the
abscissae met along the time-ordered list from any symbol. -/
theorem calculate_beam_keeps_abscissae (H : Hdr) (st : Score) (bm : BEAM) (s1 s2 : Nat)
    (v1 v2 : SYMBOL) (q : List (Nat × SYMBOL)) (st1 : Score) (bm1 : BEAM) (r : Int)
    (hsym : ∀ pv ∈ (s1, v1) :: q, st.sym pv.1 = some pv.2)
    (hlink : linked ((s1, v1) :: q))
    (hnd : (((s1, v1) :: q).map (fun pv => pv.1)).Nodup)
    (hlast : ((s1, v1) :: q).getLast? = some (s2, v2))
    (hn2 : v2.as_type = AbcType.ABC_T_NOTE)
    (hst : v1.sflags.S_BEAM_ST = true) (hend : v2.sflags.S_BEAM_END = true)
    (hbe : ∀ pv ∈ ((s1, v1) :: q).dropLast,
      ¬ (pv.2.as_type = AbcType.ABC_T_NOTE ∧ pv.2.sflags.S_BEAM_END = true))
    (hx : ∀ pv ∈ (s1, v1) :: q, ∀ p w, pv.2.ts_prev = some p → st.sym p = some w →
      w.x ≠ pv.2.x)
    (hcalc : calculate_beam H st bm s1 = some (st1, bm1, r)) :
    st1.syms.length = st.syms.length
    ∧ (∀ p u, st.sym p = some u →
        ∃ w, st1.sym p = some w ∧ w.x = u.x ∧ w.ts_next = u.ts_next ∧ w.ts_prev = u.ts_prev
          ∧ w.next = u.next ∧ w.prev = u.prev)
    ∧ ∀ (fuel : Nat) (p : Option Nat), ts_xs st1 fuel p = ts_xs st fuel p := by
  have hv1 : st.sym s1 = some v1 := hsym (s1, v1) (List.mem_cons_self _ _)
  have hmem2 : (s2, v2) ∈ (s1, v1) :: q := List.mem_of_getLast?_eq_some hlast
  have hv2 : st.sym s2 = some v2 := hsym (s2, v2) hmem2
  have hkeep : ∀ st' : Score, st'.syms.length = st.syms.length →
      (∀ p u, st.sym p = some u → ∃ w, st'.sym p = some w ∧ refit_same u w ∧ w.x = u.x) →
      st'.syms.length = st.syms.length
      ∧ (∀ p u, st.sym p = some u →
          ∃ w, st'.sym p = some w ∧ w.x = u.x ∧ w.ts_next = u.ts_next
            ∧ w.ts_prev = u.ts_prev ∧ w.next = u.next ∧ w.prev = u.prev)
      ∧ ∀ (fuel : Nat) (p : Option Nat), ts_xs st' fuel p = ts_xs st fuel p := by
    intro st' hl hf
    have h2 : ∀ p u, st.sym p = some u →
        ∃ w, st'.sym p = some w ∧ w.x = u.x ∧ w.ts_next = u.ts_next
          ∧ w.ts_prev = u.ts_prev ∧ w.next = u.next ∧ w.prev = u.prev := by
      intro p u hu
      obtain ⟨w, hw, rs, xw⟩ := hf p u hu
      obtain ⟨g1, _, _, g4, g5, g6, _⟩ := refit_same_fields u w rs
      exact ⟨w, hw, xw, g5, g4, g1, g6⟩
    refine ⟨hl, h2, ts_xs_same st st' hl (fun p u hu => ?_)⟩
    obtain ⟨w, hw, xw, tn, _⟩ := h2 p u hu
    exact ⟨w, hw, xw, tn⟩
  have hsame : ∀ p u, st.sym p = some u → ∃ w, st.sym p = some w ∧ refit_same u w ∧ w.x = u.x :=
    fun p u hu => ⟨u, hu, refit_same_refl u, rfl⟩
  have hfuel : ((s1, v1) :: q).length ≤ st.fuel := by
    have := path_fuel st _ (fun pv h => ⟨pv.2, hsym pv h⟩) hnd
    unfold Score.fuel
    omega
  have hsearch := beam_search_scan st v1.staff v1.stem s2 v2 ⟨hn2, hend⟩ q s1 v1 _ {} hlast
    (fun pv hpv => ⟨pv.2, hsym pv hpv, refit_same_refl _⟩) hlink hbe hfuel
  have hends : beam_ends st s1
      = some (st, s1, s2,
          ((s1, v1) :: q).foldl (fun c pv => beam_scan_sym v1.staff v1.stem pv.2 c) {}) := by
    unfold beam_ends
    simp only [hv1, hst, not_true_eq_false, if_false, hsearch]
  generalize ((s1, v1) :: q).foldl (fun c pv => beam_scan_sym v1.staff v1.stem pv.2 c) {} = cf
    at hends
  clear hsearch
  unfold calculate_beam at hcalc
  simp only [hv1] at hcalc
  split_ifs at hcalc with c1 c2
  · simp only [Option.some.injEq, Prod.mk.injEq] at hcalc
    rw [← hcalc.1]
    exact hkeep st rfl hsame
  · simp only [hends, hv1, hv2] at hcalc
    split_ifs at hcalc with c3 c4 c5
    · simp only [Option.some.injEq, Prod.mk.injEq] at hcalc
      rw [← hcalc.1]
      exact hkeep st rfl hsame
    · simp only [Option.some.injEq, Prod.mk.injEq] at hcalc
      rw [← hcalc.1]
      exact hkeep st rfl hsame
    all_goals
      cases hr : beam_refit H st s1 s2 cf with
      | none => simp [hr] at hcalc
      | some res =>
        obtain ⟨st', a, b⟩ := res
        obtain ⟨_, k2, k3⟩ := beam_refit_keeps H st s1 s2 _ v1 v2 q st' a b hsym hlink hnd hlast
          hx hr
        simp only [hr] at hcalc
        try split_ifs at hcalc
        all_goals
          simp only [Option.some.injEq, Prod.mk.injEq] at hcalc
          rw [← hcalc.1]
          exact hkeep st' k2 k3

theorem calculate_beam_keeps_abscissae_witness :
    ts_xs lineScore lineScore.fuel (some 0) = some [20, 100, 120, 140, 160]
    ∧ ∃ st1 bm1 r, calculate_beam stdHdr lineScore {} 1 = some (st1, bm1, r)
      ∧ st1.syms.length = lineScore.syms.length
      ∧ ts_xs st1 lineScore.fuel (some 0) = ts_xs lineScore lineScore.fuel (some 0) := by
  refine ⟨by decide!, ?_⟩
  have hsome : (calculate_beam stdHdr lineScore {} 1).isSome = true := by decide!
  cases hc : calculate_beam stdHdr lineScore {} 1 with
  | none => rw [hc] at hsome; cases hsome
  | some res =>
    obtain ⟨st1, bm1, r⟩ := res
    obtain ⟨h1, _, h3⟩ := calculate_beam_keeps_abscissae stdHdr lineScore {} 1 4
      (lineNote 1) (lineNote 4) [(2, lineNote 2), (3, lineNote 3), (4, lineNote 4)] st1 bm1 r
      (by
        intro pv hpv
        simp only [List.mem_cons, List.mem_singleton, List.not_mem_nil, or_false] at hpv
        rcases hpv with rfl | rfl | rfl | rfl <;> rfl)
      ⟨rfl, rfl, rfl, trivial⟩ (by decide) rfl rfl rfl rfl
      (by
        intro pv hpv
        simp only [List.dropLast, List.mem_cons, List.mem_singleton, List.not_mem_nil,
          or_false] at hpv
        rcases hpv with rfl | rfl | rfl <;> decide)
      (by
        intro pv hpv p w h1 h2
        simp only [List.mem_cons, List.mem_singleton, List.not_mem_nil, or_false] at hpv
        rcases hpv with rfl | rfl | rfl | rfl
        · obtain rfl := Option.some.inj (h1 : some 0 = some p)
          obtain rfl := Option.some.inj (h2 : some lineClef = some w)
          decide!
        · obtain rfl := Option.some.inj (h1 : some 1 = some p)
          obtain rfl := Option.some.inj (h2 : some (lineNote 1) = some w)
          decide!
        · obtain rfl := Option.some.inj (h1 : some 2 = some p)
          obtain rfl := Option.some.inj (h2 : some (lineNote 2) = some w)
          decide!
        · obtain rfl := Option.some.inj (h1 : some 3 = some p)
          obtain rfl := Option.some.inj (h2 : some (lineNote 3) = some w)
          decide!)
      hc
    exact ⟨st1, bm1, r, rfl, h1, h3 _ _⟩

/-! ## Writes to the recorded vertical extents -/

theorem ctrunc_ge_of_lt (n : Int) (y : ℚ) (h : (n : ℚ) < y) : n ≤ ctrunc y := by
  unfold ctrunc
  split_ifs
  · exact Int.le_floor.mpr (le_of_lt h)
  · exact le_of_lt (Int.lt_ceil.mpr h)

theorem ctrunc_le_of_gt (n : Int) (y : ℚ) (h : (n : ℚ) > y) : ctrunc y ≤ n := by
  unfold ctrunc
  split_ifs
  · exact le_of_lt (Int.floor_lt.mpr h)
  · exact Int.ceil_le.mpr (le_of_lt h)

theorem ext_widen_refl (st : Score) : ext_widen st st :=
  ⟨rfl, fun _ v hv => ⟨v, hv, le_refl _, le_refl _⟩⟩

theorem ext_widen_trans (st0 st1 st2 : Score) (h1 : ext_widen st0 st1)
    (h2 : ext_widen st1 st2) : ext_widen st0 st2 := by
  refine ⟨h2.1.trans h1.1, ?_⟩
  intro q v hv
  obtain ⟨w, hw, a1, b1⟩ := h1.2 q v hv
  obtain ⟨w2, hw2, a2, b2⟩ := h2.2 q w hw
  exact ⟨w2, hw2, le_trans a1 a2, le_trans b2 b1⟩

/-- A state with the same symbols. -/
theorem ext_widen_syms (st st1 : Score) (h : st1.syms = st.syms) : ext_widen st st1 := by
  refine ⟨by rw [h], ?_⟩
  intro q v hv
  refine ⟨v, ?_, le_refl _, le_refl _⟩
  unfold Score.sym at hv ⊢
  rw [h]; exact hv

/-- A store that widens the extents of the symbol it writes. -/
theorem ext_widen_upd (st : Score) (p : Nat) (f : SYMBOL → SYMBOL)
    (hf : ∀ v, st.sym p = some v → v.ymx ≤ (f v).ymx ∧ (f v).ymn ≤ v.ymn) :
    ext_widen st (st.upd p f) := by
  refine ⟨upd_length st p f, ?_⟩
  intro q v hv
  rw [sym_upd]
  by_cases hpq : p = q
  · subst hpq
    rw [if_pos rfl, hv]
    exact ⟨f v, rfl, (hf v hv).1, (hf v hv).2⟩
  · rw [if_neg hpq]
    exact ⟨v, hv, le_refl _, le_refl _⟩

theorem y_set_widen (H : Hdr) (st : Score) (staff : Nat) (up : Bool) (x w y : ℚ) :
    ext_widen st (y_set H st staff up x w y) :=
  ext_widen_syms _ _ rfl

theorem slur_room_widen (H : Hdr) (k1 k2 upstaff : Nat) (s : Int) (a addy x2 : ℚ) :
    ∀ (fuel : Nat) (p : Option Nat) (x1 : ℚ) (st st1 : Score),
      slur_room H k1 k2 upstaff s a addy x2 fuel p x1 st = some st1 → ext_widen st st1 := by
  intro fuel
  induction fuel with
  | zero => intro p x1 st st1 h; simp [slur_room] at h
  | succ n ih =>
    intro p x1 st st1 h
    cases p with
    | none => simp [slur_room] at h
    | some k =>
      unfold slur_room at h
      by_cases hk : k = k2
      · rw [if_pos hk] at h
        rw [← Option.some.inj h]
        exact ext_widen_refl st
      · rw [if_neg hk] at h
        cases hv : st.sym k with
        | none => simp [hv] at h
        | some v =>
          simp only [hv] at h
          by_cases hs : v.staff ≠ upstaff
          · rw [if_pos hs] at h
            exact ih _ _ _ _ h
          · rw [if_neg hs] at h
            have hstep : ext_widen st
                (if (v.ymx : ℚ) < a * v.x + addy then
                  st.upd k (fun z => { z with ymx := ctrunc (a * v.x + addy) })
                else if (v.ymn : ℚ) > a * v.x + addy then
                  st.upd k (fun z => { z with ymn := ctrunc (a * v.x + addy) })
                else st) := by
              split_ifs with c1 c2
              · refine ext_widen_upd st k _ (fun u hu => ?_)
                rw [hv] at hu
                rw [← Option.some.inj hu]
                exact ⟨ctrunc_ge_of_lt _ _ c1, le_refl _⟩
              · refine ext_widen_upd st k _ (fun u hu => ?_)
                rw [hv] at hu
                rw [← Option.some.inj hu]
                exact ⟨le_refl _, ctrunc_le_of_gt _ _ c2⟩
              · exact ext_widen_refl st
            generalize (if (v.ymx : ℚ) < a * v.x + addy then
                  st.upd k (fun z => { z with ymx := ctrunc (a * v.x + addy) })
                else if (v.ymn : ℚ) > a * v.x + addy then
                  st.upd k (fun z => { z with ymn := ctrunc (a * v.x + addy) })
                else st) = sta at h hstep
            cases hn : v.next with
            | none => simp [hn] at h
            | some nx =>
              simp only [hn] at h
              cases h1 : sta.sym nx with
              | none => simp [h1] at h
              | some vn =>
                cases h2 : sta.sym k2 with
                | none => simp [h1, h2] at h
                | some v2 =>
                  simp only [h1, h2] at h
                  exact ext_widen_trans _ _ _ hstep
                    (ext_widen_trans _ _ _ (y_set_widen H sta upstaff _ _ _ _) (ih _ _ _ _ h))

/-- The writes of `draw_slur` to `ymx` and `ymn` only widen the extents. -/
theorem draw_slur_widen (H : Hdr) (st : Score) (k1 k2 : Nat) (m1 m2 : Int) (slur_type : Nat)
    (st1 : Score) (ret : Nat) (h : draw_slur H st k1 k2 m1 m2 slur_type = some (st1, ret)) :
    ext_widen st st1 := by
  unfold draw_slur at h
  cases h1 : st.sym k1 with
  | none => simp [h1] at h
  | some v1 =>
    cases h2 : st.sym k2 with
    | none => simp [h1, h2] at h
    | some v2 =>
      cases h3 : draw_slur_dir st k1 k2 slur_type with
      | none => simp [h1, h2, h3] at h
      | some s =>
        simp only [h1, h2, h3] at h
        generalize (if k1 ≠ k2 then slur_count st k2 st.fuel v1.next (1, v1.staff, false)
           else some (1, v1.staff, false)) = cnt at h
        cases cnt with
        | none => simp at h
        | some c =>
          obtain ⟨nn, upstaff, two_staves⟩ := c
          simp only at h
          have hst : ext_widen st
              (if two_staves = true then
                { st with out := st.out ++
                    [Prim.error 0 k1 "*** multi-staves slurs not treated yet"] }
              else st) := by
            split_ifs
            · exact ext_widen_syms _ _ rfl
            · exact ext_widen_refl st
          generalize (if two_staves = true then
                ({ st with out := st.out ++
                    [Prim.error 0 k1 "*** multi-staves slurs not treated yet"] } : Score)
              else st) = sta at h hst
          cases h4 : slur_ends H sta k1 k2 v1 v2 s nn with
          | none => simp [h4] at h
          | some e5 =>
            simp only [h4] at h
            generalize (if k1 ≠ k2 then
                 slur_clear sta k2 upstaff s ((e5.y2 - e5.y1) / (e5.x2 - e5.x1))
                   (e5.y1 - (e5.y2 - e5.y1) / (e5.x2 - e5.x1) * e5.x1) sta.fuel v1.next 0
               else some 0) = ho at h
            cases ho with
            | none => simp at h
            | some h0 =>
              simp only at h
              unfold slur_finish at h
              simp only at h
              generalize slur_call sta k1 k2 v1 v2 m1 m2 slur_type nn s upstaff e5 h0 = c at h
              cases h5 : slur_room H k1 k2 upstaff c.s ((c.y2 - c.y1) / (c.x2 - c.x1))
                  (c.y1 - (c.y2 - c.y1) / (c.x2 - c.x1) * c.x1 + 4 / 10 * c.height) c.x2
                  ({ sta with out := sta.out ++ [Prim.slur c] } : Score).fuel (some k1) c.x1
                  { sta with out := sta.out ++ [Prim.slur c] } with
              | none => simp [h5] at h
              | some st2 =>
                simp only [h5, Option.some.injEq, Prod.mk.injEq] at h
                rw [← h.1]
                exact ext_widen_trans _ _ _ hst
                  (ext_widen_trans sta { sta with out := sta.out ++ [Prim.slur c] } st2
                    (ext_widen_syms _ _ rfl)
                    (slur_room_widen _ _ _ _ _ _ _ _ _ _ _ _ _ h5))

theorem ext_widen_flag (st : Score) (p : Nat) (f : SYMBOL → SYMBOL)
    (hf : ∀ v, (f v).ymx = v.ymx ∧ (f v).ymn = v.ymn) : ext_widen st (st.upd p f) :=
  ext_widen_upd st p f (fun v _ => ⟨le_of_eq (hf v).1.symm, le_of_eq (hf v).2⟩)

theorem ext_widen_ite (st a b : Score) (c : Prop) [Decidable c]
    (ha : ext_widen st a) (hb : ext_widen st b) : ext_widen st (if c then a else b) := by
  split_ifs
  · exact ha
  · exact hb

theorem ext_widen_ymx (st : Score) (p : Nat) (v : SYMBOL) (y : ℚ) (hv : st.sym p = some v) :
    ext_widen st
      (if (v.ymx : ℚ) < y then st.upd p (fun z => { z with ymx := ctrunc y }) else st) := by
  split_ifs with c
  · refine ext_widen_upd st p _ (fun u hu => ?_)
    rw [hv] at hu
    rw [← Option.some.inj hu]
    exact ⟨ctrunc_ge_of_lt _ _ c, le_refl _⟩
  · exact ext_widen_refl st

theorem ext_widen_ymn (st : Score) (p : Nat) (v : SYMBOL) (y : ℚ) (hv : st.sym p = some v) :
    ext_widen st
      (if (v.ymn : ℚ) > y then st.upd p (fun z => { z with ymn := ctrunc y }) else st) := by
  split_ifs with c
  · refine ext_widen_upd st p _ (fun u hu => ?_)
    rw [hv] at hu
    rw [← Option.some.inj hu]
    exact ⟨le_refl _, ctrunc_le_of_gt _ _ c⟩
  · exact ext_widen_refl st

/-- The number of a tuplet without bracket: the write to the extent of the
symbol under the number only widens it. -/
theorem tuplet_number_widen (H : Hdr) (st : Score) (tv : SYMBOL) (s s1 s2 : Nat)
    (v1 v2 : SYMBOL) (st1 : Score) (h : tuplet_number H st tv s s1 s2 v1 v2 = some st1) :
    ext_widen st st1 := by
  unfold tuplet_number at h
  simp only at h
  cases hf : tuplet_find_x st ((v2.x + v1.x) * (1 / 2)) st.fuel (some s1) with
  | none => simp only [hf, reduceCtorEq] at h
  | some sy =>
    simp only [hf] at h
    generalize hsto : ({ st with out := st.out ++ _ } : Score) = sto at h
    have h0 : ext_widen st sto := by rw [← hsto]; exact ext_widen_syms _ _ rfl
    cases hy : sto.sym sy with
    | none => simp [hy] at h
    | some vy =>
      simp only [hy, Option.some.injEq] at h
      rw [← h]
      refine ext_widen_trans _ _ _ h0 (ext_widen_trans _ _ _ ?_ (ext_widen_flag _ _ _
        (fun v => ⟨rfl, rfl⟩)))
      refine ext_widen_ite _ _ _ _ ?_ ?_
      · exact ext_widen_trans _ _ _ (ext_widen_ymx sto sy vy _ hy) (y_set_widen _ _ _ _ _ _ _)
      · exact ext_widen_trans _ _ _ (ext_widen_ymn sto sy vy _ hy) (y_set_widen _ _ _ _ _ _ _)

theorem tuplet_room_up_widen (H : Hdr) (upstaff s2 : Nat) (xm ym a : ℚ) :
    ∀ (fuel : Nat) (p : Option Nat) (st st1 : Score),
      tuplet_room_up H upstaff s2 xm ym a fuel p st = some st1 → ext_widen st st1 := by
  intro fuel
  induction fuel with
  | zero => intro p st st1 h; simp [tuplet_room_up] at h
  | succ n ih =>
    intro p st st1 h
    cases p with
    | none => simp [tuplet_room_up] at h
    | some sy =>
      unfold tuplet_room_up at h
      cases hv : st.sym sy with
      | none => simp [hv] at h
      | some v =>
        simp only [hv] at h
        by_cases hs : v.staff = upstaff
        · rw [if_pos hs] at h
          have hstep := ext_widen_ymx st sy v (ym + (v.x - xm) * a) hv
          generalize (if (v.ymx : ℚ) < ym + (v.x - xm) * a then
              st.upd sy (fun z => { z with ymx := ctrunc (ym + (v.x - xm) * a) })
            else st) = sta at h hstep
          by_cases he : sy = s2
          · rw [if_pos he] at h
            rw [← Option.some.inj h]
            exact hstep
          · rw [if_neg he] at h
            cases hn : v.next.bind sta.sym with
            | none => simp [hn] at h
            | some nv =>
              simp only [hn] at h
              exact ext_widen_trans _ _ _ hstep
                (ext_widen_trans _ _ _ (y_set_widen H sta upstaff _ _ _ _) (ih _ _ _ h))
        · rw [if_neg hs] at h
          by_cases he : sy = s2
          · rw [if_pos he] at h
            rw [← Option.some.inj h]
            exact ext_widen_refl st
          · rw [if_neg he] at h
            exact ih _ _ _ h

theorem tuplet_room_down_widen (H : Hdr) (upstaff s2 : Nat) (xm ym a : ℚ) :
    ∀ (fuel : Nat) (p : Option Nat) (st st1 : Score),
      tuplet_room_down H upstaff s2 xm ym a fuel p st = some st1 → ext_widen st st1 := by
  intro fuel
  induction fuel with
  | zero => intro p st st1 h; simp [tuplet_room_down] at h
  | succ n ih =>
    intro p st st1 h
    cases p with
    | none => simp [tuplet_room_down] at h
    | some sy =>
      unfold tuplet_room_down at h
      cases hv : st.sym sy with
      | none => simp [hv] at h
      | some v =>
        simp only [hv] at h
        by_cases hs : v.staff = upstaff
        · rw [if_pos hs] at h
          by_cases he : sy = s2
          · rw [if_pos he] at h
            rw [← Option.some.inj h]
            exact ext_widen_refl st
          · rw [if_neg he] at h
            have hstep := ext_widen_ymn st sy v (ym + (v.x - xm) * a) hv
            generalize (if (v.ymn : ℚ) > ym + (v.x - xm) * a then
                st.upd sy (fun z => { z with ymn := ctrunc (ym + (v.x - xm) * a) })
              else st) = sta at h hstep
            cases hn : v.next.bind sta.sym with
            | none => simp [hn] at h
            | some nv =>
              simp only [hn] at h
              exact ext_widen_trans _ _ _ hstep
                (ext_widen_trans _ _ _ (y_set_widen H sta upstaff _ _ _ _) (ih _ _ _ h))
        · rw [if_neg hs] at h
          by_cases he : sy = s2
          · rw [if_pos he] at h
            rw [← Option.some.inj h]
            exact ext_widen_refl st
          · rw [if_neg he] at h
            exact ih _ _ _ h

/-- The bracket of a tuplet: the writes of the loops "shift the slurs /
decorations" only widen the extents. -/
theorem tuplet_bracket_widen (H : Hdr) (st : Score) (tv : SYMBOL) (s s1 s2 upstaff : Nat)
    (v1 v2 : SYMBOL) (st1 : Score)
    (h : tuplet_bracket H st tv s s1 s2 upstaff v1 v2 = some st1) : ext_widen st st1 := by
  unfold tuplet_bracket at h
  simp only at h
  generalize (if v1.staff = upstaff then
      (tuplet_end_sym st (fun z => z.next) s1 s2).map _
    else some (if decide (v1.multi ≥ 0) = true then (24 : ℚ) else 0)) = y1o at h
  generalize (if v2.staff = upstaff then
      (tuplet_end_sym st (fun z => z.prev) s2 s1).map _
    else some (if decide (v1.multi ≥ 0) = true then (24 : ℚ) else 0)) = y2o at h
  cases y1o with
  | none => simp at h
  | some y1 =>
    cases y2o with
    | none => simp at h
    | some y2 =>
      cases hx2 : tuplet_x2 st (decide (v1.multi ≥ 0)) upstaff v2 with
      | none => simp [hx2] at h
      | some x2 =>
        simp only [hx2] at h
        generalize htsh : tuplet_shift H st _ upstaff s2 _ _ _ st.fuel (some s1) 0 = dyo at h
        cases dyo with
        | none => simp at h
        | some dy =>
          simp only at h
          generalize hsto : ({ st with out := st.out ++ _ } : Score) = sto at h
          have h0 : ext_widen st sto := by rw [← hsto]; exact ext_widen_syms _ _ rfl
          generalize hro : (if decide (v1.multi ≥ 0) = true then
              tuplet_room_up H upstaff s2 _ _ _ sto.fuel (some s1) sto
            else tuplet_room_down H upstaff s2 _ _ _ sto.fuel (some s1) sto) = ro at h
          cases ro with
          | none => simp at h
          | some st2 =>
            have h1 : ext_widen sto st2 := by
              split_ifs at hro <;>
                first
                | exact tuplet_room_up_widen _ _ _ _ _ _ _ _ _ _ hro
                | exact tuplet_room_down_widen _ _ _ _ _ _ _ _ _ _ hro
            simp only at h
            split_ifs at h
            all_goals
              rw [← Option.some.inj h]
              exact ext_widen_trans _ _ _ h0 (ext_widen_trans _ _ _ h1
                (ext_widen_trans _ _ _ (ext_widen_syms st2 _ rfl)
                  (ext_widen_flag _ _ _ (fun v => ⟨rfl, rfl⟩))))

theorem tuplet_chain_widen (call : TupletCall) (s : Nat)
    (hcall : ∀ st t s st1 n, call st t s = some (st1, n) → ext_widen st st1) :
    ∀ (fuel : Nat) (g : Option Nat) (st : Score) (next : Nat) (st1 : Score) (n1 : Nat),
      tuplet_chain call s fuel g st next = some (st1, n1) → ext_widen st st1 := by
  intro fuel
  induction fuel with
  | zero => intro g st next st1 n1 h; simp [tuplet_chain] at h
  | succ n ih =>
    intro g st next st1 n1 h
    cases g with
    | none =>
      simp only [tuplet_chain, Option.some.injEq, Prod.mk.injEq] at h
      rw [← h.1]
      exact ext_widen_refl st
    | some g =>
      unfold tuplet_chain at h
      cases hg : st.sym g with
      | none => simp [hg] at h
      | some gv =>
        simp only [hg] at h
        by_cases ht : gv.type = SymType.TUPLET
        · rw [if_pos ht] at h
          cases hc : call st g s with
          | none => simp [hc] at h
          | some r =>
            obtain ⟨sta, sy⟩ := r
            simp only [hc] at h
            cases hl : later_sym sta sy next with
            | none => simp [hl] at h
            | some next1 =>
              cases hgn : (sta.sym g).map (fun z => z.next) with
              | none => simp [hl, hgn] at h
              | some gn =>
                simp only [hl, hgn] at h
                exact ext_widen_trans _ _ _ (hcall _ _ _ _ _ hc) (ih _ _ _ _ _ h)
        · rw [if_neg ht] at h
          exact ih _ _ _ _ _ h

theorem tuplet_members_widen (call : TupletCall) (s : Nat)
    (hcall : ∀ st t s st1 n, call st t s = some (st1, n) → ext_widen st st1) :
    ∀ (fuel : Nat) (p : Option Nat) (st : Score) (c : TupletScan) (st1 : Score)
      (r : Option Nat) (c1 : TupletScan),
      tuplet_members call s fuel p st c = some (st1, r, c1) → ext_widen st st1 := by
  intro fuel
  induction fuel with
  | zero => intro p st c st1 r c1 h; simp [tuplet_members] at h
  | succ n ih =>
    intro p st c st1 r c1 h
    cases p with
    | none =>
      simp only [tuplet_members, Option.some.injEq, Prod.mk.injEq] at h
      rw [← h.1]
      exact ext_widen_refl st
    | some s2 =>
      unfold tuplet_members at h
      cases h0 : st.sym s2 with
      | none => simp [h0] at h
      | some v0 =>
        simp only [h0] at h
        generalize hch : (if s2 ≠ s then tuplet_chain call s2 st.fuel v0.extra st c.next
             else some (st, c.next)) = cho at h
        cases cho with
        | none => simp at h
        | some r0 =>
          obtain ⟨sta, next⟩ := r0
          have hsta : ext_widen st sta := by
            split_ifs at hch
            · exact tuplet_chain_widen call s2 hcall _ _ _ _ _ _ hch
            · simp only [Option.some.injEq, Prod.mk.injEq] at hch
              rw [← hch.1]
              exact ext_widen_refl st
          simp only at h
          cases hv : sta.sym s2 with
          | none => simp [hv] at h
          | some v =>
            simp only [hv] at h
            by_cases hnr : v.type ≠ SymType.NOTEREST
            · rw [if_pos hnr] at h
              by_cases hgr : v.type = SymType.GRACE
              · rw [if_pos hgr] at h
                cases hgs : grace_has_slur sta sta.fuel v.extra c.some_slur with
                | none => simp [hgs] at h
                | some b =>
                  simp only [hgs] at h
                  exact ext_widen_trans _ _ _ hsta (ih _ _ _ _ _ _ h)
              · rw [if_neg hgr] at h
                exact ext_widen_trans _ _ _ hsta (ih _ _ _ _ _ _ h)
            · rw [if_neg hnr] at h
              split_ifs at h
              all_goals
                first
                | (simp only [Option.some.injEq, Prod.mk.injEq] at h
                   rw [← h.1]
                   exact hsta)
                | exact ext_widen_trans _ _ _ hsta (ih _ _ _ _ _ _ h)

/-- The body of `draw_tuplet`: with nested calls and a `draw_slurs` that only
widen the extents, it only widens them. -/
theorem draw_tuplet_body_widen (H : Hdr) (slurs : Score → Nat → Nat → Option Score)
    (call : TupletCall)
    (hsl : ∀ st a b st1, slurs st a b = some st1 → ext_widen st st1)
    (hcall : ∀ st t s st1 n, call st t s = some (st1, n) → ext_widen st st1)
    (st : Score) (t s : Nat) (st1 : Score) (n : Nat)
    (h : draw_tuplet_body H slurs call st t s = some (st1, n)) : ext_widen st st1 := by
  unfold draw_tuplet_body at h
  cases ht : st.sym t with
  | none => simp [ht] at h
  | some tv =>
    cases hs : st.sym s with
    | none => simp [ht, hs] at h
    | some sv =>
      simp only [ht, hs] at h
      by_cases hu : tv.u &&& 0x0f00 = 0x100
      · rw [if_pos hu] at h
        simp only [Option.some.injEq, Prod.mk.injEq] at h
        rw [← h.1]
        exact ext_widen_refl st
      · rw [if_neg hu] at h
        cases hc : tuplet_chain call s st.fuel tv.next st s with
        | none => simp [hc] at h
        | some r =>
          obtain ⟨sta, next⟩ := r
          have ha := tuplet_chain_widen call s hcall _ _ _ _ _ _ hc
          simp only [hc] at h
          cases hm : tuplet_members call s sta.fuel (some s) sta
              { r := tv.r_plet, upstaff := sv.staff, next := next } with
          | none => simp [hm] at h
          | some r =>
            obtain ⟨stb, s2o, c⟩ := r
            have hb := ext_widen_trans _ _ _ ha
              (tuplet_members_widen call s hcall _ _ _ _ _ _ _ hm)
            simp only [hm] at h
            cases s2o with
            | none =>
              simp only [Option.some.injEq, Prod.mk.injEq] at h
              rw [← h.1]
              exact hb
            | some s2 =>
              simp only at h
              cases hl : later_sym stb s2 c.next with
              | none => simp [hl] at h
              | some next1 =>
                cases hs1 : c.s1 with
                | none => simp [hl, hs1] at h
                | some s1 =>
                  simp only [hl, hs1] at h
                  cases hv1 : stb.sym s1 with
                  | none => simp [hv1] at h
                  | some v1 =>
                    cases hv2 : stb.sym s2 with
                    | none => simp [hv1, hv2] at h
                    | some v2 =>
                      simp only [hv1, hv2] at h
                      generalize hr : (if s1 = s2 then some (stb, true)
                        else if tv.u &&& 0x0f0 = 0x10 then
                          (draw_slur H stb s1 s2 (-1) (-1)
                            (if v1.stem > 0 then SL_ABOVE else SL_BELOW)).map
                              (fun r => (r.1, true))
                        else (tuplet_nb_only stb tv v1 v2 s1 s2).map (fun b => (stb, b)))
                        = ro at h
                      cases ro with
                      | none => simp at h
                      | some r =>
                        obtain ⟨stc, nb_only⟩ := r
                        have hcw : ext_widen stb stc := by
                          by_cases h12 : s1 = s2
                          · rw [if_pos h12] at hr
                            simp only [Option.some.injEq, Prod.mk.injEq] at hr
                            rw [← hr.1]; exact ext_widen_refl _
                          rw [if_neg h12] at hr
                          by_cases hwhat : tv.u &&& 0x0f0 = 0x10
                          · rw [if_pos hwhat] at hr
                            cases hd : draw_slur H stb s1 s2 (-1) (-1)
                                (if v1.stem > 0 then SL_ABOVE else SL_BELOW) with
                            | none => rw [hd] at hr; simp at hr
                            | some rd =>
                              rw [hd] at hr
                              simp only [Option.map_some', Option.some.injEq,
                                Prod.mk.injEq] at hr
                              rw [← hr.1]
                              exact draw_slur_widen H stb s1 s2 (-1) (-1) _ rd.1 rd.2 hd
                          · rw [if_neg hwhat] at hr
                            cases hd : tuplet_nb_only stb tv v1 v2 s1 s2 with
                            | none => rw [hd] at hr; simp at hr
                            | some rd =>
                              rw [hd] at hr
                              simp only [Option.map_some', Option.some.injEq,
                                Prod.mk.injEq] at hr
                              rw [← hr.1]; exact ext_widen_refl _
                        have hc2 := ext_widen_trans _ _ _ hb hcw
                        simp only at h
                        cases nb_only with
                        | true =>
                          rw [if_pos rfl] at h
                          by_cases hu1 : tv.u &&& 0x0f = 1
                          · rw [if_pos hu1] at h
                            simp only [Option.some.injEq, Prod.mk.injEq] at h
                            rw [← h.1]; exact hc2
                          · rw [if_neg hu1] at h
                            cases hw1 : stc.sym s1 with
                            | none => simp [hw1] at h
                            | some w1 =>
                              cases hw2 : stc.sym s2 with
                              | none => simp [hw1, hw2] at h
                              | some w2 =>
                                simp only [hw1, hw2] at h
                                cases hn : tuplet_number H stc tv s s1 s2 w1 w2 with
                                | none => rw [hn] at h; simp at h
                                | some std =>
                                  rw [hn] at h
                                  simp only [Option.map_some', Option.some.injEq,
                                    Prod.mk.injEq] at h
                                  rw [← h.1]
                                  exact ext_widen_trans _ _ _ hc2
                                    (tuplet_number_widen _ _ _ _ _ _ _ _ _ hn)
                        | false =>
                          rw [if_neg Bool.false_ne_true] at h
                          generalize hso : (if c.some_slur = true then _ else some (stc, false))
                            = so at h
                          cases so with
                          | none => simp at h
                          | some r =>
                            obtain ⟨std, fl⟩ := r
                            have hdw : ext_widen stc std := by
                              by_cases hss : c.some_slur = true
                              swap
                              · rw [if_neg hss] at hso
                                simp only [Option.some.injEq, Prod.mk.injEq] at hso
                                rw [← hso.1]; exact ext_widen_refl _
                              rw [if_pos hss] at hso
                              · cases hsl1 : slurs stc s1 s2 with
                                | none => simp [hsl1] at hso
                                | some ste =>
                                  have he := hsl _ _ _ _ hsl1
                                  simp only [hsl1] at hso
                                  cases hw1 : ste.sym s1 with
                                  | none => simp [hw1] at hso
                                  | some w1 =>
                                    cases hw2 : ste.sym s2 with
                                    | none => simp [hw1, hw2] at hso
                                    | some w2 =>
                                      simp only [hw1, hw2] at hso
                                      split_ifs at hso
                                      · simp only [Option.some.injEq, Prod.mk.injEq] at hso
                                        rw [← hso.1]; exact he
                                      · cases hleft : tuplet_slur_left ste s2 ste.fuel w1.next with
                                        | none => simp [hleft] at hso
                                        | some bl =>
                                          cases bl <;>
                                            (simp only [hleft, Option.some.injEq,
                                               Prod.mk.injEq] at hso
                                             rw [← hso.1]; exact he)
                            have hd2 := ext_widen_trans _ _ _ hc2 hdw
                            cases fl with
                            | true =>
                              simp only [Option.some.injEq, Prod.mk.injEq] at h
                              rw [← h.1]; exact hd2
                            | false =>
                              simp only at h
                              have hfin : ∀ ste : Score, ext_widen std ste →
                                  (match ste.sym s1, ste.sym s2 with
                                    | some v1, some v2 =>
                                      (tuplet_bracket H ste tv s s1 s2 c.upstaff v1 v2).map
                                        (fun st => (st, next1))
                                    | _, _ => none) = some (st1, n) →
                                  ext_widen st st1 := by
                                intro ste hew h
                                cases hw1 : ste.sym s1 with
                                | none => simp [hw1] at h
                                | some w1 =>
                                  cases hw2 : ste.sym s2 with
                                  | none => simp [hw1, hw2] at h
                                  | some w2 =>
                                    simp only [hw1, hw2] at h
                                    cases hbr : tuplet_bracket H ste tv s s1 s2 c.upstaff w1 w2 with
                                    | none => rw [hbr] at h; simp at h
                                    | some stf =>
                                      rw [hbr] at h
                                      simp only [Option.map_some', Option.some.injEq,
                                        Prod.mk.injEq] at h
                                      rw [← h.1]
                                      exact ext_widen_trans _ _ _ hd2
                                        (ext_widen_trans _ _ _ hew
                                          (tuplet_bracket_widen _ _ _ _ _ _ _ _ _ _ hbr))
                              by_cases hz : tv.u &&& 0x0f0 = 0
                              · first
                                  | rw [if_pos hz] at h
                                  | rw [if_neg (not_not.mpr hz)] at h
                                exact hfin _ (ext_widen_refl _) h
                              · first
                                  | rw [if_neg hz] at h
                                  | rw [if_pos hz] at h
                                exact hfin
                                  { std with out := std.out ++
                                      [Prim.error 0 t "'what' value of %%tuplets not yet coded"] }
                                  (ext_widen_syms _ _ rfl) h

theorem draw_tuplet_depth_widen (H : Hdr) (slurs : Score → Nat → Nat → Option Score)
    (hsl : ∀ st a b st1, slurs st a b = some st1 → ext_widen st st1) :
    ∀ (d : Nat) (st : Score) (t s : Nat) (st1 : Score) (n : Nat),
      draw_tuplet_depth H slurs d st t s = some (st1, n) → ext_widen st st1 := by
  intro d
  induction d with
  | zero => intro st t s st1 n h; simp [draw_tuplet_depth] at h
  | succ d ih =>
    intro st t s st1 n h
    exact draw_tuplet_body_widen H slurs (draw_tuplet_depth H slurs d) hsl ih st t s st1 n h

/-- C18 (as amended): the writes of `draw_slur` and of `draw_tuplet` (number
and bracket placement, nested tuplets included, `draw_slurs` being given as a
function that only widens the extents) to the recorded vertical extents only
widen them: every symbol has after the call a `ymx` not lower and a `ymn` not
higher than before. -/
theorem extent_writes_widen (H : Hdr) (slurs : Score → Nat → Nat → Option Score)
    (st st1 : Score)
    (hsl : ∀ sa a b sb, slurs sa a b = some sb → ext_widen sa sb) :
    (∀ k1 k2 m1 m2 slur_type ret,
      draw_slur H st k1 k2 m1 m2 slur_type = some (st1, ret) →
      ∀ q v, st.sym q = some v → ∃ w, st1.sym q = some w ∧ v.ymx ≤ w.ymx ∧ w.ymn ≤ v.ymn)
    ∧ (∀ t s next,
      draw_tuplet H slurs st t s = some (st1, next) →
      ∀ q v, st.sym q = some v → ∃ w, st1.sym q = some w ∧ v.ymx ≤ w.ymx ∧ w.ymn ≤ v.ymn) := by
  refine ⟨?_, ?_⟩
  · intro k1 k2 m1 m2 slur_type ret h
    exact (draw_slur_widen H st k1 k2 m1 m2 slur_type st1 ret h).2
  · intro t s next h
    exact (draw_tuplet_depth_widen H slurs hsl _ st t s st1 next h).2

theorem extent_writes_widen_witness :
    (draw_slur stdHdr slurScore 0 1 (-1) (-1) SL_ABOVE).map
        (fun r => r.1.syms.map (fun v => (v.ymx, v.ymn))) = some [(26, -20), (63, 40)]
    ∧ slurScore.syms.map (fun v => (v.ymx, v.ymn)) = [(3, -20), (63, 40)]
    ∧ (∃ st1 ret, draw_slur stdHdr slurScore 0 1 (-1) (-1) SL_ABOVE = some (st1, ret)
        ∧ ∀ q v, slurScore.sym q = some v →
            ∃ w, st1.sym q = some w ∧ v.ymx ≤ w.ymx ∧ w.ymn ≤ v.ymn)
    ∧ (∃ st1 next, draw_tuplet stdHdr (fun _ _ _ => none) tupScore 3 0 = some (st1, next)
        ∧ ∀ q v, tupScore.sym q = some v →
            ∃ w, st1.sym q = some w ∧ v.ymx ≤ w.ymx ∧ w.ymn ≤ v.ymn) := by
  refine ⟨by decide!, by decide!, ?_, ?_⟩
  · have hsome : (draw_slur stdHdr slurScore 0 1 (-1) (-1) SL_ABOVE).isSome = true := by decide!
    cases hc : draw_slur stdHdr slurScore 0 1 (-1) (-1) SL_ABOVE with
    | none => rw [hc] at hsome; cases hsome
    | some r =>
      exact ⟨r.1, r.2, rfl,
        (extent_writes_widen stdHdr (fun _ _ _ => none) slurScore r.1
          (fun _ _ _ _ h => by cases h)).1 0 1 (-1) (-1) SL_ABOVE r.2 hc⟩
  · have hsome : (draw_tuplet stdHdr (fun _ _ _ => none) tupScore 3 0).isSome = true := by
      decide!
    cases hc : draw_tuplet stdHdr (fun _ _ _ => none) tupScore 3 0 with
    | none => rw [hc] at hsome; cases hsome
    | some r =>
      exact ⟨r.1, r.2, rfl,
        (extent_writes_widen stdHdr (fun _ _ _ => none) tupScore r.1
          (fun _ _ _ _ h => by cases h)).2 3 0 r.2 hc⟩

/-- C18 (counterexample): `calculate_beam` run with the staves defined stores
`ymx = ys + 2.5` and `ymn = ys - 2.5` without a test.  On the beam across two
staves of `crossScore` the second note has `ymx` 34 before the call and 33
after it; on the grace notes of `graceScore` the note with its stem down has
`ymn` 36 after a first call and 38 after a second one. -/
theorem calculate_beam_rerun_shrinks :
    (crossScore.staffOf 0).y ≠ 0 ∧ (crossScore.staffOf 1).y ≠ 0
    ∧ crossScore.syms.map (fun v => v.ymx) = [34, 34, 24]
    ∧ (calculate_beam stdHdr crossScore {} 0).map (fun r => r.1.syms.map (fun v => v.ymx))
        = some [117, 33, 24]
    ∧ (calculate_beam stdHdr graceScore {} 1).map (fun r => r.1.syms.map (fun v => v.ymn))
        = some [0, 6, 36, 12, 15]
    ∧ ((calculate_beam stdHdr graceScore {} 1).bind
          (fun r => calculate_beam stdHdr r.1 r.2.1 1)).map
            (fun r => r.1.syms.map (fun v => v.ymn))
        = some [0, 6, 38, 12, 15] := by
  decide!

/-! ## Boundary duplicates after `draw_beams` -/

/-- C11 (failing case): when both ends of the beam are duplicates, the last
statement of `draw_beams` hands the first one to `unlksym` and never the second
one (`else if`).  On `bothScore`, `calculate_beam` makes the duplicate 3 before
the first note and the duplicate 4 after the last one; after `draw_beams` the
duplicate 4, flagged `S_TEMP`, is still the last symbol of the voice chain and
of the time-ordered list.  With one duplicate only (`prevScore`, `nextScore`)
none is left. -/
theorem draw_beams_leaves_duplicate :
    (∀ (unlk : Score → Nat → Score) (st : Score) (bm : BEAM) (v1 v2 : SYMBOL),
      st.sym bm.s1 = some v1 → st.sym bm.s2 = some v2 → v1.sflags.S_TEMP = true →
      draw_beams_unlink unlk st bm = some (unlk st bm.s1))
    ∧ (calculate_beam stdHdr bothScore {} 1).map (fun r => (r.2.1.s1, r.2.1.s2, r.2.2))
        = some (3, 4, 1)
    ∧ (calculate_beam stdHdr bothScore {} 1).map
        (fun r => (voice_chain r.1 r.1.fuel (some 0), ts_chain r.1 r.1.fuel (some 0)))
        = some (some [0, 3, 1, 2, 4], some [0, 3, 1, 2, 4])
    ∧ (calculate_beam stdHdr bothScore {} 1).map
        (fun r => r.1.syms.map (fun v => v.sflags.S_TEMP))
        = some [false, false, false, true, true]
    ∧ ((calculate_beam stdHdr bothScore {} 1).bind
          (fun r => draw_beams_unlink unlksym r.1 r.2.1)).map
        (fun st => (voice_chain st st.fuel (some 0), ts_chain st st.fuel (some 0)))
        = some (some [0, 1, 2, 4], some [0, 1, 2, 4])
    ∧ ((calculate_beam stdHdr prevScore {} 1).bind
          (fun r => draw_beams_unlink unlksym r.1 r.2.1)).map
        (fun st => (voice_chain st st.fuel (some 0), ts_chain st st.fuel (some 0)))
        = some (some [0, 1, 2], some [0, 1, 2])
    ∧ ((calculate_beam stdHdr nextScore {} 1).bind
          (fun r => draw_beams_unlink unlksym r.1 r.2.1)).map
        (fun st => (voice_chain st st.fuel (some 0), ts_chain st st.fuel (some 0)))
        = some (some [0, 1, 2], some [0, 1, 2, 3]) := by
  refine ⟨?_, by decide!, by decide!, by decide!, by decide!, by decide!, by decide!⟩
  intro unlk st bm v1 v2 h1 h2 ht
  unfold draw_beams_unlink
  simp only [h1, h2, ht, if_true]

set_option maxRecDepth 100000 in
theorem cw_tb_length : cw_tb.length = 256 := by
  decide

theorem cwid_index_eq (c : Nat) : cwid_index c = if c > 256 then 97 else c := by
  unfold cwid_index
  rw [cw_tb_length]

theorem cwid_index_lt_of_ne (c : Nat) (h : c ≠ 256) : cwid_index c < cw_tb.length := by
  rw [cwid_index_eq, cw_tb_length]
  split_ifs with h1
  · decide
  · omega

set_option maxRecDepth 100000 in
theorem cw_tb_letter_a : cw_tb[97]? = some 444 := by
  decide

/-- C30: the table `cw_tb` has 256 entries, and for the character U+0100
(UTF-8 bytes 0xC4 0x80) `tex_str` passes the code 256 to `cwid`, which keeps
256 as the index and reads past the last entry; every other code is read
inside the table. -/
theorem cwid_reads_past_table :
    cw_tb.length = 256 ∧ tex_unicode 0xC4 0x80 = 256 ∧ cwid_index 256 = 256 ∧
    ¬ cwid_index 256 < cw_tb.length ∧ cwid 256 = none ∧
    (∀ c : Nat, c ≠ 256 → cwid_index c < cw_tb.length) ∧
    cwid 97 = some (444 / 1000) ∧ cwid 257 = cwid 97 := by
  have h256 : cwid_index 256 = 256 := by rw [cwid_index_eq]; rfl
  have h97 : cwid_index 97 = 97 := by rw [cwid_index_eq]; rfl
  have h257 : cwid_index 257 = 97 := by rw [cwid_index_eq]; rfl
  refine ⟨cw_tb_length, by decide, h256, ?_, ?_, cwid_index_lt_of_ne, ?_, ?_⟩
  · rw [h256, cw_tb_length]; decide
  · unfold cwid
    rw [h256]
    have : cw_tb[256]? = none := List.getElem?_eq_none (by rw [cw_tb_length])
    rw [this]; rfl
  · unfold cwid
    rw [h97]
    rw [cw_tb_letter_a]
    simp
  · unfold cwid
    rw [h257, h97]

theorem rnd6_multiple (y : ℚ) :
    y + rnd6 y = 6 * ((Int.tdiv (ctrunc (y + 2999 / 1000) + 12) 6 - 2 : Int) : ℚ) := by
  unfold rnd6
  push_cast
  ring

theorem rnd6_range (y : ℚ) (hy : -2999 / 1000 ≤ y) :
    -3001 / 1000 < rnd6 y ∧ rnd6 y ≤ 2999 / 1000 := by
  have ht : 0 ≤ y + 2999 / 1000 := by linarith
  have hc : ctrunc (y + 2999 / 1000) = ⌊y + 2999 / 1000⌋ := by
    unfold ctrunc
    rw [if_pos ht]
  have hf0 : 0 ≤ ⌊y + 2999 / 1000⌋ := Int.floor_nonneg.mpr ht
  have hdiv : Int.tdiv (⌊y + 2999 / 1000⌋ + 12) 6 = (⌊y + 2999 / 1000⌋ + 12) / 6 :=
    Int.tdiv_eq_ediv (by omega) (by decide)
  have h1 : (⌊y + 2999 / 1000⌋ + 12) / 6 * 6 - 12 ≤ ⌊y + 2999 / 1000⌋ := by omega
  have h2 : ⌊y + 2999 / 1000⌋ + 1 ≤ (⌊y + 2999 / 1000⌋ + 12) / 6 * 6 - 12 + 6 := by omega
  have h3 : ((⌊y + 2999 / 1000⌋ : Int) : ℚ) ≤ y + 2999 / 1000 := Int.floor_le _
  have h4 : y + 2999 / 1000 < ((⌊y + 2999 / 1000⌋ : Int) : ℚ) + 1 := Int.lt_floor_add_one _
  have h1q : (((⌊y + 2999 / 1000⌋ + 12) / 6 * 6 - 12 : Int) : ℚ)
      ≤ ((⌊y + 2999 / 1000⌋ : Int) : ℚ) := by exact_mod_cast h1
  have h2q : ((⌊y + 2999 / 1000⌋ : Int) : ℚ) + 1
      ≤ (((⌊y + 2999 / 1000⌋ + 12) / 6 * 6 - 12 : Int) : ℚ) + 6 := by exact_mod_cast h2
  unfold rnd6
  simp only [hc, hdiv]
  constructor
  · linarith
  · linarith

theorem abs_pick_le (d1 d2 : ℚ) : |(if d1 * d1 > d2 * d2 then d2 else d1)| ≤ |d1| := by
  split_ifs with h
  · exact abs_le_iff_mul_self_le.mpr (le_of_lt h)
  · exact le_refl _

theorem b_pos_up (H : Hdr) (grace : Bool) (stem flags : Int) (b : ℚ) (hs : stem > 0) :
    b_pos H grace stem flags b = 0 ∨
    |b_pos H grace stem flags b| ≤ |rnd6 (b - H.BEAM_OFFSET)| := by
  unfold b_pos
  rw [if_pos hs]
  dsimp only
  by_cases h1 : b - (flags - 1) * (if ¬ grace then H.BEAM_SHIFT else 3)
      - (if ¬ grace then H.BEAM_DEPTH else 17 / 10) > 26
  · left
    rw [if_pos h1]
  · right
    rw [if_neg h1]
    exact abs_pick_le _ _

theorem b_pos_down (H : Hdr) (grace : Bool) (stem flags : Int) (b : ℚ) (hs : ¬ stem > 0) :
    b_pos H grace stem flags b = 0 ∨
    (¬ b + (flags - 1) * (if ¬ grace then H.BEAM_SHIFT else 3)
          + (if ¬ grace then H.BEAM_DEPTH else 17 / 10) < -2 ∧
      |b_pos H grace stem flags b|
        ≤ |rnd6 (b + (flags - 1) * (if ¬ grace then H.BEAM_SHIFT else 3)
            + (if ¬ grace then H.BEAM_DEPTH else 17 / 10) - H.BEAM_OFFSET)|) := by
  unfold b_pos
  rw [if_neg hs]
  dsimp only
  by_cases h1 : b + (flags - 1) * (if ¬ grace then H.BEAM_SHIFT else 3)
      + (if ¬ grace then H.BEAM_DEPTH else 17 / 10) < -2
  · left
    rw [if_pos h1]
  · right
    rw [if_neg h1]
    exact ⟨h1, abs_pick_le _ _⟩

/-- C26 (amended): for every `y` not below -2.999 the sum `y + rnd6 y` is an
integer multiple of 6 and `-3.001 < rnd6 y ≤ 2.999`; the shift of `b_pos`
(standard constants) is below 3.001 in magnitude for every beam with the
stems down, and for a beam with the stems up whose ordinate is not below
-2.749. -/
theorem rnd6_shift_bound (y b : ℚ) (grace : Bool) (stem flags : Int)
    (hy : -2999 / 1000 ≤ y) (hb : stem > 0 → -2749 / 1000 ≤ b) :
    (∃ k : Int, y + rnd6 y = 6 * (k : ℚ)) ∧
    -3001 / 1000 < rnd6 y ∧ rnd6 y ≤ 2999 / 1000 ∧
    |b_pos stdHdr grace stem flags b| < 3001 / 1000 := by
  refine ⟨⟨_, rnd6_multiple y⟩, (rnd6_range y hy).1, (rnd6_range y hy).2, ?_⟩
  have hbound : ∀ u : ℚ, -2999 / 1000 ≤ u → |rnd6 u| < 3001 / 1000 := by
    intro u hu
    have h := rnd6_range u hu
    rw [abs_lt]
    constructor
    · linarith [h.1]
    · linarith [h.2]
  have hoff : stdHdr.BEAM_OFFSET = 1 / 4 := rfl
  by_cases hs : stem > 0
  · rcases b_pos_up stdHdr grace stem flags b hs with h0 | h1
    · rw [h0]; norm_num
    · refine lt_of_le_of_lt h1 (hbound _ ?_)
      rw [hoff]
      linarith [hb hs]
  · rcases b_pos_down stdHdr grace stem flags b hs with h0 | ⟨h1, h2⟩
    · rw [h0]; norm_num
    · refine lt_of_le_of_lt h2 (hbound _ ?_)
      rw [hoff]
      linarith [not_lt.mp h1]

theorem rnd6_shift_bound_witness :
    (∃ k : Int, (30005 / 10000 : ℚ) + rnd6 (30005 / 10000) = 6 * (k : ℚ)) ∧
    -3001 / 1000 < rnd6 (30005 / 10000) ∧ rnd6 (30005 / 10000) ≤ 2999 / 1000 ∧
    |b_pos stdHdr false 1 1 10| < 3001 / 1000 :=
  rnd6_shift_bound (30005 / 10000) 10 false 1 1 (by norm_num) (fun _ => by norm_num)

/-- C26 (counterexample): `rnd6 (-20) = 8`, `rnd6 (-3.5) = 3.5` and
`rnd6 3.0005 = -3.0005`, all above 3 in magnitude, and none leads to the
multiple of 6 nearest to the argument (-18, -6 and 6); the shift of `b_pos`
for a beam of one flag with the stems up at ordinate -20 is 4.95. -/
theorem rnd6_far_from_nearest :
    rnd6 (-20) = 8 ∧ rnd6 (-7 / 2) = 7 / 2 ∧
    rnd6 (30005 / 10000) = -30005 / 10000 ∧
    b_pos stdHdr false 1 1 (-20) = 99 / 20 ∧
    ¬ (∀ y : ℚ, |rnd6 y| ≤ 3) := by
  have h1 : rnd6 (-20) = 8 := by decide!
  refine ⟨h1, by decide!, by decide!, by decide!, ?_⟩
  intro h
  have h2 := h (-20)
  rw [h1] at h2
  norm_num at h2

theorem sym_upd_map {α : Type} (g : SYMBOL → α) (st : Score) (p q : Nat) (f : SYMBOL → SYMBOL)
    (hf : ∀ z, g (f z) = g z) : ((st.upd p f).sym q).map g = (st.sym q).map g := by
  rw [sym_upd]
  split_ifs
  · rw [Option.map_map]
    congr 1
    funext z
    exact hf z
  · rfl

theorem sym_upd_map_self {α : Type} (g : SYMBOL → α) (st : Score) (p : Nat)
    (f : SYMBOL → SYMBOL) :
    ((st.upd p f).sym p).map g = (st.sym p).map (fun z => g (f z)) := by
  rw [sym_upd, if_pos rfl, Option.map_map]
  rfl

theorem sym_upd_isSome (st : Score) (p q : Nat) (f : SYMBOL → SYMBOL) :
    ((st.upd p f).sym q).isSome = (st.sym q).isSome := by
  rw [sym_upd]
  split_ifs
  · cases st.sym q <;> rfl
  · rfl

theorem beam_dup_prev_x (st : Score) (s1 : Nat) (v1 : SYMBOL) (st1 : Score) (s : Nat)
    (hv : st.sym s1 = some v1) (h : beam_dup_prev st s1 = some (st1, s)) :
    s = st.syms.length ∧ (st1.sym s).map (fun z => z.x) = some (v1.x - 12) := by
  have hlt : s1 < st.syms.length := by
    unfold Score.sym at hv
    exact (List.getElem?_eq_some_iff.mp hv).1
  have hne : st.syms.length ≠ s1 := by omega
  unfold beam_dup_prev at h
  rw [hv] at h
  simp only at h
  split at h
  · cases h
  · rename_i p hp
    split at h
    · cases h
    · rename_i vp hvp
      split at h
      · cases h
      · rename_i tp htp
        split at h
        · cases h
        · rename_i vtp hvtp
          split at h
          · rename_i vs q hvs hq
            split at h
            · cases h
            · rename_i vq hvq
              clear hvtp hvp
              obtain ⟨w, hw, hwq⟩ := Option.bind_eq_some.mp hq
              have e1 := congrArg (Option.map (fun z : SYMBOL => z.prev)) hw
              rw [sym_upd_map, sym_upd_map, sym_upd_map_self, sym_upd_map, sym_upd_map,
                sym_upd_map, sym_upd_map_self] at e1
              rotate_left
              all_goals first | (intro z; rfl) | skip
              generalize hU : Score.sym _ s1 = o at e1
              have hso : o.isSome = true := by
                rw [← hU, sym_upd_isSome, sym_upd_isSome, sym_push, if_pos hlt, hv]
                rfl
              cases o with
              | none => cases hso
              | some u =>
                have e2 : some (some st.syms.length) = some w.prev := e1
                have hql : q = st.syms.length := by
                  have e3 := (Option.some.inj e2).trans hwq
                  exact (Option.some.inj e3).symm
                subst hql
                rw [hvs] at hvq
                cases hvq
                rw [if_neg (by linarith)] at h
                simp only [Option.some.injEq, Prod.mk.injEq] at h
                obtain ⟨h1, h2⟩ := h
                subst h2
                refine ⟨rfl, ?_⟩
                rw [← h1, sym_upd_map]
                rotate_left
                · intro z; rfl
                rw [sym_upd_map_self, sym_upd_map, sym_upd_map, sym_upd_map, sym_upd_map,
                  sym_upd_map, sym_upd_map, sym_upd_map, sym_upd_map, sym_push, if_neg (lt_irrefl _),
                  if_pos rfl]
                rotate_left
                all_goals first | (intro z; rfl) | skip
                rfl
          · cases h

/-- C22 (failing case): in the block "beam from previous music line" of
`calculate_beam` the duplicate is linked before the clamp is evaluated, so
`s1->prev` is the duplicate itself and the test `s->x > s1->prev->x + 12`
never holds: the duplicate is always put at `s1.x - 12`.  On `bothScore` the
preceding symbol is the clef at 20 and the first note is at 100: the duplicate
(symbol 3) is at 88, not at `min (100 - 12) (20 + 12) = 32`, and it stays
there at the end of `calculate_beam`. -/
theorem beam_dup_prev_clamp_dead :
    (∀ (st : Score) (s1 : Nat) (v1 : SYMBOL) (st1 : Score) (s : Nat),
      st.sym s1 = some v1 → beam_dup_prev st s1 = some (st1, s) →
      (st1.sym s).map (fun z => z.x) = some (v1.x - 12))
    ∧ (beam_dup_prev bothScore 1).map
        (fun r => (r.2, (r.1.sym r.2).map (fun z => z.x), (r.1.sym 0).map (fun z => z.x),
          (r.1.sym r.2).bind (fun z => z.prev)))
        = some (3, some 88, some 20, some 0)
    ∧ (calculate_beam stdHdr bothScore {} 1).map
        (fun r => (r.2.1.s1, (r.1.sym r.2.1.s1).map (fun z => z.x),
          (r.1.sym 0).map (fun z => z.x)))
        = some (3, some 88, some 20)
    ∧ min ((100 : ℚ) - 12) (20 + 12) = 32 ∧ ¬ ((88 : ℚ) ≤ 20 + 12) := by
  refine ⟨?_, by decide!, by decide!, by norm_num, by norm_num⟩
  intro st s1 v1 st1 s hv h
  exact (beam_dup_prev_x st s1 v1 st1 s hv h).2

/-- C28: block "slur steepness" of `draw_slur`, for endpoints with `x1 < x2`,
a direction `s` of 1 (above) or -1 (below) and a positive `SLUR_SLOPE`: the
abscissae are kept; when the raw slope is within the bound the endpoints are
unchanged; when it exceeds the bound in magnitude, exactly one ordinate is
changed, it moves in the direction `s`, and the new slope is `SLUR_SLOPE`
with the sign of the raw slope. -/
theorem slur_slope_clamp_spec (H : Hdr) (s : Int) (e : SlurEnds)
    (hH : 0 < H.SLUR_SLOPE) (hs : s = 1 ∨ s = -1) (hx : e.x1 < e.x2) :
    (slur_slope_clamp H s e).x1 = e.x1 ∧ (slur_slope_clamp H s e).x2 = e.x2
    ∧ (|(e.y2 - e.y1) / (e.x2 - e.x1)| ≤ H.SLUR_SLOPE → slur_slope_clamp H s e = e)
    ∧ (H.SLUR_SLOPE < |(e.y2 - e.y1) / (e.x2 - e.x1)| →
        (((slur_slope_clamp H s e).y1 = e.y1
            ∧ 0 < (s : ℚ) * ((slur_slope_clamp H s e).y2 - e.y2))
          ∨ ((slur_slope_clamp H s e).y2 = e.y2
            ∧ 0 < (s : ℚ) * ((slur_slope_clamp H s e).y1 - e.y1)))
        ∧ |((slur_slope_clamp H s e).y2 - (slur_slope_clamp H s e).y1)
            / ((slur_slope_clamp H s e).x2 - (slur_slope_clamp H s e).x1)| = H.SLUR_SLOPE
        ∧ 0 < ((slur_slope_clamp H s e).y2 - (slur_slope_clamp H s e).y1)
            / ((slur_slope_clamp H s e).x2 - (slur_slope_clamp H s e).x1)
            * ((e.y2 - e.y1) / (e.x2 - e.x1))) := by
  have hd : 0 < e.x2 - e.x1 := by linarith
  have hdne : e.x2 - e.x1 ≠ 0 := ne_of_gt hd
  set a := (e.y2 - e.y1) / (e.x2 - e.x1) with ha
  have hy : e.y2 - e.y1 = a * (e.x2 - e.x1) := by rw [ha]; field_simp
  have hsc : ((s : ℚ) = 1 ∧ s = 1) ∨ ((s : ℚ) = -1 ∧ s = -1) := by
    rcases hs with h | h
    · left; exact ⟨by rw [h]; norm_num, h⟩
    · right; exact ⟨by rw [h]; norm_num, h⟩
  by_cases hbig : a > H.SLUR_SLOPE ∨ a < -H.SLUR_SLOPE
  · have hcl : slur_slope_clamp H s e
        = if (if a > H.SLUR_SLOPE then H.SLUR_SLOPE else -H.SLUR_SLOPE) * (s : ℚ) > 0
          then { e with y1 := e.y2
                  - (if a > H.SLUR_SLOPE then H.SLUR_SLOPE else -H.SLUR_SLOPE) * (e.x2 - e.x1) }
          else { e with y2 := e.y1
                  + (if a > H.SLUR_SLOPE then H.SLUR_SLOPE else -H.SLUR_SLOPE) * (e.x2 - e.x1) } := by
      unfold slur_slope_clamp
      simp only [← ha]
      rw [if_pos hbig]
    have hnle : ¬ |a| ≤ H.SLUR_SLOPE := by
      intro h
      have := abs_le.mp h
      rcases hbig with h1 | h1 <;> linarith [this.1, this.2]
    rcases hbig with hpos | hneg
    · -- raw slope above the bound
      rw [if_pos hpos] at hcl
      rcases hsc with ⟨hq, _⟩ | ⟨hq, _⟩
      · rw [hq, if_pos (by linarith)] at hcl
        rw [hcl]
        refine ⟨rfl, rfl, fun h => absurd h hnle, fun _ => ⟨Or.inr ⟨rfl, ?_⟩, ?_, ?_⟩⟩
        · rw [hq]
          show 0 < 1 * (e.y2 - H.SLUR_SLOPE * (e.x2 - e.x1) - e.y1)
          nlinarith
        · show |(e.y2 - (e.y2 - H.SLUR_SLOPE * (e.x2 - e.x1))) / (e.x2 - e.x1)| = H.SLUR_SLOPE
          rw [show (e.y2 - (e.y2 - H.SLUR_SLOPE * (e.x2 - e.x1))) / (e.x2 - e.x1) = H.SLUR_SLOPE
            by field_simp]
          exact abs_of_pos hH
        · show 0 < (e.y2 - (e.y2 - H.SLUR_SLOPE * (e.x2 - e.x1))) / (e.x2 - e.x1) * a
          rw [show (e.y2 - (e.y2 - H.SLUR_SLOPE * (e.x2 - e.x1))) / (e.x2 - e.x1) = H.SLUR_SLOPE
            by field_simp]
          nlinarith
      · rw [hq, if_neg (by linarith)] at hcl
        rw [hcl]
        refine ⟨rfl, rfl, fun h => absurd h hnle, fun _ => ⟨Or.inl ⟨rfl, ?_⟩, ?_, ?_⟩⟩
        · rw [hq]
          show 0 < -1 * (e.y1 + H.SLUR_SLOPE * (e.x2 - e.x1) - e.y2)
          nlinarith
        · show |(e.y1 + H.SLUR_SLOPE * (e.x2 - e.x1) - e.y1) / (e.x2 - e.x1)| = H.SLUR_SLOPE
          rw [show (e.y1 + H.SLUR_SLOPE * (e.x2 - e.x1) - e.y1) / (e.x2 - e.x1) = H.SLUR_SLOPE
            by field_simp]
          exact abs_of_pos hH
        · show 0 < (e.y1 + H.SLUR_SLOPE * (e.x2 - e.x1) - e.y1) / (e.x2 - e.x1) * a
          rw [show (e.y1 + H.SLUR_SLOPE * (e.x2 - e.x1) - e.y1) / (e.x2 - e.x1) = H.SLUR_SLOPE
            by field_simp]
          nlinarith
    · -- raw slope below the bound
      have hnp : ¬ a > H.SLUR_SLOPE := by linarith
      rw [if_neg hnp] at hcl
      rcases hsc with ⟨hq, _⟩ | ⟨hq, _⟩
      · rw [hq, if_neg (by linarith)] at hcl
        rw [hcl]
        refine ⟨rfl, rfl, fun h => absurd h hnle, fun _ => ⟨Or.inl ⟨rfl, ?_⟩, ?_, ?_⟩⟩
        · rw [hq]
          show 0 < 1 * (e.y1 + -H.SLUR_SLOPE * (e.x2 - e.x1) - e.y2)
          nlinarith
        · show |(e.y1 + -H.SLUR_SLOPE * (e.x2 - e.x1) - e.y1) / (e.x2 - e.x1)| = H.SLUR_SLOPE
          rw [show (e.y1 + -H.SLUR_SLOPE * (e.x2 - e.x1) - e.y1) / (e.x2 - e.x1)
            = -H.SLUR_SLOPE by field_simp]
          rw [abs_neg]
          exact abs_of_pos hH
        · show 0 < (e.y1 + -H.SLUR_SLOPE * (e.x2 - e.x1) - e.y1) / (e.x2 - e.x1) * a
          rw [show (e.y1 + -H.SLUR_SLOPE * (e.x2 - e.x1) - e.y1) / (e.x2 - e.x1)
            = -H.SLUR_SLOPE by field_simp]
          nlinarith
      · rw [hq, if_pos (by linarith)] at hcl
        rw [hcl]
        refine ⟨rfl, rfl, fun h => absurd h hnle, fun _ => ⟨Or.inr ⟨rfl, ?_⟩, ?_, ?_⟩⟩
        · rw [hq]
          show 0 < -1 * (e.y2 - -H.SLUR_SLOPE * (e.x2 - e.x1) - e.y1)
          nlinarith
        · show |(e.y2 - (e.y2 - -H.SLUR_SLOPE * (e.x2 - e.x1))) / (e.x2 - e.x1)| = H.SLUR_SLOPE
          rw [show (e.y2 - (e.y2 - -H.SLUR_SLOPE * (e.x2 - e.x1))) / (e.x2 - e.x1)
            = -H.SLUR_SLOPE by field_simp]
          rw [abs_neg]
          exact abs_of_pos hH
        · show 0 < (e.y2 - (e.y2 - -H.SLUR_SLOPE * (e.x2 - e.x1))) / (e.x2 - e.x1) * a
          rw [show (e.y2 - (e.y2 - -H.SLUR_SLOPE * (e.x2 - e.x1))) / (e.x2 - e.x1)
            = -H.SLUR_SLOPE by field_simp]
          nlinarith
  · have hcl : slur_slope_clamp H s e = e := by
      unfold slur_slope_clamp
      simp only [← ha]
      rw [if_neg hbig]
    rw [hcl]
    refine ⟨rfl, rfl, fun _ => rfl, fun h => ?_⟩
    exfalso
    apply hbig
    rcases lt_abs.mp h with h1 | h1
    · left; exact h1
    · right; linarith

theorem slur_slope_clamp_spec_witness :
    (0 < stdHdr.SLUR_SLOPE ∧ steepEnds.x1 < steepEnds.x2)
    ∧ (slur_slope_clamp stdHdr 1 steepEnds).x1 = steepEnds.x1
    ∧ (slur_slope_clamp stdHdr 1 steepEnds).x2 = steepEnds.x2
    ∧ (|(steepEnds.y2 - steepEnds.y1) / (steepEnds.x2 - steepEnds.x1)| ≤ stdHdr.SLUR_SLOPE →
        slur_slope_clamp stdHdr 1 steepEnds = steepEnds)
    ∧ (stdHdr.SLUR_SLOPE < |(steepEnds.y2 - steepEnds.y1) / (steepEnds.x2 - steepEnds.x1)| →
        (((slur_slope_clamp stdHdr 1 steepEnds).y1 = steepEnds.y1
            ∧ 0 < ((1 : Int) : ℚ) * ((slur_slope_clamp stdHdr 1 steepEnds).y2 - steepEnds.y2))
          ∨ ((slur_slope_clamp stdHdr 1 steepEnds).y2 = steepEnds.y2
            ∧ 0 < ((1 : Int) : ℚ) * ((slur_slope_clamp stdHdr 1 steepEnds).y1 - steepEnds.y1)))
        ∧ |((slur_slope_clamp stdHdr 1 steepEnds).y2 - (slur_slope_clamp stdHdr 1 steepEnds).y1)
            / ((slur_slope_clamp stdHdr 1 steepEnds).x2
                - (slur_slope_clamp stdHdr 1 steepEnds).x1)| = stdHdr.SLUR_SLOPE
        ∧ 0 < ((slur_slope_clamp stdHdr 1 steepEnds).y2
                - (slur_slope_clamp stdHdr 1 steepEnds).y1)
            / ((slur_slope_clamp stdHdr 1 steepEnds).x2
                - (slur_slope_clamp stdHdr 1 steepEnds).x1)
            * ((steepEnds.y2 - steepEnds.y1) / (steepEnds.x2 - steepEnds.x1))) :=
  ⟨⟨by decide!, by decide!⟩,
    slur_slope_clamp_spec stdHdr 1 steepEnds (by decide!) (Or.inl rfl) (by decide!)⟩

theorem beam_fit_residual (l : List (ℚ × ℚ))
    (hx : ∃ t ∈ l, ∃ u ∈ l, t.1 ≠ u.1) :
    (tip_sums l).syy - (beam_fit (tip_sums l) l.length).1 * (tip_sums l).sxy
        - (beam_fit (tip_sums l) l.length).2 * (tip_sums l).sy
      = sq_dist l (beam_fit (tip_sums l) l.length).1 (beam_fit (tip_sums l) l.length).2 := by
  have hD := tip_sums_det_pos l hx
  obtain ⟨t, ht, _⟩ := hx
  have hn : 0 < (l.length : ℚ) := by
    have := List.length_pos_of_mem ht
    exact_mod_cast this
  set m := tip_sums l with hm
  set n : ℚ := (l.length : ℚ) with hnn
  have hfit : beam_fit m (l.length : Int)
      = ((m.sxy * n - m.sx * m.sy) / (m.sxx * n - m.sx * m.sx),
         (m.sy - (m.sxy * n - m.sx * m.sy) / (m.sxx * n - m.sx * m.sx) * m.sx) / n) := by
    unfold beam_fit
    simp only [Int.cast_natCast]
  rw [hfit]
  set a := (m.sxy * n - m.sx * m.sy) / (m.sxx * n - m.sx * m.sx) with ha
  set b := (m.sy - a * m.sx) / n with hb
  have hDne : m.sxx * n - m.sx * m.sx ≠ 0 := ne_of_gt hD
  have N0 : a * (m.sxx * n - m.sx * m.sx) = m.sxy * n - m.sx * m.sy := by
    rw [ha]; field_simp
  have N2 : n * b = m.sy - a * m.sx := by
    rw [hb]; field_simp
  have N1 : n * (a * m.sxx + b * m.sx) = n * m.sxy := by
    have : n * (a * m.sxx + b * m.sx) = a * (m.sxx * n - m.sx * m.sx) + m.sx * (n * b + a * m.sx)
        := by ring
    rw [this, N0, N2]; ring
  have N1a : a * m.sxx + b * m.sx = m.sxy := mul_left_cancel₀ (ne_of_gt hn) N1
  rw [sq_dist_expand]
  show m.syy - a * m.sxy - b * m.sy
    = m.syy - 2 * a * m.sxy - 2 * b * m.sy + a ^ 2 * m.sxx + 2 * a * b * m.sx + n * b ^ 2
  linear_combination (-a) * N1a - b * N2

theorem beam_slope_normal_flatten (H : Hdr) (m : BeamSums) (notes : Int) (a b : ℚ)
    (hn : notes ≥ 3) :
    beam_slope_normal H m notes a b
      = beam_steepness H
          (if (m.syy - a * m.sxy - b * m.sy) / ((notes - 2 : Int) : ℚ) > 1 / 2
           then a * H.BEAM_FLATFAC else a) := by
  have hpos : (0 : ℚ) < ((notes - 2 : Int) : ℚ) := by
    have : (0 : Int) < notes - 2 := by omega
    exact_mod_cast this
  have hiff : (notes ≥ 3 ∧ m.syy - a * m.sxy - b * m.sy > 0
        ∧ (m.syy - a * m.sxy - b * m.sy) / ((notes - 2 : Int) : ℚ) > 1 / 2)
      ↔ (m.syy - a * m.sxy - b * m.sy) / ((notes - 2 : Int) : ℚ) > 1 / 2 := by
    constructor
    · intro h; exact h.2.2
    · intro h
      refine ⟨hn, ?_, h⟩
      by_contra hneg
      have hle : m.syy - a * m.sxy - b * m.sy ≤ 0 := not_lt.mp hneg
      have : (m.syy - a * m.sxy - b * m.sy) / ((notes - 2 : Int) : ℚ) ≤ 0 :=
        div_nonpos_of_nonpos_of_nonneg hle (le_of_lt hpos)
      linarith
  unfold beam_slope_normal beam_steepness
  simp only [hiff]

/-- C21, as amended: in exact arithmetic, for a beam group given by its chain
(as in the fit of `calculate_beam`: the chain ends with the first note carrying
the beam end, or ends the voice, the last note being then duplicated) whose
stem tips do not all have the same abscissa, the search and the loop "linear
fit through stem ends" return, and with `(a, b)` the fitted line the quantity
`syy - a*sxy - b*sy` tested by the flattening rule is the sum of the squared
vertical distances of the tips to that line; for `notes >= 3` the slope of a
normal beam is `a * BEAM_FLATFAC` exactly when that sum divided by
`notes - 2` exceeds 1/2 and `a` otherwise, before the limit of steepness.
(In the binary32 arithmetic of the program the tested quantity is the rounded
one: see `beam_hh32` and `beam_flat32`.) -/
theorem calculate_beam_flatten_residual (H : Hdr) (st : Score) (s1 : Nat) (v0 : SYMBOL)
    (st0 : Score) (s1n : Nat) (v1 : SYMBOL) (q : List (Nat × SYMBOL))
    (hs : st.sym s1 = some v0)
    (hdup : (if ¬ v0.sflags.S_BEAM_ST then beam_dup_prev st s1 else some (st, s1))
      = some (st0, s1n))
    (hsym : ∀ pv ∈ (s1n, v1) :: q, st0.sym pv.1 = some pv.2)
    (hlink : linked ((s1n, v1) :: q))
    (hnd : (((s1n, v1) :: q).map (fun pv => pv.1)).Nodup)
    (hn1 : v1.as_type = AbcType.ABC_T_NOTE)
    (hshape :
      (∃ s2 v2, ((s1n, v1) :: q).getLast? = some (s2, v2)
        ∧ v2.as_type = AbcType.ABC_T_NOTE ∧ v2.sflags.S_BEAM_END = true
        ∧ ∀ pv ∈ ((s1n, v1) :: q).dropLast,
            ¬ (pv.2.as_type = AbcType.ABC_T_NOTE ∧ pv.2.sflags.S_BEAM_END = true))
      ∨ (∃ pk vk, ((s1n, v1) :: q).getLast? = some (pk, vk) ∧ vk.next = none
        ∧ (∀ pv ∈ (s1n, v1) :: q,
            ¬ (pv.2.as_type = AbcType.ABC_T_NOTE ∧ pv.2.sflags.S_BEAM_END = true))
        ∧ linked_prev ((s1n, v1) :: q)))
    (hx : ∃ t ∈ group_tips st0 (if v1.ABC_F_GRACE then H.GSTEM_XOFF else H.STEM_XOFF)
            ((s1n, v1) :: q),
          ∃ u ∈ group_tips st0 (if v1.ABC_F_GRACE then H.GSTEM_XOFF else H.STEM_XOFF)
            ((s1n, v1) :: q), t.1 ≠ u.1) :
    ∃ (st1 : Score) (s2 : Nat) (c : BeamScan) (w1 : SYMBOL) (st2 : Score) (m : BeamSums),
      beam_ends st s1 = some (st1, s1n, s2, c)
      ∧ st1.sym s1n = some w1
      ∧ beam_sums (if w1.ABC_F_GRACE then H.GSTEM_XOFF else H.STEM_XOFF) s2 st1.fuel s1n st1 {}
          = some (st2, m)
      ∧ m.syy - (beam_fit m c.notes).1 * m.sxy - (beam_fit m c.notes).2 * m.sy
          = sq_dist (group_tips st0 (if v1.ABC_F_GRACE then H.GSTEM_XOFF else H.STEM_XOFF)
              ((s1n, v1) :: q)) (beam_fit m c.notes).1 (beam_fit m c.notes).2
      ∧ (c.notes ≥ 3 →
          beam_slope_normal H m c.notes (beam_fit m c.notes).1 (beam_fit m c.notes).2
            = beam_steepness H
                (if sq_dist (group_tips st0
                      (if v1.ABC_F_GRACE then H.GSTEM_XOFF else H.STEM_XOFF) ((s1n, v1) :: q))
                    (beam_fit m c.notes).1 (beam_fit m c.notes).2
                    / ((c.notes - 2 : Int) : ℚ) > 1 / 2
                 then (beam_fit m c.notes).1 * H.BEAM_FLATFAC
                 else (beam_fit m c.notes).1)) := by
  have hgroup : ∃ (st1 : Score) (s2 : Nat) (c : BeamScan) (w1 : SYMBOL) (st2 : Score),
      beam_search st0 v1.staff v1.stem st0.fuel s1n {} = some (st1, s2, c)
      ∧ st1.sym s1n = some w1 ∧ w1.ABC_F_GRACE = v1.ABC_F_GRACE
      ∧ beam_sums (if v1.ABC_F_GRACE then H.GSTEM_XOFF else H.STEM_XOFF) s2 st1.fuel s1n st1 {}
          = some (st2, tip_sums (group_tips st0
              (if v1.ABC_F_GRACE then H.GSTEM_XOFF else H.STEM_XOFF) ((s1n, v1) :: q)))
      ∧ c.notes = ((group_tips st0 (if v1.ABC_F_GRACE then H.GSTEM_XOFF else H.STEM_XOFF)
              ((s1n, v1) :: q)).length : Int) := by
    rcases hshape with ⟨s2, v2, hlast, h2, he, hbe⟩ | ⟨pk, vk, hlast, hk, hbe, hprev⟩
    · exact beam_group_end _ st0 s1n v1 q s2 v2 hsym hlink hnd hlast h2 he hbe
    · exact beam_group_open _ st0 s1n v1 q pk vk hsym hlink hnd hn1 hlast hk hbe hprev
  obtain ⟨st1, s2, c, w1, st2, e1, e2, e3, e4, e5⟩ := hgroup
  have hres := beam_fit_residual _ hx
  refine ⟨st1, s2, c, w1, st2, tip_sums (group_tips st0
      (if v1.ABC_F_GRACE then H.GSTEM_XOFF else H.STEM_XOFF) ((s1n, v1) :: q)), ?_, e2, ?_, ?_, ?_⟩
  · unfold beam_ends
    simp only [hs, hdup, hsym (s1n, v1) (List.mem_cons_self _ _), e1]
  · rw [e3]
    exact e4
  · rw [e5]
    exact hres
  · intro hn
    rw [beam_slope_normal_flatten H _ c.notes _ _ hn]
    rw [e5]
    rw [hres]

theorem calculate_beam_flatten_residual_witness :
    ∃ (st1 : Score) (s2 : Nat) (c : BeamScan) (w1 : SYMBOL) (st2 : Score) (m : BeamSums),
      beam_ends openScore 1 = some (st1, 1, s2, c)
      ∧ st1.sym 1 = some w1
      ∧ beam_sums (if w1.ABC_F_GRACE then stdHdr.GSTEM_XOFF else stdHdr.STEM_XOFF) s2 st1.fuel 1
          st1 {} = some (st2, m)
      ∧ m.syy - (beam_fit m c.notes).1 * m.sxy - (beam_fit m c.notes).2 * m.sy
          = sq_dist (group_tips openScore
              (if (openNote 1).ABC_F_GRACE then stdHdr.GSTEM_XOFF else stdHdr.STEM_XOFF)
              [(1, openNote 1), (2, openNote 2)]) (beam_fit m c.notes).1 (beam_fit m c.notes).2
      ∧ (c.notes ≥ 3 →
          beam_slope_normal stdHdr m c.notes (beam_fit m c.notes).1 (beam_fit m c.notes).2
            = beam_steepness stdHdr
                (if sq_dist (group_tips openScore
                      (if (openNote 1).ABC_F_GRACE then stdHdr.GSTEM_XOFF else stdHdr.STEM_XOFF)
                      [(1, openNote 1), (2, openNote 2)])
                    (beam_fit m c.notes).1 (beam_fit m c.notes).2
                    / ((c.notes - 2 : Int) : ℚ) > 1 / 2
                 then (beam_fit m c.notes).1 * stdHdr.BEAM_FLATFAC
                 else (beam_fit m c.notes).1)) :=
  calculate_beam_flatten_residual stdHdr openScore 1 (openNote 1) openScore 1 (openNote 1)
    [(2, openNote 2)] rfl rfl
    (by
      intro pv h
      simp only [List.mem_cons, List.mem_singleton, List.not_mem_nil, or_false] at h
      rcases h with rfl | rfl <;> rfl)
    ⟨rfl, trivial⟩ (by decide) rfl
    (Or.inr ⟨2, openNote 2, rfl, rfl,
      (by
        intro pv h
        simp only [List.mem_cons, List.mem_singleton, List.not_mem_nil, or_false] at h
        rcases h with rfl | rfl <;> decide),
      (by unfold linked_prev; exact List.Chain'.cons rfl (List.chain'_singleton _))⟩)
    ⟨(433 + 1 / 2, 32), by decide!, (463 + 1 / 2, 34), by decide!, by decide!⟩

theorem tie_count_ntie (s : SYMBOL) :
    ∀ n, (for_range n (tie_count_step s) ((0 : Int), (0 : Int), (128 : Int))).1
      = (tied_below s n : Int) := by
  intro n
  induction n with
  | zero => rw [for_range_zero]; rfl
  | succ n ih =>
    rw [for_range_succ, tied_below_succ]
    generalize for_range n (tie_count_step s) ((0 : Int), (0 : Int), (128 : Int)) = c at ih
    unfold tie_count_step
    by_cases ht : s.ti1.getD n 0 = 0
    · simp only [ht, ne_eq, not_true_eq_false, if_false, if_true]
      simp [ih]
    · simp only [ht, ne_eq, not_false_eq_true, if_true, if_false]
      rw [ih]; push_cast; ring

theorem tie_aux_inv {α : Type} (P : α → Prop) (l0 : List Nat) (g : Nat → α → α) (a0 : α)
    (h0 : P a0) (hg : ∀ i a, P a → P (g i a)) : ∀ n, P (tie_aux l0 g a0 n) := by
  intro n
  induction n with
  | zero => exact h0
  | succ n ih =>
    unfold tie_aux
    split_ifs
    · exact ih
    · exact hg n _ ih

theorem auto_ne_zero (t : Nat) (h : t &&& 3 = SL_AUTO) : t ≠ 0 := by
  intro h0
  rw [h0] at h
  exact absurd h (by decide)

/-- A direction loop of `set_tie_dir` in the form of `tie_walk` whose stored
directions are `above` or `below`: the tie of head `k` after `n` heads. -/
theorem tie_walk_dir {α : Type} (F : Nat → List Nat × α → List Nat × α)
    (d : Nat → α → Nat) (g : Nat → α → α)
    (hF : ∀ i l a, F i (l, a)
      = if l.getD i 0 = 0 then (l, a) else (set_auto l i (d i a), g i a))
    (l0 : List Nat) (a0 : α)
    (hd : ∀ k, d k (tie_aux l0 g a0 k) = SL_ABOVE ∨ d k (tie_aux l0 g a0 k) = SL_BELOW)
    (n k : Nat) :
    ∃ dd, (dd = SL_ABOVE ∨ dd = SL_BELOW)
      ∧ (for_range n F (l0, a0)).1.getD k 0
          = if k < n ∧ l0.getD k 0 &&& 3 = SL_AUTO then (l0.getD k 0 &&& SL_DOTTED) ||| dd
            else l0.getD k 0 := by
  obtain ⟨_, w2, w3, w4⟩ := tie_walk F d g hF l0 a0 n
  refine ⟨d k (tie_aux l0 g a0 k), hd k, ?_⟩
  rcases Nat.lt_or_ge k n with hk | hk
  · by_cases ht : l0.getD k 0 = 0
    · rw [w3 k hk ht, if_neg]
      · exact ht.symm
      · rintro ⟨_, ha⟩
        exact auto_ne_zero _ ha ht
    · rw [w4 k hk ht]
      by_cases ha : l0.getD k 0 &&& 3 = SL_AUTO
      · rw [if_pos ha, if_pos ⟨hk, ha⟩]
      · rw [if_neg ha, if_neg (fun h => ha h.2)]
  · rw [w2 k hk, if_neg (fun h => absurd h.1 (by omega))]

theorem tie_multi_walk (dir : Nat) (l0 : List Nat) :
    ∀ n k, (for_range n (fun i ti1 => set_auto ti1 i dir) l0).getD k 0
      = if k < n ∧ l0.getD k 0 &&& 3 = SL_AUTO then (l0.getD k 0 &&& SL_DOTTED) ||| dir
        else l0.getD k 0 := by
  intro n
  induction n with
  | zero =>
    intro k
    rw [for_range_zero, if_neg (fun h => absurd h.1 (by omega))]
  | succ n ih =>
    intro k
    rw [for_range_succ]
    by_cases hk : k = n
    · subst hk
      have hprev := ih k
      rw [if_neg (fun h => absurd h.1 (by omega))] at hprev
      by_cases ha : l0.getD k 0 &&& 3 = SL_AUTO
      · rw [if_pos ⟨by omega, ha⟩]
        rw [set_auto_self _ _ _ (by rw [hprev]; exact auto_ne_zero _ ha), hprev, if_pos ha]
      · rw [if_neg (fun h => ha h.2)]
        have hsa : set_auto (for_range k (fun i ti1 => set_auto ti1 i dir) l0) k dir
            = for_range k (fun i ti1 => set_auto ti1 i dir) l0 := by
          generalize for_range k (fun i ti1 => set_auto ti1 i dir) l0 = l at hprev
          unfold set_auto
          rw [hprev, if_neg ha]
        rw [hsa, hprev]
    · rw [set_auto_other _ _ _ _ hk, ih k]
      by_cases ha : l0.getD k 0 &&& 3 = SL_AUTO
      · by_cases hlt : k < n
        · rw [if_pos ⟨hlt, ha⟩, if_pos ⟨by omega, ha⟩]
        · rw [if_neg (fun h => hlt h.1), if_neg (fun h => absurd h.1 (by omega))]
      · rw [if_neg (fun h => ha h.2), if_neg (fun h => ha h.2)]

/-- Loop of the case `ntie <= 1`: before the `break` nothing is written and
every head seen is untied; after it the first tied head, and no other, has got
the statement `set_auto`. -/
theorem tie_one_walk (dir : Nat) (l0 : List Nat) :
    ∀ n, ((for_range n (tie_one_step dir) (l0, false)).2 = false
          ∧ (for_range n (tie_one_step dir) (l0, false)).1 = l0
          ∧ ∀ k, k < n → l0.getD k 0 = 0)
      ∨ ((for_range n (tie_one_step dir) (l0, false)).2 = true
          ∧ ∃ f, f < n ∧ l0.getD f 0 ≠ 0
            ∧ (for_range n (tie_one_step dir) (l0, false)).1 = set_auto l0 f dir) := by
  intro n
  induction n with
  | zero =>
    left
    rw [for_range_zero]
    exact ⟨rfl, rfl, fun k hk => by omega⟩
  | succ n ih =>
    rw [for_range_succ]
    rcases ih with ⟨h1, h2, h3⟩ | ⟨h1, f, hf, hf0, h2⟩
    · generalize for_range n (tie_one_step dir) (l0, false) = c at h1 h2
      obtain ⟨l, b⟩ := c
      simp only at h1 h2
      subst h1 h2
      unfold tie_one_step
      simp only [Bool.false_eq_true, if_false]
      by_cases ht : l.getD n 0 ≠ 0
      · right
        rw [if_pos ht]
        exact ⟨rfl, n, by omega, ht, rfl⟩
      · left
        rw [if_neg ht]
        refine ⟨rfl, rfl, ?_⟩
        intro k hk
        rcases Nat.lt_or_ge k n with h | h
        · exact h3 k h
        · have : k = n := by omega
          subst this
          exact not_not.mp ht
    · right
      generalize for_range n (tie_one_step dir) (l0, false) = c at h1 h2
      obtain ⟨l, b⟩ := c
      simp only at h1 h2
      subst h1 h2
      unfold tie_one_step
      simp only [if_true]
      exact ⟨trivial, f, by omega, hf0, rfl⟩

theorem tied_below_mono (s : SYMBOL) (i j : Nat) (h : i ≤ j) :
    tied_below s i ≤ tied_below s j := by
  induction j with
  | zero =>
    have : i = 0 := by omega
    subst this
    exact Nat.le_refl _
  | succ j ih =>
    rcases Nat.lt_or_ge i (j + 1) with h1 | h1
    · have := ih (by omega)
      rw [tied_below_succ]
      omega
    · have : i = j + 1 := by omega
      subst this
      exact Nat.le_refl _

theorem tied_below_two (s : SYMBOL) (i j n : Nat) (hij : i < j) (hj : j < n)
    (hi0 : s.ti1.getD i 0 ≠ 0) (hj0 : s.ti1.getD j 0 ≠ 0) : 2 ≤ tied_below s n := by
  have h1 : tied_below s (i + 1) = tied_below s i + 1 := by
    rw [tied_below_succ, if_neg hi0]
  have h2 : tied_below s (j + 1) = tied_below s j + 1 := by
    rw [tied_below_succ, if_neg hj0]
  have h3 := tied_below_mono s (i + 1) j (by omega)
  have h4 := tied_below_mono s (j + 1) n (by omega)
  omega

/-- Body of the loop of `set_tie_dir` for one symbol: a tie of automatic
direction of a head `0..nhd` of a symbol with the tie-start flag gets
`(ti & SL_DOTTED) | dir` with `dir` above or below; every other entry of the
array is left as it is. -/
theorem set_tie_dir_ti1_spec (s : SYMBOL) (k : Nat) :
    ∃ dd, (dd = SL_ABOVE ∨ dd = SL_BELOW)
      ∧ (set_tie_dir_ti1 s).getD k 0
          = if s.sflags.S_TI1 = true ∧ k ≤ s.nhd ∧ s.ti1.getD k 0 &&& 3 = SL_AUTO
            then (s.ti1.getD k 0 &&& SL_DOTTED) ||| dd
            else s.ti1.getD k 0 := by
  have hcond : ∀ (dd : Nat) (hti : s.sflags.S_TI1 = true),
      (if k < s.nhd + 1 ∧ s.ti1.getD k 0 &&& 3 = SL_AUTO
        then (s.ti1.getD k 0 &&& SL_DOTTED) ||| dd else s.ti1.getD k 0)
      = (if s.sflags.S_TI1 = true ∧ k ≤ s.nhd ∧ s.ti1.getD k 0 &&& 3 = SL_AUTO
          then (s.ti1.getD k 0 &&& SL_DOTTED) ||| dd else s.ti1.getD k 0) := by
    intro dd hti
    by_cases hc : k < s.nhd + 1 ∧ s.ti1.getD k 0 &&& 3 = SL_AUTO
    · rw [if_pos hc, if_pos ⟨hti, by omega, hc.2⟩]
    · rw [if_neg hc, if_neg]
      rintro ⟨_, h1, h2⟩
      exact hc ⟨by omega, h2⟩
  by_cases hti : s.sflags.S_TI1 = true
  swap
  · refine ⟨SL_ABOVE, Or.inl rfl, ?_⟩
    unfold set_tie_dir_ti1
    rw [if_pos hti, if_neg (fun h => hti h.1)]
  by_cases hm : s.multi ≠ 0
  · refine ⟨if s.multi > 0 then SL_ABOVE else SL_BELOW, ?_, ?_⟩
    · split_ifs
      · exact Or.inl rfl
      · exact Or.inr rfl
    · unfold set_tie_dir_ti1
      rw [if_neg (not_not.mpr hti), if_pos hm]
      simp only
      rw [tie_multi_walk, hcond _ hti]
  have hnt := tie_count_ntie s (s.nhd + 1)
  by_cases h1 : (tied_below s (s.nhd + 1) : Int) ≤ 1
  · -- at most one tie
    refine ⟨if s.stem < 0 then SL_ABOVE else SL_BELOW, ?_, ?_⟩
    · split_ifs
      · exact Or.inl rfl
      · exact Or.inr rfl
    · unfold set_tie_dir_ti1
      rw [if_neg (not_not.mpr hti), if_neg hm]
      simp only [hnt]
      rw [if_pos h1, ← hcond _ hti]
      generalize (if s.stem < 0 then SL_ABOVE else SL_BELOW) = dir
      rcases tie_one_walk dir s.ti1 (s.nhd + 1) with
        ⟨_, e2, e3⟩ | ⟨_, f, hf, hf0, e2⟩
      · rw [e2, if_neg]
        rintro ⟨hk, ha⟩
        exact auto_ne_zero _ ha (e3 k hk)
      · rw [e2]
        by_cases hkf : k = f
        · subst hkf
          rw [set_auto_self _ _ _ hf0]
          by_cases ha : s.ti1.getD k 0 &&& 3 = SL_AUTO
          · rw [if_pos ha, if_pos ⟨hf, ha⟩]
          · rw [if_neg ha, if_neg (fun h => ha h.2)]
        · rw [set_auto_other _ _ _ _ hkf, if_neg]
          rintro ⟨hk, ha⟩
          have hk0 := auto_ne_zero _ ha
          have h2 : 2 ≤ tied_below s (s.nhd + 1) := by
            rcases Nat.lt_or_ge k f with h | h
            · exact tied_below_two s k f _ h hf hk0 hf0
            · exact tied_below_two s f k _ (by omega) hk hf0 hk0
          omega
  by_cases hsec : (for_range (s.nhd + 1) (tie_count_step s)
      ((0 : Int), (0 : Int), (128 : Int))).2.1 = 0
  · by_cases hodd : (tied_below s (s.nhd + 1) : Int) % 2 = 1
    · -- odd number of ties
      have hd : ∀ j, (fun (i : Nat) (a : Int × Nat) =>
            if a.1 - 1 = 0 ∧ s.as_pits.getD i 0 ≥ 22 then SL_ABOVE else a.2) j
          (tie_aux s.ti1 (fun (i : Nat) (a : Int × Nat) =>
            (a.1 - 1,
             if a.1 - 1 = 0 then SL_ABOVE
             else if a.1 - 1 = 0 ∧ s.as_pits.getD i 0 ≥ 22 then SL_ABOVE else a.2))
            (Int.tdiv (tied_below s (s.nhd + 1)) 2 + 1, SL_BELOW) j) = SL_ABOVE
          ∨ (fun (i : Nat) (a : Int × Nat) =>
            if a.1 - 1 = 0 ∧ s.as_pits.getD i 0 ≥ 22 then SL_ABOVE else a.2) j
          (tie_aux s.ti1 (fun (i : Nat) (a : Int × Nat) =>
            (a.1 - 1,
             if a.1 - 1 = 0 then SL_ABOVE
             else if a.1 - 1 = 0 ∧ s.as_pits.getD i 0 ≥ 22 then SL_ABOVE else a.2))
            (Int.tdiv (tied_below s (s.nhd + 1)) 2 + 1, SL_BELOW) j) = SL_BELOW := by
        intro j
        have hinv := tie_aux_inv (fun a : Int × Nat => a.2 = SL_ABOVE ∨ a.2 = SL_BELOW) s.ti1
          (fun (i : Nat) (a : Int × Nat) =>
            (a.1 - 1,
             if a.1 - 1 = 0 then SL_ABOVE
             else if a.1 - 1 = 0 ∧ s.as_pits.getD i 0 ≥ 22 then SL_ABOVE else a.2))
          (Int.tdiv (tied_below s (s.nhd + 1)) 2 + 1, SL_BELOW) (Or.inr rfl)
          (by
            intro i a ha
            simp only
            split_ifs
            · exact Or.inl rfl
            · exact Or.inl rfl
            · exact ha) j
        simp only
        split_ifs
        · exact Or.inl rfl
        · exact hinv
      obtain ⟨dd, hdd, e⟩ := tie_walk_dir (tie_odd_step s)
        (fun (i : Nat) (a : Int × Nat) =>
            if a.1 - 1 = 0 ∧ s.as_pits.getD i 0 ≥ 22 then SL_ABOVE else a.2)
        (fun (i : Nat) (a : Int × Nat) =>
            (a.1 - 1,
             if a.1 - 1 = 0 then SL_ABOVE
             else if a.1 - 1 = 0 ∧ s.as_pits.getD i 0 ≥ 22 then SL_ABOVE else a.2))
        (by intro i l a; rfl) s.ti1
        (Int.tdiv (tied_below s (s.nhd + 1)) 2 + 1, SL_BELOW) hd (s.nhd + 1) k
      refine ⟨dd, hdd, ?_⟩
      unfold set_tie_dir_ti1
      rw [if_neg (not_not.mpr hti), if_neg hm]
      simp only [hnt]
      rw [if_neg h1, if_pos hsec, if_pos hodd, e, hcond _ hti]
    · -- even number of ties
      have hd : ∀ j, (fun (_ : Nat) (a : Int × Nat) => a.2) j
          (tie_aux s.ti1 (fun (_ : Nat) (a : Int × Nat) =>
            (a.1 - 1, if a.1 - 1 = 0 then SL_ABOVE else a.2))
            (Int.tdiv (tied_below s (s.nhd + 1)) 2, SL_BELOW) j) = SL_ABOVE
          ∨ (fun (_ : Nat) (a : Int × Nat) => a.2) j
          (tie_aux s.ti1 (fun (_ : Nat) (a : Int × Nat) =>
            (a.1 - 1, if a.1 - 1 = 0 then SL_ABOVE else a.2))
            (Int.tdiv (tied_below s (s.nhd + 1)) 2, SL_BELOW) j) = SL_BELOW := by
        intro j
        exact tie_aux_inv (fun a : Int × Nat => a.2 = SL_ABOVE ∨ a.2 = SL_BELOW) s.ti1
          (fun (_ : Nat) (a : Int × Nat) =>
            (a.1 - 1, if a.1 - 1 = 0 then SL_ABOVE else a.2))
          (Int.tdiv (tied_below s (s.nhd + 1)) 2, SL_BELOW) (Or.inr rfl)
          (by
            intro i a ha
            simp only
            split_ifs
            · exact Or.inl rfl
            · exact ha) j
      obtain ⟨dd, hdd, e⟩ := tie_walk_dir tie_even_step
        (fun (_ : Nat) (a : Int × Nat) => a.2)
        (fun (_ : Nat) (a : Int × Nat) =>
            (a.1 - 1, if a.1 - 1 = 0 then SL_ABOVE else a.2))
        (by intro i l a; rfl) s.ti1
        (Int.tdiv (tied_below s (s.nhd + 1)) 2, SL_BELOW) hd (s.nhd + 1) k
      refine ⟨dd, hdd, ?_⟩
      unfold set_tie_dir_ti1
      rw [if_neg (not_not.mpr hti), if_neg hm]
      simp only [hnt]
      rw [if_neg h1, if_pos hsec, if_neg hodd, e, hcond _ hti]
  · -- a second in the chord
    have hgen : ∀ nt : Int, ∃ dd, (dd = SL_ABOVE ∨ dd = SL_BELOW)
        ∧ (for_range (s.nhd + 1) (tie_sec_set_step nt) (s.ti1, SL_BELOW)).1.getD k 0
          = if k < s.nhd + 1 ∧ s.ti1.getD k 0 &&& 3 = SL_AUTO
            then (s.ti1.getD k 0 &&& SL_DOTTED) ||| dd else s.ti1.getD k 0 := by
      intro nt
      have hd : ∀ j, (fun (i : Nat) (a : Nat) => if nt = (i : Int) then SL_ABOVE else a) j
          (tie_aux s.ti1 (fun (i : Nat) (a : Nat) => if nt = (i : Int) then SL_ABOVE else a)
            SL_BELOW j) = SL_ABOVE
          ∨ (fun (i : Nat) (a : Nat) => if nt = (i : Int) then SL_ABOVE else a) j
          (tie_aux s.ti1 (fun (i : Nat) (a : Nat) => if nt = (i : Int) then SL_ABOVE else a)
            SL_BELOW j) = SL_BELOW := by
        intro j
        have hinv := tie_aux_inv (fun a : Nat => a = SL_ABOVE ∨ a = SL_BELOW) s.ti1
          (fun (i : Nat) (a : Nat) => if nt = (i : Int) then SL_ABOVE else a) SL_BELOW
          (Or.inr rfl)
          (by
            intro i a ha
            simp only
            split_ifs
            · exact Or.inl rfl
            · exact ha) j
        simp only
        split_ifs
        · exact Or.inl rfl
        · exact hinv
      exact tie_walk_dir (tie_sec_set_step nt)
        (fun (i : Nat) (a : Nat) => if nt = (i : Int) then SL_ABOVE else a)
        (fun (i : Nat) (a : Nat) => if nt = (i : Int) then SL_ABOVE else a)
        (by intro i l a; rfl) s.ti1 SL_BELOW hd (s.nhd + 1) k
    obtain ⟨dd, hdd, e⟩ := hgen (for_range (s.nhd + 1) (tie_sec_find_step s)
      ((for_range (s.nhd + 1) (tie_count_step s) ((0 : Int), (0 : Int), (128 : Int))).1,
        (128 : Int), false)).1
    refine ⟨dd, hdd, ?_⟩
    unfold set_tie_dir_ti1
    rw [if_neg (not_not.mpr hti), if_neg hm]
    simp only
    rw [if_neg (by rw [hnt]; exact h1), if_neg hsec, e, hcond _ hti]

theorem and_three_cases (t : Nat) :
    t &&& 3 = 0 ∨ t &&& 3 = SL_ABOVE ∨ t &&& 3 = SL_BELOW ∨ t &&& 3 = SL_AUTO := by
  have h : t &&& 3 ≤ 3 := Nat.and_le_right
  unfold SL_ABOVE SL_BELOW SL_AUTO
  omega

theorem dotted_or_dir_dotted (t d : Nat) (hd : d = SL_ABOVE ∨ d = SL_BELOW) :
    ((t &&& SL_DOTTED) ||| d) &&& SL_DOTTED = t &&& SL_DOTTED := by
  rcases and_dotted_cases t with h | h <;> rcases hd with rfl | rfl <;>
    rw [h] <;> decide

/-- C25: in a voice given by its chain, `set_tie_dir` returns; it touches no
symbol outside the voice and, in a symbol of the voice, nothing but the array
of the ties; a symbol without the tie-start flag is left as it is; in every
symbol a tie whose direction is above or below keeps its value, the dotted bit
of every entry is kept, an entry 0 stays 0; and in a symbol with the tie-start
flag every head `0..nhd` whose tie has a direction (above, below or automatic)
ends with the direction above or below. -/
theorem set_tie_dir_resolves (st : Score) (sym : Nat) (P : List (Nat × SYMBOL))
    (hhead : P.head?.map (fun pv => pv.1) = some sym)
    (hlink : linked P) (hlast : ∀ v, P.getLast? = some v → v.2.next = none)
    (hsym : ∀ pv ∈ P, st.sym pv.1 = some pv.2)
    (hnd : (P.map (fun pv => pv.1)).Nodup) :
    ∃ st1, set_tie_dir st sym = some st1
      ∧ (∀ q, q ∉ P.map (fun pv => pv.1) → st1.sym q = st.sym q)
      ∧ ∀ pv ∈ P, ∃ w, st1.sym pv.1 = some w ∧ w = { pv.2 with ti1 := w.ti1 }
          ∧ (pv.2.sflags.S_TI1 = false → w = pv.2)
          ∧ ∀ i,
              (pv.2.ti1.getD i 0 &&& 3 = SL_ABOVE ∨ pv.2.ti1.getD i 0 &&& 3 = SL_BELOW →
                w.ti1.getD i 0 = pv.2.ti1.getD i 0)
              ∧ w.ti1.getD i 0 &&& SL_DOTTED = pv.2.ti1.getD i 0 &&& SL_DOTTED
              ∧ (pv.2.ti1.getD i 0 = 0 → w.ti1.getD i 0 = 0)
              ∧ (pv.2.sflags.S_TI1 = true → i ≤ pv.2.nhd → pv.2.ti1.getD i 0 &&& 3 ≠ 0 →
                  (w.ti1.getD i 0 &&& 3 = SL_ABOVE ∨ w.ti1.getD i 0 &&& 3 = SL_BELOW)) := by
  have hlen := path_fuel st P (fun pv h => ⟨pv.2, hsym pv h⟩) hnd
  obtain ⟨st1, e1, e2, e3⟩ := set_tie_dir_loop_path P st st.fuel hlink hlast hsym hnd
    (by unfold Score.fuel; omega)
  refine ⟨st1, ?_, e3, ?_⟩
  · unfold set_tie_dir
    rw [← hhead]
    exact e1
  · intro pv hpv
    refine ⟨set_tie_dir_sym pv.2, e2 pv hpv, rfl, ?_, ?_⟩
    · intro hf
      unfold set_tie_dir_sym set_tie_dir_ti1
      rw [if_pos (by rw [hf]; exact Bool.false_ne_true)]
    · intro i
      obtain ⟨dd, hdd, e⟩ := set_tie_dir_ti1_spec pv.2 i
      have hw : (set_tie_dir_sym pv.2).ti1.getD i 0 = (set_tie_dir_ti1 pv.2).getD i 0 := rfl
      rw [hw, e]
      refine ⟨?_, ?_, ?_, ?_⟩
      · intro hfix
        rw [if_neg]
        rintro ⟨_, _, ha⟩
        rw [ha] at hfix
        rcases hfix with h | h <;> exact absurd h (by decide)
      · split_ifs
        · exact dotted_or_dir_dotted _ _ hdd
        · rfl
      · intro h0
        rw [if_neg, h0]
        rintro ⟨_, _, ha⟩
        exact auto_ne_zero _ ha h0
      · intro hti hi hne
        rcases and_three_cases (pv.2.ti1.getD i 0) with h | h | h | h
        · exact absurd h hne
        · rw [if_neg (by rintro ⟨_, _, ha⟩; rw [ha] at h; exact absurd h (by decide))]
          exact Or.inl h
        · rw [if_neg (by rintro ⟨_, _, ha⟩; rw [ha] at h; exact absurd h (by decide))]
          exact Or.inr h
        · rw [if_pos ⟨hti, hi, h⟩, dotted_or_dir _ _ hdd]
          exact hdd

theorem set_tie_dir_resolves_witness :
    ∃ st1, set_tie_dir mixScore 0 = some st1
      ∧ (∀ q, q ∉ [(0, mixChord), (1, mixNote)].map (fun pv => pv.1) →
          st1.sym q = mixScore.sym q)
      ∧ ∀ pv ∈ [(0, mixChord), (1, mixNote)], ∃ w, st1.sym pv.1 = some w
          ∧ w = { pv.2 with ti1 := w.ti1 }
          ∧ (pv.2.sflags.S_TI1 = false → w = pv.2)
          ∧ ∀ i,
              (pv.2.ti1.getD i 0 &&& 3 = SL_ABOVE ∨ pv.2.ti1.getD i 0 &&& 3 = SL_BELOW →
                w.ti1.getD i 0 = pv.2.ti1.getD i 0)
              ∧ w.ti1.getD i 0 &&& SL_DOTTED = pv.2.ti1.getD i 0 &&& SL_DOTTED
              ∧ (pv.2.ti1.getD i 0 = 0 → w.ti1.getD i 0 = 0)
              ∧ (pv.2.sflags.S_TI1 = true → i ≤ pv.2.nhd → pv.2.ti1.getD i 0 &&& 3 ≠ 0 →
                  (w.ti1.getD i 0 &&& 3 = SL_ABOVE ∨ w.ti1.getD i 0 &&& 3 = SL_BELOW)) :=
  set_tie_dir_resolves mixScore 0 [(0, mixChord), (1, mixNote)] rfl ⟨rfl, trivial⟩
    (fun v hv => by cases hv; rfl)
    (fun pv hpv => by
      simp only [List.mem_cons, List.mem_singleton, List.not_mem_nil, or_false] at hpv
      rcases hpv with rfl | rfl <;> rfl)
    (by decide)

/-- Values computed on `mixScore`: the chord gets below, keeps dotted above,
keeps 0 and gets dotted above; the note without the flag keeps the automatic
direction. -/
theorem set_tie_dir_mixScore_values :
    (set_tie_dir mixScore 0).map (fun st1 => st1.syms.map (fun w => w.ti1))
      = some [[SL_BELOW, SL_DOTTED ||| SL_ABOVE, 0, SL_DOTTED ||| SL_ABOVE], [SL_AUTO]] := by
  rfl

theorem schar_id (x : Int) (h1 : -128 ≤ x) (h2 : x ≤ 127) : schar x = x := by
  unfold schar
  omega

theorem getD_set_int (l : List Int) (i j : Nat) (v : Int) :
    (l.set i v).getD j 0 = if i = j ∧ i < l.length then v else l.getD j 0 := by
  simp only [List.getD_eq_getElem?_getD, List.getElem?_set]
  by_cases h : i = j
  · subst h
    by_cases h2 : i < l.length
    · simp [h2]
    · simp [h2, List.getElem?_eq_none (Nat.le_of_not_lt h2)]
  · simp [h]

theorem tmod_six (y : Int) : Int.tmod y 6 = 0 ↔ y % 6 = 0 := by
  constructor
  · intro h
    exact Int.emod_eq_zero_of_dvd (Int.dvd_of_tmod_eq_zero h)
  · intro h
    exact Int.tmod_eq_zero_of_dvd (Int.dvd_of_emod_eq_zero h)

theorem dot_normal_spec (s : SYMBOL) (doty : Int) (j : Nat) :
    dot_normal s doty j % 6 = 3
    ∧ (doty = 0 → dot_height s j ≤ dot_normal s doty j
        ∧ dot_normal s doty j ≤ dot_height s j + 3)
    ∧ (doty ≠ 0 → dot_height s j - 3 ≤ dot_normal s doty j
        ∧ dot_normal s doty j ≤ dot_height s j) := by
  unfold dot_normal
  have hh : dot_height s j = 3 * (s.pits.getD j 0 - 18) := rfl
  by_cases h6 : Int.tmod (dot_height s j) 6 = 0
  · have h6b := (tmod_six _).mp h6
    rw [if_pos h6]
    by_cases hd : doty ≠ 0
    · rw [if_pos hd]
      refine ⟨by omega, fun h => absurd h hd, fun _ => ⟨by omega, by omega⟩⟩
    · rw [if_neg hd]
      refine ⟨by omega, fun _ => ⟨by omega, by omega⟩, fun h => absurd h hd⟩
  · have h6b : ¬ dot_height s j % 6 = 0 := fun h => h6 ((tmod_six _).mpr h)
    rw [if_neg h6]
    refine ⟨by omega, fun _ => ⟨by omega, by omega⟩, fun _ => ⟨by omega, by omega⟩⟩

theorem dot_height_step (s : SYMBOL) (n : Nat)
    (hinc : ∀ j, j < n → s.pits.getD j 0 < s.pits.getD (j + 1) 0) (j : Nat) (hj : j < n) :
    dot_height s j + 3 ≤ dot_height s (j + 1) := by
  have := hinc j hj
  unfold dot_height
  omega

theorem dot_height_mono (s : SYMBOL) (n : Nat)
    (hinc : ∀ j, j < n → s.pits.getD j 0 < s.pits.getD (j + 1) 0) :
    ∀ k j, j ≤ k → k ≤ n → dot_height s j ≤ dot_height s k := by
  intro k
  induction k with
  | zero =>
    intro j hj _
    have : j = 0 := by omega
    subst this
    exact le_refl _
  | succ k ih =>
    intro j hj hk
    rcases Nat.lt_or_ge j (k + 1) with h | h
    · have h1 := ih j (by omega) (by omega)
      have h2 := dot_height_step s n hinc k (by omega)
      omega
    · have : j = k + 1 := by omega
      subst this
      exact le_refl _

theorem setdoty_start_le (y : List Int) : ∀ m, setdoty_start y m ≤ m := by
  intro m
  induction m with
  | zero => exact Nat.le_refl _
  | succ m ih =>
    unfold setdoty_start
    split_ifs
    · exact Nat.le_refl _
    · omega

theorem setdoty_start_gap (y : List Int) :
    ∀ m, setdoty_start y m = 0
      ∨ (1 ≤ setdoty_start y m
        ∧ y.getD (setdoty_start y m) 0 > y.getD (setdoty_start y m - 1) 0 + 6) := by
  intro m
  induction m with
  | zero => left; rfl
  | succ m ih =>
    unfold setdoty_start
    split_ifs with h
    · right
      exact ⟨by omega, h⟩
    · exact ih

theorem setdoty_start_tight (y : List Int) :
    ∀ m j, setdoty_start y m ≤ j → j < m → y.getD (j + 1) 0 ≤ y.getD j 0 + 6 := by
  intro m
  induction m with
  | zero => intro j _ hj; omega
  | succ m ih =>
    intro j h1 h2
    unfold setdoty_start at h1
    split_ifs at h1 with h
    · omega
    · rcases Nat.lt_or_ge j m with h3 | h3
      · exact ih j h1 h3
      · have : j = m := by omega
        subst this
        omega

theorem setdoty_start_congr (y y1 : List Int) :
    ∀ m, (∀ j, j ≤ m → y1.getD j 0 = y.getD j 0) → setdoty_start y1 m = setdoty_start y m := by
  intro m
  induction m with
  | zero => intro _; rfl
  | succ m ih =>
    intro h
    unfold setdoty_start
    rw [h (m + 1) (Nat.le_refl _), h m (by omega), ih (fun j hj => h j (by omega))]

theorem setdoty_normal_loop (s : SYMBOL) (doty : Int) (y : List Int) :
    ∀ k, (for_range k (setdoty_normal s doty) y).length = y.length
      ∧ ∀ j, (for_range k (setdoty_normal s doty) y).getD j 0
          = if j < k ∧ j < y.length then schar (dot_normal s doty j) else y.getD j 0 := by
  intro k
  induction k with
  | zero =>
    rw [for_range_zero]
    exact ⟨rfl, fun j => by rw [if_neg (fun h => absurd h.1 (by omega))]⟩
  | succ k ih =>
    obtain ⟨h1, h2⟩ := ih
    rw [for_range_succ]
    have hstep : ∀ l : List Int, setdoty_normal s doty k l
        = l.set k (schar (dot_normal s doty k)) := fun _ => rfl
    rw [hstep]
    refine ⟨by simp only [List.length_set]; exact h1, ?_⟩
    intro j
    rw [getD_set_int, h1, h2 j]
    by_cases hjk : k = j
    · subst hjk
      by_cases hl : k < y.length
      · rw [if_pos ⟨rfl, hl⟩, if_pos ⟨by omega, hl⟩]
      · rw [if_neg (fun h => hl h.2), if_neg (fun h => hl h.2), if_neg (fun h => hl h.2)]
    · rw [if_neg (fun h => hjk h.1)]
      by_cases hc : j < k ∧ j < y.length
      · rw [if_pos hc, if_pos ⟨by omega, hc.2⟩]
      · rw [if_neg hc, if_neg]
        rintro ⟨h3, h4⟩
        exact hc ⟨by omega, h4⟩

theorem setdoty_lower_loop (b : Nat) (y : List Int) :
    ∀ k, (for_range k
        (fun i y_tb => if b ≤ i then y_tb.set i (schar (y_tb.getD i 0 - 6)) else y_tb)
        y).length = y.length
      ∧ ∀ j, (for_range k
          (fun i y_tb => if b ≤ i then y_tb.set i (schar (y_tb.getD i 0 - 6)) else y_tb)
          y).getD j 0
          = if b ≤ j ∧ j < k ∧ j < y.length then schar (y.getD j 0 - 6) else y.getD j 0 := by
  intro k
  induction k with
  | zero =>
    rw [for_range_zero]
    exact ⟨rfl, fun j => by rw [if_neg (fun h => absurd h.2.1 (by omega))]⟩
  | succ k ih =>
    obtain ⟨h1, h2⟩ := ih
    rw [for_range_succ]
    by_cases hb : b ≤ k
    · simp only [if_pos hb]
      refine ⟨by simp only [List.length_set]; exact h1, ?_⟩
      intro j
      rw [getD_set_int, h1, h2 j, h2 k]
      by_cases hjk : k = j
      · subst hjk
        by_cases hl : k < y.length
        · rw [if_pos ⟨rfl, hl⟩, if_neg (fun h => absurd h.2.1 (by omega)),
            if_pos ⟨hb, by omega, hl⟩]
        · rw [if_neg (fun h => hl h.2), if_neg (fun h => hl h.2.2),
            if_neg (fun h => hl h.2.2)]
      · rw [if_neg (fun h => hjk h.1)]
        by_cases hc : b ≤ j ∧ j < k ∧ j < y.length
        · rw [if_pos hc, if_pos ⟨hc.1, by omega, hc.2.2⟩]
        · rw [if_neg hc, if_neg]
          rintro ⟨h3, h4, h5⟩
          exact hc ⟨h3, by omega, h5⟩
    · simp only [if_neg hb]
      refine ⟨h1, ?_⟩
      intro j
      rw [h2 j]
      by_cases hc : b ≤ j ∧ j < k ∧ j < y.length
      · rw [if_pos hc, if_pos ⟨hc.1, by omega, hc.2.2⟩]
      · rw [if_neg hc, if_neg]
        rintro ⟨h3, h4, h5⟩
        exact hc ⟨h3, by omega, h5⟩

theorem dot_start_le_normal (s : SYMBOL) (doty : Int) (y : List Int) (k : Nat)
    (hD : ∀ j, j ≤ k → dot_normal s doty j < y.getD j 0 →
      1 ≤ j ∧ y.getD j 0 = y.getD (j - 1) 0 + 6) :
    y.getD (setdoty_start y k) 0 ≤ dot_normal s doty (setdoty_start y k) := by
  by_contra hc
  obtain ⟨h1, h2⟩ := hD _ (setdoty_start_le y k) (not_le.mp hc)
  rcases setdoty_start_gap y k with h | ⟨_, h⟩
  · omega
  · omega

theorem setdoty_start_succ (y : List Int) (m : Nat) :
    setdoty_start y (m + 1)
      = if y.getD (m + 1) 0 > y.getD m 0 + 6 then m + 1 else setdoty_start y m := rfl

/-- One round of the loop "dispatch and recenter" of `setdoty` keeps the
state `dot_inv`, when the pitches increase and the offsets fit in a
`signed char`. -/
theorem dot_inv_step (s : SYMBOL) (doty : Int) (n m : Nat) (y : List Int)
    (hinc : ∀ j, j < n → s.pits.getD j 0 < s.pits.getD (j + 1) 0)
    (hlo : -128 ≤ dot_height s 0 - 3 - 6 * (n : Int))
    (hhi : dot_height s n + 3 + 6 * (n : Int) ≤ 127)
    (hm : m < n) (h : dot_inv s doty n m y) :
    dot_inv s doty n (m + 1) (setdoty_recenter s m y) := by
  obtain ⟨hL, hA, hB, hC, hD, hE, hH⟩ := h
  have hble := setdoty_start_le y m
  have hgap := setdoty_start_gap y m
  have htight := setdoty_start_tight y m
  have hnr := dot_start_le_normal s doty y m hD
  have hstep := dot_height_step s n hinc m hm
  have hn1 := dot_normal_spec s doty (m + 1)
  have hC1 := hC (m + 1) (by omega) (by omega)
  have hAm := hA m (by omega)
  have hAm1 := hA (m + 1) (by omega)
  have hmn : ((m : Int) + 1) ≤ (n : Int) := by exact_mod_cast hm
  -- the last conjunct for a top head at its normal offset
  have hEtop : ∀ y1 : List Int,
      (∀ j, j ≤ m + 1 → dot_normal s doty j < y1.getD j 0 →
        1 ≤ j ∧ y1.getD j 0 = y1.getD (j - 1) 0 + 6) →
      y1.getD (m + 1) 0 = dot_normal s doty (m + 1) →
      (doty = 0 →
        dot_height s (setdoty_start y1 (m + 1)) - y1.getD (setdoty_start y1 (m + 1)) 0 ≤ 0 →
        y1.getD (m + 1) 0 - dot_height s (m + 1)
          ≤ dot_height s (setdoty_start y1 (m + 1))
              - y1.getD (setdoty_start y1 (m + 1)) 0 + 6) := by
    intro y1 hD1 htop hd _
    have h1 := dot_start_le_normal s doty y1 (m + 1) hD1
    have h2 := (dot_normal_spec s doty (setdoty_start y1 (m + 1))).2.1 hd
    have h3 := hn1.2.1 hd
    omega
  unfold setdoty_recenter
  by_cases hc : y.getD (m + 1) 0 > y.getD m 0
  · -- the next head is higher
    rw [if_pos hc]
    have hD1 : ∀ j, j ≤ m + 1 → dot_normal s doty j < y.getD j 0 →
        1 ≤ j ∧ y.getD j 0 = y.getD (j - 1) 0 + 6 := by
      intro j hj hr
      rcases Nat.lt_or_ge j (m + 1) with h | h
      · exact hD j (by omega) hr
      · have : j = m + 1 := by omega
        subst this
        omega
    refine ⟨hL, hA, ?_, ?_, hD1, hEtop y hD1 hC1, ?_⟩
    · intro j hj
      rcases Nat.lt_or_ge j m with h | h
      · exact hB j h
      · have : j = m := by omega
        subst this
        omega
    · intro j h1 h2
      exact hC j (by omega) h2
    · intro j hj
      have := hH j hj
      push_cast
      omega
  · rw [if_neg hc]
    simp only
    by_cases hs : 3 * (s.pits.getD (setdoty_start y m) 0 - 18) - y.getD (setdoty_start y m) 0
        < y.getD (m + 1) 0 - 3 * (s.pits.getD (m + 1) 0 - 18)
    · -- the group is lowered
      rw [if_pos hs]
      have hs2 : dot_height s (setdoty_start y m) - y.getD (setdoty_start y m) 0
          < y.getD (m + 1) 0 - dot_height s (m + 1) := hs
      have hAb := hA (setdoty_start y m) (by omega)
      have hhb : dot_height s (setdoty_start y m)
          = 3 * (s.pits.getD (setdoty_start y m) 0 - 18) := rfl
      have hnb := dot_normal_spec s doty (setdoty_start y m)
      have hd0 : doty = 0 := by
        by_contra hd
        have h1 := hnb.2.2 hd
        have h2 := hn1.2.2 hd
        omega
      have h3 := hn1.2.1 hd0
      have hEo := hE hd0 (by omega)
      have heq : y.getD m 0 = y.getD (m + 1) 0 := by omega
      obtain ⟨hlen, hval⟩ := setdoty_lower_loop (setdoty_start y m) y (m + 1)
      have hy1 : ∀ j, (setdoty_lower (setdoty_start y m) m y).getD j 0
          = if setdoty_start y m ≤ j ∧ j < m + 1 then y.getD j 0 - 6 else y.getD j 0 := by
        intro j
        unfold setdoty_lower
        rw [hval j]
        by_cases hcj : setdoty_start y m ≤ j ∧ j < m + 1
        · rw [if_pos ⟨hcj.1, hcj.2, by omega⟩, if_pos hcj]
          have := hH j (by omega)
          exact schar_id _ (by omega) (by omega)
        · rw [if_neg (fun h => hcj ⟨h.1, h.2.1⟩), if_neg hcj]
      have hD1 : ∀ j, j ≤ m + 1 →
          dot_normal s doty j < (setdoty_lower (setdoty_start y m) m y).getD j 0 →
          1 ≤ j ∧ (setdoty_lower (setdoty_start y m) m y).getD j 0
            = (setdoty_lower (setdoty_start y m) m y).getD (j - 1) 0 + 6 := by
        intro j hj hr
        rw [hy1 j] at hr ⊢
        rw [hy1 (j - 1)]
        by_cases hcj : setdoty_start y m ≤ j ∧ j < m + 1
        · rw [if_pos hcj] at hr ⊢
          rcases Nat.lt_or_ge (setdoty_start y m) j with h | h
          · obtain ⟨e1, e2⟩ := hD j (by omega) (by omega)
            rw [if_pos ⟨by omega, by omega⟩]
            exact ⟨e1, by omega⟩
          · have : j = setdoty_start y m := by omega
            subst this
            omega
        · rw [if_neg hcj] at hr ⊢
          rcases Nat.lt_or_ge j (m + 1) with h | h
          · obtain ⟨e1, e2⟩ := hD j (by omega) hr
            rw [if_neg (by omega)]
            exact ⟨e1, e2⟩
          · have : j = m + 1 := by omega
            subst this
            omega
      refine ⟨by unfold setdoty_lower; rw [hlen]; exact hL, ?_, ?_, ?_, hD1, ?_, ?_⟩
      · intro j hj
        rw [hy1 j]
        have := hA j hj
        split_ifs <;> omega
      · intro j hj
        rw [hy1 j, hy1 (j + 1)]
        rcases Nat.lt_or_ge j m with h | h
        · have hBj := hB j h
          by_cases hcj : setdoty_start y m ≤ j
          · rw [if_pos ⟨hcj, by omega⟩, if_pos ⟨by omega, by omega⟩]
            omega
          · rw [if_neg (fun h => hcj h.1)]
            by_cases hcj1 : setdoty_start y m ≤ j + 1
            · rw [if_pos ⟨hcj1, by omega⟩]
              have hjb : j + 1 = setdoty_start y m := by omega
              have hAj := hA j (by omega)
              have hAj1 := hA (j + 1) (by omega)
              rcases hgap with h0 | ⟨_, hg⟩
              · omega
              · rw [← hjb] at hg
                simp only [Nat.add_sub_cancel] at hg
                omega
            · rw [if_neg (fun h => hcj1 h.1)]
              exact hBj
        · have : j = m := by omega
          subst this
          rw [if_pos ⟨hble, by omega⟩, if_neg (by omega)]
          omega
      · intro j h1 h2
        rw [hy1 j, if_neg (by omega)]
        exact hC j (by omega) h2
      · refine hEtop _ hD1 ?_
        rw [hy1 (m + 1), if_neg (by omega)]
        exact hC1
      · intro j hj
        rw [hy1 j]
        have := hH j hj
        push_cast
        split_ifs <;> omega
    · -- the next head is raised
      rw [if_neg hs]
      have hs2 : ¬ dot_height s (setdoty_start y m) - y.getD (setdoty_start y m) 0
          < y.getD (m + 1) 0 - dot_height s (m + 1) := hs
      have hHm := hH m (by omega)
      have hsc : schar (y.getD m 0 + 6) = y.getD m 0 + 6 := schar_id _ (by omega) (by omega)
      have hy1 : ∀ j, (y.set (m + 1) (schar (y.getD m 0 + 6))).getD j 0
          = if j = m + 1 then y.getD m 0 + 6 else y.getD j 0 := by
        intro j
        rw [getD_set_int, hsc]
        by_cases hj : j = m + 1
        · rw [if_pos ⟨hj.symm, by omega⟩, if_pos hj]
        · rw [if_neg (fun h => hj h.1.symm), if_neg hj]
      have hstart : setdoty_start (y.set (m + 1) (schar (y.getD m 0 + 6))) (m + 1)
          = setdoty_start y m := by
        have e1 : (y.set (m + 1) (schar (y.getD m 0 + 6))).getD (m + 1) 0 = y.getD m 0 + 6 := by
          rw [hy1 (m + 1), if_pos rfl]
        have e2 : (y.set (m + 1) (schar (y.getD m 0 + 6))).getD m 0 = y.getD m 0 := by
          rw [hy1 m, if_neg (by omega)]
        rw [setdoty_start_succ, e1, e2, if_neg (lt_irrefl _)]
        apply setdoty_start_congr
        intro j hj
        rw [hy1 j, if_neg (by omega)]
      refine ⟨by simp only [List.length_set]; exact hL, ?_, ?_, ?_, ?_, ?_, ?_⟩
      · intro j hj
        rw [hy1 j]
        have := hA j hj
        split_ifs <;> omega
      · intro j hj
        rw [hy1 j, hy1 (j + 1)]
        rcases Nat.lt_or_ge j m with h | h
        · rw [if_neg (by omega), if_neg (by omega)]
          exact hB j h
        · have : j = m := by omega
          subst this
          rw [if_neg (by omega), if_pos rfl]
      · intro j h1 h2
        rw [hy1 j, if_neg (by omega)]
        exact hC j (by omega) h2
      · intro j hj hr
        rw [hy1 j] at hr ⊢
        rw [hy1 (j - 1)]
        rcases Nat.lt_or_ge j (m + 1) with h | h
        · rw [if_neg (by omega)] at hr ⊢
          rw [if_neg (by omega)]
          exact hD j (by omega) hr
        · have : j = m + 1 := by omega
          subst this
          rw [if_pos rfl, if_neg (by omega)]
          exact ⟨by omega, rfl⟩
      · intro hd hpre
        rw [hstart] at hpre ⊢
        rw [hy1 (setdoty_start y m), if_neg (by omega)] at hpre ⊢
        rw [hy1 (m + 1), if_pos rfl]
        have h3 := hn1.2.1 hd
        have hEo := hE hd hpre
        have hhm1 : dot_height s (m + 1) = 3 * (s.pits.getD (m + 1) 0 - 18) := rfl
        omega
      · intro j hj
        rw [hy1 j]
        have := hH j hj
        push_cast
        split_ifs <;> omega

theorem dot_inv_init (s : SYMBOL) (doty : Int) (n : Nat) (y : List Int)
    (hinc : ∀ j, j < n → s.pits.getD j 0 < s.pits.getD (j + 1) 0)
    (hlo : -128 ≤ dot_height s 0 - 3 - 6 * (n : Int))
    (hhi : dot_height s n + 3 + 6 * (n : Int) ≤ 127)
    (hlen : n < y.length) :
    dot_inv s doty n 0 (for_range (n + 1) (setdoty_normal s doty) y) := by
  obtain ⟨h1, h2⟩ := setdoty_normal_loop s doty y (n + 1)
  have hn0 : (0 : Int) ≤ (n : Int) := Int.natCast_nonneg n
  have hnorm : ∀ j, j ≤ n → dot_height s 0 - 3 ≤ dot_normal s doty j
      ∧ dot_normal s doty j ≤ dot_height s n + 3 := by
    intro j hj
    have m1 := dot_height_mono s n hinc j 0 (by omega) hj
    have m2 := dot_height_mono s n hinc n j hj (Nat.le_refl _)
    have hsp := dot_normal_spec s doty j
    by_cases hd : doty = 0
    · have := hsp.2.1 hd
      omega
    · have := hsp.2.2 hd
      omega
  have hval : ∀ j, j ≤ n →
      (for_range (n + 1) (setdoty_normal s doty) y).getD j 0 = dot_normal s doty j := by
    intro j hj
    rw [h2 j, if_pos ⟨by omega, by omega⟩]
    have := hnorm j hj
    exact schar_id _ (by omega) (by omega)
  refine ⟨by rw [h1]; exact hlen, ?_, ?_, ?_, ?_, ?_, ?_⟩
  · intro j hj
    rw [hval j hj]
    exact (dot_normal_spec s doty j).1
  · intro j hj
    omega
  · intro j _ hj
    exact hval j hj
  · intro j hj hr
    have : j = 0 := by omega
    subst this
    rw [hval 0 (by omega)] at hr
    omega
  · intro hd _
    have hst : setdoty_start (for_range (n + 1) (setdoty_normal s doty) y) 0 = 0 := rfl
    rw [hst, hval 0 (by omega)]
    have := (dot_normal_spec s doty 0).2.1 hd
    omega
  · intro j hj
    rw [hval j hj]
    have := hnorm j hj
    push_cast
    omega

theorem dot_inv_loop (s : SYMBOL) (doty : Int) (n : Nat) (y : List Int)
    (hinc : ∀ j, j < n → s.pits.getD j 0 < s.pits.getD (j + 1) 0)
    (hlo : -128 ≤ dot_height s 0 - 3 - 6 * (n : Int))
    (hhi : dot_height s n + 3 + 6 * (n : Int) ≤ 127)
    (h0 : dot_inv s doty n 0 y) :
    ∀ k, k ≤ n → dot_inv s doty n k (for_range k (setdoty_recenter s) y) := by
  intro k
  induction k with
  | zero =>
    intro _
    rw [for_range_zero]
    exact h0
  | succ k ih =>
    intro hk
    rw [for_range_succ]
    exact dot_inv_step s doty n k _ hinc hlo hhi (by omega) (ih (by omega))

theorem setdoty_recenter_length (s : SYMBOL) (m : Nat) (y : List Int) :
    (setdoty_recenter s m y).length = y.length := by
  unfold setdoty_recenter
  by_cases hc : y.getD (m + 1) 0 > y.getD m 0
  · rw [if_pos hc]
  · rw [if_neg hc]
    simp only
    split_ifs
    · unfold setdoty_lower
      exact (setdoty_lower_loop _ _ _).1
    · simp only [List.length_set]

/-- C29 (amended): for a chord whose head pitches increase strictly and whose
offsets fit in a `signed char` (`3*(pits[0]-18) - 3 - 6*nhd >= -128` and
`3*(pits[nhd]-18) + 3 + 6*nhd <= 127`), after `setdoty` the dot offsets
`y_tb[0..nhd]` increase strictly and each of them is an odd multiple of 3. -/
theorem setdoty_increasing (s : SYMBOL) (doty : Int) (y_tb : List Int)
    (hlen : s.nhd < y_tb.length)
    (hinc : ∀ j, j < s.nhd → s.pits.getD j 0 < s.pits.getD (j + 1) 0)
    (hlo : -128 ≤ 3 * (s.pits.getD 0 0 - 18) - 3 - 6 * (s.nhd : Int))
    (hhi : 3 * (s.pits.getD s.nhd 0 - 18) + 3 + 6 * (s.nhd : Int) ≤ 127) :
    (setdoty s doty y_tb).length = y_tb.length
    ∧ (∀ j, j < s.nhd → (setdoty s doty y_tb).getD j 0 < (setdoty s doty y_tb).getD (j + 1) 0)
    ∧ (∀ j, j ≤ s.nhd → (setdoty s doty y_tb).getD j 0 % 6 = 3) := by
  have h0 := dot_inv_init s doty s.nhd y_tb hinc hlo hhi hlen
  obtain ⟨hL, hA, hB, _, _, _, _⟩ := dot_inv_loop s doty s.nhd _ hinc hlo hhi h0 s.nhd
    (Nat.le_refl _)
  have hlen2 : ∀ k (y : List Int), (for_range k (setdoty_recenter s) y).length = y.length := by
    intro k
    induction k with
    | zero => intro y; rw [for_range_zero]
    | succ k ih =>
      intro y
      rw [for_range_succ, setdoty_recenter_length]
      exact ih y
  refine ⟨?_, ?_, hA⟩
  · unfold setdoty
    rw [hlen2, (setdoty_normal_loop s doty y_tb (s.nhd + 1)).1]
  · intro j hj
    have := hB j hj
    unfold setdoty
    omega

theorem setdoty_increasing_witness :
    (setdoty (dotChord [18, 19, 20, 21]) 0 (List.replicate 8 0)).length
        = (List.replicate 8 (0 : Int)).length
    ∧ (∀ j, j < (dotChord [18, 19, 20, 21]).nhd →
        (setdoty (dotChord [18, 19, 20, 21]) 0 (List.replicate 8 0)).getD j 0
          < (setdoty (dotChord [18, 19, 20, 21]) 0 (List.replicate 8 0)).getD (j + 1) 0)
    ∧ (∀ j, j ≤ (dotChord [18, 19, 20, 21]).nhd →
        (setdoty (dotChord [18, 19, 20, 21]) 0 (List.replicate 8 0)).getD j 0 % 6 = 3) :=
  setdoty_increasing (dotChord [18, 19, 20, 21]) 0 (List.replicate 8 0) (by decide)
    (by
      intro j hj
      have h3 : j < 3 := hj
      clear hj
      interval_cases j <;> decide)
    (by decide) (by decide)

/-- C29 (counterexample): the offsets are stored in `signed char`.  For a
single head of pitch 61 the height is 129, stored as -127, which is not an odd
multiple of 3; for the heads of pitches 59 and 61 the offsets left are 123 and
-127, which do not increase. -/
theorem setdoty_wraps :
    setdoty (dotChord [61]) 0 [0] = [-127] ∧ ¬ ((-127 : Int) % 6 = 3)
    ∧ setdoty (dotChord [59, 61]) 0 [0, 0] = [123, -127]
    ∧ (dotChord [59, 61]).pits.getD 0 0 < (dotChord [59, 61]).pits.getD 1 0
    ∧ ¬ ((setdoty (dotChord [59, 61]) 0 [0, 0]).getD 0 0
          < (setdoty (dotChord [59, 61]) 0 [0, 0]).getD 1 0) := by
  decide

/-- Values computed by `setdoty` on three chords with seconds. -/
theorem setdoty_values :
    setdoty (dotChord [18, 19, 20, 21]) 0 (List.replicate 8 0) = [-3, 3, 9, 15, 0, 0, 0, 0]
    ∧ setdoty (dotChord [19, 20, 21, 22]) 1 (List.replicate 8 0) = [3, 9, 15, 21, 0, 0, 0, 0]
    ∧ setdoty (dotChord [10, 11, 12, 14, 15, 16, 17]) 0 (List.replicate 8 0)
        = [-27, -21, -15, -9, -3, 3, 9, 0] := by
  decide

/-- C27 (failing case): a triplet displayed with `what` = slur and `value` =
none (`u = 0x11`) in a voice without slurs.  The first loop of tuplets of
`draw_sym_near` draws the substitute slur and `draw_tuplet` returns at the
test of the value display, before `S_IN_TUPLET` is cleared; the second loop
calls `draw_tuplet` again and a second slur is drawn, above the first one.
With `value` = number (`u = 0x10`) the slur and the number are drawn once and
the flag is cleared. -/
theorem near_tuplets_slur_twice :
    (near_tuplets stdHdr (fun _ _ _ => none) (markScore 0x11).fuel (some 1)
        (markScore 0x11)).map
        (fun st => (st.out, (st.sym 1).map (fun v => v.sflags.S_IN_TUPLET)))
      = some ([Prim.slur { x1 := 55, y1 := 34, x2 := 175 / 2, y2 := 389 / 10, s := 1,
                           height := 359 / 40, dotted := 0, staff := 0 }], some true)
    ∧ (near_voice_tuplets stdHdr (fun _ _ _ => none) (fun st => some st)
        (markScore 0x11) 0).map (fun st => st.out)
      = some [Prim.slur { x1 := 55, y1 := 34, x2 := 175 / 2, y2 := 389 / 10, s := 1,
                          height := 359 / 40, dotted := 0, staff := 0 },
              Prim.slur { x1 := 55, y1 := 12697 / 340, x2 := 89, y2 := 13649 / 340, s := 1,
                          height := 451 / 50, dotted := 0, staff := 0 }]
    ∧ (near_voice_tuplets stdHdr (fun _ _ _ => none) (fun st => some st)
        (markScore 0x10) 0).map
        (fun st => (st.out, (st.sym 1).map (fun v => v.sflags.S_IN_TUPLET)))
      = some ([Prim.slur { x1 := 55, y1 := 34, x2 := 175 / 2, y2 := 389 / 10, s := 1,
                           height := 359 / 40, dotted := 0, staff := 0 },
               Prim.bnum 3 none (358 / 5) (57423 / 1300) 0], some false)
    ∧ (near_voice_tuplets stdHdr (fun _ _ _ => none) (fun st => some st)
        (markScore 0) 0).map
        (fun st => (st.out, (st.sym 1).map (fun v => v.sflags.S_IN_TUPLET)))
      = some ([Prim.bnum 3 none (358 / 5) (958 / 25) 0], some false) := by
  refine ⟨by decide!, by decide!, by decide!, by decide!⟩

theorem tuplet_room_up_out (H : Hdr) (upstaff s2 : Nat) (xm ym a : ℚ) :
    ∀ (fuel : Nat) (p : Option Nat) (st st1 : Score),
      tuplet_room_up H upstaff s2 xm ym a fuel p st = some st1 → st1.out = st.out := by
  intro fuel
  induction fuel with
  | zero => intro p st st1 h; simp [tuplet_room_up] at h
  | succ n ih =>
    intro p st st1 h
    cases p with
    | none => simp [tuplet_room_up] at h
    | some sy =>
      unfold tuplet_room_up at h
      cases hv : st.sym sy with
      | none => simp [hv] at h
      | some v =>
        simp only [hv] at h
        by_cases hs : v.staff = upstaff
        · rw [if_pos hs] at h
          have hstep : (if (v.ymx : ℚ) < ym + (v.x - xm) * a then
              st.upd sy (fun z => { z with ymx := ctrunc (ym + (v.x - xm) * a) })
            else st).out = st.out := by
            split_ifs <;> rfl
          generalize (if (v.ymx : ℚ) < ym + (v.x - xm) * a then
              st.upd sy (fun z => { z with ymx := ctrunc (ym + (v.x - xm) * a) })
            else st) = sta at h hstep
          by_cases he : sy = s2
          · rw [if_pos he] at h
            rw [← Option.some.inj h]
            exact hstep
          · rw [if_neg he] at h
            cases hn : v.next.bind sta.sym with
            | none => simp [hn] at h
            | some nv =>
              simp only [hn] at h
              rw [ih _ _ _ h, y_set_out, hstep]
        · rw [if_neg hs] at h
          by_cases he : sy = s2
          · rw [if_pos he] at h
            rw [← Option.some.inj h]
          · rw [if_neg he] at h
            exact ih _ _ _ h

theorem tuplet_room_down_out (H : Hdr) (upstaff s2 : Nat) (xm ym a : ℚ) :
    ∀ (fuel : Nat) (p : Option Nat) (st st1 : Score),
      tuplet_room_down H upstaff s2 xm ym a fuel p st = some st1 → st1.out = st.out := by
  intro fuel
  induction fuel with
  | zero => intro p st st1 h; simp [tuplet_room_down] at h
  | succ n ih =>
    intro p st st1 h
    cases p with
    | none => simp [tuplet_room_down] at h
    | some sy =>
      unfold tuplet_room_down at h
      cases hv : st.sym sy with
      | none => simp [hv] at h
      | some v =>
        simp only [hv] at h
        by_cases hs : v.staff = upstaff
        · rw [if_pos hs] at h
          by_cases he : sy = s2
          · rw [if_pos he] at h
            rw [← Option.some.inj h]
          · rw [if_neg he] at h
            have hstep : (if (v.ymn : ℚ) > ym + (v.x - xm) * a then
                st.upd sy (fun z => { z with ymn := ctrunc (ym + (v.x - xm) * a) })
              else st).out = st.out := by
              split_ifs <;> rfl
            generalize (if (v.ymn : ℚ) > ym + (v.x - xm) * a then
                st.upd sy (fun z => { z with ymn := ctrunc (ym + (v.x - xm) * a) })
              else st) = sta at h hstep
            cases hn : v.next.bind sta.sym with
            | none => simp [hn] at h
            | some nv =>
              simp only [hn] at h
              rw [ih _ _ _ h, y_set_out, hstep]
        · rw [if_neg hs] at h
          by_cases he : sy = s2
          · rw [if_pos he] at h
            rw [← Option.some.inj h]
          · rw [if_neg he] at h
            exact ih _ _ _ h

/-- Slope kept by `draw_tuplet`: between 0 and `s0`, and 0 or at least 0.1 in
magnitude. -/
theorem tuplet_slope_spec (a s0 : ℚ) :
    ((0 ≤ tuplet_slope a s0 ∧ tuplet_slope a s0 ≤ s0)
      ∨ (s0 ≤ tuplet_slope a s0 ∧ tuplet_slope a s0 ≤ 0))
    ∧ (tuplet_slope a s0 = 0 ∨ 1 / 10 ≤ |tuplet_slope a s0|) := by
  unfold tuplet_slope
  simp only
  have hbet : ∀ c : ℚ, c = (if s0 > 0 then (if a < 0 then 0 else if a > s0 then s0 else a)
      else (if a > 0 then 0 else if a < s0 then s0 else a)) →
      ((0 ≤ c ∧ c ≤ s0) ∨ (s0 ≤ c ∧ c ≤ 0)) := by
    intro c hc
    rw [hc]
    split_ifs <;> first | (left; constructor <;> linarith) | (right; constructor <;> linarith)
  generalize hc : (if s0 > 0 then (if a < 0 then 0 else if a > s0 then s0 else a)
      else (if a > 0 then 0 else if a < s0 then s0 else a)) = c
  have hb := hbet c hc.symm
  by_cases hz : c * c < 1 / 10 * (1 / 10)
  · rw [if_pos hz]
    refine ⟨?_, Or.inl rfl⟩
    rcases hb with ⟨h1, h2⟩ | ⟨h1, h2⟩
    · left; exact ⟨le_refl _, by linarith⟩
    · right; exact ⟨by linarith, le_refl _⟩
  · rw [if_neg hz]
    refine ⟨hb, Or.inr ?_⟩
    have h2 : (1 / 10 : ℚ) * (1 / 10) ≤ c * c := not_lt.mp hz
    have h3 : |(1 / 10 : ℚ)| ≤ |c| := abs_le_iff_mul_self_le.mpr h2
    rw [abs_of_pos (by norm_num : (0 : ℚ) < 1 / 10)] at h3
    exact h3

/-- Loop "shift up bracket if needed" (or down) of `draw_tuplet` over the
chain `P` of the symbols from `s1` to `s2`: the value `dy` it returns bounds
the distance between the occupancy and the line at every member (a symbol with
a duration on the staff of the bracket). -/
theorem tuplet_shift_path (H : Hdr) (st : Score) (upper : Bool) (upstaff s2 : Nat)
    (xm ym a : ℚ) :
    ∀ (P : List (Nat × SYMBOL)) (fuel : Nat) (dy0 dy : ℚ),
      linked P → (∀ pv ∈ P, st.sym pv.1 = some pv.2) →
      (∃ v2, P.getLast? = some (s2, v2)) → (∀ pv ∈ P.dropLast, pv.1 ≠ s2) →
      tuplet_shift H st upper upstaff s2 xm ym a fuel (P.head?.map (fun pv => pv.1)) dy0
        = some dy →
      (upper = true → dy0 ≤ dy ∧ ∀ pv ∈ P, pv.2.dur ≠ 0 → pv.2.staff = upstaff →
          y_get H st upstaff true pv.2.x 0 - (ym + (pv.2.x - xm) * a) ≤ dy)
      ∧ (upper = false → dy ≤ dy0 ∧ ∀ pv ∈ P, pv.2.dur ≠ 0 → pv.2.staff = upstaff →
          dy ≤ y_get H st upstaff false pv.2.x 0 - (ym + (pv.2.x - xm) * a)) := by
  intro P
  induction P with
  | nil =>
    intro fuel dy0 dy _ _ hlast _ _
    obtain ⟨v2, hv2⟩ := hlast
    simp at hv2
  | cons p r ih =>
    intro fuel dy0 dy hlink hsym hlast hne h
    obtain ⟨n, rfl⟩ : ∃ n, fuel = n + 1 := by
      cases fuel with
      | zero => simp [tuplet_shift] at h
      | succ n => exact ⟨n, rfl⟩
    have hp : st.sym p.1 = some p.2 := hsym p (List.mem_cons_self _ _)
    simp only [List.head?_cons, Option.map_some'] at h
    unfold tuplet_shift at h
    simp only [hp] at h
    -- the value of `dy` after the head of the chain
    have hstep : ∀ d1 : ℚ,
        d1 = (if p.2.dur = 0 ∨ p.2.staff ≠ upstaff then dy0
              else if upper = true then
                (if y_get H st upstaff upper p.2.x 0 - (ym + (p.2.x - xm) * a) > dy0
                 then y_get H st upstaff upper p.2.x 0 - (ym + (p.2.x - xm) * a) else dy0)
              else
                (if y_get H st upstaff upper p.2.x 0 - (ym + (p.2.x - xm) * a) < dy0
                 then y_get H st upstaff upper p.2.x 0 - (ym + (p.2.x - xm) * a) else dy0)) →
        (upper = true → dy0 ≤ d1 ∧ (p.2.dur ≠ 0 → p.2.staff = upstaff →
            y_get H st upstaff true p.2.x 0 - (ym + (p.2.x - xm) * a) ≤ d1))
        ∧ (upper = false → d1 ≤ dy0 ∧ (p.2.dur ≠ 0 → p.2.staff = upstaff →
            d1 ≤ y_get H st upstaff false p.2.x 0 - (ym + (p.2.x - xm) * a))) := by
      intro d1 hd1
      constructor
      · intro hu
        subst hu
        rw [hd1]
        by_cases hmem : p.2.dur = 0 ∨ p.2.staff ≠ upstaff
        · rw [if_pos hmem]
          refine ⟨le_refl _, fun h1 h2 => ?_⟩
          rcases hmem with h | h
          · exact absurd h h1
          · exact absurd h2 h
        · rw [if_neg hmem, if_pos rfl]
          split_ifs with hc
          · exact ⟨le_of_lt hc, fun _ _ => le_refl _⟩
          · exact ⟨le_refl _, fun _ _ => not_lt.mp hc⟩
      · intro hu
        subst hu
        rw [hd1]
        by_cases hmem : p.2.dur = 0 ∨ p.2.staff ≠ upstaff
        · rw [if_pos hmem]
          refine ⟨le_refl _, fun h1 h2 => ?_⟩
          rcases hmem with h | h
          · exact absurd h h1
          · exact absurd h2 h
        · rw [if_neg hmem, if_neg Bool.false_ne_true]
          split_ifs with hc
          · exact ⟨le_of_lt hc, fun _ _ => le_refl _⟩
          · exact ⟨le_refl _, fun _ _ => not_lt.mp hc⟩
    generalize hd1 : (if p.2.dur = 0 ∨ p.2.staff ≠ upstaff then dy0
              else if upper = true then
                (if y_get H st upstaff upper p.2.x 0 - (ym + (p.2.x - xm) * a) > dy0
                 then y_get H st upstaff upper p.2.x 0 - (ym + (p.2.x - xm) * a) else dy0)
              else
                (if y_get H st upstaff upper p.2.x 0 - (ym + (p.2.x - xm) * a) < dy0
                 then y_get H st upstaff upper p.2.x 0 - (ym + (p.2.x - xm) * a) else dy0))
      = d1 at h
    obtain ⟨hup, hdn⟩ := hstep d1 hd1.symm
    cases r with
    | nil =>
      obtain ⟨v2, hv2⟩ := hlast
      simp only [List.getLast?_singleton, Option.some.injEq] at hv2
      have hps : p.1 = s2 := by rw [hv2]
      rw [if_pos hps] at h
      have hd : d1 = dy := Option.some.inj h
      rw [← hd]
      constructor
      · intro hu
        obtain ⟨e1, e2⟩ := hup hu
        refine ⟨e1, ?_⟩
        intro pv hpv
        rcases List.mem_singleton.mp hpv with rfl
        exact e2
      · intro hu
        obtain ⟨e1, e2⟩ := hdn hu
        refine ⟨e1, ?_⟩
        intro pv hpv
        rcases List.mem_singleton.mp hpv with rfl
        exact e2
    | cons b r2 =>
      have hps : p.1 ≠ s2 := hne p (by simp [List.dropLast])
      rw [if_neg hps] at h
      have hnext : p.2.next = some b.1 := hlink.1
      rw [hnext] at h
      have hrec := ih n d1 dy hlink.2 (fun pv hpv => hsym pv (List.mem_cons_of_mem _ hpv))
        (by
          obtain ⟨v2, hv2⟩ := hlast
          rw [List.getLast?_cons_cons] at hv2
          exact ⟨v2, hv2⟩)
        (by
          intro pv hpv
          apply hne pv
          rw [List.dropLast_cons₂]
          exact List.mem_cons_of_mem _ hpv)
        (by simpa using h)
      constructor
      · intro hu
        obtain ⟨e1, e2⟩ := hup hu
        obtain ⟨f1, f2⟩ := hrec.1 hu
        refine ⟨le_trans e1 f1, ?_⟩
        intro pv hpv h1 h2
        rcases List.mem_cons.mp hpv with rfl | hin
        · exact le_trans (e2 h1 h2) f1
        · exact f2 pv hin h1 h2
      · intro hu
        obtain ⟨e1, e2⟩ := hdn hu
        obtain ⟨f1, f2⟩ := hrec.2 hu
        refine ⟨le_trans f1 e1, ?_⟩
        intro pv hpv h1 h2
        rcases List.mem_cons.mp hpv with rfl | hin
        · exact le_trans f1 (e2 h1 h2)
        · exact f2 pv hin h1 h2

/-- Bracket placement of `draw_tuplet` when it returns: the ends, the shift
returned by the loop "shift up bracket if needed" (or down) on the entry
state, and the bracket primitive written. -/
theorem tuplet_bracket_parts (H : Hdr) (st : Score) (tv : SYMBOL) (s s1 s2 upstaff : Nat)
    (v1 v2 : SYMBOL) (st1 : Score)
    (h : tuplet_bracket H st tv s s1 s2 upstaff v1 v2 = some st1) :
    ∃ y1 y2 x2 dy,
      tuplet_x2 st (decide (v1.multi ≥ 0)) upstaff v2 = some x2
      ∧ tuplet_shift H st (decide (v1.multi ≥ 0)) upstaff s2
          (1 / 2 * (tuplet_x1 (decide (v1.multi ≥ 0)) upstaff v1 + x2)) (1 / 2 * (y1 + y2))
          (tuplet_slope ((y2 - y1) / (x2 - tuplet_x1 (decide (v1.multi ≥ 0)) upstaff v1))
            (tuplet_s0 (decide (v1.multi ≥ 0)) v1 v2
              (x2 - tuplet_x1 (decide (v1.multi ≥ 0)) upstaff v1)))
          st.fuel (some s1) 0 = some dy
      ∧ tuplet_line (decide (v1.multi ≥ 0)) (tuplet_x1 (decide (v1.multi ≥ 0)) upstaff v1) x2
          (1 / 2 * (tuplet_x1 (decide (v1.multi ≥ 0)) upstaff v1 + x2))
          (if decide (v1.multi ≥ 0) = true then 1 / 2 * (y1 + y2) + (dy + 4)
           else 1 / 2 * (y1 + y2) + (dy - 12))
          (tuplet_slope ((y2 - y1) / (x2 - tuplet_x1 (decide (v1.multi ≥ 0)) upstaff v1))
            (tuplet_s0 (decide (v1.multi ≥ 0)) v1 v2
              (x2 - tuplet_x1 (decide (v1.multi ≥ 0)) upstaff v1)))
          upstaff ∈ st1.out := by
  unfold tuplet_bracket at h
  simp only at h
  unfold tuplet_line tuplet_x1 tuplet_s0
  by_cases hu : decide (v1.multi ≥ 0) = true
  · simp only [hu, if_true] at h ⊢
    split at h
    · rename_i y1 y2 x2 hy1 hy2 hx2
      refine ⟨y1, y2, x2, ?_⟩
      split at h
      · cases h
      · rename_i dy hdy
        refine ⟨dy, hx2, hdy, ?_⟩
        split at h
        · cases h
        · rename_i st2 hroom
          have hout := tuplet_room_up_out _ _ _ _ _ _ _ _ _ _ hroom
          by_cases hval : tv.u &&& 0x0f = 1
          · rw [if_pos hval] at h
            rw [← Option.some.inj h, upd_out]
            apply List.mem_append_left
            rw [hout]
            simp
          · rw [if_neg hval] at h
            rw [← Option.some.inj h, upd_out]
            apply List.mem_append_left
            rw [hout]
            simp
    · cases h
  · have hu2 : decide (v1.multi ≥ 0) = false := by
      cases hd : decide (v1.multi ≥ 0)
      · rfl
      · exact absurd hd hu
    simp only [hu2, Bool.false_eq_true, if_false] at h ⊢
    split at h
    · rename_i y1 y2 x2 hy1 hy2 hx2
      refine ⟨y1, y2, x2, ?_⟩
      split at h
      · cases h
      · rename_i dy hdy
        refine ⟨dy, hx2, hdy, ?_⟩
        split at h
        · cases h
        · rename_i st2 hroom
          have hout := tuplet_room_down_out _ _ _ _ _ _ _ _ _ _ hroom
          by_cases hval : tv.u &&& 0x0f = 1
          · rw [if_pos hval] at h
            rw [← Option.some.inj h, upd_out]
            apply List.mem_append_left
            rw [hout]
            simp
          · rw [if_neg hval] at h
            rw [← Option.some.inj h, upd_out]
            apply List.mem_append_left
            rw [hout]
            simp
    · cases h

/-- C24: when the bracket placement of `draw_tuplet` returns (above or below
the staff), the bracket primitive written lies on a line of slope `a` between
0 and `s0 = 3 * (pitch(s2) - pitch(s1)) / (x2 - x1)` inclusive, `a` is 0 or at
least 0.1 in magnitude, and for `x1 < x2` it has not the sign opposite to the
pitch difference. -/
theorem tuplet_bracket_slope (H : Hdr) (st : Score) (tv : SYMBOL) (s s1 s2 upstaff : Nat)
    (v1 v2 : SYMBOL) (st1 : Score)
    (h : tuplet_bracket H st tv s s1 s2 upstaff v1 v2 = some st1) :
    ∃ x2 ym a,
      tuplet_x2 st (decide (v1.multi ≥ 0)) upstaff v2 = some x2
      ∧ tuplet_line (decide (v1.multi ≥ 0)) (tuplet_x1 (decide (v1.multi ≥ 0)) upstaff v1) x2
          (1 / 2 * (tuplet_x1 (decide (v1.multi ≥ 0)) upstaff v1 + x2)) ym a upstaff ∈ st1.out
      ∧ ((0 ≤ a ∧ a ≤ tuplet_s0 (decide (v1.multi ≥ 0)) v1 v2
                  (x2 - tuplet_x1 (decide (v1.multi ≥ 0)) upstaff v1))
          ∨ (tuplet_s0 (decide (v1.multi ≥ 0)) v1 v2
                (x2 - tuplet_x1 (decide (v1.multi ≥ 0)) upstaff v1) ≤ a ∧ a ≤ 0))
      ∧ (a = 0 ∨ 1 / 10 ≤ |a|)
      ∧ (tuplet_x1 (decide (v1.multi ≥ 0)) upstaff v1 < x2 →
          0 ≤ a * tuplet_s0 (decide (v1.multi ≥ 0)) v1 v2 1) := by
  obtain ⟨y1, y2, x2, dy, hx2, _, hline⟩ := tuplet_bracket_parts H st tv s s1 s2 upstaff v1 v2
    st1 h
  obtain ⟨hbet, hmag⟩ := tuplet_slope_spec
    ((y2 - y1) / (x2 - tuplet_x1 (decide (v1.multi ≥ 0)) upstaff v1))
    (tuplet_s0 (decide (v1.multi ≥ 0)) v1 v2 (x2 - tuplet_x1 (decide (v1.multi ≥ 0)) upstaff v1))
  refine ⟨x2, _, _, hx2, hline, hbet, hmag, ?_⟩
  intro hlt
  have hd : 0 < x2 - tuplet_x1 (decide (v1.multi ≥ 0)) upstaff v1 := by linarith
  have hs : tuplet_s0 (decide (v1.multi ≥ 0)) v1 v2 1
      = tuplet_s0 (decide (v1.multi ≥ 0)) v1 v2
          (x2 - tuplet_x1 (decide (v1.multi ≥ 0)) upstaff v1)
        * (x2 - tuplet_x1 (decide (v1.multi ≥ 0)) upstaff v1) := by
    unfold tuplet_s0
    split_ifs <;> field_simp
  rw [hs]
  rcases hbet with ⟨b1, b2⟩ | ⟨b1, b2⟩
  · have := le_trans b1 b2
    positivity
  · have h1 : 0 ≤ (-tuplet_slope
          ((y2 - y1) / (x2 - tuplet_x1 (decide (v1.multi ≥ 0)) upstaff v1))
          (tuplet_s0 (decide (v1.multi ≥ 0)) v1 v2
            (x2 - tuplet_x1 (decide (v1.multi ≥ 0)) upstaff v1)))
        * (-tuplet_s0 (decide (v1.multi ≥ 0)) v1 v2
            (x2 - tuplet_x1 (decide (v1.multi ≥ 0)) upstaff v1))
        * (x2 - tuplet_x1 (decide (v1.multi ≥ 0)) upstaff v1) :=
      mul_nonneg (mul_nonneg (by linarith) (by linarith)) (le_of_lt hd)
    nlinarith

theorem tuplet_bracket_slope_witness :
    ∃ st1, tuplet_bracket stdHdr stepScore (markTuplet 0x201) 1 1 3 0 (markNote 1) (markNote 3)
        = some st1
      ∧ ∃ x2 ym a,
        tuplet_x2 stepScore (decide ((markNote 1).multi ≥ 0)) 0 (markNote 3) = some x2
        ∧ tuplet_line (decide ((markNote 1).multi ≥ 0))
            (tuplet_x1 (decide ((markNote 1).multi ≥ 0)) 0 (markNote 1)) x2
            (1 / 2 * (tuplet_x1 (decide ((markNote 1).multi ≥ 0)) 0 (markNote 1) + x2)) ym a 0
            ∈ st1.out
        ∧ ((0 ≤ a ∧ a ≤ tuplet_s0 (decide ((markNote 1).multi ≥ 0)) (markNote 1) (markNote 3)
                    (x2 - tuplet_x1 (decide ((markNote 1).multi ≥ 0)) 0 (markNote 1)))
            ∨ (tuplet_s0 (decide ((markNote 1).multi ≥ 0)) (markNote 1) (markNote 3)
                  (x2 - tuplet_x1 (decide ((markNote 1).multi ≥ 0)) 0 (markNote 1)) ≤ a
                ∧ a ≤ 0))
        ∧ (a = 0 ∨ 1 / 10 ≤ |a|)
        ∧ (tuplet_x1 (decide ((markNote 1).multi ≥ 0)) 0 (markNote 1) < x2 →
            0 ≤ a * tuplet_s0 (decide ((markNote 1).multi ≥ 0)) (markNote 1) (markNote 3) 1) := by
  have hsome : (tuplet_bracket stdHdr stepScore (markTuplet 0x201) 1 1 3 0 (markNote 1)
      (markNote 3)).isSome = true := by decide!
  cases hc : tuplet_bracket stdHdr stepScore (markTuplet 0x201) 1 1 3 0 (markNote 1)
      (markNote 3) with
  | none => rw [hc] at hsome; cases hsome
  | some st1 =>
    exact ⟨st1, rfl, tuplet_bracket_slope stdHdr stepScore (markTuplet 0x201) 1 1 3 0
      (markNote 1) (markNote 3) st1 hc⟩

/-- Values computed on `stepScore`: the bracket has the width 48.5 and rises
by 6, the slope being the one of the boundary pitches, 12/97. -/
theorem tuplet_bracket_stepScore_out :
    (tuplet_bracket stdHdr stepScore (markTuplet 0x201) 1 1 3 0 (markNote 1)
      (markNote 3)).map (fun st => st.out)
      = some [Prim.tubr (97 / 2) 6 49 (4164 / 97) 0, Prim.tuplet_end]
    ∧ tuplet_s0 true (markNote 1) (markNote 3) (97 / 2) = 12 / 97 := by
  refine ⟨by decide!, by decide!⟩

/-- C23: when the bracket placement of `draw_tuplet` returns, `P` being the
chain of the symbols from `s1` to `s2`, the bracket primitive written lies on
the line of slope `a` through `(xm, ym)` and, for every symbol of the chain
with a duration on the staff of the bracket, the line is at least 4 above the
occupancy top at the abscissa of the symbol (placement above the staff), at
least 12 below the occupancy bottom (placement below). -/
theorem tuplet_bracket_clears (H : Hdr) (st : Score) (tv : SYMBOL) (s s1 s2 upstaff : Nat)
    (v1 v2 : SYMBOL) (st1 : Score) (P : List (Nat × SYMBOL))
    (hhead : P.head?.map (fun pv => pv.1) = some s1)
    (hlink : linked P) (hsym : ∀ pv ∈ P, st.sym pv.1 = some pv.2)
    (hlast : ∃ w2, P.getLast? = some (s2, w2)) (hne : ∀ pv ∈ P.dropLast, pv.1 ≠ s2)
    (h : tuplet_bracket H st tv s s1 s2 upstaff v1 v2 = some st1) :
    ∃ x2 ym a,
      tuplet_x2 st (decide (v1.multi ≥ 0)) upstaff v2 = some x2
      ∧ tuplet_line (decide (v1.multi ≥ 0)) (tuplet_x1 (decide (v1.multi ≥ 0)) upstaff v1) x2
          (1 / 2 * (tuplet_x1 (decide (v1.multi ≥ 0)) upstaff v1 + x2)) ym a upstaff ∈ st1.out
      ∧ ∀ pv ∈ P, pv.2.dur ≠ 0 → pv.2.staff = upstaff →
          (v1.multi ≥ 0 →
            ym + a * (pv.2.x - 1 / 2 * (tuplet_x1 (decide (v1.multi ≥ 0)) upstaff v1 + x2))
              ≥ y_get H st upstaff true pv.2.x 0 + 4)
          ∧ (¬ v1.multi ≥ 0 →
            ym + a * (pv.2.x - 1 / 2 * (tuplet_x1 (decide (v1.multi ≥ 0)) upstaff v1 + x2))
              ≤ y_get H st upstaff false pv.2.x 0 - 12) := by
  obtain ⟨y1, y2, x2, dy, hx2, hshift, hline⟩ := tuplet_bracket_parts H st tv s s1 s2 upstaff
    v1 v2 st1 h
  rw [← hhead] at hshift
  obtain ⟨hup, hdn⟩ := tuplet_shift_path H st _ upstaff s2 _ _ _ P st.fuel 0 dy hlink hsym
    hlast hne hshift
  refine ⟨x2, _, _, hx2, hline, ?_⟩
  intro pv hpv hdur hstaff
  constructor
  · intro hm
    have hu : decide (v1.multi ≥ 0) = true := decide_eq_true hm
    have := (hup hu).2 pv hpv hdur hstaff
    rw [if_pos hu]
    linarith
  · intro hm
    have hu : decide (v1.multi ≥ 0) = false := decide_eq_false hm
    have := (hdn hu).2 pv hpv hdur hstaff
    rw [if_neg (by rw [hu]; exact Bool.false_ne_true)]
    linarith

theorem tuplet_bracket_clears_witness :
    ∃ st1, tuplet_bracket stdHdr stepScore (markTuplet 0x201) 1 1 3 0 (markNote 1) (markNote 3)
        = some st1
      ∧ ∃ x2 ym a,
        tuplet_x2 stepScore (decide ((markNote 1).multi ≥ 0)) 0 (markNote 3) = some x2
        ∧ tuplet_line (decide ((markNote 1).multi ≥ 0))
            (tuplet_x1 (decide ((markNote 1).multi ≥ 0)) 0 (markNote 1)) x2
            (1 / 2 * (tuplet_x1 (decide ((markNote 1).multi ≥ 0)) 0 (markNote 1) + x2)) ym a 0
            ∈ st1.out
        ∧ ∀ pv ∈ [(1, markNote 1), (2, markNote 2), (3, markNote 3)],
            pv.2.dur ≠ 0 → pv.2.staff = 0 →
            ((markNote 1).multi ≥ 0 →
              ym + a * (pv.2.x
                  - 1 / 2 * (tuplet_x1 (decide ((markNote 1).multi ≥ 0)) 0 (markNote 1) + x2))
                ≥ y_get stdHdr stepScore 0 true pv.2.x 0 + 4)
            ∧ (¬ (markNote 1).multi ≥ 0 →
              ym + a * (pv.2.x
                  - 1 / 2 * (tuplet_x1 (decide ((markNote 1).multi ≥ 0)) 0 (markNote 1) + x2))
                ≤ y_get stdHdr stepScore 0 false pv.2.x 0 - 12) := by
  have hsome : (tuplet_bracket stdHdr stepScore (markTuplet 0x201) 1 1 3 0 (markNote 1)
      (markNote 3)).isSome = true := by decide!
  cases hc : tuplet_bracket stdHdr stepScore (markTuplet 0x201) 1 1 3 0 (markNote 1)
      (markNote 3) with
  | none => rw [hc] at hsome; cases hsome
  | some st1 =>
    exact ⟨st1, rfl, tuplet_bracket_clears stdHdr stepScore (markTuplet 0x201) 1 1 3 0
      (markNote 1) (markNote 3) st1 [(1, markNote 1), (2, markNote 2), (3, markNote 3)]
      rfl ⟨rfl, rfl, trivial⟩
      (by
        intro pv hpv
        simp only [List.mem_cons, List.mem_singleton, List.not_mem_nil, or_false] at hpv
        rcases hpv with rfl | rfl | rfl <;> rfl)
      ⟨markNote 3, rfl⟩
      (by
        intro pv hpv
        simp only [List.dropLast, List.mem_cons, List.mem_singleton, List.not_mem_nil,
          or_false] at hpv
        rcases hpv with rfl | rfl <;> decide)
      hc⟩

theorem beam_line_fst_cases (H : Hdr) (grace flatbeams : Bool) (m : BeamSums) (notes : Int)
    (dx y0 : ℚ) :
    (beam_line H grace flatbeams m notes dx y0).1 = 0
      ∨ (beam_line H grace flatbeams m notes dx y0).1 =
          (if grace then beam_slope_grace H (beam_fit m notes).1
           else beam_slope_normal H m notes (beam_fit m notes).1 (beam_fit m notes).2) := by
  rw [beam_line_fst]
  by_cases hf : flatbeams = true
  · rw [if_pos hf]; exact Or.inl rfl
  · rw [if_neg hf]
    cases grace with
    | true =>
      rw [if_neg (by simp), if_pos rfl]
      exact beam_snap_cases H notes dx _
    | false =>
      rw [if_pos (by simp), if_neg (by simp)]
      exact beam_snap_cases H notes dx _

/-- C1, as amended: whenever `calculate_beam` fits the line anew (the group
has a printed head, the group is not left aside as a cross-staff group with
the staves not defined, and the test "beam already calculated" fails), the
slope `a` left by the fit is 0 or the value given to the least-squares slope
by the limit of steepness (the blend `BEAM_SLOPE*a/(BEAM_SLOPE + |a|)` for
normal notes, the clamp for grace notes); it satisfies `|a| <= BEAM_SLOPE`,
and `|a| < BEAM_SLOPE` for normal notes, for any `BEAM_SLOPE > 0`.  With the
staves defined the call returns 1 and stores `a` in the beam object; with the
staves not defined (the case of every normal group on one staff) it returns 0
and leaves the slope of the beam object as it was. -/
theorem calculate_beam_refit_bound (H : Hdr) (st : Score) (bm : BEAM) (s1 : Nat)
    (st1 : Score) (s1n s2 : Nat) (c : BeamScan) (v1 : SYMBOL) (st' : Score) (bm' : BEAM)
    (ret : Int) (v0 : SYMBOL)
    (hK : 0 < H.BEAM_SLOPE)
    (hv0 : st.sym s1 = some v0)
    (hhead : ¬ (v0.ABC_F_INVIS = true
      ∧ (v0.next = none ∨ (v0.next.bind st.sym).map (fun z => z.ABC_F_INVIS) = some true)))
    (hends : beam_ends st s1 = some (st1, s1n, s2, c))
    (hv1 : st1.sym s1n = some v1)
    (hgo : ¬ ((st1.staffOf v1.staff).y = 0 ∧ c.two_staves = true))
    (hrefit : ¬ beam_stored st1 v1 c)
    (h : calculate_beam H st bm s1 = some (st', bm', ret)) :
    ∃ (a b : ℚ) (st2 : Score) (m : BeamSums),
      beam_refit H st1 s1n s2 c = some (st', a, b)
      ∧ beam_sums (if v1.ABC_F_GRACE then H.GSTEM_XOFF else H.STEM_XOFF) s2 st1.fuel s1n st1 {}
          = some (st2, m)
      ∧ (a = 0 ∨ a = (if v1.ABC_F_GRACE then beam_slope_grace H (beam_fit m c.notes).1
                      else beam_slope_normal H m c.notes (beam_fit m c.notes).1
                             (beam_fit m c.notes).2))
      ∧ |a| ≤ H.BEAM_SLOPE ∧ (v1.ABC_F_GRACE = false → |a| < H.BEAM_SLOPE)
      ∧ ((st1.staffOf v1.staff).y = 0 → ret = 0 ∧ bm'.a = bm.a)
      ∧ ((st1.staffOf v1.staff).y ≠ 0 → ret = 1 ∧ bm'.a = a ∧ bm'.b = b) := by
  unfold calculate_beam at h
  rw [hv0] at h
  simp only [] at h
  rw [if_neg (by simpa using hhead)] at h
  split at h
  · simp at h
  · rw [hends] at h
    simp only [hv1] at h
    cases h2 : st1.sym s2 with
    | none => simp [h2] at h
    | some v2 =>
      simp only [h2] at h
      rw [if_neg (by simpa using hgo), if_neg hrefit] at h
      cases hr : beam_refit H st1 s1n s2 c with
      | none => simp [hr] at h
      | some r =>
        obtain ⟨st3, a, b⟩ := r
        simp only [hr] at h
        obtain ⟨v1a, st2, m, w1, w2, e0, es, e1, _, ea⟩ :=
          beam_refit_slope H st1 s1n s2 c st3 a b hr
        have hva : v1a = v1 := by
          rw [hv1] at e0
          exact (Option.some.inj e0).symm
        subst hva
        obtain ⟨_, fr⟩ := beam_sums_frame _ s2 _ _ _ _ _ _ es
        obtain ⟨w, hw, hwe⟩ := fr s1n v1a hv1
        have hww : w = w1 := by
          rw [e1] at hw
          exact (Option.some.inj hw).symm
        subst hww
        have hg : w.ABC_F_GRACE = v1a.ABC_F_GRACE := by rw [hwe]
        obtain ⟨b1, b2⟩ := beam_line_bound H w.ABC_F_GRACE st2.flatbeams m c.notes
          (w2.xs - w.xs) (st2.staffOf v1a.staff).y hK
        have hc := beam_line_fst_cases H w.ABC_F_GRACE st2.flatbeams m c.notes
          (w2.xs - w.xs) (st2.staffOf v1a.staff).y
        rw [← ea] at b1 b2 hc
        rw [hg] at b2 hc
        by_cases hy : (st1.staffOf v1a.staff).y = 0
        · rw [if_pos hy] at h
          simp only [Option.some.injEq, Prod.mk.injEq] at h
          obtain ⟨hst, hbm, hr0⟩ := h
          subst hst
          refine ⟨a, b, st2, m, rfl, es, hc, b1, b2, fun _ => ⟨hr0.symm, ?_⟩,
            fun hne => absurd hy hne⟩
          rw [← hbm]
        · rw [if_neg hy] at h
          simp only [Option.some.injEq, Prod.mk.injEq] at h
          obtain ⟨hst, hbm, hr1⟩ := h
          subst hst
          refine ⟨a, b, st2, m, rfl, es, hc, b1, b2, fun h0 => absurd h0 hy,
            fun _ => ⟨hr1.symm, ?_, ?_⟩⟩
          · rw [← hbm]
          · rw [← hbm]

/-- Instance of `calculate_beam_refit_bound`: the first call on the group of
voice 0 of `clashScore`, a normal group on one staff with the staves not
defined: the fit leaves a slope within the bound and the call returns 0. -/
theorem calculate_beam_refit_bound_witness :
    ∃ (st' : Score) (bm' : BEAM) (ret : Int) (a b : ℚ) (st2 : Score) (m : BeamSums),
      calculate_beam stdHdr clashScore {} 1 = some (st', bm', ret)
      ∧ beam_refit stdHdr clashScore 1 2
          { notes := 2, nflags := 1, two_staves := false, two_dir := false } = some (st', a, b)
      ∧ beam_sums (if clashScore.syms[1].ABC_F_GRACE then stdHdr.GSTEM_XOFF
                   else stdHdr.STEM_XOFF) 2 clashScore.fuel 1 clashScore {} = some (st2, m)
      ∧ (a = 0 ∨ a = (if clashScore.syms[1].ABC_F_GRACE then
                        beam_slope_grace stdHdr (beam_fit m 2).1
                      else beam_slope_normal stdHdr m 2 (beam_fit m 2).1 (beam_fit m 2).2))
      ∧ |a| ≤ stdHdr.BEAM_SLOPE
      ∧ (clashScore.syms[1].ABC_F_GRACE = false → |a| < stdHdr.BEAM_SLOPE)
      ∧ ((clashScore.staffOf clashScore.syms[1].staff).y = 0 → ret = 0 ∧ bm'.a = (0 : ℚ))
      ∧ ((clashScore.staffOf clashScore.syms[1].staff).y ≠ 0 →
          ret = 1 ∧ bm'.a = a ∧ bm'.b = b) := by
  have hsome : (calculate_beam stdHdr clashScore {} 1).isSome = true := by decide!
  cases hc : calculate_beam stdHdr clashScore {} 1 with
  | none => rw [hc] at hsome; cases hsome
  | some r =>
    obtain ⟨st', bm', ret⟩ := r
    obtain ⟨a, b, st2, m, h⟩ :=
      calculate_beam_refit_bound stdHdr clashScore {} 1 clashScore 1 2
        { notes := 2, nflags := 1, two_staves := false, two_dir := false } clashScore.syms[1]
        st' bm' ret clashScore.syms[1]
        (by decide!) (by rfl) (by decide) (by rfl) (by rfl) (by decide!) (by decide!) hc
    exact ⟨st', bm', ret, a, b, st2, m, rfl, h⟩

/-- C1 fails as stated for the normal groups on one staff.  In `clashScore`
the first pass (staves not defined) fits the group of voice 0 with the slope
2/5 and returns 0 without storing it; the fit of the group of voice 1 then
finds its first note at the abscissa of the last note of voice 0, stem against
stem, and moves that note 5 units to the left (`x` and `xs`); with the
staves defined the call on the group of voice 0 returns 1 and stores the slope
`(s1.ys - s2.ys)/(s1.xs - s2.xs) = 8/15`, above `BEAM_SLOPE = 1/2`. -/
theorem calculate_beam_stored_slope_exceeds :
    ((beam_ends clashScore 1).bind
        (fun r => beam_refit stdHdr r.1 r.2.1 r.2.2.1 r.2.2.2)).map (fun q => q.2.1)
      = some (2 / 5)
    ∧ (calculate_beam stdHdr clashScore {} 1).map (fun r => r.2.2) = some 0
    ∧ ((calculate_beam stdHdr clashScore {} 1).bind
        (fun r1 => calculate_beam stdHdr r1.1 {} 3)).map
        (fun r => (r.2.2, (r.1.sym 2).map (fun v => (v.x, v.xs)))) 
      = some (0, some (115, 237 / 2))
    ∧ (((calculate_beam stdHdr clashScore {} 1).bind
        (fun r1 => calculate_beam stdHdr r1.1 {} 3)).bind
        (fun r2 => calculate_beam stdHdr { r2.1 with staff_tb := [{ y := 200 }] } {} 1)).map
        (fun r => (r.2.1.a, r.2.2))
      = some (8 / 15, 1)
    ∧ ¬ |(8 / 15 : ℚ)| ≤ stdHdr.BEAM_SLOPE := by
  refine ⟨by decide!, by decide!, by decide!, by decide!, ?_⟩
  rw [abs_of_pos (by norm_num)]
  norm_num [stdHdr]

theorem slur_ends_adjacent_eq (H : Hdr) (st st1 : Score) (k1 k2 : Nat) (v1 v2 : SYMBOL)
    (s : Int) (nn : Nat) (hne : k1 ≠ k2) (hnn : nn ≤ 2) :
    slur_ends H st1 k1 k2 v1 v2 s nn = slur_ends H st k1 k2 v1 v2 s nn := by
  unfold slur_ends
  have h3 : ¬ nn ≥ 3 := by omega
  simp only [hne, ne_eq, not_false_eq_true, if_true, h3, if_false]

theorem slur_count_adjacent_eq (st : Score) (k2 : Nat) (v2 : SYMBOL) (n staff : Nat)
    (h2 : st.sym k2 = some v2) :
    ∃ up two, slur_count st k2 (n + 1) (some k2) (1, staff, false)
      = some ((if v2.type = SymType.NOTEREST then 2 else 1), up, two) := by
  unfold slur_count
  simp only [h2, if_true]
  by_cases ht : v2.type = SymType.NOTEREST
  · rw [if_pos ht, if_pos ht]
    exact ⟨_, _, rfl⟩
  · rw [if_neg ht, if_neg ht]
    exact ⟨_, _, rfl⟩

/-- C3, as amended: for a slur drawn by `draw_slur` between two distinct
symbols with nothing between them (`k1.next = k2`), `draw_slur` returns and
makes one `slur_out` call.  Its abscissae are those left by the endpoint
section of the function (`slur_ends`: from "fix endpoints" to the special
case for grace notes), its ordinates are those of that section unless a head
number is given (`m1 >= 0`, `m2 >= 0`), and its height is
`clamp * cfmt.slurheight`, where, with `base = (0.03*(x2 - x1) + 8)*s` and
`y1`, `y2` the ordinates left by the endpoint section (before the override
for a head), `clamp` is `base` limited to `[0, 40]` and raised to at least
`0.8*|y2 - y1|` for a slur above (`s > 0`), and the mirror image (limited to
`[-40, 0]`, lowered to at most `-0.8*|y2 - y1|`) for a slur below.  The
clearance `h` is 0: nothing else enters the height. -/
theorem draw_slur_neighbours_height (H : Hdr) (st : Score) (k1 k2 : Nat) (m1 m2 : Int)
    (slur_type : Nat) (v1 v2 : SYMBOL)
    (h1 : st.sym k1 = some v1) (h2 : st.sym k2 = some v2)
    (hnext : v1.next = some k2) (hne : k1 ≠ k2) :
    ∃ (st2 : Score) (ret : Nat) (pre : List Prim) (c : SlurOut) (e : SlurEnds),
      draw_slur H st k1 k2 m1 m2 slur_type = some (st2, ret)
      ∧ st2.out = pre ++ [Prim.slur c]
      ∧ draw_slur_dir st k1 k2 slur_type = some c.s
      ∧ slur_ends H st k1 k2 v1 v2 c.s (if v2.type = SymType.NOTEREST then 2 else 1) = some e
      ∧ c.x1 = e.x1 ∧ c.x2 = e.x2
      ∧ c.y1 = (if m1 ≥ 0 then ((3 * (v1.pits.getD m1.toNat 0 - 18) + 5 * c.s : Int) : ℚ)
                else e.y1)
      ∧ c.y2 = (if m2 ≥ 0 then ((3 * (v2.pits.getD m2.toNat 0 - 18) + 5 * c.s : Int) : ℚ)
                else e.y2)
      ∧ c.height =
          (if c.s > 0 then
            max (min (max ((3 / 100 * (e.x2 - e.x1) + 8) * c.s) 0) 40) (8 / 10 * |e.y2 - e.y1|)
           else
            min (max (min ((3 / 100 * (e.x2 - e.x1) + 8) * c.s) 0) (-40))
              (-(8 / 10) * |e.y2 - e.y1|)) * st.slurheight := by
  obtain ⟨s, hs⟩ := draw_slur_dir_adjacent st k1 k2 slur_type v1 v2 h1 h2 hnext
  obtain ⟨up, two, hcount⟩ :=
    slur_count_adjacent_eq st k2 v2 (st.syms.length - 1 + 1) v1.staff h2
  have hnn2 : (if v2.type = SymType.NOTEREST then 2 else 1) ≤ 2 := by
    split_ifs <;> omega
  generalize hnn : (if v2.type = SymType.NOTEREST then 2 else 1) = nn at hcount hnn2 ⊢
  unfold draw_slur
  simp only [h1, h2, hs]
  rw [if_pos hne, hnext, fuel_two st k1 v1 h1, hcount]
  simp only []
  generalize hst : (if two = true then
      ({ st with out := st.out
          ++ [Prim.error 0 k1 "*** multi-staves slurs not treated yet"] } : Score)
    else st) = stA
  have hA1 : stA.sym k1 = some v1 := by
    rw [← hst]; split_ifs <;> exact h1
  have hA2 : stA.sym k2 = some v2 := by
    rw [← hst]; split_ifs <;> exact h2
  have hAh : stA.slurheight = st.slurheight := by
    rw [← hst]; split_ifs <;> rfl
  have hAf : stA.fuel = st.syms.length - 1 + 1 + 1 := by
    rw [← fuel_two st k1 v1 h1, ← hst]; split_ifs <;> rfl
  obtain ⟨e5, he5⟩ := slur_ends_adjacent H stA k1 k2 v1 v2 s nn hne hnn2
  have he5b : slur_ends H st k1 k2 v1 v2 s nn = some e5 := by
    rw [← slur_ends_adjacent_eq H st stA k1 k2 v1 v2 s nn hne hnn2]; exact he5
  rw [he5]
  simp only []
  rw [if_pos hne, hAf, slur_clear_adjacent]
  simp only []
  obtain ⟨st2, e, eo⟩ := slur_finish_adjacent H stA k1 k2 up
    (slur_call stA k1 k2 v1 v2 m1 m2 slur_type nn s up e5 0)
    ((if s > 0 then SL_ABOVE else SL_BELOW) ||| (slur_type &&& SL_DOTTED))
    v1 v2 hA1 hA2 hnext hne
  have hcs : (slur_call stA k1 k2 v1 v2 m1 m2 slur_type nn s up e5 0).s = s := rfl
  refine ⟨st2, _, stA.out, _, e5, e, eo, ?_, ?_, ?_, ?_, ?_, ?_, ?_⟩
  · rw [hcs]
  · rw [hcs]; exact he5b
  · unfold slur_call slur_raise
    simp only [if_pos hne, mul_zero, add_zero]
  · unfold slur_call slur_raise
    simp only [if_pos hne, mul_zero, add_zero]
  · unfold slur_call slur_raise
    simp only [if_pos hne, mul_zero, add_zero]
  · unfold slur_call slur_raise
    simp only [if_pos hne, mul_zero, add_zero]
  · unfold slur_call slur_raise
    simp only [if_pos hne, mul_zero, add_zero, zero_mul]
    rw [slur_height_no_clear stA nn s _ (by omega), hAh]

/-- Instance of `draw_slur_neighbours_height`: a slur above from the head 0
of the first note of `flatSlurScore` to its second note. -/
theorem draw_slur_neighbours_height_witness :
    ∃ (st2 : Score) (ret : Nat) (pre : List Prim) (c : SlurOut) (e : SlurEnds),
      draw_slur stdHdr flatSlurScore 0 1 0 (-1) SL_ABOVE = some (st2, ret)
      ∧ st2.out = pre ++ [Prim.slur c]
      ∧ draw_slur_dir flatSlurScore 0 1 SL_ABOVE = some c.s
      ∧ slur_ends stdHdr flatSlurScore 0 1 slurNote1
          { slurNote2 with y := 0, ymn := -20, ymx := 3, pits := [18] } c.s
          (if ({ slurNote2 with y := 0, ymn := -20, ymx := 3, pits := [18] } : SYMBOL).type
              = SymType.NOTEREST then 2 else 1) = some e
      ∧ c.x1 = e.x1 ∧ c.x2 = e.x2
      ∧ c.y1 = (if (0 : Int) ≥ 0 then
                  ((3 * (slurNote1.pits.getD (0 : Int).toNat 0 - 18) + 5 * c.s : Int) : ℚ)
                else e.y1)
      ∧ c.y2 = (if (-1 : Int) ≥ 0 then
                  ((3 * (({ slurNote2 with y := 0, ymn := -20, ymx := 3, pits := [18] } :
                      SYMBOL).pits.getD (-1 : Int).toNat 0 - 18) + 5 * c.s : Int) : ℚ)
                else e.y2)
      ∧ c.height =
          (if c.s > 0 then
            max (min (max ((3 / 100 * (e.x2 - e.x1) + 8) * c.s) 0) 40) (8 / 10 * |e.y2 - e.y1|)
           else
            min (max (min ((3 / 100 * (e.x2 - e.x1) + 8) * c.s) 0) (-40))
              (-(8 / 10) * |e.y2 - e.y1|)) * flatSlurScore.slurheight :=
  draw_slur_neighbours_height stdHdr flatSlurScore 0 1 0 (-1) SL_ABOVE slurNote1
    { slurNote2 with y := 0, ymn := -20, ymx := 3, pits := [18] }
    (by rfl) (by rfl) (by rfl) (by decide)

/-- The search of the last note counts at least one note more than it is
given, and ends on a note that carries the beam end or on the duplicate it
appends to the arena. -/
theorem beam_search_size (st : Score) (staff : Nat) (stem1 : Int) :
    ∀ (fuel s : Nat) (c : BeamScan) (st' : Score) (s2 : Nat) (c' : BeamScan),
      beam_search st staff stem1 fuel s c = some (st', s2, c') →
      c.notes + 1 ≤ c'.notes
        ∧ ((∃ v2, st.sym s2 = some v2 ∧ v2.as_type = AbcType.ABC_T_NOTE
              ∧ v2.sflags.S_BEAM_END = true)
            ∨ s2 = st.syms.length) := by
  intro fuel
  induction fuel with
  | zero => intro s c st' s2 c' h; simp [beam_search] at h
  | succ n ih =>
    intro s c st' s2 c' h
    unfold beam_search at h
    cases hs : st.sym s with
    | none => simp [hs] at h
    | some v =>
      simp only [hs] at h
      have hsc := beam_scan_sym_notes staff stem1 v c
      by_cases hend : v.as_type = AbcType.ABC_T_NOTE ∧ v.sflags.S_BEAM_END = true
      · rw [if_pos hend] at h
        simp only [Option.some.injEq, Prod.mk.injEq] at h
        obtain ⟨_, h2, h3⟩ := h
        subst h2
        rw [if_pos hend.1] at hsc
        exact ⟨by rw [← h3, hsc], Or.inl ⟨v, hs, hend.1, hend.2⟩⟩
      · rw [if_neg hend] at h
        cases hnx : v.next with
        | none =>
          simp only [hnx] at h
          cases hb : back_to_note st st.fuel s with
          | none => simp [hb] at h
          | some l =>
            simp only [hb] at h
            cases hd : beam_dup_next st l with
            | none => simp [hd] at h
            | some r =>
              obtain ⟨st1, sd⟩ := r
              simp only [hd, Option.some.injEq, Prod.mk.injEq] at h
              obtain ⟨_, h2, h3⟩ := h
              have hsd : sd = st.syms.length := by
                unfold beam_dup_next at hd
                cases hl : st.sym l with
                | none => simp [hl] at hd
                | some vl =>
                  simp only [hl, Option.some.injEq, Prod.mk.injEq] at hd
                  exact hd.2.symm
              refine ⟨?_, Or.inr ?_⟩
              · rw [← h3]
                show c.notes + 1 ≤ (beam_scan_sym staff stem1 v c).notes + 1
                rw [hsc]
                split_ifs <;> omega
              · rw [← h2, hsd]
        | some nx =>
          simp only [hnx] at h
          obtain ⟨e1, e2⟩ := ih _ _ _ _ _ h
          rw [hsc] at e1
          refine ⟨?_, e2⟩
          split_ifs at e1 <;> omega

theorem beam_dup_prev_dup (st : Score) (s1 : Nat) (v1 : SYMBOL) (st1 : Score) (s : Nat)
    (hv : st.sym s1 = some v1) (h : beam_dup_prev st s1 = some (st1, s)) :
    s = st.syms.length
      ∧ (st1.sym s).map (fun z => (z.as_type, z.sflags.S_BEAM_END)) = some (v1.as_type, false) := by
  have hlt : s1 < st.syms.length := sym_lt st s1 v1 hv
  unfold beam_dup_prev at h
  rw [hv] at h
  simp only at h
  split at h
  · cases h
  · rename_i p hp
    split at h
    · cases h
    · rename_i vp hvp
      split at h
      · cases h
      · rename_i tp htp
        split at h
        · cases h
        · rename_i vtp hvtp
          split at h
          · rename_i vs q hvs hq
            split at h
            · cases h
            · rename_i vq hvq
              clear hvtp hvp hvs hq hvq
              simp only [Option.some.injEq, Prod.mk.injEq] at h
              obtain ⟨h1, h2⟩ := h
              subst h2
              refine ⟨rfl, ?_⟩
              rw [← h1, sym_upd_map_self]
              have key : ∀ (X : Score),
                  (X.sym st.syms.length).map (fun z : SYMBOL => z.as_type) = some v1.as_type →
                  (X.sym st.syms.length).map
                    (fun z : SYMBOL =>
                      (fun w : SYMBOL => (w.as_type, w.sflags.S_BEAM_END))
                        ((fun z : SYMBOL =>
                          { z with
                            sflags := { S_SEQST := z.sflags.S_SEQST, S_BEAM_ST := true,
                                        S_TEMP := true },
                            slur_st := 0, slur_end := 0 }) z))
                    = some (v1.as_type, false) := by
                intro X hX
                cases hXs : X.sym st.syms.length with
                | none => rw [hXs] at hX; cases hX
                | some d =>
                  rw [hXs] at hX
                  simp only [Option.map_some', Option.some.injEq] at hX
                  simp only [Option.map_some', hX]
              apply key
              split_ifs
              · rw [sym_upd_map, sym_upd_map, sym_upd_map, sym_upd_map, sym_upd_map, sym_upd_map,
                  sym_upd_map, sym_upd_map, sym_upd_map, sym_upd_map, sym_push,
                  if_neg (lt_irrefl _), if_pos rfl]
                rotate_left
                all_goals first | (intro z; rfl) | skip
                rfl
              · rw [sym_upd_map, sym_upd_map, sym_upd_map, sym_upd_map, sym_upd_map, sym_upd_map,
                  sym_upd_map, sym_upd_map, sym_upd_map, sym_push,
                  if_neg (lt_irrefl _), if_pos rfl]
                rotate_left
                all_goals first | (intro z; rfl) | skip
                rfl
          · cases h

/-- Started on a note that does not carry the beam end, the search of the
last note counts two notes at least and ends on another symbol. -/
theorem beam_search_first (st : Score) (staff : Nat) (stem1 : Int) (fuel s : Nat) (v : SYMBOL)
    (c : BeamScan) (st' : Score) (s2 : Nat) (c' : BeamScan)
    (hs : st.sym s = some v) (hnote : v.as_type = AbcType.ABC_T_NOTE)
    (hend : v.sflags.S_BEAM_END = false)
    (h : beam_search st staff stem1 fuel s c = some (st', s2, c')) :
    c.notes + 2 ≤ c'.notes ∧ s ≠ s2 := by
  have hlt : s < st.syms.length := sym_lt st s v hs
  cases fuel with
  | zero => simp [beam_search] at h
  | succ n =>
    unfold beam_search at h
    simp only [hs] at h
    have hsc := beam_scan_sym_notes staff stem1 v c
    rw [if_pos hnote] at hsc
    rw [if_neg (by rw [hend]; simp)] at h
    cases hnx : v.next with
    | none =>
      simp only [hnx] at h
      cases hb : back_to_note st st.fuel s with
      | none => simp [hb] at h
      | some l =>
        simp only [hb] at h
        cases hd : beam_dup_next st l with
        | none => simp [hd] at h
        | some r =>
          obtain ⟨st1, sd⟩ := r
          simp only [hd, Option.some.injEq, Prod.mk.injEq] at h
          obtain ⟨_, h2, h3⟩ := h
          have hsd : sd = st.syms.length := by
            unfold beam_dup_next at hd
            cases hl : st.sym l with
            | none => simp [hl] at hd
            | some vl =>
              simp only [hl, Option.some.injEq, Prod.mk.injEq] at hd
              exact hd.2.symm
          refine ⟨?_, ?_⟩
          · rw [← h3]
            show c.notes + 2 ≤ (beam_scan_sym staff stem1 v c).notes + 1
            rw [hsc]
            omega
          · rw [← h2, hsd]
            omega
    | some nx =>
      simp only [hnx] at h
      obtain ⟨e1, e2⟩ := beam_search_size st staff stem1 _ _ _ _ _ _ h
      rw [hsc] at e1
      refine ⟨by omega, ?_⟩
      rcases e2 with ⟨v2, hv2, _, he2⟩ | e2
      · intro hss
        rw [← hss, hs] at hv2
        cases hv2
        rw [hend] at he2
        cases he2
      · omega

/-- C15, as amended: `calculate_beam` has no test of the size of the group.
Called as its callers do, on a note that carries the beam start without the
beam end or on a note without the beam start, the search of the last note
counts two notes at least (the duplicate made for a beam that comes from, or
goes to, another music line being one of them) and ends on a symbol `s2`
other than `s1`, so that `notes - 1 >= 1`.  Whatever the group, a return
value 0 comes from the test of the printed head (`s1` invisible without a
visible successor) or from a staff origin `staff_tb[staff].y` equal to 0. -/
theorem calculate_beam_group_size (H : Hdr) (st : Score) (bm : BEAM) (s1 : Nat) (v0 : SYMBOL)
    (st1 : Score) (s1n s2 : Nat) (c : BeamScan) (v1 : SYMBOL)
    (h0 : st.sym s1 = some v0)
    (hends : beam_ends st s1 = some (st1, s1n, s2, c))
    (hv1 : st1.sym s1n = some v1) :
    (v0.as_type = AbcType.ABC_T_NOTE →
      ((v0.sflags.S_BEAM_ST = true ∧ v0.sflags.S_BEAM_END = false)
        ∨ v0.sflags.S_BEAM_ST = false) →
      2 ≤ c.notes ∧ 1 ≤ c.notes - 1 ∧ s1n ≠ s2)
    ∧ (∀ (st' : Score) (bm' : BEAM), calculate_beam H st bm s1 = some (st', bm', 0) →
        (v0.ABC_F_INVIS = true
          ∧ (v0.next = none ∨ (v0.next.bind st.sym).map (fun z => z.ABC_F_INVIS) = some true))
        ∨ (st1.staffOf v1.staff).y = 0) := by
  refine ⟨?_, ?_⟩
  · intro hnote hguard
    have key : 0 + 2 ≤ c.notes ∧ s1n ≠ s2 := by
      unfold beam_ends at hends
      rw [h0] at hends
      simp only [] at hends
      by_cases hst : v0.sflags.S_BEAM_ST = true
      · have hend : v0.sflags.S_BEAM_END = false := by
          rcases hguard with h | h
          · exact h.2
          · rw [hst] at h; cases h
        rw [if_neg (by simp [hst])] at hends
        simp only [h0] at hends
        cases hb : beam_search st v0.staff v0.stem st.fuel s1 {} with
        | none => simp [hb] at hends
        | some r =>
          obtain ⟨stb, sb, cb⟩ := r
          simp only [hb, Option.some.injEq, Prod.mk.injEq] at hends
          obtain ⟨_, e2, e3, e4⟩ := hends
          subst e2 e3 e4
          exact beam_search_first st v0.staff v0.stem st.fuel s1 v0 {} stb sb cb h0 hnote hend hb
      · rw [if_pos (by simp [hst])] at hends
        cases hd : beam_dup_prev st s1 with
        | none => simp [hd] at hends
        | some r =>
          obtain ⟨stD, sD⟩ := r
          simp only [hd] at hends
          obtain ⟨_, hmap⟩ := beam_dup_prev_dup st s1 v0 stD sD h0 hd
          cases hsD : stD.sym sD with
          | none => simp [hsD] at hends
          | some d =>
            rw [hsD] at hmap
            simp only [Option.map_some', Option.some.injEq, Prod.mk.injEq] at hmap
            simp only [hsD] at hends
            cases hb : beam_search stD d.staff d.stem stD.fuel sD {} with
            | none => simp [hb] at hends
            | some r =>
              obtain ⟨stb, sb, cb⟩ := r
              simp only [hb, Option.some.injEq, Prod.mk.injEq] at hends
              obtain ⟨_, e2, e3, e4⟩ := hends
              subst e2 e3 e4
              exact beam_search_first stD d.staff d.stem stD.fuel sD d {} stb sb cb hsD
                (by rw [hmap.1, hnote]) hmap.2 hb
    obtain ⟨k1, k2⟩ := key
    exact ⟨by omega, by omega, k2⟩
  · intro st' bm' h
    unfold calculate_beam at h
    rw [h0] at h
    simp only [] at h
    by_cases hinv : v0.ABC_F_INVIS = true
        ∧ (v0.next = none ∨ (v0.next.bind st.sym).map (fun z => z.ABC_F_INVIS) = some true)
    · exact Or.inl hinv
    · right
      rw [if_neg hinv] at h
      split at h
      · simp at h
      · rw [hends] at h
        simp only [hv1] at h
        cases h2 : st1.sym s2 with
        | none => simp [h2] at h
        | some v2 =>
          simp only [h2] at h
          by_cases hy : (st1.staffOf v1.staff).y = 0
          · exact hy
          · exfalso
            rw [if_neg (by simp [hy])] at h
            split at h
            · simp at h
            · cases hr : beam_refit H st1 s1n s2 c with
              | none => simp [hr] at h
              | some r =>
                obtain ⟨st3, a, b⟩ := r
                simp only [hr] at h
                simp at h

/-- Instance of `calculate_beam_group_size`: the call on the first note of the
four beamed notes of `lineScore`. -/
theorem calculate_beam_group_size_witness :
    ((lineNote 1).as_type = AbcType.ABC_T_NOTE →
      (((lineNote 1).sflags.S_BEAM_ST = true ∧ (lineNote 1).sflags.S_BEAM_END = false)
        ∨ (lineNote 1).sflags.S_BEAM_ST = false) →
      2 ≤ (4 : Int) ∧ 1 ≤ (4 : Int) - 1 ∧ 1 ≠ 4)
    ∧ (∀ (st' : Score) (bm' : BEAM),
        calculate_beam stdHdr lineScore {} 1 = some (st', bm', 0) →
        ((lineNote 1).ABC_F_INVIS = true
          ∧ ((lineNote 1).next = none
              ∨ ((lineNote 1).next.bind lineScore.sym).map (fun z => z.ABC_F_INVIS) = some true))
        ∨ (lineScore.staffOf (lineNote 1).staff).y = 0) :=
  calculate_beam_group_size stdHdr lineScore {} 1 (lineNote 1) lineScore 1 4
    { notes := 4, nflags := 1, two_staves := false, two_dir := false } (lineNote 1)
    (by rfl) (by rfl) (by rfl)

/-- C15 fails as stated: `calculate_beam` does divide by a zero variance.  The
first note of `pinchScore` is a note with the beam start and without the beam
end, as the callers require; the group has two notes on one staff and the
staves are not defined, so the line is fitted; the stem of the first note is
up and that of the second one, 7 units further, is down, so both stem
abscissae are `103.5` and the divisor `sxx*notes - sx*sx` of the slope is
`2*21424.5 - 207*207 = 0`. -/
theorem calculate_beam_zero_variance :
    (pinchScore.sym 1).map
        (fun v => (v.as_type, v.ABC_F_INVIS, v.sflags.S_BEAM_ST, v.sflags.S_BEAM_END))
      = some (AbcType.ABC_T_NOTE, false, true, false)
    ∧ (beam_ends pinchScore 1).map
        (fun r => (r.2.1, r.2.2.1, r.2.2.2.notes, r.2.2.2.two_staves)) = some (1, 2, 2, false)
    ∧ (pinchScore.staffOf 0).y = 0
    ∧ (beam_sums stdHdr.STEM_XOFF 2 pinchScore.fuel 1 pinchScore {}).map
        (fun r => (r.2.sx, r.2.sxx, r.2.sxx * 2 - r.2.sx * r.2.sx))
      = some (207, 42849 / 2, 0) := by
  refine ⟨by decide!, by decide!, by decide!, by decide!⟩

theorem out_grows_refl (st : Score) : out_grows st st := ⟨[], (List.append_nil _).symm⟩

theorem out_grows_trans (st0 st1 st2 : Score) (h1 : out_grows st0 st1)
    (h2 : out_grows st1 st2) : out_grows st0 st2 := by
  obtain ⟨l1, e1⟩ := h1
  obtain ⟨l2, e2⟩ := h2
  exact ⟨l1 ++ l2, by rw [e2, e1, List.append_assoc]⟩

theorem out_grows_same (st st1 : Score) (h : st1.out = st.out) : out_grows st st1 :=
  ⟨[], by rw [h, List.append_nil]⟩

theorem out_grows_push (st : Score) (l : List Prim) :
    out_grows st { st with out := st.out ++ l } := ⟨l, rfl⟩

theorem out_grows_upd (st : Score) (p : Nat) (f : SYMBOL → SYMBOL) :
    out_grows st (st.upd p f) := out_grows_same _ _ rfl

theorem y_set_grows (H : Hdr) (st : Score) (staff : Nat) (up : Bool) (x w y : ℚ) :
    out_grows st (y_set H st staff up x w y) := out_grows_same _ _ rfl

theorem out_grows_ite (st a b : Score) (c : Prop) [Decidable c]
    (ha : out_grows st a) (hb : out_grows st b) : out_grows st (if c then a else b) := by
  split_ifs
  · exact ha
  · exact hb

theorem out_grows_ymx (st : Score) (p : Nat) (v : SYMBOL) (y : ℚ) (_ : st.sym p = some v) :
    out_grows st
      (if (v.ymx : ℚ) < y then st.upd p (fun z => { z with ymx := ctrunc y }) else st) := by
  split_ifs
  · exact out_grows_upd _ _ _
  · exact out_grows_refl st

theorem out_grows_ymn (st : Score) (p : Nat) (v : SYMBOL) (y : ℚ) (_ : st.sym p = some v) :
    out_grows st
      (if (v.ymn : ℚ) > y then st.upd p (fun z => { z with ymn := ctrunc y }) else st) := by
  split_ifs
  · exact out_grows_upd _ _ _
  · exact out_grows_refl st

theorem slur_room_grows (H : Hdr) (k1 k2 upstaff : Nat) (s : Int) (a addy x2 : ℚ) :
    ∀ (fuel : Nat) (p : Option Nat) (x1 : ℚ) (st st1 : Score),
      slur_room H k1 k2 upstaff s a addy x2 fuel p x1 st = some st1 → out_grows st st1 := by
  intro fuel
  induction fuel with
  | zero => intro p x1 st st1 h; simp [slur_room] at h
  | succ n ih =>
    intro p x1 st st1 h
    cases p with
    | none => simp [slur_room] at h
    | some k =>
      unfold slur_room at h
      by_cases hk : k = k2
      · rw [if_pos hk] at h
        rw [← Option.some.inj h]
        exact out_grows_refl st
      · rw [if_neg hk] at h
        cases hv : st.sym k with
        | none => simp [hv] at h
        | some v =>
          simp only [hv] at h
          by_cases hs : v.staff ≠ upstaff
          · rw [if_pos hs] at h
            exact ih _ _ _ _ h
          · rw [if_neg hs] at h
            have hstep : out_grows st
                (if (v.ymx : ℚ) < a * v.x + addy then
                  st.upd k (fun z => { z with ymx := ctrunc (a * v.x + addy) })
                else if (v.ymn : ℚ) > a * v.x + addy then
                  st.upd k (fun z => { z with ymn := ctrunc (a * v.x + addy) })
                else st) := by
              split_ifs
              · exact out_grows_upd _ _ _
              · exact out_grows_upd _ _ _
              · exact out_grows_refl st
            generalize (if (v.ymx : ℚ) < a * v.x + addy then
                  st.upd k (fun z => { z with ymx := ctrunc (a * v.x + addy) })
                else if (v.ymn : ℚ) > a * v.x + addy then
                  st.upd k (fun z => { z with ymn := ctrunc (a * v.x + addy) })
                else st) = sta at h hstep
            cases hn : v.next with
            | none => simp [hn] at h
            | some nx =>
              simp only [hn] at h
              cases h1 : sta.sym nx with
              | none => simp [h1] at h
              | some vn =>
                cases h2 : sta.sym k2 with
                | none => simp [h1, h2] at h
                | some v2 =>
                  simp only [h1, h2] at h
                  exact out_grows_trans _ _ _ hstep
                    (out_grows_trans _ _ _ (y_set_grows H sta upstaff _ _ _ _) (ih _ _ _ _ h))

/-- A call of `draw_slur` only appends to the output. -/
theorem draw_slur_grows (H : Hdr) (st : Score) (k1 k2 : Nat) (m1 m2 : Int) (slur_type : Nat)
    (st1 : Score) (ret : Nat) (h : draw_slur H st k1 k2 m1 m2 slur_type = some (st1, ret)) :
    out_grows st st1 := by
  unfold draw_slur at h
  cases h1 : st.sym k1 with
  | none => simp [h1] at h
  | some v1 =>
    cases h2 : st.sym k2 with
    | none => simp [h1, h2] at h
    | some v2 =>
      cases h3 : draw_slur_dir st k1 k2 slur_type with
      | none => simp [h1, h2, h3] at h
      | some s =>
        simp only [h1, h2, h3] at h
        generalize (if k1 ≠ k2 then slur_count st k2 st.fuel v1.next (1, v1.staff, false)
           else some (1, v1.staff, false)) = cnt at h
        cases cnt with
        | none => simp at h
        | some c =>
          obtain ⟨nn, upstaff, two_staves⟩ := c
          simp only at h
          have hst : out_grows st
              (if two_staves = true then
                { st with out := st.out ++
                    [Prim.error 0 k1 "*** multi-staves slurs not treated yet"] }
              else st) := by
            split_ifs
            · exact out_grows_push _ _
            · exact out_grows_refl st
          generalize (if two_staves = true then
                ({ st with out := st.out ++
                    [Prim.error 0 k1 "*** multi-staves slurs not treated yet"] } : Score)
              else st) = sta at h hst
          cases h4 : slur_ends H sta k1 k2 v1 v2 s nn with
          | none => simp [h4] at h
          | some e5 =>
            simp only [h4] at h
            generalize (if k1 ≠ k2 then
                 slur_clear sta k2 upstaff s ((e5.y2 - e5.y1) / (e5.x2 - e5.x1))
                   (e5.y1 - (e5.y2 - e5.y1) / (e5.x2 - e5.x1) * e5.x1) sta.fuel v1.next 0
               else some 0) = ho at h
            cases ho with
            | none => simp at h
            | some h0 =>
              simp only at h
              unfold slur_finish at h
              simp only at h
              generalize slur_call sta k1 k2 v1 v2 m1 m2 slur_type nn s upstaff e5 h0 = c at h
              cases h5 : slur_room H k1 k2 upstaff c.s ((c.y2 - c.y1) / (c.x2 - c.x1))
                  (c.y1 - (c.y2 - c.y1) / (c.x2 - c.x1) * c.x1 + 4 / 10 * c.height) c.x2
                  ({ sta with out := sta.out ++ [Prim.slur c] } : Score).fuel (some k1) c.x1
                  { sta with out := sta.out ++ [Prim.slur c] } with
              | none => simp [h5] at h
              | some st2 =>
                simp only [h5, Option.some.injEq, Prod.mk.injEq] at h
                rw [← h.1]
                exact out_grows_trans _ _ _ hst
                  (out_grows_trans sta { sta with out := sta.out ++ [Prim.slur c] } st2
                    (out_grows_push _ _)
                    (slur_room_grows _ _ _ _ _ _ _ _ _ _ _ _ _ h5))

/-- The number of a tuplet without bracket is appended to the output. -/
theorem tuplet_number_grows (H : Hdr) (st : Score) (tv : SYMBOL) (s s1 s2 : Nat)
    (v1 v2 : SYMBOL) (st1 : Score) (h : tuplet_number H st tv s s1 s2 v1 v2 = some st1) :
    out_grows st st1 := by
  unfold tuplet_number at h
  simp only at h
  cases hf : tuplet_find_x st ((v2.x + v1.x) * (1 / 2)) st.fuel (some s1) with
  | none => simp only [hf, reduceCtorEq] at h
  | some sy =>
    simp only [hf] at h
    generalize hsto : ({ st with out := st.out ++ _ } : Score) = sto at h
    have h0 : out_grows st sto := by rw [← hsto]; exact out_grows_push _ _
    cases hy : sto.sym sy with
    | none => simp [hy] at h
    | some vy =>
      simp only [hy, Option.some.injEq] at h
      rw [← h]
      refine out_grows_trans _ _ _ h0 (out_grows_trans _ _ _ ?_ (out_grows_upd _ _ _))
      refine out_grows_ite _ _ _ _ ?_ ?_
      · exact out_grows_trans _ _ _ (out_grows_ymx sto sy vy _ hy) (y_set_grows _ _ _ _ _ _ _)
      · exact out_grows_trans _ _ _ (out_grows_ymn sto sy vy _ hy) (y_set_grows _ _ _ _ _ _ _)

theorem tuplet_room_up_grows (H : Hdr) (upstaff s2 : Nat) (xm ym a : ℚ) :
    ∀ (fuel : Nat) (p : Option Nat) (st st1 : Score),
      tuplet_room_up H upstaff s2 xm ym a fuel p st = some st1 → out_grows st st1 := by
  intro fuel
  induction fuel with
  | zero => intro p st st1 h; simp [tuplet_room_up] at h
  | succ n ih =>
    intro p st st1 h
    cases p with
    | none => simp [tuplet_room_up] at h
    | some sy =>
      unfold tuplet_room_up at h
      cases hv : st.sym sy with
      | none => simp [hv] at h
      | some v =>
        simp only [hv] at h
        by_cases hs : v.staff = upstaff
        · rw [if_pos hs] at h
          have hstep := out_grows_ymx st sy v (ym + (v.x - xm) * a) hv
          generalize (if (v.ymx : ℚ) < ym + (v.x - xm) * a then
              st.upd sy (fun z => { z with ymx := ctrunc (ym + (v.x - xm) * a) })
            else st) = sta at h hstep
          by_cases he : sy = s2
          · rw [if_pos he] at h
            rw [← Option.some.inj h]
            exact hstep
          · rw [if_neg he] at h
            cases hn : v.next.bind sta.sym with
            | none => simp [hn] at h
            | some nv =>
              simp only [hn] at h
              exact out_grows_trans _ _ _ hstep
                (out_grows_trans _ _ _ (y_set_grows H sta upstaff _ _ _ _) (ih _ _ _ h))
        · rw [if_neg hs] at h
          by_cases he : sy = s2
          · rw [if_pos he] at h
            rw [← Option.some.inj h]
            exact out_grows_refl st
          · rw [if_neg he] at h
            exact ih _ _ _ h

theorem tuplet_room_down_grows (H : Hdr) (upstaff s2 : Nat) (xm ym a : ℚ) :
    ∀ (fuel : Nat) (p : Option Nat) (st st1 : Score),
      tuplet_room_down H upstaff s2 xm ym a fuel p st = some st1 → out_grows st st1 := by
  intro fuel
  induction fuel with
  | zero => intro p st st1 h; simp [tuplet_room_down] at h
  | succ n ih =>
    intro p st st1 h
    cases p with
    | none => simp [tuplet_room_down] at h
    | some sy =>
      unfold tuplet_room_down at h
      cases hv : st.sym sy with
      | none => simp [hv] at h
      | some v =>
        simp only [hv] at h
        by_cases hs : v.staff = upstaff
        · rw [if_pos hs] at h
          by_cases he : sy = s2
          · rw [if_pos he] at h
            rw [← Option.some.inj h]
            exact out_grows_refl st
          · rw [if_neg he] at h
            have hstep := out_grows_ymn st sy v (ym + (v.x - xm) * a) hv
            generalize (if (v.ymn : ℚ) > ym + (v.x - xm) * a then
                st.upd sy (fun z => { z with ymn := ctrunc (ym + (v.x - xm) * a) })
              else st) = sta at h hstep
            cases hn : v.next.bind sta.sym with
            | none => simp [hn] at h
            | some nv =>
              simp only [hn] at h
              exact out_grows_trans _ _ _ hstep
                (out_grows_trans _ _ _ (y_set_grows H sta upstaff _ _ _ _) (ih _ _ _ h))
        · rw [if_neg hs] at h
          by_cases he : sy = s2
          · rw [if_pos he] at h
            rw [← Option.some.inj h]
            exact out_grows_refl st
          · rw [if_neg he] at h
            exact ih _ _ _ h

/-- The bracket of a tuplet and its number are appended to the output. -/
theorem tuplet_bracket_grows (H : Hdr) (st : Score) (tv : SYMBOL) (s s1 s2 upstaff : Nat)
    (v1 v2 : SYMBOL) (st1 : Score)
    (h : tuplet_bracket H st tv s s1 s2 upstaff v1 v2 = some st1) : out_grows st st1 := by
  unfold tuplet_bracket at h
  simp only at h
  generalize (if v1.staff = upstaff then
      (tuplet_end_sym st (fun z => z.next) s1 s2).map _
    else some (if decide (v1.multi ≥ 0) = true then (24 : ℚ) else 0)) = y1o at h
  generalize (if v2.staff = upstaff then
      (tuplet_end_sym st (fun z => z.prev) s2 s1).map _
    else some (if decide (v1.multi ≥ 0) = true then (24 : ℚ) else 0)) = y2o at h
  cases y1o with
  | none => simp at h
  | some y1 =>
    cases y2o with
    | none => simp at h
    | some y2 =>
      cases hx2 : tuplet_x2 st (decide (v1.multi ≥ 0)) upstaff v2 with
      | none => simp [hx2] at h
      | some x2 =>
        simp only [hx2] at h
        generalize htsh : tuplet_shift H st _ upstaff s2 _ _ _ st.fuel (some s1) 0 = dyo at h
        cases dyo with
        | none => simp at h
        | some dy =>
          simp only at h
          generalize hsto : ({ st with out := st.out ++ _ } : Score) = sto at h
          have h0 : out_grows st sto := by rw [← hsto]; exact out_grows_push _ _
          generalize hro : (if decide (v1.multi ≥ 0) = true then
              tuplet_room_up H upstaff s2 _ _ _ sto.fuel (some s1) sto
            else tuplet_room_down H upstaff s2 _ _ _ sto.fuel (some s1) sto) = ro at h
          cases ro with
          | none => simp at h
          | some st2 =>
            have h1 : out_grows sto st2 := by
              split_ifs at hro <;>
                first
                | exact tuplet_room_up_grows _ _ _ _ _ _ _ _ _ _ hro
                | exact tuplet_room_down_grows _ _ _ _ _ _ _ _ _ _ hro
            simp only at h
            split_ifs at h
            all_goals
              rw [← Option.some.inj h]
              exact out_grows_trans _ _ _ h0 (out_grows_trans _ _ _ h1
                (out_grows_trans _ _ _ (out_grows_push st2 _)
                  (out_grows_upd _ _ _)))

theorem tuplet_chain_grows (call : TupletCall) (s : Nat)
    (hcall : ∀ st t s st1 n, call st t s = some (st1, n) → out_grows st st1) :
    ∀ (fuel : Nat) (g : Option Nat) (st : Score) (next : Nat) (st1 : Score) (n1 : Nat),
      tuplet_chain call s fuel g st next = some (st1, n1) → out_grows st st1 := by
  intro fuel
  induction fuel with
  | zero => intro g st next st1 n1 h; simp [tuplet_chain] at h
  | succ n ih =>
    intro g st next st1 n1 h
    cases g with
    | none =>
      simp only [tuplet_chain, Option.some.injEq, Prod.mk.injEq] at h
      rw [← h.1]
      exact out_grows_refl st
    | some g =>
      unfold tuplet_chain at h
      cases hg : st.sym g with
      | none => simp [hg] at h
      | some gv =>
        simp only [hg] at h
        by_cases ht : gv.type = SymType.TUPLET
        · rw [if_pos ht] at h
          cases hc : call st g s with
          | none => simp [hc] at h
          | some r =>
            obtain ⟨sta, sy⟩ := r
            simp only [hc] at h
            cases hl : later_sym sta sy next with
            | none => simp [hl] at h
            | some next1 =>
              cases hgn : (sta.sym g).map (fun z => z.next) with
              | none => simp [hl, hgn] at h
              | some gn =>
                simp only [hl, hgn] at h
                exact out_grows_trans _ _ _ (hcall _ _ _ _ _ hc) (ih _ _ _ _ _ h)
        · rw [if_neg ht] at h
          exact ih _ _ _ _ _ h

theorem tuplet_members_grows (call : TupletCall) (s : Nat)
    (hcall : ∀ st t s st1 n, call st t s = some (st1, n) → out_grows st st1) :
    ∀ (fuel : Nat) (p : Option Nat) (st : Score) (c : TupletScan) (st1 : Score)
      (r : Option Nat) (c1 : TupletScan),
      tuplet_members call s fuel p st c = some (st1, r, c1) → out_grows st st1 := by
  intro fuel
  induction fuel with
  | zero => intro p st c st1 r c1 h; simp [tuplet_members] at h
  | succ n ih =>
    intro p st c st1 r c1 h
    cases p with
    | none =>
      simp only [tuplet_members, Option.some.injEq, Prod.mk.injEq] at h
      rw [← h.1]
      exact out_grows_refl st
    | some s2 =>
      unfold tuplet_members at h
      cases h0 : st.sym s2 with
      | none => simp [h0] at h
      | some v0 =>
        simp only [h0] at h
        generalize hch : (if s2 ≠ s then tuplet_chain call s2 st.fuel v0.extra st c.next
             else some (st, c.next)) = cho at h
        cases cho with
        | none => simp at h
        | some r0 =>
          obtain ⟨sta, next⟩ := r0
          have hsta : out_grows st sta := by
            split_ifs at hch
            · exact tuplet_chain_grows call s2 hcall _ _ _ _ _ _ hch
            · simp only [Option.some.injEq, Prod.mk.injEq] at hch
              rw [← hch.1]
              exact out_grows_refl st
          simp only at h
          cases hv : sta.sym s2 with
          | none => simp [hv] at h
          | some v =>
            simp only [hv] at h
            by_cases hnr : v.type ≠ SymType.NOTEREST
            · rw [if_pos hnr] at h
              by_cases hgr : v.type = SymType.GRACE
              · rw [if_pos hgr] at h
                cases hgs : grace_has_slur sta sta.fuel v.extra c.some_slur with
                | none => simp [hgs] at h
                | some b =>
                  simp only [hgs] at h
                  exact out_grows_trans _ _ _ hsta (ih _ _ _ _ _ _ h)
              · rw [if_neg hgr] at h
                exact out_grows_trans _ _ _ hsta (ih _ _ _ _ _ _ h)
            · rw [if_neg hnr] at h
              split_ifs at h
              all_goals
                first
                | (simp only [Option.some.injEq, Prod.mk.injEq] at h
                   rw [← h.1]
                   exact hsta)
                | exact out_grows_trans _ _ _ hsta (ih _ _ _ _ _ _ h)

/-- The body of `draw_tuplet`: with nested calls and a `draw_slurs` that only
append to the output, it only appends to it. -/
theorem draw_tuplet_body_grows (H : Hdr) (slurs : Score → Nat → Nat → Option Score)
    (call : TupletCall)
    (hsl : ∀ st a b st1, slurs st a b = some st1 → out_grows st st1)
    (hcall : ∀ st t s st1 n, call st t s = some (st1, n) → out_grows st st1)
    (st : Score) (t s : Nat) (st1 : Score) (n : Nat)
    (h : draw_tuplet_body H slurs call st t s = some (st1, n)) : out_grows st st1 := by
  unfold draw_tuplet_body at h
  cases ht : st.sym t with
  | none => simp [ht] at h
  | some tv =>
    cases hs : st.sym s with
    | none => simp [ht, hs] at h
    | some sv =>
      simp only [ht, hs] at h
      by_cases hu : tv.u &&& 0x0f00 = 0x100
      · rw [if_pos hu] at h
        simp only [Option.some.injEq, Prod.mk.injEq] at h
        rw [← h.1]
        exact out_grows_refl st
      · rw [if_neg hu] at h
        cases hc : tuplet_chain call s st.fuel tv.next st s with
        | none => simp [hc] at h
        | some r =>
          obtain ⟨sta, next⟩ := r
          have ha := tuplet_chain_grows call s hcall _ _ _ _ _ _ hc
          simp only [hc] at h
          cases hm : tuplet_members call s sta.fuel (some s) sta
              { r := tv.r_plet, upstaff := sv.staff, next := next } with
          | none => simp [hm] at h
          | some r =>
            obtain ⟨stb, s2o, c⟩ := r
            have hb := out_grows_trans _ _ _ ha
              (tuplet_members_grows call s hcall _ _ _ _ _ _ _ hm)
            simp only [hm] at h
            cases s2o with
            | none =>
              simp only [Option.some.injEq, Prod.mk.injEq] at h
              rw [← h.1]
              exact hb
            | some s2 =>
              simp only at h
              cases hl : later_sym stb s2 c.next with
              | none => simp [hl] at h
              | some next1 =>
                cases hs1 : c.s1 with
                | none => simp [hl, hs1] at h
                | some s1 =>
                  simp only [hl, hs1] at h
                  cases hv1 : stb.sym s1 with
                  | none => simp [hv1] at h
                  | some v1 =>
                    cases hv2 : stb.sym s2 with
                    | none => simp [hv1, hv2] at h
                    | some v2 =>
                      simp only [hv1, hv2] at h
                      generalize hr : (if s1 = s2 then some (stb, true)
                        else if tv.u &&& 0x0f0 = 0x10 then
                          (draw_slur H stb s1 s2 (-1) (-1)
                            (if v1.stem > 0 then SL_ABOVE else SL_BELOW)).map
                              (fun r => (r.1, true))
                        else (tuplet_nb_only stb tv v1 v2 s1 s2).map (fun b => (stb, b)))
                        = ro at h
                      cases ro with
                      | none => simp at h
                      | some r =>
                        obtain ⟨stc, nb_only⟩ := r
                        have hcw : out_grows stb stc := by
                          by_cases h12 : s1 = s2
                          · rw [if_pos h12] at hr
                            simp only [Option.some.injEq, Prod.mk.injEq] at hr
                            rw [← hr.1]; exact out_grows_refl _
                          rw [if_neg h12] at hr
                          by_cases hwhat : tv.u &&& 0x0f0 = 0x10
                          · rw [if_pos hwhat] at hr
                            cases hd : draw_slur H stb s1 s2 (-1) (-1)
                                (if v1.stem > 0 then SL_ABOVE else SL_BELOW) with
                            | none => rw [hd] at hr; simp at hr
                            | some rd =>
                              rw [hd] at hr
                              simp only [Option.map_some', Option.some.injEq,
                                Prod.mk.injEq] at hr
                              rw [← hr.1]
                              exact draw_slur_grows H stb s1 s2 (-1) (-1) _ rd.1 rd.2 hd
                          · rw [if_neg hwhat] at hr
                            cases hd : tuplet_nb_only stb tv v1 v2 s1 s2 with
                            | none => rw [hd] at hr; simp at hr
                            | some rd =>
                              rw [hd] at hr
                              simp only [Option.map_some', Option.some.injEq,
                                Prod.mk.injEq] at hr
                              rw [← hr.1]; exact out_grows_refl _
                        have hc2 := out_grows_trans _ _ _ hb hcw
                        simp only at h
                        cases nb_only with
                        | true =>
                          rw [if_pos rfl] at h
                          by_cases hu1 : tv.u &&& 0x0f = 1
                          · rw [if_pos hu1] at h
                            simp only [Option.some.injEq, Prod.mk.injEq] at h
                            rw [← h.1]; exact hc2
                          · rw [if_neg hu1] at h
                            cases hw1 : stc.sym s1 with
                            | none => simp [hw1] at h
                            | some w1 =>
                              cases hw2 : stc.sym s2 with
                              | none => simp [hw1, hw2] at h
                              | some w2 =>
                                simp only [hw1, hw2] at h
                                cases hn : tuplet_number H stc tv s s1 s2 w1 w2 with
                                | none => rw [hn] at h; simp at h
                                | some std =>
                                  rw [hn] at h
                                  simp only [Option.map_some', Option.some.injEq,
                                    Prod.mk.injEq] at h
                                  rw [← h.1]
                                  exact out_grows_trans _ _ _ hc2
                                    (tuplet_number_grows _ _ _ _ _ _ _ _ _ hn)
                        | false =>
                          rw [if_neg Bool.false_ne_true] at h
                          generalize hso : (if c.some_slur = true then _ else some (stc, false))
                            = so at h
                          cases so with
                          | none => simp at h
                          | some r =>
                            obtain ⟨std, fl⟩ := r
                            have hdw : out_grows stc std := by
                              by_cases hss : c.some_slur = true
                              swap
                              · rw [if_neg hss] at hso
                                simp only [Option.some.injEq, Prod.mk.injEq] at hso
                                rw [← hso.1]; exact out_grows_refl _
                              rw [if_pos hss] at hso
                              · cases hsl1 : slurs stc s1 s2 with
                                | none => simp [hsl1] at hso
                                | some ste =>
                                  have he := hsl _ _ _ _ hsl1
                                  simp only [hsl1] at hso
                                  cases hw1 : ste.sym s1 with
                                  | none => simp [hw1] at hso
                                  | some w1 =>
                                    cases hw2 : ste.sym s2 with
                                    | none => simp [hw1, hw2] at hso
                                    | some w2 =>
                                      simp only [hw1, hw2] at hso
                                      split_ifs at hso
                                      · simp only [Option.some.injEq, Prod.mk.injEq] at hso
                                        rw [← hso.1]; exact he
                                      · cases hleft : tuplet_slur_left ste s2 ste.fuel w1.next with
                                        | none => simp [hleft] at hso
                                        | some bl =>
                                          cases bl <;>
                                            (simp only [hleft, Option.some.injEq,
                                               Prod.mk.injEq] at hso
                                             rw [← hso.1]; exact he)
                            have hd2 := out_grows_trans _ _ _ hc2 hdw
                            cases fl with
                            | true =>
                              simp only [Option.some.injEq, Prod.mk.injEq] at h
                              rw [← h.1]; exact hd2
                            | false =>
                              simp only at h
                              have hfin : ∀ ste : Score, out_grows std ste →
                                  (match ste.sym s1, ste.sym s2 with
                                    | some v1, some v2 =>
                                      (tuplet_bracket H ste tv s s1 s2 c.upstaff v1 v2).map
                                        (fun st => (st, next1))
                                    | _, _ => none) = some (st1, n) →
                                  out_grows st st1 := by
                                intro ste hew h
                                cases hw1 : ste.sym s1 with
                                | none => simp [hw1] at h
                                | some w1 =>
                                  cases hw2 : ste.sym s2 with
                                  | none => simp [hw1, hw2] at h
                                  | some w2 =>
                                    simp only [hw1, hw2] at h
                                    cases hbr : tuplet_bracket H ste tv s s1 s2 c.upstaff w1 w2 with
                                    | none => rw [hbr] at h; simp at h
                                    | some stf =>
                                      rw [hbr] at h
                                      simp only [Option.map_some', Option.some.injEq,
                                        Prod.mk.injEq] at h
                                      rw [← h.1]
                                      exact out_grows_trans _ _ _ hd2
                                        (out_grows_trans _ _ _ hew
                                          (tuplet_bracket_grows _ _ _ _ _ _ _ _ _ _ hbr))
                              by_cases hz : tv.u &&& 0x0f0 = 0
                              · first
                                  | rw [if_pos hz] at h
                                  | rw [if_neg (not_not.mpr hz)] at h
                                exact hfin _ (out_grows_refl _) h
                              · first
                                  | rw [if_neg hz] at h
                                  | rw [if_pos hz] at h
                                exact hfin
                                  { std with out := std.out ++
                                      [Prim.error 0 t "'what' value of %%tuplets not yet coded"] }
                                  (out_grows_push _ _) h

theorem draw_tuplet_depth_grows (H : Hdr) (slurs : Score → Nat → Nat → Option Score)
    (hsl : ∀ st a b st1, slurs st a b = some st1 → out_grows st st1) :
    ∀ (d : Nat) (st : Score) (t s : Nat) (st1 : Score) (n : Nat),
      draw_tuplet_depth H slurs d st t s = some (st1, n) → out_grows st st1 := by
  intro d
  induction d with
  | zero => intro st t s st1 n h; simp [draw_tuplet_depth] at h
  | succ d ih =>
    intro st t s st1 n h
    exact draw_tuplet_body_grows H slurs (draw_tuplet_depth H slurs d) hsl ih st t s st1 n h

theorem draw_tuplet_grows (H : Hdr) (slurs : Score → Nat → Nat → Option Score)
    (hsl : ∀ st a b st1, slurs st a b = some st1 → out_grows st st1)
    (st : Score) (t s : Nat) (st1 : Score) (n : Nat)
    (h : draw_tuplet H slurs st t s = some (st1, n)) : out_grows st st1 :=
  draw_tuplet_depth_grows H slurs hsl _ st t s st1 n h

theorem near_tuplets_grows (H : Hdr) (slurs : Score → Nat → Nat → Option Score)
    (hsl : ∀ st a b st1, slurs st a b = some st1 → out_grows st st1) :
    ∀ (fuel : Nat) (p : Option Nat) (st st1 : Score),
      near_tuplets H slurs fuel p st = some st1 → out_grows st st1 := by
  intro fuel
  induction fuel with
  | zero => intro p st st1 h; simp [near_tuplets] at h
  | succ n ih =>
    intro p st st1 h
    cases p with
    | none =>
      simp only [near_tuplets, Option.some.injEq] at h
      rw [← h]
      exact out_grows_refl st
    | some s =>
      unfold near_tuplets at h
      cases hv : st.sym s with
      | none => simp [hv] at h
      | some v =>
        simp only [hv] at h
        by_cases hc : v.sflags.S_IN_TUPLET = true ∧ v.extra ≠ none
        · rw [if_pos hc] at h
          cases ht : tuplet_in_extra st st.fuel v.extra with
          | none => simp [ht] at h
          | some o =>
            cases o with
            | none =>
              simp only [ht] at h
              exact ih _ _ _ h
            | some g =>
              simp only [ht] at h
              cases hd : draw_tuplet H slurs st g s with
              | none => simp [hd] at h
              | some r =>
                obtain ⟨st2, s1⟩ := r
                simp only [hd] at h
                cases hw : st2.sym s1 with
                | none => simp [hw] at h
                | some w =>
                  simp only [hw] at h
                  exact out_grows_trans _ _ _ (draw_tuplet_grows H slurs hsl _ _ _ _ _ hd)
                    (ih _ _ _ h)
        · rw [if_neg hc] at h
          exact ih _ _ _ h

theorem near_voice_tuplets_split (H : Hdr) (slurs : Score → Nat → Nat → Option Score)
    (all_slurs : Score → Option Score) (st : Score) (sym : Nat) (st1 : Score)
    (h : near_voice_tuplets H slurs all_slurs st sym = some st1) :
    ∃ v1 a b w0, st.sym sym = some v1
      ∧ near_tuplets H slurs st.fuel v1.next st = some a
      ∧ all_slurs a = some b
      ∧ b.sym sym = some w0
      ∧ near_tuplets H slurs b.fuel w0.next b = some st1 := by
  unfold near_voice_tuplets at h
  cases hv : st.sym sym with
  | none => simp [hv] at h
  | some v1 =>
    simp only [hv] at h
    cases ha : near_tuplets H slurs st.fuel v1.next st with
    | none => simp [ha] at h
    | some a =>
      simp only [ha] at h
      cases hb : all_slurs a with
      | none => simp [hb] at h
      | some b =>
        simp only [hb] at h
        cases hw : b.sym sym with
        | none => simp [hw] at h
        | some w0 =>
          simp only [hw] at h
          exact ⟨v1, a, b, w0, rfl, ha, hb, hw, h⟩

theorem near_draw_voices_grows (C : NearCalls) (H : Hdr)
    (hsl : ∀ sa a b sb, C.draw_slurs sa a b = some sb → out_grows sa sb)
    (hall : ∀ i sa sb, C.draw_all_slurs i sa = some sb → out_grows sa sb)
    (hsc : ∀ k sa sb, C.set_sscale k sa = some sb → out_grows sa sb) :
    ∀ (V : List (Option Nat)) (i : Nat) (st st1 : Score),
      near_draw_voices C H i V st = some st1 → out_grows st st1 := by
  intro V
  induction V with
  | nil =>
    intro i st st1 h
    simp only [near_draw_voices, Option.some.injEq] at h
    rw [← h]
    exact out_grows_refl st
  | cons p V ih =>
    intro i st st1 h
    cases p with
    | none =>
      simp only [near_draw_voices] at h
      exact ih _ _ _ h
    | some sym =>
      simp only [near_draw_voices] at h
      cases hv : st.sym sym with
      | none => simp [hv] at h
      | some v0 =>
        simp only [hv] at h
        cases hs : C.set_sscale v0.staff st with
        | none => simp [hs] at h
        | some sc =>
          simp only [hs] at h
          cases ht : near_voice_tuplets H C.draw_slurs (C.draw_all_slurs i) sc sym with
          | none => simp [ht] at h
          | some sd =>
            simp only [ht] at h
            obtain ⟨v1, a, b, w0, _, ha, hb, _, hd⟩ :=
              near_voice_tuplets_split H C.draw_slurs (C.draw_all_slurs i) sc sym sd ht
            exact out_grows_trans _ _ _ (hsc _ _ _ hs)
              (out_grows_trans _ _ _ (near_tuplets_grows H C.draw_slurs hsl _ _ _ _ ha)
                (out_grows_trans _ _ _ (hall _ _ _ hb)
                  (out_grows_trans _ _ _ (near_tuplets_grows H C.draw_slurs hsl _ _ _ _ hd)
                    (ih _ _ _ h))))

theorem near_draw_voices_append (C : NearCalls) (H : Hdr) :
    ∀ (V1 V2 : List (Option Nat)) (i : Nat) (st st1 : Score),
      near_draw_voices C H i (V1 ++ V2) st = some st1 →
      ∃ sa, near_draw_voices C H i V1 st = some sa
        ∧ near_draw_voices C H (i + V1.length) V2 sa = some st1 := by
  intro V1
  induction V1 with
  | nil =>
    intro V2 i st st1 h
    exact ⟨st, by simp [near_draw_voices], by simpa using h⟩
  | cons p V ih =>
    intro V2 i st st1 h
    have hlen : i + (p :: V).length = (i + 1) + V.length := by
      simp only [List.length_cons]; omega
    rw [hlen]
    cases p with
    | none =>
      simp only [List.cons_append, near_draw_voices] at h ⊢
      exact ih _ _ _ _ h
    | some sym =>
      simp only [List.cons_append, near_draw_voices] at h ⊢
      cases hv : st.sym sym with
      | none => simp [hv] at h
      | some v0 =>
        simp only [hv] at h ⊢
        cases hs : C.set_sscale v0.staff st with
        | none => simp [hs] at h
        | some sc =>
          simp only [hs] at h ⊢
          cases ht : near_voice_tuplets H C.draw_slurs (C.draw_all_slurs i) sc sym with
          | none => simp [ht] at h
          | some sd =>
            simp only [ht] at h ⊢
            exact ih _ _ _ _ h

/-- C17, as amended: a run of `draw_sym_near` that returns goes, for every
voice `sym` of the list, through these states in this order: `sb` after the
beams are computed for all the voices; `s0` after the rows `top`/`bot` are
initialized and the room of the symbols is recorded; `sa` after the loop has
treated the voices before `sym` (their two loops of tuplets and their
`draw_all_slurs` included); `sc` after `set_sscale`; `a` after the loop "draw
the tuplets near the notes" of the voice; `b` after its `draw_all_slurs`; `sd`
after its loop "draw the tuplets over the slurs"; `sV` after the voices that
follow; the clamp of the rows is applied to `sV`, and the lyrics and the
decorations tied to the staves come after it.  When the functions not
translated only append to the output, the output of each of the states from
`s0` to `sV` starts with the output of the state before.  The order is that of
one voice after the other, not of one pass over all the voices after the other;
and `draw_tuplet` itself draws slurs in the first loop. -/
theorem draw_sym_near_order (C : NearCalls) (H : Hdr) (measurenb : Int)
    (tsfirst : Option Nat) (V1 V2 : List (Option Nat)) (sym : Nat) (st st' : Score)
    (hsl : ∀ sa a b sb, C.draw_slurs sa a b = some sb → out_grows sa sb)
    (hall : ∀ i sa sb, C.draw_all_slurs i sa = some sb → out_grows sa sb)
    (hsc : ∀ k sa sb, C.set_sscale k sa = some sb → out_grows sa sb)
    (h : draw_sym_near C H measurenb tsfirst (V1 ++ some sym :: V2) st = some st') :
    ∃ sb s0 sa v0 sc v1 a b w0 sd sV,
      near_beams H (V1 ++ some sym :: V2) st = some sb
      ∧ near_prepare C H measurenb tsfirst (init_y_offsets H sb) = some s0
      ∧ near_draw_voices C H 0 V1 s0 = some sa
      ∧ sa.sym sym = some v0 ∧ C.set_sscale v0.staff sa = some sc
      ∧ sc.sym sym = some v1
      ∧ near_tuplets H C.draw_slurs sc.fuel v1.next sc = some a
      ∧ C.draw_all_slurs V1.length a = some b
      ∧ b.sym sym = some w0
      ∧ near_tuplets H C.draw_slurs b.fuel w0.next b = some sd
      ∧ near_draw_voices C H (V1.length + 1) V2 sd = some sV
      ∧ near_finish C (clamp_y_offsets H sV) = some st'
      ∧ out_grows s0 sa ∧ out_grows sa sc ∧ out_grows sc a ∧ out_grows a b
      ∧ out_grows b sd ∧ out_grows sd sV := by
  unfold draw_sym_near at h
  cases hb : near_beams H (V1 ++ some sym :: V2) st with
  | none => simp [hb] at h
  | some sb =>
    simp only [hb] at h
    cases hp : near_prepare C H measurenb tsfirst (init_y_offsets H sb) with
    | none => simp [hp] at h
    | some s0 =>
      simp only [hp] at h
      cases hV : near_draw_voices C H 0 (V1 ++ some sym :: V2) s0 with
      | none => simp [hV] at h
      | some sV =>
        simp only [hV] at h
        obtain ⟨sa, h1, h2⟩ := near_draw_voices_append C H V1 (some sym :: V2) 0 s0 sV hV
        rw [Nat.zero_add] at h2
        simp only [near_draw_voices] at h2
        cases hv : sa.sym sym with
        | none => simp [hv] at h2
        | some v0 =>
          simp only [hv] at h2
          cases hs : C.set_sscale v0.staff sa with
          | none => simp [hs] at h2
          | some sc =>
            simp only [hs] at h2
            cases ht : near_voice_tuplets H C.draw_slurs (C.draw_all_slurs V1.length) sc sym with
            | none => simp [ht] at h2
            | some sd =>
              simp only [ht] at h2
              obtain ⟨v1, a, b, w0, hv1, ha, hbb, hw, hd⟩ :=
                near_voice_tuplets_split H C.draw_slurs (C.draw_all_slurs V1.length) sc sym sd ht
              exact ⟨sb, s0, sa, v0, sc, v1, a, b, w0, sd, sV, rfl, hp, h1, hv, hs, hv1, ha,
                hbb, hw, hd, h2, h,
                near_draw_voices_grows C H hsl hall hsc _ _ _ _ h1,
                hsc _ _ _ hs,
                near_tuplets_grows H C.draw_slurs hsl _ _ _ _ ha,
                hall _ _ _ hbb,
                near_tuplets_grows H C.draw_slurs hsl _ _ _ _ hd,
                near_draw_voices_grows C H hsl hall hsc _ _ _ _ h2⟩

theorem draw_sym_near_order_witness :
    ∃ st', draw_sym_near plainCalls stdHdr 0 (some 0) ([some 0] ++ some 4 :: []) duoScore
        = some st'
      ∧ ∃ sb s0 sa v0 sc v1 a b w0 sd sV,
        near_beams stdHdr ([some 0] ++ some 4 :: []) duoScore = some sb
        ∧ near_prepare plainCalls stdHdr 0 (some 0) (init_y_offsets stdHdr sb) = some s0
        ∧ near_draw_voices plainCalls stdHdr 0 [some 0] s0 = some sa
        ∧ sa.sym 4 = some v0 ∧ plainCalls.set_sscale v0.staff sa = some sc
        ∧ sc.sym 4 = some v1
        ∧ near_tuplets stdHdr plainCalls.draw_slurs sc.fuel v1.next sc = some a
        ∧ plainCalls.draw_all_slurs [some 0].length a = some b
        ∧ b.sym 4 = some w0
        ∧ near_tuplets stdHdr plainCalls.draw_slurs b.fuel w0.next b = some sd
        ∧ near_draw_voices plainCalls stdHdr ([some 0].length + 1) [] sd = some sV
        ∧ near_finish plainCalls (clamp_y_offsets stdHdr sV) = some st'
        ∧ out_grows s0 sa ∧ out_grows sa sc ∧ out_grows sc a ∧ out_grows a b
        ∧ out_grows b sd ∧ out_grows sd sV := by
  have hsome : (draw_sym_near plainCalls stdHdr 0 (some 0) ([some 0] ++ some 4 :: [])
      duoScore).isSome = true := by decide!
  cases hc : draw_sym_near plainCalls stdHdr 0 (some 0) ([some 0] ++ some 4 :: []) duoScore with
  | none => rw [hc] at hsome; cases hsome
  | some r =>
    exact ⟨r, rfl,
      draw_sym_near_order plainCalls stdHdr 0 (some 0) [some 0] [] 4 duoScore r
        (fun sa _ _ sb h => by cases h; exact ⟨[], (List.append_nil _).symm⟩)
        (fun _ sa sb h => by cases h; exact ⟨[], (List.append_nil _).symm⟩)
        (fun _ sa sb h => by cases h; exact ⟨[], (List.append_nil _).symm⟩) hc⟩

/-- C17 fails as a global order: on `duoScore` (two voices, no slur, the
triplet of the voice 0 displayed as a slur without number, the triplet of the
voice 1 as a number) the output of `draw_sym_near` is two slurs of the staff 0
followed by the number of the staff 1.  The first slur is written by
`draw_slur`, called by `draw_tuplet` in the loop "draw the tuplets near the
notes" of the voice 0; the second one by the loop "draw the tuplets over the
slurs" of the voice 0; the number is written after them by the loop "draw the
tuplets near the notes" of the voice 1, which draws the first-pass tuplet of
that voice. -/
theorem draw_sym_near_voice_order :
    (draw_sym_near plainCalls stdHdr 0 (some 0) [some 0, some 4] duoScore).map
        (fun st => st.out)
      = some [Prim.slur { x1 := 55, y1 := 277411 / 8120, x2 := 617 / 7, y2 := 309891 / 8120,
                          s := 1, height := 1574 / 175, dotted := 0, staff := 0 },
              Prim.slur { x1 := 55, y1 := 90773 / 2420, x2 := 627 / 7, y2 := 95613 / 2420,
                          s := 1, height := 3163 / 350, dotted := 0, staff := 0 },
              Prim.bnum 3 none (358 / 5) (1478 / 35) 1]
    ∧ (((near_beams stdHdr [some 0, some 4] duoScore).bind
          (fun sb => near_prepare plainCalls stdHdr 0 (some 0) (init_y_offsets stdHdr sb))).bind
          (fun s0 => near_tuplets stdHdr plainCalls.draw_slurs s0.fuel (some 1) s0)).map
        (fun st => st.out)
      = some [Prim.slur { x1 := 55, y1 := 277411 / 8120, x2 := 617 / 7, y2 := 309891 / 8120,
                          s := 1, height := 1574 / 175, dotted := 0, staff := 0 }]
    ∧ (((near_beams stdHdr [some 0, some 4] duoScore).bind
          (fun sb => near_prepare plainCalls stdHdr 0 (some 0) (init_y_offsets stdHdr sb))).bind
          (fun s0 => near_draw_voices plainCalls stdHdr 0 [some 0] s0)).map
        (fun st => st.out)
      = some [Prim.slur { x1 := 55, y1 := 277411 / 8120, x2 := 617 / 7, y2 := 309891 / 8120,
                          s := 1, height := 1574 / 175, dotted := 0, staff := 0 },
              Prim.slur { x1 := 55, y1 := 90773 / 2420, x2 := 627 / 7, y2 := 95613 / 2420,
                          s := 1, height := 3163 / 350, dotted := 0, staff := 0 }]
    ∧ ((((near_beams stdHdr [some 0, some 4] duoScore).bind
          (fun sb => near_prepare plainCalls stdHdr 0 (some 0) (init_y_offsets stdHdr sb))).bind
          (fun s0 => near_draw_voices plainCalls stdHdr 0 [some 0] s0)).bind
          (fun sa => near_tuplets stdHdr plainCalls.draw_slurs sa.fuel (some 5) sa)).map
        (fun st => st.out)
      = some [Prim.slur { x1 := 55, y1 := 277411 / 8120, x2 := 617 / 7, y2 := 309891 / 8120,
                          s := 1, height := 1574 / 175, dotted := 0, staff := 0 },
              Prim.slur { x1 := 55, y1 := 90773 / 2420, x2 := 627 / 7, y2 := 95613 / 2420,
                          s := 1, height := 3163 / 350, dotted := 0, staff := 0 },
              Prim.bnum 3 none (358 / 5) (1478 / 35) 1]
    ∧ (duoScore.syms.map (fun v => (v.sflags.S_SL1, v.sflags.S_SL2))).all
        (fun p => p = (false, false)) = true := by
  refine ⟨by decide!, by decide!, by decide!, by decide!, by decide!⟩

/-- C20 fails for the program as it computes, in binary32.  On the four notes
of `lineScore`, whose stem tips are on a line of slope 1/5, the fit (staff
origin 0, no duplicate made) leaves the slope `9586981/2^26 = 0.14285715`, the
binary32 number nearest to 1/7, and stores in the notes the rounded values of
`a*xs + b`, which are not on the line; a later call with the staff origin 300
takes the path of the stored endpoints and computes from the tips of the first
and last notes the slope `4793489/2^25 = 0.14285710`, three units of the last
place under `a`, and the intercept `2629047/2^13 = 320.92859`, one unit of the
last place above the binary32 value `320.92856` of `b - 0 + 300`. -/
theorem beam_reload_rounding :
    (beam_ends lineScore 1).map (fun r => (r.1.syms.length, r.2.1, r.2.2.1, r.2.2.2))
      = some (5, 1, 4, { notes := 4, nflags := 1, two_staves := false, two_dir := false })
    ∧ (beam_refit32 stdHdr lineScore 1 4 { notes := 4, nflags := 1 }).map
        (fun r => (r.2.1, r.2.2, (r.1.sym 1).map (fun v => (v.xs, v.ys)),
          (r.1.sym 4).map (fun v => (v.xs, v.ys))))
      = some (9586981 / 67108864, 5486299 / 262144, some (207 / 2, 4681143 / 131072),
          some (327 / 2, 5804617 / 131072))
    ∧ (4681143 / 131072 : ℚ) ≠ 9586981 / 67108864 * (207 / 2) + 5486299 / 262144 - 0
    ∧ (beam_refit32 stdHdr lineScore 1 4 { notes := 4, nflags := 1 }).bind
        (fun r =>
          match r.1.sym 1, r.1.sym 4 with
          | some v1, some v2 => some (beam_reload32 v1 v2 300)
          | _, _ => none)
      = some (4793489 / 33554432, 2629047 / 8192)
    ∧ (4793489 / 33554432 : ℚ) ≠ 9586981 / 67108864
    ∧ f32 (5486299 / 262144 - 0 + 300) = 10516187 / 32768
    ∧ (2629047 / 8192 : ℚ) ≠ 10516187 / 32768 := by
  refine ⟨by decide!, by decide!, by norm_num, by decide!, by norm_num, by decide!, by norm_num⟩

/-- C21 fails for the program as it computes, in binary32.  The stem tips
of the four notes of `bendScore` are `(103.5, 32)`, `(123.5, 27)`,
`(143.5, 23)`, `(163.5, 20)`; the five sums are integers, computed without
rounding error.  In exact arithmetic the fitted line is `(-1/5, 261/5)`, the
sum of the squared residuals is 1 and `1/(4 - 2)` does not exceed 1/2: the
slope is not multiplied by `BEAM_FLATFAC` and the limit of steepness gives
`-1/7`.  In binary32 the slope is `-13421773/2^26` (the number nearest to
`-1/5`), the products `a*sxy` and `b*sy` are rounded to multiples of `2^-11`
and `hh = 2049/2048`; `hh/2 > .5` holds, the slope is multiplied by
`BEAM_FLATFAC` and the fit ends with the slope `-12988813/2^27 = -0.0967742`
instead of `-0.1428571`. -/
theorem beam_flatten_rounding :
    (beam_ends bendScore 1).map (fun r => (r.1.syms.length, r.2.1, r.2.2.1, r.2.2.2))
      = some (5, 1, 4, { notes := 4, nflags := 1, two_staves := false, two_dir := false })
    ∧ group_tips bendScore stdHdr.STEM_XOFF
        [(1, bendNote 1 22 32), (2, bendNote 2 20 27), (3, bendNote 3 19 23),
         (4, bendNote 4 18 20)]
      = [(207 / 2, 32), (247 / 2, 27), (287 / 2, 23), (327 / 2, 20)]
    ∧ (beam_sums stdHdr.STEM_XOFF 4 bendScore.fuel 1 bendScore {}).map (fun r => r.2)
      = some { sx := 534, sy := 102, sxx := 73289, sxy := 13217, syy := 2682 }
    ∧ (beam_sums32 (f32 (f64 stdHdr.STEM_XOFF)) 4 bendScore.fuel 1 bendScore {}).map
        (fun r => r.2)
      = some { sx := 534, sy := 102, sxx := 73289, sxy := 13217, syy := 2682 }
    ∧ beam_fit { sx := 534, sy := 102, sxx := 73289, sxy := 13217, syy := 2682 } 4
      = (-1 / 5, 261 / 5)
    ∧ sq_dist [(207 / 2, 32), (247 / 2, 27), (287 / 2, 23), (327 / 2, 20)] (-1 / 5) (261 / 5)
      = 1
    ∧ ¬ ((1 : ℚ) / ((4 - 2 : Int) : ℚ) > 1 / 2)
    ∧ beam_slope_normal stdHdr { sx := 534, sy := 102, sxx := 73289, sxy := 13217, syy := 2682 }
        4 (-1 / 5) (261 / 5) = -1 / 7
    ∧ beam_fit32 { sx := 534, sy := 102, sxx := 73289, sxy := 13217, syy := 2682 } 4
      = (-13421773 / 67108864, 13683917 / 262144)
    ∧ beam_hh32 { sx := 534, sy := 102, sxx := 73289, sxy := 13217, syy := 2682 }
        (-13421773 / 67108864) (13683917 / 262144) = 2049 / 2048
    ∧ beam_flat32 { sx := 534, sy := 102, sxx := 73289, sxy := 13217, syy := 2682 } 4
        (-13421773 / 67108864) (13683917 / 262144) = true
    ∧ beam_slope_normal32 stdHdr
        { sx := 534, sy := 102, sxx := 73289, sxy := 13217, syy := 2682 } 4
        (-13421773 / 67108864) (13683917 / 262144) = -12988813 / 134217728
    ∧ (beam_refit32 stdHdr bendScore 1 4 { notes := 4, nflags := 1 }).map (fun r => r.2.1)
      = some (-12988813 / 134217728)
    ∧ (beam_refit stdHdr bendScore 1 4 { notes := 4, nflags := 1 }).map (fun r => r.2.1)
      = some (-1 / 7) := by
  refine ⟨by decide!, by decide!, by decide!, by decide!, by decide!, by decide!, by decide!,
    by decide!, by decide!, by decide!, by decide!, by decide!, by decide!, by decide!⟩

end Abcm2ps
